import Mathlib

/-!
Descent 3 player inventory (`Descent3/Inventory.cpp`).

A shallow embedding of the `Inventory` class: the ring of `inven_item` nodes lives in an
explicit free store (`Inventory.mem`), every method is a function on the state, and the
collaborating engine state the methods touch is the record `Engine`.

Conventions of the embedding:
* a pointer to an `inven_item` is its address in the free store, a natural number, and
  `NULL` is address `0`;
* `int` values are integers and the arithmetic on them is exact (signed overflow is undefined
  in C++ and is not modelled);
* a C string is the list of its bytes without the terminating zero, a `char*` that may be
  null is an `Option`;
* `ASSERT`, `Int3` and `mprintf` are debug aids and do nothing in the embedding;
* a loop that the source bounds only by the shape of the ring takes a `fuel` argument and
  yields `none` when the fuel runs out.
-/

set_option autoImplicit false

namespace Descent3

/-- Bytes of a C string, terminating zero excluded. -/
abbrev CStr := List Nat

/-- Payload of an `inven_item`: every member except the two ring links. `iflags` is the
16-bit flag word (`GetPosInfo` hands it out through a `ushort&`). -/
structure ItemData where
  type : Int
  otype : Int
  id : Int
  oid : Int
  flags : Int
  count : Int
  description : Option CStr
  icon_name : Option CStr
  name : Option CStr
  iflags : Nat
deriving DecidableEq, Inhabited

/-- Node of the inventory ring (`struct inven_item`). -/
structure inven_item extends ItemData where
  next : Nat
  prev : Nat
deriving DecidableEq, Inhabited

/-- Members of `object_info` read by the inventory. -/
structure object_info where
  description : Option CStr
  flags : Nat
  icon_name : CStr
  name : CStr
deriving DecidableEq, Inhabited

/-- Members of `weapon` read by the inventory. -/
structure weapon where
  name : CStr
  icon_handle : Int
deriving DecidableEq, Inhabited

/-- Modelled from the spec: the live object record of the object directory, with the members
the inventory reads or writes. The position of an object (a vector of floats) is not a member
here: where the source passes `&player->pos`, the embedding passes the player object. -/
structure object where
  type : Int
  id : Int
  flags : Nat
  handle : Int
  roomnum : Int
  control_type : Int
  movement_type : Int
  render_type : Int
deriving DecidableEq, Inhabited

/-- Modelled from the spec: calls to collaborators whose effect lies outside the inventory
(level goals, network transport); the embedding records them. -/
inductive Call where
  | Inform (handle : Int)
  | MultiSendGhostObject (handle : Int) (ghost : Bool)
  | MultiSendClientInventoryUseItem (type id : Int)
  | MultiSendObject (objnum : Int)
  | InitObjectScripts (objnum : Int)
  | Osiris_CallEvent (objnum : Int) (it_handle : Int)
deriving DecidableEq

/-- Modelled from the spec: the engine state shared with the inventory, which is the object
directory (`ObjGet` resolves a handle through it), the session mode (`Game_mode`,
`Netgame.local_role`), and the collaborator calls made so far. An object number (`OBJNUM`,
the index into `Objects`) and the handle of the object are the same key of the directory. -/
structure Engine where
  Objects : Int → Option object
  Game_mode : Nat
  local_role : Nat
  calls : List Call

/-- Constants, tables and collaborator functions that the source takes from headers and
modules outside `Inventory.cpp`. They are parameters of the embedding. -/
structure Config where
  MAX_UNIQUE_INVEN_ITEMS : Int
  INVF_SELECTABLE : Nat
  INVF_USEABLE : Nat
  INVF_MISSIONITEM : Nat
  INVF_NOREMOVEONUSE : Nat
  INVF_VISWHENUSED : Nat
  INVF_OBJECT : Nat
  INVF_NOTSPEWABLE : Nat
  INVF_TIMEOUTONSPEW : Nat
  INVAF_NOTSPEWABLE : Nat
  INVAF_TIMEOUTONSPEW : Nat
  INVAF_LEVELLAST : Nat
  OIF_INVEN_SELECTABLE : Nat
  OIF_INVEN_TYPE_MISSION : Nat
  OIF_INVEN_NOREMOVE : Nat
  OIF_INVEN_VISWHENUSED : Nat
  OF_INPLAYERINVENTORY : Nat
  OF_INFORM_DESTROY_TO_LG : Nat
  OBJ_NONE : Int
  OBJ_WEAPON : Int
  OBJ_POWERUP : Int
  OBJ_DUMMY : Int
  GM_MULTI : Nat
  LR_SERVER : Nat
  INVRESET_ALL : Int
  INVRESET_LEVELCHANGE : Int
  INVRESET_DEATHSPEW : Int
  Object_info : Int → object_info
  Weapons : Int → weapon
  GameTextures_bm_handle : Int → Int
  GameBitmaps_name : Int → CStr
  ObjGhostObject : object → object
  ObjUnGhostObject : object → object
  OF_DEAD : Nat
  CT_AI : Int
  CT_NONE : Int
  MT_NONE : Int
  RT_NONE : Int
  /-- Modelled from the spec: `ObjCreate(type, id, roomnum, &parent->pos, NULL, parent->handle)`
  returns the number of the new object together with its record, or nothing where the source
  gets -1. -/
  ObjCreate : Engine → Int → Int → Int → object → Option (Int × object)
  /-- Modelled from the spec: `CreateCountermeasureFromObject(parent, id)` puts a
  countermeasure object into the world: the result is the object directory after it. -/
  CreateCountermeasureFromObject : Engine → object → Int → Int → Option object
  SetObjectControlType : object → Int → object
  /-- Modelled from the spec: `Osiris_CallEvent(&Objects[objnum], EVT_USE, &ei)` with
  `ei.evt_use.it_handle = it_handle` tells whether the use is accepted, and gives the object
  directory as the scripts leave it. The scripts are taken not to call into this
  inventory. -/
  Osiris_CallEvent : Engine → Int → Int → Bool × (Int → Option object)
  /-- Default of the `forward` argument of `ValidatePos` (declared in `Inventory.h`). -/
  ValidatePos_forward : Bool

/-- State of one `Inventory` object together with the free store holding its nodes.
`brk` is the next address `new inven_item` hands out; `delete` leaves the store as it is. -/
structure Inventory where
  root : Nat
  count : Int
  pos : Nat
  mem : Nat → inven_item
  brk : Nat

/-- Store `it` at address `p`. -/
def setNode (mem : Nat → inven_item) (p : Nat) (it : inven_item) : Nat → inven_item :=
  fun q => if q = p then it else mem q

/-- Modelled from the spec: `ObjGet`, which resolves a handle to a live object record or to
null. -/
def ObjGet (eng : Engine) (handle : Int) : Option object :=
  eng.Objects handle

/-- Modelled from the spec: an assignment through the `object*` that `ObjGet` returned for
`handle`. -/
def setObject (eng : Engine) (handle : Int) (obj : object) : Engine :=
  { eng with Objects := fun h => if h = handle then some obj else eng.Objects h }

/-- The statements `obj = ObjGet(handle); if (obj) obj->flags &= ~OF_INPLAYERINVENTORY;` of
`Remove` and `Reset`: the object, if the handle resolves, is no longer marked as held in an
inventory. The flag word has 32 bits. -/
def unmarkObject (c : Config) (eng : Engine) (handle : Int) : Engine :=
  match ObjGet eng handle with
  | some obj =>
    setObject eng handle { obj with flags := obj.flags &&& (4294967295 - c.OF_INPLAYERINVENTORY) }
  | none => eng

/-- Constructor `Inventory::Inventory`. -/
def Inventory.init (mem : Nat → inven_item) (brk : Nat) : Inventory :=
  { root := 0, count := 0, pos := 0, mem := mem, brk := brk }

/-- The value an `int` holds after an arithmetic step whose mathematical result is `v`: `v`
reduced to the 32-bit two's complement range. -/
def wrapInt (v : Int) : Int :=
  (v + 2147483648) % 4294967296 - 2147483648

/-- `Inventory::Size`. -/
def Inventory.Size (s : Inventory) : Int :=
  s.count

/-- The `while (counter)` loop of `Inventory::FindItem`. Reading `current->type` through a
null `current` has no result. -/
def FindItem_loop (mem : Nat → inven_item) (type id : Int) : Nat → Nat → Option Nat
  | 0, _ => some 0
  | counter + 1, current =>
    if current = 0 then none
    else if (mem current).type = type ∧ (mem current).id = id then some current
    else FindItem_loop mem type id counter (mem current).next

/-- `Inventory::FindItem`: the first node matching the type and id, or null. A negative
`count` never counts down to zero: no result. -/
def Inventory.FindItem (s : Inventory) (type id : Int) : Option Nat :=
  if s.count = 0 then some 0
  else if s.count < 0 then none
  else FindItem_loop s.mem type id s.count.toNat s.root

/-- The `while (node != pos)` loop of `Inventory::ValidatePos`; the result is the new `pos`. -/
def ValidatePos_loop (c : Config) (mem : Nat → inven_item) (forward : Bool) (pos : Nat) :
    Nat → Nat → Option Nat
  | 0, _ => none
  | fuel + 1, node =>
    if node = pos then some 0
    else if (mem node).iflags &&& c.INVF_SELECTABLE ≠ 0 then some node
    else ValidatePos_loop c mem forward pos fuel
      (if forward then (mem node).next else (mem node).prev)

/-- `Inventory::ValidatePos`. -/
def Inventory.ValidatePos (c : Config) (fuel : Nat) (s : Inventory) (forward : Bool) :
    Option Inventory :=
  if s.pos = 0 then some s
  else if (s.mem s.pos).iflags &&& c.INVF_SELECTABLE ≠ 0 then some s
  else
    let node := if forward then (s.mem s.pos).next else (s.mem s.pos).prev
    match ValidatePos_loop c s.mem forward s.pos fuel node with
    | none => none
    | some p => some { s with pos := p }

/-- `Inventory::RemoveNode`. -/
def Inventory.RemoveNode (c : Config) (fuel : Nat) (s : Inventory) (node : Nat) :
    Option Inventory :=
  if node = 0 then some s
  else
    let s1 := { s with count := s.count - 1 }
    let prev := (s1.mem node).prev
    let next := (s1.mem node).next
    let movepos := decide (s1.pos = node ∧ (s1.mem s1.pos).next ≠ node)
    let s2 :=
      if s1.pos = node then
        if (s1.mem s1.pos).next ≠ node then { s1 with pos := (s1.mem s1.pos).next }
        else { s1 with pos := 0 }
      else s1
    let s3 :=
      if node = s2.root then
        if (s2.mem s2.root).next ≠ s2.root then
          let n := (s2.mem s2.root).next
          let p := (s2.mem s2.root).prev
          let m1 := setNode s2.mem n { s2.mem n with prev := p }
          let m2 := setNode m1 p { m1 p with next := n }
          { s2 with root := n, mem := m2 }
        else { s2 with root := 0 }
      else
        let m1 := setNode s2.mem prev { s2.mem prev with next := next }
        let m2 := setNode m1 next { m1 next with prev := prev }
        { s2 with mem := m2 }
    if movepos then s3.ValidatePos c fuel c.ValidatePos_forward else some s3

/-- `Inventory::Remove`. -/
def Inventory.Remove (c : Config) (fuel : Nat) (s : Inventory) (eng : Engine) (type id : Int) :
    Option (Bool × Inventory × Engine) :=
  match s.FindItem type id with
  | none => none
  | some node =>
    if node = 0 then some (false, s, eng)
    else if (s.mem node).iflags &&& c.INVF_OBJECT ≠ 0 then
      let eng1 := unmarkObject c eng type
      match s.RemoveNode c fuel node with
      | none => none
      | some s1 => some (true, s1, eng1)
    else
      let s1 := { s with mem := setNode s.mem node { s.mem node with count := (s.mem node).count - 1 } }
      if (s1.mem node).count ≤ 0 then
        match s1.RemoveNode c fuel node with
        | none => none
        | some s2 => some (true, s2, eng)
      else some (true, s1, eng)

/-- The empty-list branch shared by the adders: `root = new inven_item; root->next = root;
root->prev = root;`. The result is the state and the new node. -/
def Inventory.newRoot (s : Inventory) : Inventory × Nat :=
  let root := s.brk
  let m1 := setNode s.mem root { s.mem root with next := root }
  let m2 := setNode m1 root { m1 root with prev := root }
  ({ s with root := root, mem := m2, brk := s.brk + 1 }, root)

/-- The append branch shared by the adders: `newnode = new inven_item; prev = root->prev;
newnode->prev = prev; prev->next = newnode; newnode->next = root; root->prev = newnode;`. -/
def Inventory.newTail (s : Inventory) : Inventory × Nat :=
  let newnode := s.brk
  let prev := (s.mem s.root).prev
  let m1 := setNode s.mem newnode { s.mem newnode with prev := prev }
  let m2 := setNode m1 prev { m1 prev with next := newnode }
  let m3 := setNode m2 newnode { m2 newnode with next := s.root }
  let m4 := setNode m3 s.root { m3 s.root with prev := newnode }
  ({ s with mem := m4, brk := s.brk + 1 }, newnode)

/-- Apply `f` to the node at `p` (an assignment to members of `*p`). -/
def Inventory.modify (s : Inventory) (p : Nat) (f : inven_item → inven_item) : Inventory :=
  { s with mem := setNode s.mem p (f (s.mem p)) }

/-- The member assignments `Inventory::AddObject` makes to the new node after linking it.
`obj` is the object as it is after the optional un-ghosting; `iflags` is built up in source
order. -/
def AddObject_fill (c : Config) (object_handle : Int) (obj : object) (flags : Nat)
    (description : Option CStr) (newnode : inven_item) : inven_item :=
  let oid := obj.id
  let iflags := newnode.iflags
  let iflags := if (c.Object_info oid).flags &&& c.OIF_INVEN_SELECTABLE ≠ 0
    then iflags ||| c.INVF_SELECTABLE else iflags
  let iflags := if (c.Object_info oid).flags &&& c.OIF_INVEN_TYPE_MISSION ≠ 0
    then iflags ||| c.INVF_MISSIONITEM else iflags
  let iflags := if (c.Object_info oid).flags &&& c.OIF_INVEN_NOREMOVE ≠ 0
    then iflags ||| c.INVF_NOREMOVEONUSE else iflags
  let iflags := if (c.Object_info oid).flags &&& c.OIF_INVEN_VISWHENUSED ≠ 0
    then iflags ||| c.INVF_VISWHENUSED else iflags
  let iflags := if flags &&& c.INVAF_NOTSPEWABLE ≠ 0 then iflags ||| c.INVF_NOTSPEWABLE else iflags
  let iflags := if flags &&& c.INVAF_TIMEOUTONSPEW ≠ 0 then iflags ||| c.INVF_TIMEOUTONSPEW else iflags
  let iflags := if flags &&& c.INVAF_LEVELLAST ≠ 0 then iflags ||| c.INVF_MISSIONITEM else iflags
  { newnode with
    type := object_handle
    id := -1
    flags := 0
    otype := obj.type
    oid := oid
    description :=
      match (c.Object_info oid).description with
      | some d => some d
      | none => some []
    iflags := iflags
    icon_name := some (c.Object_info oid).icon_name
    name :=
      match description with
      | some d => some d
      | none => some (c.Object_info oid).name }

/-- What `Inventory::AddObject` does to the engine: the level-goal notice, the optional
un-ghosting, the held-in-inventory mark and the ghosting of the object. -/
def AddObject_engine (c : Config) (eng : Engine) (object_handle : Int) (obj0 : object) : Engine :=
  let eng1 :=
    if obj0.flags &&& c.OF_INFORM_DESTROY_TO_LG ≠ 0 then
      { eng with calls := eng.calls ++ [Call.Inform object_handle] }
    else eng
  let in_as_dummy := decide (obj0.type = c.OBJ_DUMMY)
  let obj1 := if obj0.type = c.OBJ_DUMMY then c.ObjUnGhostObject obj0 else obj0
  let obj2 := { obj1 with flags := obj1.flags ||| c.OF_INPLAYERINVENTORY }
  if in_as_dummy ∨ eng1.Game_mode &&& c.GM_MULTI = 0 ∨ eng1.local_role = c.LR_SERVER then
    let eng2 := setObject eng1 object_handle (c.ObjGhostObject obj2)
    if eng2.Game_mode &&& c.GM_MULTI ≠ 0 ∧ eng2.local_role = c.LR_SERVER then
      { eng2 with calls := eng2.calls ++ [Call.MultiSendGhostObject object_handle true] }
    else eng2
  else setObject eng1 object_handle obj2

/-- `Inventory::AddObject`. -/
def Inventory.AddObject (c : Config) (s : Inventory) (eng : Engine) (object_handle : Int)
    (flags : Nat) (description : Option CStr) : Bool × Inventory × Engine :=
  if s.count ≥ c.MAX_UNIQUE_INVEN_ITEMS then (false, s, eng)
  else
    match ObjGet eng object_handle with
    | none => (false, s, eng)
    | some obj0 =>
      let obj1 := if obj0.type = c.OBJ_DUMMY then c.ObjUnGhostObject obj0 else obj0
      let linked := if s.count = 0 then s.newRoot else s.newTail
      let newnode := linked.2
      let s1 := linked.1.modify newnode fun it => { it with iflags := c.INVF_OBJECT, count := 1 }
      let s2 := s1.modify newnode (AddObject_fill c object_handle obj1 flags description)
      let s3 := { s2 with count := s2.count + 1 }
      let s4 := if (s3.mem newnode).iflags &&& c.INVF_SELECTABLE ≠ 0
        then { s3 with pos := newnode } else s3
      (true, s4, AddObject_engine c eng object_handle obj0)

/-- The member assignments of `Inventory::AddCounterMeasure` guarded by `newnode->count == 1`. -/
def AddCounterMeasure_fill (c : Config) (id aux_type aux_id : Int) (description : Option CStr)
    (newnode : inven_item) : inven_item :=
  let iflags := 0
  let iflags := iflags |||
    (c.INVF_SELECTABLE ||| c.INVF_USEABLE ||| c.INVF_MISSIONITEM ||| c.INVF_TIMEOUTONSPEW)
  { newnode with
    type := c.OBJ_WEAPON
    id := id
    flags := 0
    otype := aux_type
    oid := aux_id
    description :=
      if aux_type ≠ -1 ∧ aux_id ≠ -1 ∧ (c.Object_info aux_id).description ≠ none
      then (c.Object_info aux_id).description
      else some (c.Weapons id).name
    iflags := iflags
    icon_name :=
      if (c.Weapons id).icon_handle ≥ 0
      then some (c.GameBitmaps_name (c.GameTextures_bm_handle (c.Weapons id).icon_handle))
      else none
    name :=
      match description with
      | some d => some d
      | none => some (c.Weapons id).name }

/-- `Inventory::AddCounterMeasure`. The `flags` argument is not read by the source. The stack
count is an `int`: `newnode->count++` wraps. -/
def Inventory.AddCounterMeasure (c : Config) (s : Inventory) (id aux_type aux_id : Int)
    (_flags : Nat) (description : Option CStr) : Option (Bool × Inventory) :=
  if s.count ≥ c.MAX_UNIQUE_INVEN_ITEMS then some (false, s)
  else
    let linked : Option (Inventory × Nat) :=
      if s.count = 0 then
        some ((s.newRoot).1.modify (s.newRoot).2 fun it => { it with count := 1 }, (s.newRoot).2)
      else
        match s.FindItem c.OBJ_WEAPON id with
        | none => none
        | some found =>
          if found = 0 then
            some ((s.newTail).1.modify (s.newTail).2 fun it => { it with count := 1 }, (s.newTail).2)
          else some (s.modify found fun it => { it with count := wrapInt (it.count + 1) }, found)
    match linked with
    | none => none
    | some ln =>
      let s1 := ln.1
      let newnode := ln.2
      let s2 :=
        if (s1.mem newnode).count = 1 then
          let t := s1.modify newnode (AddCounterMeasure_fill c id aux_type aux_id description)
          { t with count := t.count + 1 }
        else s1
      some (true, { s2 with pos := newnode })

/-- The member assignments of `Inventory::AddObjectItem` guarded by `newnode->count == 1`;
`iflags` is built up in source order. -/
def AddObjectItem_fill (c : Config) (otype oid oauxt oauxi : Int) (flags : Nat)
    (description : Option CStr) (newnode : inven_item) : inven_item :=
  let iflags := 0
  let iflags := if (c.Object_info oid).flags &&& c.OIF_INVEN_SELECTABLE ≠ 0
    then iflags ||| c.INVF_SELECTABLE else iflags
  let iflags := if (c.Object_info oid).flags &&& c.OIF_INVEN_TYPE_MISSION ≠ 0
    then iflags ||| c.INVF_MISSIONITEM else iflags
  let iflags := if (c.Object_info oid).flags &&& c.OIF_INVEN_NOREMOVE ≠ 0
    then iflags ||| c.INVF_NOREMOVEONUSE else iflags
  let iflags := if (c.Object_info oid).flags &&& c.OIF_INVEN_VISWHENUSED ≠ 0
    then iflags ||| c.INVF_VISWHENUSED else iflags
  let iflags := if flags &&& c.INVAF_NOTSPEWABLE ≠ 0 then iflags ||| c.INVF_NOTSPEWABLE else iflags
  let iflags := if flags &&& c.INVAF_TIMEOUTONSPEW ≠ 0 then iflags ||| c.INVF_TIMEOUTONSPEW else iflags
  let iflags := if flags &&& c.INVAF_LEVELLAST ≠ 0 then iflags ||| c.INVAF_LEVELLAST else iflags
  { newnode with
    type := otype
    id := oid
    flags := 0
    otype := oauxt
    oid := oauxi
    description :=
      match (c.Object_info oid).description with
      | some d => some d
      | none => some []
    iflags := iflags
    icon_name := some (c.Object_info oid).icon_name
    name :=
      match description with
      | some d => some d
      | none => some (c.Object_info oid).name }

/-- `Inventory::AddObjectItem`. The stack count is an `int`: `newnode->count++` wraps. -/
def Inventory.AddObjectItem (c : Config) (s : Inventory) (otype oid oauxt oauxi : Int)
    (flags : Nat) (description : Option CStr) : Option (Bool × Inventory) :=
  if s.count ≥ c.MAX_UNIQUE_INVEN_ITEMS then some (false, s)
  else
    let linked : Option (Inventory × Nat) :=
      if s.count = 0 then
        some ((s.newRoot).1.modify (s.newRoot).2 fun it => { it with count := 1 }, (s.newRoot).2)
      else
        match s.FindItem otype oid with
        | none => none
        | some found =>
          if found = 0 then
            some ((s.newTail).1.modify (s.newTail).2 fun it => { it with count := 1 }, (s.newTail).2)
          else some (s.modify found fun it => { it with count := wrapInt (it.count + 1) }, found)
    match linked with
    | none => none
    | some ln =>
      let s1 := ln.1
      let newnode := ln.2
      let s2 :=
        if (s1.mem newnode).count = 1 then
          let t := s1.modify newnode (AddObjectItem_fill c otype oid oauxt oauxi flags description)
          { t with count := t.count + 1 }
        else s1
      let s3 := if (s2.mem newnode).iflags &&& c.INVF_SELECTABLE ≠ 0
        then { s2 with pos := newnode } else s2
      some (true, s3)

/-- `Inventory::Add`. The `parent` argument is not read by the source. -/
def Inventory.Add (c : Config) (s : Inventory) (type id : Int) (_parent : Option object)
    (aux_type aux_id : Int) (flags : Nat) (description : Option CStr) : Option (Bool × Inventory) :=
  if s.count ≥ c.MAX_UNIQUE_INVEN_ITEMS then some (false, s)
  else if type < 0 ∨ type = c.OBJ_NONE then some (false, s)
  else if type ≠ c.OBJ_WEAPON then
    s.AddObjectItem c type id (if aux_type ≠ -1 then aux_type else type)
      (if aux_id ≠ -1 then aux_id else id) flags description
  else s.AddCounterMeasure c id aux_type aux_id flags description

/-- The `while (item_count)` loop of `Inventory::Reset`. -/
def Reset_loop (c : Config) (fuel : Nat) (in_game remove_nonspewers remove_levelchangers : Bool) :
    Nat → Nat → Inventory → Engine → Option (Inventory × Engine)
  | 0, _, s, eng => some (s, eng)
  | item_count + 1, current, s, eng =>
    let next := (s.mem current).next
    let no_spew := decide ((s.mem current).iflags &&& c.INVF_NOTSPEWABLE ≠ 0)
    let leave_across_level := decide ((s.mem current).iflags &&& c.INVF_MISSIONITEM ≠ 0)
    let should_spew := true
    let should_spew :=
      if leave_across_level ∧ ¬ remove_levelchangers ∧ ¬ ((s.mem current).iflags &&& c.INVF_OBJECT ≠ 0)
      then false else should_spew
    let should_spew := if no_spew ∧ ¬ remove_nonspewers then false else should_spew
    let eng1 :=
      if in_game ∧ (s.mem current).iflags &&& c.INVF_OBJECT ≠ 0 ∧ should_spew then
        unmarkObject c eng (s.mem current).type
      else eng
    match (if should_spew then s.RemoveNode c fuel current else some s) with
    | none => none
    | some s1 => Reset_loop c fuel in_game remove_nonspewers remove_levelchangers item_count next s1 eng1

/-- `Inventory::Reset`. A negative `count` never counts down to zero: no result. -/
def Inventory.Reset (c : Config) (fuel : Nat) (s : Inventory) (eng : Engine) (in_game : Bool)
    (reset_stage : Int) : Option (Inventory × Engine) :=
  let reset_stage := if reset_stage < 0 ∨ reset_stage > 2 then 2 else reset_stage
  let flags : Bool × Bool :=
    if reset_stage = c.INVRESET_ALL then (true, true)
    else if reset_stage = c.INVRESET_LEVELCHANGE then (true, false)
    else if reset_stage = c.INVRESET_DEATHSPEW then (false, true)
    else (false, false)
  if s.count < 0 then none
  else
    match Reset_loop c fuel in_game flags.1 flags.2 s.count.toNat s.root s eng with
    | none => none
    | some (s1, eng1) =>
      match s1.ValidatePos c fuel true with
      | none => none
      | some s2 => some (s2, eng1)

/-! ## Persistence -/

/-- Modelled from the spec: the byte stream `CFILE` of the file module, which is not part of
`Inventory.cpp`. A file is its bytes and the current offset. -/
structure CFILE where
  data : List Nat
  position : Nat
deriving DecidableEq

/-- Modelled from the spec: `cftell`, the current offset. -/
def cftell (file : CFILE) : Int :=
  file.position

/-- Modelled from the spec: writing bytes at the current offset (over what is there, or
extending the file at its end) and advancing the offset. -/
def CFILE.write (file : CFILE) (bytes : List Nat) : CFILE :=
  { data := file.data.take file.position ++ bytes ++ file.data.drop (file.position + bytes.length),
    position := file.position + bytes.length }

/-- Modelled from the spec: the four bytes of a fixed-width `int32`, low byte first. -/
def int32Bytes (v : Int) : List Nat :=
  let u := (v % 4294967296).toNat
  [u % 256, u / 256 % 256, u / 65536 % 256, u / 16777216 % 256]

/-- Modelled from the spec: the `int32` held by four bytes, low byte first. -/
def int32OfBytes (b0 b1 b2 b3 : Nat) : Int :=
  let u := b0 % 256 + 256 * (b1 % 256) + 65536 * (b2 % 256) + 16777216 * (b3 % 256)
  if u < 2147483648 then (u : Int) else (u : Int) - 4294967296

/-- Modelled from the spec: `cf_WriteByte`. -/
def cf_WriteByte (file : CFILE) (b : Int) : CFILE :=
  file.write [(b % 256).toNat]

/-- Modelled from the spec: `cf_WriteInt` writes a fixed-width `int32`. -/
def cf_WriteInt (file : CFILE) (v : Int) : CFILE :=
  file.write (int32Bytes v)

/-- Modelled from the spec: `cf_WriteString` writes the bytes of the string and a
terminating zero byte (the empty string is a single zero byte). -/
def cf_WriteString (file : CFILE) (str : CStr) : CFILE :=
  file.write (str ++ [0])

/-- Modelled from the spec: `cf_ReadInt` reads a fixed-width `int32`; there is no result at
the end of the file. -/
def cf_ReadInt (file : CFILE) : Option (Int × CFILE) :=
  match file.data.drop file.position with
  | b0 :: b1 :: b2 :: b3 :: _ =>
    some (int32OfBytes b0 b1 b2 b3, { file with position := file.position + 4 })
  | _ => none

/-- The bytes up to the first zero byte, and how many bytes that takes with the zero. -/
def scanString : List Nat → Option (CStr × Nat)
  | [] => none
  | b :: rest =>
    if b = 0 then some ([], 1)
    else
      match scanString rest with
      | none => none
      | some (str, n) => some (b :: str, n + 1)

/-- Modelled from the spec: `cf_ReadString(buf, n, file)` reads a zero-terminated string,
consumes it with its terminator, and keeps the first `n - 1` bytes that fit the buffer. -/
def cf_ReadString (n : Nat) (file : CFILE) : Option (CStr × CFILE) :=
  match scanString (file.data.drop file.position) with
  | none => none
  | some (str, len) => some (str.take (n - 1), { file with position := file.position + len })

/-- One entry record of `Inventory::SaveInventory`: six integers, three strings (a null
pointer is written as a single zero byte) and the flag word. -/
def SaveInventory_record (file : CFILE) (curr : inven_item) : CFILE :=
  let file := cf_WriteInt file curr.type
  let file := cf_WriteInt file curr.otype
  let file := cf_WriteInt file curr.id
  let file := cf_WriteInt file curr.oid
  let file := cf_WriteInt file curr.flags
  let file := cf_WriteInt file curr.count
  let file :=
    match curr.description with
    | some d => cf_WriteString file d
    | none => cf_WriteByte file 0
  let file :=
    match curr.icon_name with
    | some d => cf_WriteString file d
    | none => cf_WriteByte file 0
  let file :=
    match curr.name with
    | some d => cf_WriteString file d
    | none => cf_WriteByte file 0
  cf_WriteInt file curr.iflags

/-- The `while (num_items > 0)` loop of `Inventory::SaveInventory`; the result is the file
and `pos_pos`. -/
def SaveInventory_loop (mem : Nat → inven_item) (eng : Engine) (pos : Nat) :
    Nat → Nat → CFILE → Int → Int → CFILE × Int
  | 0, _, file, pos_pos, _ => (file, pos_pos)
  | num_items + 1, curr, file, pos_pos, pos_count =>
    let pos_pos := if pos = curr then pos_count else pos_pos
    if (mem curr).id = -1 ∧ ObjGet eng (mem curr).type = none then
      SaveInventory_loop mem eng pos num_items (mem curr).next file pos_pos (pos_count + 1)
    else
      SaveInventory_loop mem eng pos num_items (mem curr).next
        (SaveInventory_record file (mem curr)) pos_pos (pos_count + 1)

/-- `Inventory::SaveInventory`: the number of bytes written and the file. -/
def Inventory.SaveInventory (s : Inventory) (eng : Engine) (file : CFILE) : Int × CFILE :=
  let num_items := s.Size
  let start_pos := cftell file
  let pos_pos : Int := 0
  let pos_count : Int := 0
  let file := cf_WriteInt file num_items
  let r :=
    if num_items > 0 then
      SaveInventory_loop s.mem eng s.pos num_items.toNat s.root file pos_pos pos_count
    else (file, pos_pos)
  let file := cf_WriteInt r.1 r.2
  let end_pos := cftell file
  (end_pos - start_pos, file)

/-- `Inventory::ResetPos`. -/
def Inventory.ResetPos (s : Inventory) : Inventory :=
  { s with pos := s.root }

/-- The `for` loop of `Inventory::GotoPos(int)`. -/
def GotoPos_loop (mem : Nat → inven_item) : Nat → Nat → Nat
  | 0, pos => pos
  | n + 1, pos =>
    GotoPos_loop mem n (if pos ≠ 0 ∧ (mem pos).next ≠ 0 then (mem pos).next else pos)

/-- `Inventory::GotoPos(int newpos)`. -/
def Inventory.GotoPos (s : Inventory) (newpos : Int) : Inventory :=
  let s := s.ResetPos
  { s with pos := GotoPos_loop s.mem newpos.toNat s.pos }

/-- The part of `Inventory::ReadInventory` that skips the rest of a record whose object is
gone: three integers, three strings and one integer. -/
def ReadInventory_skip (file : CFILE) : Option CFILE :=
  match cf_ReadInt file with
  | none => none
  | some (_, file) =>
  match cf_ReadInt file with
  | none => none
  | some (_, file) =>
  match cf_ReadInt file with
  | none => none
  | some (_, file) =>
  match cf_ReadString 512 file with
  | none => none
  | some (_, file) =>
  match cf_ReadString 512 file with
  | none => none
  | some (_, file) =>
  match cf_ReadString 512 file with
  | none => none
  | some (_, file) =>
  match cf_ReadInt file with
  | none => none
  | some (_, file) => some file

/-- The part of `Inventory::ReadInventory` that fills the linked node `item` from the file;
`t`, `otype` and `i` have been read already. The flag word is stored in the 16-bit member
`iflags`. -/
def ReadInventory_fill (file : CFILE) (t otype i : Int) (item : inven_item) :
    Option (inven_item × CFILE) :=
  match cf_ReadInt file with
  | none => none
  | some (oid, file) =>
  match cf_ReadInt file with
  | none => none
  | some (flags, file) =>
  match cf_ReadInt file with
  | none => none
  | some (count, file) =>
  match cf_ReadString 512 file with
  | none => none
  | some (description, file) =>
  match cf_ReadString 512 file with
  | none => none
  | some (icon_name, file) =>
  match cf_ReadString 512 file with
  | none => none
  | some (name, file) =>
  match cf_ReadInt file with
  | none => none
  | some (iflags, file) =>
    some ({ item with
            type := t
            id := i
            otype := otype
            oid := oid
            flags := flags
            count := count
            description := some description
            icon_name := some icon_name
            name := some name
            iflags := (iflags % 65536).toNat }, file)

/-- The `while (num_items > 0)` loop of `Inventory::ReadInventory`. -/
def ReadInventory_loop (eng : Engine) : Nat → Inventory → CFILE → Option (Inventory × CFILE)
  | 0, s, file => some (s, file)
  | num_items + 1, s, file =>
    match cf_ReadInt file with
    | none => none
    | some (t, file) =>
    match cf_ReadInt file with
    | none => none
    | some (otype, file) =>
    match cf_ReadInt file with
    | none => none
    | some (i, file) =>
      if i = -1 ∧ ObjGet eng t = none then
        match ReadInventory_skip file with
        | none => none
        | some file => ReadInventory_loop eng num_items { s with count := s.count - 1 } file
      else
        let linked := if s.root = 0 then s.newRoot else s.newTail
        match ReadInventory_fill file t otype i (linked.1.mem linked.2) with
        | none => none
        | some (item, file) =>
          ReadInventory_loop eng num_items
            { linked.1 with mem := setNode linked.1.mem linked.2 item } file

/-- `Inventory::ReadInventory`: the number of bytes read, the inventory and the file. -/
def Inventory.ReadInventory (c : Config) (fuel : Nat) (s : Inventory) (eng : Engine)
    (file : CFILE) : Option (Int × Inventory × CFILE) :=
  let start_pos := cftell file
  match cf_ReadInt file with
  | none => none
  | some (num_items, file) =>
    let s := { s with count := num_items, root := 0 }
    match (if num_items > 0 then ReadInventory_loop eng num_items.toNat s file
      else some (s, file)) with
    | none => none
    | some (s, file) =>
      match cf_ReadInt file with
      | none => none
      | some (pos_index, file) =>
        let s := s.GotoPos pos_index
        match s.ValidatePos c fuel c.ValidatePos_forward with
        | none => none
        | some s =>
          let end_pos := cftell file
          some (end_pos - start_pos, s, file)

/-- An entry record of the persisted layout, with the field names of the layout. -/
structure Record where
  kind : Int
  auxKind : Int
  id : Int
  auxId : Int
  userFlags : Int
  count : Int
  description : CStr
  iconName : CStr
  displayName : CStr
  entryFlags : Int
deriving DecidableEq

/-- The bytes of an entry record in the persisted layout. -/
def Record.bytes (r : Record) : List Nat :=
  int32Bytes r.kind ++ int32Bytes r.auxKind ++ int32Bytes r.id ++ int32Bytes r.auxId ++
    int32Bytes r.userFlags ++ int32Bytes r.count ++ (r.description ++ [0]) ++
    (r.iconName ++ [0]) ++ (r.displayName ++ [0]) ++ int32Bytes r.entryFlags

/-- A value that fits a fixed-width `int32`. -/
def isInt32 (v : Int) : Prop :=
  -2147483648 ≤ v ∧ v < 2147483648

instance isInt32.decide (v : Int) : Decidable (isInt32 v) :=
  inferInstanceAs (Decidable (_ ∧ _))

/-- A record the layout can hold: its integers fit `int32` and its strings contain no zero
byte. -/
def Record.valid (r : Record) : Prop :=
  isInt32 r.kind ∧ isInt32 r.auxKind ∧ isInt32 r.id ∧ isInt32 r.auxId ∧ isInt32 r.userFlags ∧
    isInt32 r.count ∧ 0 ∉ r.description ∧ 0 ∉ r.iconName ∧ 0 ∉ r.displayName ∧
    isInt32 r.entryFlags

instance Record.valid.decide (r : Record) : Decidable r.valid :=
  inferInstanceAs (Decidable (_ ∧ _))

/-- The record `SaveInventory` emits for an entry: an absent text counts as the empty
string. -/
def ItemData.record (it : ItemData) : Record :=
  { kind := it.type, auxKind := it.otype, id := it.id, auxId := it.oid, userFlags := it.flags,
    count := it.count, description := it.description.getD [], iconName := it.icon_name.getD [],
    displayName := it.name.getD [], entryFlags := it.iflags }

/-- The entry `ReadInventory` builds from a record: the strings cut to the 512-byte buffer,
the flag word cut to 16 bits. -/
def Record.item (r : Record) : ItemData :=
  { type := r.kind, otype := r.auxKind, id := r.id, oid := r.auxId, flags := r.userFlags,
    count := r.count, description := some (r.description.take 511),
    icon_name := some (r.iconName.take 511), name := some (r.displayName.take 511),
    iflags := (r.entryFlags % 65536).toNat }

/-- A record is dead when it is object-backed (id `-1`) and its handle does not resolve. -/
def Record.dead (eng : Engine) (r : Record) : Bool :=
  decide (r.id = -1 ∧ ObjGet eng r.kind = none)

/-- The value `SaveInventory` computes for `pos_pos` over the nodes `l`: the running index of
the node under the cursor. -/
def savedPos (pos : Nat) : List Nat → Int → Int → Int
  | [], pos_pos, _ => pos_pos
  | a :: l, pos_pos, pos_count =>
    savedPos pos l (if pos = a then pos_count else pos_pos) (pos_count + 1)

/-- The reader `file` stands right behind the bytes `pre`; the bytes `rest` are still to be
read. -/
def ReadAt (file : CFILE) (pre rest : List Nat) : Prop :=
  file.data = pre ++ rest ∧ file.position = pre.length

instance ReadAt.decide (file : CFILE) (pre rest : List Nat) : Decidable (ReadAt file pre rest) :=
  inferInstanceAs (Decidable (_ ∧ _))

/-- The entry records `SaveInventory` emits for the ring `l`: one for each entry that is not
dead, in ring order. -/
def savedRecords (mem : Nat → inven_item) (eng : Engine) (l : List Nat) : List Record :=
  (l.filter fun a => !(mem a).toItemData.record.dead eng).map fun a => (mem a).toItemData.record

/-- All bytes of a saved inventory in the persisted layout: the entry count, the records and
the cursor slot index. -/
def layoutBytes (entry_count : Int) (records : List Record) (cursor_slot_index : Int) :
    List Nat :=
  int32Bytes entry_count ++ (records.map Record.bytes).flatten ++ int32Bytes cursor_slot_index

/-- The members of an entry hold values of their C types: the `int` members fit 32 bits,
the texts are C strings (no zero byte inside), the flag word fits 16 bits. -/
def ItemData.storable (it : ItemData) : Prop :=
  isInt32 it.type ∧ isInt32 it.otype ∧ isInt32 it.id ∧ isInt32 it.oid ∧ isInt32 it.flags ∧
    isInt32 it.count ∧ 0 ∉ it.description.getD [] ∧ 0 ∉ it.icon_name.getD [] ∧
    0 ∉ it.name.getD [] ∧ it.iflags < 65536

instance ItemData.storable.decide (it : ItemData) : Decidable it.storable :=
  inferInstanceAs (Decidable (_ ∧ _))

/-- The texts of an entry fit the 512-byte buffer `ReadInventory` reads them into. -/
def ItemData.fits512 (it : ItemData) : Prop :=
  (it.description.getD []).length < 512 ∧ (it.icon_name.getD []).length < 512 ∧
    (it.name.getD []).length < 512

instance ItemData.fits512.decide (it : ItemData) : Decidable it.fits512 :=
  inferInstanceAs (Decidable (_ ∧ _))

/-- An entry as it is after a save and a load: every member as before, except that an absent
text (null pointer) has become the empty string. -/
def ItemData.loaded (it : ItemData) : ItemData :=
  { it with
    description := some (it.description.getD [])
    icon_name := some (it.icon_name.getD [])
    name := some (it.name.getD []) }

/-! ## Use and cursor moves -/

/-- An assignment to members of `Objects[objnum]`. A slot without a live object is not part of
the directory, and a write to it shows nowhere. -/
def modifyObject (eng : Engine) (objnum : Int) (f : object → object) : Engine :=
  match eng.Objects objnum with
  | some obj => setObject eng objnum (f obj)
  | none => eng

/-- Modelled from the spec: `SetObjectDeadFlag` flags the object dead. -/
def SetObjectDeadFlag (c : Config) (obj : object) : object :=
  { obj with flags := obj.flags ||| c.OF_DEAD }

/-- `Inventory::SendRequestToServerToUse`. -/
def Inventory.SendRequestToServerToUse (s : Inventory) (eng : Engine) (type id : Int) :
    Option Engine :=
  match s.FindItem type id with
  | none => none
  | some node =>
    if node ≠ 0 then
      some { eng with calls := eng.calls ++ [Call.MultiSendClientInventoryUseItem type id] }
    else some eng

/-- The branch of `Inventory::Use` for an entry with `INVF_OBJECT`: the object exists already.
The result is the object number and the engine, or nothing if the handle does not resolve. -/
def Use_object (c : Config) (eng : Engine) (node : inven_item) : Option (Int × Engine) :=
  match ObjGet eng node.type with
  | none => none
  | some obj =>
    let objnum := node.type
    let eng1 := setObject eng objnum
      { obj with flags := obj.flags &&& (4294967295 - c.OF_INPLAYERINVENTORY) }
    if node.iflags &&& c.INVF_VISWHENUSED ≠ 0 then
      let eng2 := modifyObject eng1 objnum c.ObjUnGhostObject
      some (objnum, { eng2 with calls := eng2.calls ++ [Call.MultiSendGhostObject objnum false] })
    else some (objnum, eng1)

/-- The branch of `Inventory::Use` for an entry without `INVF_OBJECT`: the object is created
from the type and id of the entry. The result is the object number and the engine, or nothing
if `ObjCreate` fails. The `int` flags of the entry go into the 32-bit flag word of the object. -/
def Use_create (c : Config) (eng : Engine) (node : inven_item) (player : object)
    (server : Bool) : Option (Int × Engine) :=
  match c.ObjCreate eng node.type node.id player.roomnum player with
  | none => none
  | some (objnum, obj) =>
    let eng1 := setObject eng objnum obj
    let eng2 :=
      if node.iflags &&& c.INVF_VISWHENUSED ≠ 0 then eng1
      else
        let eng11 :=
          if obj.control_type ≠ c.CT_AI then
            modifyObject eng1 objnum (fun o => c.SetObjectControlType o c.CT_NONE)
          else eng1
        modifyObject eng11 objnum
          (fun o => { o with movement_type := c.MT_NONE, render_type := c.RT_NONE })
    let eng3 := modifyObject eng2 objnum
      (fun o => { o with flags := (node.flags % 4294967296).toNat })
    let eng4 :=
      if server then { eng3 with calls := eng3.calls ++ [Call.MultiSendObject objnum] }
      else eng3
    some (objnum, { eng4 with calls := eng4.calls ++ [Call.InitObjectScripts objnum] })

/-- The last statement of the regular branch of `Inventory::Use`:
`if (remove_on_use) SetObjectDeadFlag(&Objects[objnum], true);`. -/
def Use_kill (c : Config) (eng : Engine) (remove_on_use : Bool) (objnum : Int) : Engine :=
  if remove_on_use then modifyObject eng objnum (SetObjectDeadFlag c) else eng

/-- The regular (not countermeasure) branch of `Inventory::Use`, for the node found. -/
def Inventory.Use_regular (c : Config) (fuel : Nat) (s : Inventory) (eng : Engine) (node : Nat)
    (player : object) (server : Bool) : Option (Bool × Inventory × Engine) :=
  let remove_on_use := decide ((s.mem node).iflags &&& c.INVF_NOREMOVEONUSE = 0)
  let made :=
    if (s.mem node).iflags &&& c.INVF_OBJECT ≠ 0 then Use_object c eng (s.mem node)
    else Use_create c eng (s.mem node) player server
  match made with
  | none => some (false, s, eng)
  | some (objnum, eng1) =>
    let type := (s.mem node).type
    let id := (s.mem node).id
    let ev := c.Osiris_CallEvent eng1 objnum player.handle
    let eng2 : Engine :=
      { eng1 with
        Objects := ev.2
        calls := eng1.calls ++ [Call.Osiris_CallEvent objnum player.handle] }
    if ev.1 then
      match s.Remove c fuel eng2 type id with
      | none => none
      | some r => some (true, r.2.1, Use_kill c r.2.2 remove_on_use objnum)
    else
      let eng3 :=
        if (s.mem node).iflags &&& c.INVF_OBJECT ≠ 0 then
          modifyObject eng2 objnum (fun o => { o with flags := o.flags ||| c.OF_INPLAYERINVENTORY })
        else eng2
      some (false, s, Use_kill c eng3 remove_on_use objnum)

/-- `Inventory::Use(int type, int id, object* parent)`. -/
def Inventory.Use (c : Config) (fuel : Nat) (s : Inventory) (eng : Engine) (type id : Int)
    (parent : Option object) : Option (Bool × Inventory × Engine) :=
  match s.FindItem type id with
  | none => none
  | some node =>
    if node = 0 then some (false, s, eng)
    else if (s.mem node).iflags &&& c.INVF_USEABLE = 0 then some (false, s, eng)
    else
      let multiplayer := decide (eng.Game_mode &&& c.GM_MULTI ≠ 0)
      let client := multiplayer && decide (eng.local_role &&& c.LR_SERVER = 0)
      let server := multiplayer && decide (eng.local_role &&& c.LR_SERVER ≠ 0)
      if client then
        match s.SendRequestToServerToUse eng (s.mem node).type (s.mem node).id with
        | none => none
        | some eng1 => some (false, s, eng1)
      else
        match parent with
        | none => some (false, s, eng)
        | some player =>
          if type = c.OBJ_WEAPON then
            let eng1 := { eng with Objects := c.CreateCountermeasureFromObject eng player id }
            match s.Remove c fuel eng1 (s.mem node).type (s.mem node).id with
            | none => none
            | some r => some (true, r.2.1, r.2.2)
          else s.Use_regular c fuel eng node player server

/-- `Inventory::NextPos`. -/
def Inventory.NextPos (c : Config) (fuel : Nat) (s : Inventory) (skip : Bool) :
    Option Inventory :=
  if s.pos ≠ 0 ∧ (s.mem s.pos).next ≠ 0 then
    let s1 := { s with pos := (s.mem s.pos).next }
    if !skip then s1.ValidatePos c fuel c.ValidatePos_forward else some s1
  else if s.pos = 0 then
    let s1 := { s with pos := s.root }
    if !skip then s1.ValidatePos c fuel c.ValidatePos_forward else some s1
  else some s

/-- `Inventory::PrevPos`. -/
def Inventory.PrevPos (c : Config) (fuel : Nat) (s : Inventory) (skip : Bool) :
    Option Inventory :=
  if s.pos ≠ 0 ∧ (s.mem s.pos).prev ≠ 0 then
    let s1 := { s with pos := (s.mem s.pos).prev }
    if !skip then s1.ValidatePos c fuel false else some s1
  else if s.pos = 0 then
    let s1 := { s with pos := s.root }
    if !skip then s1.ValidatePos c fuel false else some s1
  else some s

/-- `Inventory::GotoPos(int type, int id)`. -/
def Inventory.GotoPos_type_id (s : Inventory) (type id : Int) : Option Inventory :=
  match s.FindItem type id with
  | none => none
  | some node => if node ≠ 0 then some { s with pos := node } else some s

/-! ## Queries -/

/-- `Inventory::AtEnd`. -/
def Inventory.AtEnd (s : Inventory) : Bool :=
  if s.pos = 0 then true
  else decide ((s.mem s.pos).next = s.root)

/-- `Inventory::GetPosTypeID`: the values left in `type` and `id`, and the value returned. -/
def Inventory.GetPosTypeID (c : Config) (s : Inventory) : Int × Int × Bool :=
  if s.pos = 0 then (0, 0, false)
  else ((s.mem s.pos).type, (s.mem s.pos).id, decide ((s.mem s.pos).iflags &&& c.INVF_OBJECT ≠ 0))

/-- The `while (!done)` loop of `Inventory::GetPos`. The first argument bounds the number of
rounds; the result is the value returned and the inventory with the cursor where the loop
left it. -/
def GetPos_loop (c : Config) (fuel : Nat) (type id : Int) (is_object : Bool) :
    Nat → Bool → Int → Inventory → Option (Int × Inventory)
  | 0, _, _, _ => none
  | rounds + 1, done, count, s =>
    if done then some (0, s)
    else
      let cur := s.GetPosTypeID c
      if cur.1 = type ∧ cur.2.1 = id ∧ cur.2.2 = is_object then some (count, s)
      else
        let count := count + 1
        let done := s.AtEnd
        match s.NextPos c fuel false with
        | none => none
        | some s1 => GetPos_loop c fuel type id is_object rounds done count s1

/-- `Inventory::GetPos`. The call moves the cursor, so the inventory is part of the result. -/
def Inventory.GetPos (c : Config) (fuel : Nat) (s : Inventory) : Option (Int × Inventory) :=
  if s.Size = 0 then some (-1, s)
  else
    let cur := s.GetPosTypeID c
    let s1 := s.ResetPos
    GetPos_loop c fuel cur.1 cur.2.1 cur.2.2 fuel s1.AtEnd 0 s1

/-- `Inventory::FindPos`. -/
def Inventory.FindPos (c : Config) (s : Inventory) (type id : Int) : Option (Bool × Inventory) :=
  let old := s.GetPosTypeID c
  match s.GotoPos_type_id type id with
  | none => none
  | some s1 =>
    let t := s1.GetPosTypeID c
    if t.1 = type ∧ t.2.1 = id then some (true, s1)
    else
      match s1.GotoPos_type_id old.1 old.2.1 with
      | none => none
      | some s2 => some (false, s2)

/-- One slot of the list `GetInventoryItemList` fills in (`tInvenList`). -/
structure tInvenList where
  amount : Int
  hud_name : Option CStr
  selectable : Bool
deriving DecidableEq, Inhabited

/-- The `while (counter)` loop of `Inventory::GetInventoryItemList`. The array `list` is a
function of the slot index; the result is the array and `*cur_sel`. -/
def GetInventoryItemList_loop (c : Config) (mem : Nat → inven_item) (pos : Nat)
    (max_amount : Int) :
    Nat → Nat → Nat → (Nat → tInvenList) → Int → (Nat → tInvenList) × Int
  | 0, _, _, list, cur_sel => (list, cur_sel)
  | counter + 1, current, cur_count, list, cur_sel =>
    if (cur_count : Int) < max_amount then
      let cur_sel := if current = pos then (cur_count : Int) else cur_sel
      let list := fun i =>
        if i = cur_count then
          { amount := (mem current).count
            hud_name := (mem current).name
            selectable := decide ((mem current).iflags &&& c.INVF_SELECTABLE ≠ 0) }
        else list i
      GetInventoryItemList_loop c mem pos max_amount counter (mem current).next (cur_count + 1)
        list cur_sel
    else
      GetInventoryItemList_loop c mem pos max_amount counter (mem current).next cur_count
        list cur_sel

/-- `Inventory::GetInventoryItemList`: the value returned, the array and `*cur_sel`. A negative
`count` never counts down to zero: no result. -/
def Inventory.GetInventoryItemList (c : Config) (s : Inventory) (list : Nat → tInvenList)
    (max_amount : Int) : Option (Int × (Nat → tInvenList) × Int) :=
  if max_amount ≤ 0 then some (0, list, -1)
  else if s.count = 0 then some (0, list, -1)
  else if s.count < 0 then none
  else
    let r := GetInventoryItemList_loop c s.mem s.pos max_amount s.count.toNat s.root 0 list (-1)
    some (s.count, r.1, r.2)

/-! ## Well-formed inventories -/

/-- Doubly-linked segment: the nodes at the addresses `l`, in this order, are chained by
`next` and `prev`; the first one points back to `p`, the last one points on to `q`. -/
def Seg (mem : Nat → inven_item) : Nat → List Nat → Nat → Prop
  | _, [], _ => True
  | p, a :: l, q => (mem a).prev = p ∧ (mem a).next = l.headD q ∧ Seg mem a l q

instance Seg.decide (mem : Nat → inven_item) : (p : Nat) → (l : List Nat) → (q : Nat) →
    Decidable (Seg mem p l q)
  | _, [], _ => isTrue trivial
  | p, a :: l, q =>
    have : Decidable (Seg mem a l q) := Seg.decide mem a l q
    inferInstanceAs (Decidable ((mem a).prev = p ∧ (mem a).next = l.headD q ∧ Seg mem a l q))

/-- The distinct non-null addresses `l` form a circular doubly-linked ring: going `next` from
the last node reaches the first, going `prev` from the first reaches the last. -/
def Links (mem : Nat → inven_item) (l : List Nat) : Prop :=
  l.Nodup ∧ 0 ∉ l ∧ Seg mem (l.getLastD 0) l (l.headD 0)

instance Links.decide (mem : Nat → inven_item) (l : List Nat) : Decidable (Links mem l) :=
  inferInstanceAs (Decidable (l.Nodup ∧ 0 ∉ l ∧ Seg mem (l.getLastD 0) l (l.headD 0)))

/-- The inventory `s` holds exactly the ring `l` (addresses in ring order from the head):
`count` is the number of nodes, `root` is the head (null for the empty ring), the nodes are
linked into a ring, they lie below the allocation mark, and the cursor `pos` is null or on a
linked node. -/
def InvRing (s : Inventory) (l : List Nat) : Prop :=
  s.count = l.length ∧ s.root = l.headD 0 ∧ Links s.mem l ∧ (∀ a ∈ l, a < s.brk) ∧ 0 < s.brk ∧
    (s.pos = 0 ∨ s.pos ∈ l)

instance InvRing.decide (s : Inventory) (l : List Nat) : Decidable (InvRing s l) :=
  inferInstanceAs (Decidable (s.count = l.length ∧ s.root = l.headD 0 ∧ Links s.mem l ∧
    (∀ a ∈ l, a < s.brk) ∧ 0 < s.brk ∧ (s.pos = 0 ∨ s.pos ∈ l)))

/-- The entries of the ring `l`, in ring order, without their links. -/
def Inventory.entries (s : Inventory) (l : List Nat) : List ItemData :=
  l.map fun a => (s.mem a).toItemData

/-- An entry is either object-backed (flag `INVF_OBJECT`, id `-1`, stack count 1) or an
abstract stack (no `INVF_OBJECT`, an id other than `-1`, a kind that `Add` accepts and a stack
count of at least 1). -/
def EntryOk (c : Config) (it : ItemData) : Prop :=
  (it.iflags &&& c.INVF_OBJECT ≠ 0 ∧ it.id = -1 ∧ it.count = 1) ∨
  (it.iflags &&& c.INVF_OBJECT = 0 ∧ it.id ≠ -1 ∧ 0 ≤ it.type ∧ it.type ≠ c.OBJ_NONE ∧ 1 ≤ it.count)

instance EntryOk.decide (c : Config) (it : ItemData) : Decidable (EntryOk c it) :=
  inferInstanceAs (Decidable (_ ∨ _))

/-- Well-formed inventory: `s` holds the ring `l`, every entry is a proper object-backed or
abstract entry, and no two entries share their key `(type, id)`. -/
def WF (c : Config) (s : Inventory) (l : List Nat) : Prop :=
  InvRing s l ∧ (∀ a ∈ l, EntryOk c (s.mem a).toItemData) ∧
    (l.map fun a => ((s.mem a).type, (s.mem a).id)).Nodup

instance WF.decide (c : Config) (s : Inventory) (l : List Nat) : Decidable (WF c s l) :=
  inferInstanceAs (Decidable (_ ∧ _ ∧ _))

/-- The keys `(type, id)` of the entries of the ring `l`, in ring order. -/
def Inventory.keys (s : Inventory) (l : List Nat) : List (Int × Int) :=
  l.map fun a => ((s.mem a).type, (s.mem a).id)

/-- The first node of `l` whose key is `(type, id)`, null when there is none. -/
def firstMatch (mem : Nat → inven_item) (type id : Int) (l : List Nat) : Nat :=
  (l.find? fun a => decide ((mem a).type = type ∧ (mem a).id = id)).getD 0

/-- The first node of `w` that has the `INVF_SELECTABLE` flag, null when there is none. -/
def firstSelectable (c : Config) (mem : Nat → inven_item) (w : List Nat) : Nat :=
  (w.find? fun a => decide ((mem a).iflags &&& c.INVF_SELECTABLE ≠ 0)).getD 0

/-- The order in which a walk around the ring meets the nodes: `w` lists the ring from the
starting node on in `next` order; walking `prev` meets the starting node and then the others
in reverse. -/
def cursorWalk (forward : Bool) (w : List Nat) : List Nat :=
  if forward then w
  else
    match w with
    | [] => []
    | b :: t => b :: t.reverse

/-- The entries the claim about `Reset` expects to survive: level-persistent ones when
level-persistent entries are not removed and the entry is not object-backed, and
non-spewable ones when non-spewable entries are not removed. -/
def keptByReset (c : Config) (remove_nonspewers remove_levelchangers : Bool) (it : ItemData) :
    Bool :=
  decide ((it.iflags &&& c.INVF_MISSIONITEM ≠ 0 ∧ remove_levelchangers = false ∧
      it.iflags &&& c.INVF_OBJECT = 0) ∨
    (it.iflags &&& c.INVF_NOTSPEWABLE ≠ 0 ∧ remove_nonspewers = false))

/-- One step of a walk around the ring (`forward ? node->next : node->prev`). -/
def cursorStep (mem : Nat → inven_item) (forward : Bool) (p : Nat) : Nat :=
  if forward then (mem p).next else (mem p).prev

/-! ## Call sequences -/

/-- The calls a client of the class can make on an inventory, with their arguments. -/
inductive Op where
  | Add (type id : Int) (parent : Option object) (aux_type aux_id : Int) (flags : Nat)
      (description : Option CStr)
  | AddCounterMeasure (id aux_type aux_id : Int) (flags : Nat) (description : Option CStr)
  | AddObject (object_handle : Int) (flags : Nat) (description : Option CStr)
  | Remove (type id : Int)
  | Use (type id : Int) (parent : Option object)
  | Reset (in_game : Bool) (reset_stage : Int)
  | NextPos (skip : Bool)
  | PrevPos (skip : Bool)
  | ResetPos
  | GotoPos (newpos : Int)
  | GotoPos_type_id (type id : Int)
  | ValidatePos (forward : Bool)

/-- The mutating operations that report success or failure through their `bool` result. -/
def Op.reports : Op → Bool
  | .Add .. => true
  | .AddCounterMeasure .. => true
  | .AddObject .. => true
  | .Remove .. => true
  | .Use .. => true
  | _ => false

/-- The operations that make, change or drop entries without taking a live object
(`AddObject` is the one that does). -/
def Op.abstract : Op → Bool
  | .Add .. => true
  | .AddCounterMeasure .. => true
  | .Remove .. => true
  | .Use .. => true
  | .Reset .. => true
  | _ => false

/-- The operations that create no usable entry: `AddObject`, `Add` with a kind other than
`OBJ_WEAPON`, `Remove` and `Reset`. -/
def Op.plain (c : Config) : Op → Bool
  | .AddObject .. => true
  | .Add type .. => decide (type ≠ c.OBJ_WEAPON)
  | .Remove .. => true
  | .Reset .. => true
  | _ => false

/-- One call: the value returned (`true` for a `void` function), the inventory and the engine
state after the call. -/
def Op.run (c : Config) (fuel : Nat) (s : Inventory) (eng : Engine) :
    Op → Option (Bool × Inventory × Engine)
  | .Add type id parent aux_type aux_id flags description =>
    (s.Add c type id parent aux_type aux_id flags description).map fun r => (r.1, r.2, eng)
  | .AddCounterMeasure id aux_type aux_id flags description =>
    (s.AddCounterMeasure c id aux_type aux_id flags description).map fun r => (r.1, r.2, eng)
  | .AddObject object_handle flags description =>
    some (s.AddObject c eng object_handle flags description)
  | .Remove type id => s.Remove c fuel eng type id
  | .Use type id parent => s.Use c fuel eng type id parent
  | .Reset in_game reset_stage =>
    (s.Reset c fuel eng in_game reset_stage).map fun r => (true, r.1, r.2)
  | .NextPos skip => (s.NextPos c fuel skip).map fun s2 => (true, s2, eng)
  | .PrevPos skip => (s.PrevPos c fuel skip).map fun s2 => (true, s2, eng)
  | .ResetPos => some (true, s.ResetPos, eng)
  | .GotoPos newpos => some (true, s.GotoPos newpos, eng)
  | .GotoPos_type_id type id => (s.GotoPos_type_id type id).map fun s2 => (true, s2, eng)
  | .ValidatePos forward => (s.ValidatePos c fuel forward).map fun s2 => (true, s2, eng)

/-- The inventories reachable from a freshly constructed one by `n` calls that `allowed`
admits. The engine state a call meets is arbitrary (the rest of the game runs between two
calls), and so is the fuel, as long as the call returns. The allocator never hands out
null. -/
inductive ReachableIn (c : Config) (allowed : Op → Bool) : Nat → Inventory → Prop
  | init (mem : Nat → inven_item) (brk : Nat) (h : 0 < brk) :
    ReachableIn c allowed 0 (Inventory.init mem brk)
  | step (n : Nat) (s : Inventory) (op : Op) (fuel : Nat) (eng : Engine) (b : Bool)
      (s2 : Inventory) (eng2 : Engine) (hs : ReachableIn c allowed n s) (ha : allowed op = true)
      (hrun : op.run c fuel s eng = some (b, s2, eng2)) : ReachableIn c allowed (n + 1) s2

/-- The list slot that shows a node: its stack count, its display name and whether it is
selectable. -/
def slotOf (c : Config) (it : inven_item) : tInvenList :=
  { amount := it.count
    hud_name := it.name
    selectable := decide (it.iflags &&& c.INVF_SELECTABLE ≠ 0) }

/-! ## Example data -/

/-- Sample values for the constants, with small definition tables. -/
def exConfig : Config where
  MAX_UNIQUE_INVEN_ITEMS := 10
  INVF_SELECTABLE := 1
  INVF_USEABLE := 2
  INVF_MISSIONITEM := 4
  INVF_NOREMOVEONUSE := 8
  INVF_VISWHENUSED := 16
  INVF_OBJECT := 32
  INVF_NOTSPEWABLE := 64
  INVF_TIMEOUTONSPEW := 128
  INVAF_NOTSPEWABLE := 1
  INVAF_TIMEOUTONSPEW := 2
  INVAF_LEVELLAST := 4
  OIF_INVEN_SELECTABLE := 4096
  OIF_INVEN_TYPE_MISSION := 16384
  OIF_INVEN_NOREMOVE := 32768
  OIF_INVEN_VISWHENUSED := 65536
  OF_INPLAYERINVENTORY := 4194304
  OF_INFORM_DESTROY_TO_LG := 1048576
  OBJ_NONE := 255
  OBJ_WEAPON := 5
  OBJ_POWERUP := 2
  OBJ_DUMMY := 19
  GM_MULTI := 34
  LR_SERVER := 1
  INVRESET_ALL := 0
  INVRESET_LEVELCHANGE := 1
  INVRESET_DEATHSPEW := 2
  Object_info := fun i => if i = 5 then ⟨some [107, 101, 121], 4096, [105], [75, 101, 121]⟩
    else ⟨none, 0, [105], [110]⟩
  Weapons := fun _ => ⟨[99, 109], -1⟩
  GameTextures_bm_handle := fun _ => 0
  GameBitmaps_name := fun _ => [98]
  ObjGhostObject := fun o => { o with type := 19 }
  ObjUnGhostObject := fun o => { o with type := 2 }
  OF_DEAD := 2
  CT_AI := 1
  CT_NONE := 0
  MT_NONE := 0
  RT_NONE := 0
  ObjCreate := fun eng type id roomnum parent =>
    if eng.Objects 900 = none then
      some (900, { type := type, id := id, flags := 0, handle := 900, roomnum := roomnum,
                   control_type := 3, movement_type := 1, render_type := parent.render_type })
    else none
  CreateCountermeasureFromObject := fun eng parent id h =>
    if h = 901 then
      some { type := 5, id := id, flags := 0, handle := 901, roomnum := parent.roomnum,
             control_type := 0, movement_type := 1, render_type := 1 }
    else eng.Objects h
  SetObjectControlType := fun o t => { o with control_type := t }
  Osiris_CallEvent := fun eng objnum _ =>
    (match eng.Objects objnum with
      | some o => decide (o.id = 5)
      | none => false, eng.Objects)
  ValidatePos_forward := true

/-- An abstract stack entry with the given kind, id, count and flag word. -/
def exItem (type id count : Int) (iflags : Nat) (next prev : Nat) : inven_item :=
  { type := type, otype := type, id := id, oid := id, flags := 0, count := count,
    description := some [100], icon_name := some [105], name := some [110], iflags := iflags,
    next := next, prev := prev }

/-- A free store with ring nodes at the addresses 1, 2 and 3. -/
def exMem (a b d : inven_item) : Nat → inven_item :=
  fun p => if p = 1 then a else if p = 2 then b else if p = 3 then d else default

/-- A powerup (kind 2, id 5) that is marked as held in an inventory. -/
def exObject : object :=
  { type := 2, id := 5, flags := 4194304, handle := 700, roomnum := 1, control_type := 0,
    movement_type := 0, render_type := 1 }

/-- An engine state with one live object, at handle 700. -/
def exEngine : Engine where
  Objects := fun h => if h = 700 then some exObject else none
  Game_mode := 0
  local_role := 0
  calls := []

/-- The sample configuration with room for two entries only. -/
def exConfigTwo : Config :=
  { exConfig with MAX_UNIQUE_INVEN_ITEMS := 2 }

/-- An object-backed entry for the object at handle 700. -/
def exObjItem (iflags : Nat) (next prev : Nat) : inven_item :=
  { type := 700, otype := 2, id := -1, oid := 5, flags := 0, count := 1,
    description := some [100], icon_name := some [105], name := some [110], iflags := iflags,
    next := next, prev := prev }

/-- An inventory whose ring is the single selectable abstract entry (kind 2, id 5), with the
cursor on it. -/
def exOne : Inventory :=
  { root := 1, count := 1, pos := 1, mem := exMem (exItem 2 5 1 1 1 1) default default, brk := 2 }

/-- An inventory whose ring is one object-backed entry for handle 700. -/
def exObjOne : Inventory :=
  { root := 1, count := 1, pos := 1, mem := exMem (exObjItem 33 1 1) default default, brk := 2 }

/-- An inventory with the ring `[1, 2]`: a selectable stack (kind 2, id 5) under the cursor,
followed by a non-selectable stack (kind 2, id 6) of three items. -/
def exTwo : Inventory :=
  { root := 1, count := 2, pos := 1,
    mem := exMem (exItem 2 5 1 1 2 2) (exItem 2 6 3 0 1 1) default, brk := 3 }

/-- An inventory with the ring `[1, 2, 3]`: a level-persistent selectable stack under the
cursor, a non-spewable stack, and a level-persistent object-backed entry for handle 700. -/
def exThree : Inventory :=
  { root := 1, count := 3, pos := 1,
    mem := exMem (exItem 2 5 1 5 2 3) (exItem 2 6 2 64 3 1) (exObjItem 36 1 2), brk := 4 }

/-- Three records of the persisted layout; the second is object-backed with handle 999. -/
def exRecords : List Record :=
  [⟨2, 2, 5, 5, 0, 1, [100], [105], [110], 1⟩, ⟨999, 2, -1, 5, 0, 1, [], [105], [110], 33⟩,
    ⟨2, 2, 6, 6, 0, 4, [100], [], [110], 0⟩]

/-- A file holding `exRecords` in the persisted layout, with the reader at its start. -/
def exFile : CFILE :=
  ⟨layoutBytes 3 exRecords 0, 0⟩

/-- An inventory whose ring is one countermeasure entry without an icon (`icon_name` is
null), as `AddCounterMeasure` creates it for a weapon without icon. -/
def exCounter : Inventory :=
  { root := 1, count := 1, pos := 1,
    mem := exMem { exItem 5 3 1 135 1 1 with icon_name := none } default default, brk := 2 }

/-- An engine state in which no handle resolves. -/
def exEngineNone : Engine :=
  { exEngine with Objects := fun _ => none }

/-- An inventory with the ring `[1, 2]`: an object-backed entry for handle 700 followed by a
selectable abstract stack under the cursor. -/
def exObjTwo : Inventory :=
  { root := 1, count := 2, pos := 2,
    mem := exMem (exObjItem 32 2 2) (exItem 2 5 1 1 1 1) default, brk := 3 }

/-- An inventory with the ring `[1, 2, 3]` of usable entries: a selectable stack (2, 5) of two
items under the cursor, a stack (2, 6) of one item, and an object-backed entry for handle
700. -/
def exUse : Inventory :=
  { root := 1, count := 3, pos := 1,
    mem := exMem (exItem 2 5 2 3 2 3) (exItem 2 6 1 2 3 1) (exObjItem 34 1 2), brk := 4 }

/-- The engine state `exEngine` after the object at handle 700 lost its held-in-inventory
mark. -/
def exUnheld : Engine :=
  setObject exEngine 700 { exObject with flags := 0 }

/-- The engine state of a client in a network game. -/
def exClient : Engine :=
  { exEngine with Game_mode := 2 }

/-- The engine state `exClient` after the use request for the stack (2, 6) was sent. -/
def exRequested : Engine :=
  { exClient with calls := [Call.MultiSendClientInventoryUseItem 2 6] }

/-- The inventory a fresh one becomes by `Add(2, 5)` (the definition of id 5 is
inventory-selectable). -/
def exAdded : Inventory :=
  (((Inventory.init (fun _ => default) 1).Add exConfig 2 5 none (-1) (-1) 0 none).getD
    (false, Inventory.init (fun _ => default) 1)).2

/-- The sample configuration with definitions that are not inventory-selectable. -/
def exConfigPlain : Config :=
  { exConfig with Object_info := fun _ => ⟨none, 0, [105], [110]⟩ }

/-- The ring `[1, 2, 3]` of `exThree` with the cursor on the third entry; the second entry is
not selectable. -/
def exThird : Inventory :=
  { root := 1, count := 3, pos := 3,
    mem := exMem (exItem 2 5 1 5 2 3) (exItem 2 6 2 64 3 1) (exItem 2 7 1 1 1 2), brk := 4 }

/-- The ring `[1, 2]` of `exTwo` with a null cursor; the last entry is not selectable. -/
def exTwoNull : Inventory :=
  { exTwo with pos := 0 }

/-- A ring `[1, 2, 3]` of selectable entries with the cursor on the third. -/
def exAllSel : Inventory :=
  { root := 1, count := 3, pos := 3,
    mem := exMem (exItem 2 5 1 1 2 3) (exItem 2 6 2 1 3 1) (exItem 2 7 1 1 1 2), brk := 4 }

/-- An array of list slots that holds nothing yet. -/
def exList : Nat → tInvenList :=
  fun _ => { amount := 0, hud_name := none, selectable := false }

/-- An inventory whose ring is one abstract entry with the key (0, 0), with a null cursor. -/
def exZeroKey : Inventory :=
  { root := 1, count := 1, pos := 0, mem := exMem (exItem 0 0 1 1 1 1) default default, brk := 2 }

/-- The ring `[1, 2]` of `exTwo` with the cursor on the second entry, which is not selectable. -/
def exTwoSecond : Inventory :=
  { exTwo with pos := 2 }

/-- The ring `[1, 2]` of `exTwo` with the largest `int` as the stack count of the first
entry. -/
def exMax : Inventory :=
  { root := 1, count := 2, pos := 1,
    mem := exMem (exItem 2 5 2147483647 1 2 2) (exItem 2 6 3 0 1 1) default, brk := 3 }

/-- The inventory after `Add(2, 6)` on `exAdded`: the ring `[1, 2]`. -/
def exAdded2 : Inventory :=
  ((exAdded.Add exConfig 2 6 none (-1) (-1) 0 none).getD (false, exAdded)).2

/-- The inventory after `Add(2, 5)` on `exAdded2`: the first entry of the ring `[1, 2]` holds
two items. -/
def exAdded3 : Inventory :=
  ((exAdded2.Add exConfig 2 5 none (-1) (-1) 0 none).getD (false, exAdded2)).2

/-- The entry that `Add(2, 5)` makes on a fresh inventory, with the stack count `v`. -/
def exFilled (v : Int) : inven_item :=
  { type := 2, otype := 2, id := 5, oid := 5, flags := 0, count := v,
    description := some [107, 101, 121], icon_name := some [105], name := some [75, 101, 121],
    iflags := 1, next := 1, prev := 1 }

/-- The ring `[1]` of `exAdded` with `size` as the `count` member and `v` as the stack count
of the entry. -/
def exStack (size v : Int) : Inventory :=
  { root := 1, count := size, pos := 1, mem := fun p => if p = 1 then exFilled v else default,
    brk := 2 }

/-- The inventory after `Remove(2, 5)` on `exStack 2 1`: no node, and a `count` of 1. -/
def exNullRoot : Inventory :=
  (((exStack 2 1).Remove exConfig 0 exEngine 2 5).getD (false, exStack 2 1, exEngine)).2.1

/-! ## Theorems -/

/-! ### Segments of the ring -/

@[simp] theorem setNode_same (mem : Nat → inven_item) (p : Nat) (it : inven_item) :
    setNode mem p it p = it := by
  simp [setNode]

theorem setNode_other (mem : Nat → inven_item) (p : Nat) (it : inven_item) (q : Nat)
    (h : q ≠ p) : setNode mem p it q = mem q := by
  simp [setNode, h]

theorem setNode_apply (mem : Nat → inven_item) (p : Nat) (it : inven_item) (q : Nat) :
    setNode mem p it q = if q = p then it else mem q := rfl

theorem seg_congr {mem mem2 : Nat → inven_item} :
    ∀ (l : List Nat) (p q : Nat),
      (∀ a ∈ l, (mem2 a).next = (mem a).next ∧ (mem2 a).prev = (mem a).prev) →
      Seg mem p l q → Seg mem2 p l q
  | [], _, _, _, _ => trivial
  | a :: l, p, q, h, hs => by
    obtain ⟨h1, h2, h3⟩ := hs
    have ha := h a (List.mem_cons_self a l)
    refine ⟨by rw [ha.2, h1], by rw [ha.1, h2], ?_⟩
    exact seg_congr l a q (fun b hb => h b (List.mem_cons_of_mem a hb)) h3

theorem seg_append {mem : Nat → inven_item} :
    ∀ (l1 l2 : List Nat) (p q : Nat),
      Seg mem p (l1 ++ l2) q ↔ Seg mem p l1 (l2.headD q) ∧ Seg mem (l1.getLastD p) l2 q
  | [], l2, p, q => by simp [Seg]
  | [a], l2, p, q => by
    cases l2 <;> simp [Seg, and_assoc]
  | a :: b :: l1, l2, p, q => by
    have ih := @seg_append mem (b :: l1) l2 a q
    simp only [List.cons_append] at ih ⊢
    have hl : (a :: b :: l1).getLastD p = (b :: l1).getLastD a := rfl
    rw [hl]
    simp only [Seg, List.headD_cons] at ih ⊢
    rw [ih]
    simp only [and_assoc]

/-- Changing the way into and out of a segment: if `mem2` keeps the links inside `l` and
redirects the `prev` of its first node to `p2` and the `next` of its last node to `q2`, the
segment is a segment of `mem2` between `p2` and `q2`. -/
theorem seg_rebound {mem mem2 : Nat → inven_item} :
    ∀ (l : List Nat) (p q p2 q2 : Nat), l.Nodup → Seg mem p l q →
      (∀ a ∈ l, a ≠ l.headD 0 → (mem2 a).prev = (mem a).prev) →
      (∀ a ∈ l, a ≠ l.getLastD 0 → (mem2 a).next = (mem a).next) →
      (∀ a, l.head? = some a → (mem2 a).prev = p2) →
      (∀ a, l.getLast? = some a → (mem2 a).next = q2) →
      Seg mem2 p2 l q2
  | [], _, _, _, _, _, _, _, _, _, _ => trivial
  | [a], p, q, p2, q2, _, _, _, _, h3, h4 => by
    simp [Seg] at *
    exact ⟨h3, h4⟩
  | a :: b :: l, p, q, p2, q2, hnd, hs, h1, h2, h3, h4 => by
    obtain ⟨s1, s2, s3⟩ := hs
    have hnd2 : (b :: l).Nodup := (List.nodup_cons.1 hnd).2
    have hab : a ∉ b :: l := (List.nodup_cons.1 hnd).1
    have hlast : (a :: b :: l).getLastD 0 = (b :: l).getLastD 0 := by simp [List.getLastD_cons]
    have hlastmem : (b :: l).getLastD 0 ∈ b :: l := by
      simp only [List.getLastD_cons]
      rw [List.getLastD_eq_getLast?]
      cases h : l.getLast? with
      | none => simp
      | some x => simp [List.mem_of_getLast?_eq_some h]
    refine ⟨h3 a rfl, ?_, ?_⟩
    · rw [h2 a (List.mem_cons_self _ _) ?_, s2]
      · rfl
      · rw [hlast]; intro h; rw [h] at hab; exact hab hlastmem
    · refine seg_rebound (b :: l) a q a q2 hnd2 s3 ?_ ?_ ?_ ?_
      · intro x hx hne
        apply h1 x (List.mem_cons_of_mem _ hx)
        simp only [List.headD_cons]
        intro h; rw [h] at hx; exact hab hx
      · intro x hx hne
        apply h2 x (List.mem_cons_of_mem _ hx)
        rw [hlast]; exact hne
      · intro x hx
        simp only [List.head?_cons, Option.some.injEq] at hx
        subst hx
        rw [h1 b (by simp) ?_]
        · exact s3.1
        · simp only [List.headD_cons]; intro h; rw [h] at hab; simp at hab
      · intro x hx
        apply h4
        simpa [List.getLast?_cons_cons] using hx

theorem links_congr {mem mem2 : Nat → inven_item} {l : List Nat}
    (h : ∀ a ∈ l, (mem2 a).next = (mem a).next ∧ (mem2 a).prev = (mem a).prev)
    (hl : Links mem l) : Links mem2 l :=
  ⟨hl.1, hl.2.1, seg_congr l _ _ h hl.2.2⟩

theorem getLastD_mem_cons (a : Nat) (t : List Nat) (d : Nat) : (a :: t).getLastD d ∈ a :: t := by
  rw [List.getLastD_eq_getLast?]
  cases h : (a :: t).getLast? with
  | none => simp at h
  | some x => simpa using List.mem_of_getLast?_eq_some h

theorem getLastD_concat (l : List Nat) (b d : Nat) : (l ++ [b]).getLastD d = b := by
  rw [List.getLastD_eq_getLast?, List.getLast?_concat]
  rfl

theorem getLastD_of_getLast? {l : List Nat} {x : Nat} (d : Nat) (h : l.getLast? = some x) :
    l.getLastD d = x := by
  rw [List.getLastD_eq_getLast?, h]; rfl

theorem links_prev_head {mem : Nat → inven_item} {a : Nat} {t : List Nat}
    (hl : Links mem (a :: t)) : (mem a).prev = (a :: t).getLastD 0 :=
  hl.2.2.1

/-- The links of a fresh singleton ring. -/
theorem newRoot_spec (s : Inventory) (hb : 0 < s.brk) :
    s.newRoot.2 = s.brk ∧ Links s.newRoot.1.mem [s.brk] ∧ s.newRoot.1.root = s.brk ∧
      s.newRoot.1.brk = s.brk + 1 ∧ s.newRoot.1.count = s.count ∧ s.newRoot.1.pos = s.pos ∧
      ∀ x, (s.newRoot.1.mem x).toItemData = (s.mem x).toItemData := by
  refine ⟨rfl, ⟨by simp, by simp; omega, ?_⟩, rfl, rfl, rfl, rfl, ?_⟩
  · simp [Seg, Inventory.newRoot]
  · intro x
    simp only [Inventory.newRoot, setNode_apply]
    by_cases hx : x = s.brk
    · subst hx; simp
    · simp [hx]

/-- Pointwise description of the store after `newTail`. -/
theorem newTail_mem (s : Inventory) (x : Nat) (h1 : s.brk ≠ s.root)
    (h2 : s.brk ≠ (s.mem s.root).prev) :
    (s.newTail.1.mem x).next =
        (if x = s.brk then s.root else if x = (s.mem s.root).prev then s.brk else (s.mem x).next) ∧
      (s.newTail.1.mem x).prev =
        (if x = s.brk then (s.mem s.root).prev else if x = s.root then s.brk else (s.mem x).prev) ∧
      (s.newTail.1.mem x).toItemData = (s.mem x).toItemData := by
  simp only [Inventory.newTail, setNode_apply]
  by_cases hx1 : x = s.brk
  · subst hx1
    simp [h1, h2]
  · by_cases hx2 : x = s.root
    · subst hx2
      by_cases hx3 : s.root = (s.mem s.root).prev
      · simp [hx1, ← hx3, Ne.symm h1]
      · simp [hx1, hx3, Ne.symm h1, Ne.symm h2]
    · by_cases hx3 : x = (s.mem s.root).prev
      · simp [hx1, hx2, ← hx3, Ne.symm h1]
      · simp [hx1, hx2, hx3, Ne.symm h1, Ne.symm h2]

/-- Linking a fresh node behind the last node of a non-empty ring. -/
theorem newTail_spec (s : Inventory) (a : Nat) (t : List Nat) (hroot : s.root = a)
    (hl : Links s.mem (a :: t)) (hfresh : ∀ x ∈ a :: t, x < s.brk) :
    s.newTail.2 = s.brk ∧ Links s.newTail.1.mem (a :: t ++ [s.brk]) ∧ s.newTail.1.root = s.root ∧
      s.newTail.1.brk = s.brk + 1 ∧ s.newTail.1.count = s.count ∧ s.newTail.1.pos = s.pos ∧
      ∀ x, (s.newTail.1.mem x).toItemData = (s.mem x).toItemData := by
  have hprev := links_prev_head hl
  have hlast := getLastD_mem_cons a t 0
  obtain ⟨hnd, h0, hseg⟩ := hl
  have hbl : s.brk ∉ a :: t := fun h => Nat.lt_irrefl _ (hfresh _ h)
  have hb0 : s.brk ≠ 0 := by
    have := hfresh a (List.mem_cons_self _ _)
    omega
  have hlb : s.brk ≠ (s.mem s.root).prev := by
    rw [hroot, hprev]; exact fun h => hbl (h ▸ hlast)
  have hab : s.brk ≠ s.root := by
    rw [hroot]; exact fun h => hbl (h ▸ List.mem_cons_self _ _)
  have hm := fun x => newTail_mem s x hab hlb
  refine ⟨rfl, ⟨?_, ?_, ?_⟩, rfl, rfl, rfl, rfl, fun x => (hm x).2.2⟩
  · rw [List.nodup_append]
    refine ⟨hnd, by simp, ?_⟩
    intro x hx hy
    simp only [List.mem_singleton] at hy
    subst hy
    exact hbl hx
  · intro h
    rcases List.mem_append.1 h with h | h
    · exact h0 h
    · simp only [List.mem_singleton] at h
      exact hb0 h.symm
  · have e1 : (a :: t ++ [s.brk]).getLastD 0 = s.brk := getLastD_concat _ _ _
    have e2 : (a :: t ++ [s.brk]).headD 0 = a := rfl
    rw [e1, e2, seg_append]
    constructor
    · refine seg_rebound (a :: t) _ _ s.brk s.brk hnd hseg ?_ ?_ ?_ ?_
      · intro x hx hne
        have hxb : x ≠ s.brk := fun h => hbl (h ▸ hx)
        simp only [List.headD_cons] at hne
        rw [(hm x).2.1, if_neg hxb, if_neg (hroot ▸ hne)]
      · intro x hx hne
        have hxb : x ≠ s.brk := fun h => hbl (h ▸ hx)
        rw [(hm x).1, if_neg hxb, if_neg (by rw [hroot, hprev]; exact hne)]
      · intro x hx
        simp only [List.head?_cons, Option.some.injEq] at hx
        subst hx
        rw [(hm a).2.1, if_neg (hroot ▸ Ne.symm hab), if_pos hroot.symm]
      · intro x hx
        have hx2 := getLastD_of_getLast? 0 hx
        rw [(hm x).1, if_neg (by rw [← hx2, ← hprev, ← hroot]; exact Ne.symm hlb),
          if_pos (by rw [← hx2, ← hprev, ← hroot])]
    · simp only [Seg, List.headD_nil, and_true]
      rw [(hm s.brk).1, (hm s.brk).2.1, if_pos rfl, if_pos rfl, hroot, hprev]
      exact ⟨rfl, rfl⟩

@[simp] theorem modify_root (s : Inventory) (p : Nat) (f : inven_item → inven_item) :
    (s.modify p f).root = s.root := rfl
@[simp] theorem modify_count (s : Inventory) (p : Nat) (f : inven_item → inven_item) :
    (s.modify p f).count = s.count := rfl
@[simp] theorem modify_pos (s : Inventory) (p : Nat) (f : inven_item → inven_item) :
    (s.modify p f).pos = s.pos := rfl
@[simp] theorem modify_brk (s : Inventory) (p : Nat) (f : inven_item → inven_item) :
    (s.modify p f).brk = s.brk := rfl
theorem modify_mem (s : Inventory) (p : Nat) (f : inven_item → inven_item) (x : Nat) :
    (s.modify p f).mem x = if x = p then f (s.mem p) else s.mem x := rfl
@[simp] theorem modify_mem_same (s : Inventory) (p : Nat) (f : inven_item → inven_item) :
    (s.modify p f).mem p = f (s.mem p) := by simp [modify_mem]
theorem modify_mem_other (s : Inventory) (p : Nat) (f : inven_item → inven_item) (x : Nat)
    (h : x ≠ p) : (s.modify p f).mem x = s.mem x := by simp [modify_mem, h]

theorem and_or_ne_zero (f g m : Nat) (h : f &&& m ≠ 0) : (f ||| g) &&& m ≠ 0 := by
  intro h2
  apply h
  apply Nat.eq_of_testBit_eq
  intro i
  have := congrArg (fun n => n.testBit i) h2
  simp only [Nat.testBit_and, Nat.testBit_or, Nat.zero_testBit] at this ⊢
  cases hf : f.testBit i <;> cases hm : m.testBit i <;> simp_all

theorem self_and_ne_zero (m : Nat) (h : m ≠ 0) : m &&& m ≠ 0 := by
  simpa using h

theorem ite_or_and_ne_zero (p : Prop) [Decidable p] (f g m : Nat) (h : f &&& m ≠ 0) :
    (if p then f ||| g else f) &&& m ≠ 0 := by
  split_ifs
  · exact and_or_ne_zero _ _ _ h
  · exact h

theorem AddObject_fill_fields (c : Config) (object_handle : Int) (obj : object) (flags : Nat)
    (description : Option CStr) (it : inven_item) :
    (AddObject_fill c object_handle obj flags description it).next = it.next ∧
      (AddObject_fill c object_handle obj flags description it).prev = it.prev ∧
      (AddObject_fill c object_handle obj flags description it).count = it.count ∧
      (AddObject_fill c object_handle obj flags description it).type = object_handle ∧
      (AddObject_fill c object_handle obj flags description it).id = -1 :=
  ⟨rfl, rfl, rfl, rfl, rfl⟩

theorem AddObject_fill_iflags (c : Config) (object_handle : Int) (obj : object) (flags : Nat)
    (description : Option CStr) (it : inven_item) (m : Nat) (h : it.iflags &&& m ≠ 0) :
    (AddObject_fill c object_handle obj flags description it).iflags &&& m ≠ 0 := by
  simp only [AddObject_fill]
  repeat first
    | exact h
    | apply ite_or_and_ne_zero

/-! ### Adding at the tail -/

/-- The link phase of the adders on a well-formed ring: the fresh node `s.brk` becomes the
tail, every payload stays. -/
theorem link_spec (s : Inventory) (l : List Nat) (hr : InvRing s l) :
    (if s.count = 0 then s.newRoot else s.newTail).2 = s.brk ∧
      Links (if s.count = 0 then s.newRoot else s.newTail).1.mem (l ++ [s.brk]) ∧
      (if s.count = 0 then s.newRoot else s.newTail).1.root = (l ++ [s.brk]).headD 0 ∧
      (if s.count = 0 then s.newRoot else s.newTail).1.brk = s.brk + 1 ∧
      (if s.count = 0 then s.newRoot else s.newTail).1.count = s.count ∧
      (if s.count = 0 then s.newRoot else s.newTail).1.pos = s.pos ∧
      ∀ x, ((if s.count = 0 then s.newRoot else s.newTail).1.mem x).toItemData =
        (s.mem x).toItemData := by
  obtain ⟨hc, hroot, hlinks, hfresh, hb, hpos⟩ := hr
  cases l with
  | nil =>
    have h0 : s.count = 0 := by simpa using hc
    rw [if_pos h0]
    obtain ⟨e1, e2, e3, e4, e5, e6, e7⟩ := newRoot_spec s hb
    exact ⟨e1, by simpa using e2, by simpa using e3, e4, e5, e6, e7⟩
  | cons a t =>
    have h0 : s.count ≠ 0 := by
      simp only [List.length_cons] at hc; omega
    rw [if_neg h0]
    obtain ⟨e1, e2, e3, e4, e5, e6, e7⟩ := newTail_spec s a t (by simpa using hroot) hlinks hfresh
    exact ⟨e1, e2, by rw [e3, hroot]; rfl, e4, e5, e6, e7⟩

/-- Assemble `InvRing` for the state reached by appending the fresh node `b` to the ring. -/
theorem invRing_append {s t s2 : Inventory} {l : List Nat} {b : Nat} (hr : InvRing s l)
    (hb : b = s.brk) (hlinks : Links t.mem (l ++ [b]))
    (hmem : ∀ x, (s2.mem x).next = (t.mem x).next ∧ (s2.mem x).prev = (t.mem x).prev)
    (hroot : s2.root = (l ++ [b]).headD 0) (hbrk : s2.brk = s.brk + 1)
    (hcount : s2.count = s.count + 1) (hpos : s2.pos = s.pos ∨ s2.pos = b) :
    InvRing s2 (l ++ [b]) := by
  obtain ⟨hc, _, _, hfresh, hb0, hp⟩ := hr
  refine ⟨?_, hroot, links_congr (fun x _ => hmem x) hlinks, ?_, by omega, ?_⟩
  · rw [hcount, hc]; simp
  · intro x hx
    rcases List.mem_append.1 hx with h | h
    · have := hfresh x h; omega
    · simp only [List.mem_singleton] at h; omega
  · rcases hpos with h | h
    · rcases hp with h2 | h2
      · exact Or.inl (h.trans h2)
      · exact Or.inr (List.mem_append_left _ (h ▸ h2))
    · exact Or.inr (by simp [h])

theorem entries_congr {s s2 : Inventory} {l : List Nat}
    (h : ∀ x ∈ l, (s2.mem x).toItemData = (s.mem x).toItemData) : s2.entries l = s.entries l := by
  unfold Inventory.entries
  exact List.map_congr_left h

theorem AddObject_spec (c : Config) (s : Inventory) (eng : Engine) (object_handle : Int)
    (flags : Nat) (description : Option CStr) (l : List Nat) (obj : object)
    (hr : InvRing s l) (hcap : s.count < c.MAX_UNIQUE_INVEN_ITEMS)
    (hobj : ObjGet eng object_handle = some obj) (hO : c.INVF_OBJECT ≠ 0) :
    ∃ s2 eng2, s.AddObject c eng object_handle flags description = (true, s2, eng2) ∧
      s2.Size = s.Size + 1 ∧ InvRing s2 (l ++ [s.brk]) ∧ s2.entries l = s.entries l ∧
      (s2.mem s.brk).iflags &&& c.INVF_OBJECT ≠ 0 ∧ (s2.mem s.brk).count = 1 ∧
      (s2.mem s.brk).type = object_handle ∧ (s2.mem s.brk).id = -1 := by
  have hcap2 : ¬ s.count ≥ c.MAX_UNIQUE_INVEN_ITEMS := by omega
  obtain ⟨e1, e2, e3, e4, e5, e6, e7⟩ := link_spec s l hr
  have hbl : s.brk ∉ l := fun h => Nat.lt_irrefl _ (hr.2.2.2.1 _ h)
  unfold Inventory.AddObject
  simp only [hcap2, if_false, hobj]
  generalize (if s.count = 0 then s.newRoot else s.newTail) = ln at e1 e2 e3 e4 e5 e6 e7 ⊢
  generalize (if obj.type = c.OBJ_DUMMY then c.ObjUnGhostObject obj else obj) = obj1
  obtain ⟨t, n⟩ := ln
  simp only at e1 e2 e3 e4 e5 e6 e7 ⊢
  subst e1
  have hf := AddObject_fill_fields c object_handle obj1 flags description
  have hmem : ∀ x, x ≠ s.brk → ((t.modify s.brk fun it =>
      { it with iflags := c.INVF_OBJECT, count := 1 }).modify s.brk
        (AddObject_fill c object_handle obj1 flags description)).mem x = t.mem x := by
    intro x hx
    rw [modify_mem_other _ _ _ _ hx, modify_mem_other _ _ _ _ hx]
  refine ⟨_, _, rfl, ?_, ?_, ?_, ?_, ?_, ?_, ?_⟩
  · simp only [Inventory.Size]
    split_ifs <;> simp [e5]
  · refine invRing_append hr rfl e2 ?_ ?_ ?_ ?_ ?_
    · intro x
      by_cases hx : x = s.brk
      · subst hx
        split_ifs <;> simp [hf]
      · split_ifs <;> simp only [hmem x hx, and_self]
    · split_ifs <;> simp [e3]
    · split_ifs <;> simp [e4]
    · split_ifs <;> simp [e5]
    · split_ifs <;> simp [e6]
  · apply entries_congr
    intro x hx
    have hxb : x ≠ s.brk := fun h => hbl (h ▸ hx)
    split_ifs <;> simp only [hmem x hxb, e7]
  · have : ∀ it : inven_item, (AddObject_fill c object_handle obj1 flags description
        { it with iflags := c.INVF_OBJECT, count := 1 }).iflags &&& c.INVF_OBJECT ≠ 0 :=
      fun it => AddObject_fill_iflags _ _ _ _ _ _ _ (self_and_ne_zero _ hO)
    split_ifs <;> simp only [modify_mem_same] <;> exact this _
  · split_ifs <;> simp [hf]
  · split_ifs <;> simp [hf]
  · split_ifs <;> simp [hf]

/-! ### Rotation of the ring, `FindItem` -/

theorem seg_nil (mem : Nat → inven_item) (p q : Nat) : Seg mem p [] q := trivial

theorem headD_append_ne_nil {u : List Nat} (v : List Nat) (d : Nat) (h : u ≠ []) :
    (u ++ v).headD d = u.headD 0 := by
  cases u with
  | nil => exact absurd rfl h
  | cons a t => rfl

theorem getLastD_append_ne_nil (u : List Nat) {v : List Nat} (d : Nat) (h : v ≠ []) :
    (u ++ v).getLastD d = v.getLastD 0 := by
  rw [List.getLastD_eq_getLast?, List.getLastD_eq_getLast?, List.getLast?_append]
  cases hv : v.getLast? with
  | none => simp at hv; exact absurd hv h
  | some x => simp

/-- A ring may be read from any of its nodes. -/
theorem links_rotate {mem : Nat → inven_item} (u v : List Nat) (h : Links mem (u ++ v)) :
    Links mem (v ++ u) := by
  obtain ⟨hnd, h0, hs⟩ := h
  by_cases hu : u = []
  · subst hu; simpa using ⟨hnd, h0, hs⟩
  by_cases hv : v = []
  · subst hv
    rw [List.append_nil] at hnd h0 hs
    exact ⟨hnd, h0, hs⟩
  refine ⟨?_, ?_, ?_⟩
  · exact (List.perm_append_comm.nodup_iff).1 hnd
  · intro h; exact h0 (by simpa [or_comm] using h)
  · rw [headD_append_ne_nil _ _ hu, getLastD_append_ne_nil _ _ hv, seg_append] at hs
    rw [headD_append_ne_nil _ _ hv, getLastD_append_ne_nil _ _ hu, seg_append]
    have e1 : ∀ d, v.headD d = v.headD 0 := by
      intro d; cases v with
      | nil => exact absurd rfl hv
      | cons a t => rfl
    have e2 : ∀ d, u.headD d = u.headD 0 := by
      intro d; cases u with
      | nil => exact absurd rfl hu
      | cons a t => rfl
    have e3 : ∀ d, v.getLastD d = v.getLastD 0 := by
      intro d; simpa using getLastD_append_ne_nil [] d hv
    have e4 : ∀ d, u.getLastD d = u.getLastD 0 := by
      intro d; simpa using getLastD_append_ne_nil [] d hu
    rw [e1, e4] at hs
    rw [e2, e3]
    exact ⟨hs.2, hs.1⟩

theorem FindItem_loop_seg (mem : Nat → inven_item) (type id : Int) :
    ∀ (l : List Nat) (p q : Nat), Seg mem p l q → 0 ∉ l →
      FindItem_loop mem type id l.length (l.headD q) = some (firstMatch mem type id l)
  | [], _, _, _, _ => rfl
  | a :: l, p, q, hs, h0 => by
    have ha : a ≠ 0 := fun h => h0 (h ▸ List.mem_cons_self _ _)
    simp only [List.length_cons, FindItem_loop, List.headD_cons, firstMatch, List.find?_cons,
      ha, if_false]
    by_cases h : (mem a).type = type ∧ (mem a).id = id
    · simp [h]
    · simp only [h, if_false, decide_False]
      rw [hs.2.1]
      exact FindItem_loop_seg mem type id l a q hs.2.2 (fun h => h0 (List.mem_cons_of_mem _ h))

theorem FindItem_spec (s : Inventory) (l : List Nat) (type id : Int) (hr : InvRing s l) :
    s.FindItem type id = some (firstMatch s.mem type id l) := by
  obtain ⟨hc, hroot, hl, -⟩ := hr
  unfold Inventory.FindItem
  by_cases h0 : s.count = 0
  · have : l = [] := by
      rw [h0] at hc; exact List.length_eq_zero.1 (by omega)
    subst this
    simp [h0, firstMatch]
  · have h1 : ¬ s.count < 0 := by omega
    simp only [h0, h1, if_false]
    rw [hc, hroot]
    simp only [Int.toNat_ofNat]
    cases l with
    | nil => simp at hc; exact absurd hc h0
    | cons a t => exact FindItem_loop_seg _ _ _ (a :: t) _ a hl.2.2 hl.2.1

theorem firstMatch_mem_or (mem : Nat → inven_item) (type id : Int) (l : List Nat) :
    firstMatch mem type id l = 0 ∨ (firstMatch mem type id l ∈ l ∧
      (mem (firstMatch mem type id l)).type = type ∧ (mem (firstMatch mem type id l)).id = id) := by
  unfold firstMatch
  cases h : l.find? fun a => decide ((mem a).type = type ∧ (mem a).id = id) with
  | none => left; rfl
  | some x =>
    right
    have h1 := List.mem_of_find?_eq_some h
    have h2 := List.find?_some h
    simp only [Option.getD_some]
    exact ⟨h1, by simpa using h2⟩

theorem firstSelectable_mem_or (c : Config) (mem : Nat → inven_item) (w : List Nat) :
    firstSelectable c mem w = 0 ∨ (firstSelectable c mem w ∈ w ∧
      (mem (firstSelectable c mem w)).iflags &&& c.INVF_SELECTABLE ≠ 0) := by
  unfold firstSelectable
  cases h : w.find? fun a => decide ((mem a).iflags &&& c.INVF_SELECTABLE ≠ 0) with
  | none => left; rfl
  | some x =>
    right
    have h1 := List.mem_of_find?_eq_some h
    have h2 := List.find?_some h
    simp only [Option.getD_some]
    exact ⟨h1, by simpa using h2⟩

/-! ### `ValidatePos` -/

theorem firstSelectable_cons (c : Config) (mem : Nat → inven_item) (x : Nat) (w : List Nat) :
    firstSelectable c mem (x :: w) =
      if (mem x).iflags &&& c.INVF_SELECTABLE ≠ 0 then x else firstSelectable c mem w := by
  unfold firstSelectable
  by_cases h : (mem x).iflags &&& c.INVF_SELECTABLE ≠ 0
  · simp [List.find?_cons, h]
  · simp only [List.find?_cons, h, decide_False, if_false]

/-- The forward walk of `ValidatePos` over the nodes `w` that lead back to `pos`. -/
theorem ValidatePos_loop_forward (c : Config) (mem : Nat → inven_item) (pos : Nat) :
    ∀ (w : List Nat) (p : Nat) (fuel : Nat), Seg mem p w pos → pos ∉ w → w.length < fuel →
      ValidatePos_loop c mem true pos fuel (w.headD pos) = some (firstSelectable c mem w)
  | [], _, fuel, _, _, hf => by
    obtain ⟨n, rfl⟩ : ∃ n, fuel = n + 1 := ⟨fuel - 1, by simp at hf; omega⟩
    simp [ValidatePos_loop, firstSelectable]
  | x :: w, p, fuel, hs, hn, hf => by
    obtain ⟨n, rfl⟩ : ∃ n, fuel = n + 1 := ⟨fuel - 1, by simp at hf; omega⟩
    have hx : x ≠ pos := fun h => hn (h ▸ List.mem_cons_self _ _)
    simp only [ValidatePos_loop, List.headD_cons, hx, if_false, if_true, firstSelectable_cons]
    split_ifs with h
    · rfl
    · rw [hs.2.1]
      exact ValidatePos_loop_forward c mem pos w x n hs.2.2
        (fun h => hn (List.mem_cons_of_mem _ h)) (by simp at hf; omega)

/-- The backward walk of `ValidatePos`: `wr` lists the nodes in the order the walk meets them. -/
theorem ValidatePos_loop_backward (c : Config) (mem : Nat → inven_item) (pos : Nat) :
    ∀ (wr : List Nat) (q : Nat) (fuel : Nat), Seg mem pos wr.reverse q → pos ∉ wr →
      wr.length < fuel →
      ValidatePos_loop c mem false pos fuel (wr.headD pos) = some (firstSelectable c mem wr)
  | [], _, fuel, _, _, hf => by
    obtain ⟨n, rfl⟩ : ∃ n, fuel = n + 1 := ⟨fuel - 1, by simp at hf; omega⟩
    simp [ValidatePos_loop, firstSelectable]
  | x :: w, q, fuel, hs, hn, hf => by
    obtain ⟨n, rfl⟩ : ∃ n, fuel = n + 1 := ⟨fuel - 1, by simp at hf; omega⟩
    have hx : x ≠ pos := fun h => hn (h ▸ List.mem_cons_self _ _)
    simp only [ValidatePos_loop, List.headD_cons, hx, Bool.false_eq_true, if_false,
      firstSelectable_cons]
    rw [List.reverse_cons, seg_append] at hs
    split_ifs with h
    · rfl
    · have hp : (mem x).prev = w.headD pos := by
        rw [hs.2.1, List.getLastD_eq_getLast?, List.getLast?_reverse, List.headD_eq_head?_getD]
      rw [hp]
      exact ValidatePos_loop_backward c mem pos w _ n hs.1
        (fun h => hn (List.mem_cons_of_mem _ h)) (by simp at hf; omega)

theorem cursorWalk_cons (forward : Bool) (b : Nat) (w : List Nat) :
    cursorWalk forward (b :: w) = b :: (if forward then w else w.reverse) := by
  cases forward <;> simp [cursorWalk]

/-- `ValidatePos` on a ring read from the cursor: the cursor moves to the first selectable
node in walking order, or becomes null. -/
theorem ValidatePos_links (c : Config) (fuel : Nat) (s : Inventory) (forward : Bool) (b : Nat)
    (w : List Nat) (hl : Links s.mem (b :: w)) (hpos : s.pos = b) (hf : w.length < fuel) :
    s.ValidatePos c fuel forward =
      some { s with pos := firstSelectable c s.mem (cursorWalk forward (b :: w)) } := by
  obtain ⟨hnd, h0, hs⟩ := hl
  have hb0 : b ≠ 0 := fun h => h0 (h ▸ List.mem_cons_self _ _)
  have hbw : b ∉ w := (List.nodup_cons.1 hnd).1
  unfold Inventory.ValidatePos
  rw [hpos, cursorWalk_cons, firstSelectable_cons]
  simp only [hb0, if_false]
  by_cases h1 : (s.mem b).iflags &&& c.INVF_SELECTABLE ≠ 0
  · rw [if_pos h1, if_pos h1]
    cases s; simp_all
  · rw [if_neg h1, if_neg h1]
    simp only [List.headD_cons] at hs
    cases forward with
    | true =>
      simp only [if_true]
      rw [hs.2.1, ValidatePos_loop_forward c s.mem b w b fuel hs.2.2 hbw hf]
    | false =>
      have hp : (s.mem b).prev = w.reverse.headD b := by
        rw [hs.1, List.getLastD_cons, List.getLastD_eq_getLast?, List.headD_eq_head?_getD,
          List.head?_reverse]
      have hs2 : Seg s.mem b w.reverse.reverse b := by rw [List.reverse_reverse]; exact hs.2.2
      simp only [Bool.false_eq_true, if_false]
      rw [hp, ValidatePos_loop_backward c s.mem b w.reverse b fuel hs2 (by simpa using hbw)
        (by simpa using hf)]

/-! ### `RemoveNode` -/

/-- The two stores of the head branch of `RemoveNode`: `n->prev = p; p->next = n`. -/
theorem unlink_head_mem (mem : Nat → inven_item) (n p x : Nat) :
    ((setNode (setNode mem n { mem n with prev := p }) p
        { setNode mem n { mem n with prev := p } p with next := n }) x).next =
        (if x = p then n else (mem x).next) ∧
      ((setNode (setNode mem n { mem n with prev := p }) p
        { setNode mem n { mem n with prev := p } p with next := n }) x).prev =
        (if x = n then p else (mem x).prev) ∧
      ((setNode (setNode mem n { mem n with prev := p }) p
        { setNode mem n { mem n with prev := p } p with next := n }) x).toItemData =
        (mem x).toItemData := by
  simp only [setNode_apply]
  by_cases h1 : x = p
  · subst h1
    by_cases h2 : x = n
    · subst h2; simp
    · simp [h2]
  · by_cases h2 : x = n
    · subst h2; simp [h1]
    · simp [h1, h2]

/-- The two stores of the inner branch of `RemoveNode`: `prev->next = next; next->prev = prev`. -/
theorem unlink_inner_mem (mem : Nat → inven_item) (n p x : Nat) :
    ((setNode (setNode mem p { mem p with next := n }) n
        { setNode mem p { mem p with next := n } n with prev := p }) x).next =
        (if x = p then n else (mem x).next) ∧
      ((setNode (setNode mem p { mem p with next := n }) n
        { setNode mem p { mem p with next := n } n with prev := p }) x).prev =
        (if x = n then p else (mem x).prev) ∧
      ((setNode (setNode mem p { mem p with next := n }) n
        { setNode mem p { mem p with next := n } n with prev := p }) x).toItemData =
        (mem x).toItemData := by
  simp only [setNode_apply]
  by_cases h1 : x = p
  · subst h1
    by_cases h2 : x = n
    · subst h2; simp
    · simp [h2]
  · by_cases h2 : x = n
    · subst h2; simp [h1]
    · simp [h1, h2]

/-- Unlinking the node in front of the ring `b :: w` (read from its successor `b`). -/
theorem links_unlink {mem mem2 : Nat → inven_item} {a b : Nat} {w : List Nat}
    (hl : Links mem (a :: b :: w))
    (hn : ∀ x, (mem2 x).next = if x = (mem a).prev then (mem a).next else (mem x).next)
    (hp : ∀ x, (mem2 x).prev = if x = (mem a).next then (mem a).prev else (mem x).prev) :
    Links mem2 (b :: w) := by
  obtain ⟨hnd, h0, hs⟩ := hl
  have hnext : (mem a).next = b := hs.2.1
  have hprev : (mem a).prev = (b :: w).getLastD 0 := hs.1
  rw [hnext, hprev] at hn hp
  refine ⟨(List.nodup_cons.1 hnd).2, fun h => h0 (List.mem_cons_of_mem _ h), ?_⟩
  refine seg_rebound (b :: w) a a _ _ (List.nodup_cons.1 hnd).2 hs.2.2 ?_ ?_ ?_ ?_
  · intro x _ hx
    rw [hp x]
    exact if_neg hx
  · intro x _ hx
    rw [hn x]
    exact if_neg hx
  · intro x hx
    simp only [List.head?_cons, Option.some.injEq] at hx
    subst hx
    rw [hp, if_pos rfl]
  · intro x hx
    rw [hn, if_pos (getLastD_of_getLast? 0 hx).symm]
    rfl

theorem firstSelectable_congr (c : Config) {mem mem2 : Nat → inven_item} (w : List Nat)
    (h : ∀ x, (mem2 x).toItemData = (mem x).toItemData) :
    firstSelectable c mem2 w = firstSelectable c mem w := by
  unfold firstSelectable
  have : (fun a => decide ((mem2 a).iflags &&& c.INVF_SELECTABLE ≠ 0)) =
      fun a => decide ((mem a).iflags &&& c.INVF_SELECTABLE ≠ 0) := by
    funext a
    rw [show (mem2 a).iflags = (mem a).iflags from congrArg ItemData.iflags (h a)]
  rw [this]

theorem cursorWalk_subset (forward : Bool) (w : List Nat) (x : Nat)
    (h : x ∈ cursorWalk forward w) : x ∈ w := by
  cases w with
  | nil => cases forward <;> simp [cursorWalk] at h
  | cons b t =>
    rw [cursorWalk_cons] at h
    cases forward <;> simpa using h

theorem RemoveNode_spec (c : Config) (fuel : Nat) (s : Inventory) (a : Nat) (l1 l2 : List Nat)
    (hr : InvRing s (l1 ++ a :: l2)) (hf : (l1 ++ l2).length ≤ fuel) :
    ∃ s2, s.RemoveNode c fuel a = some s2 ∧ InvRing s2 (l1 ++ l2) ∧
      (∀ x, (s2.mem x).toItemData = (s.mem x).toItemData) ∧ s2.brk = s.brk ∧
      s2.pos = if s.pos = a
        then firstSelectable c s.mem (cursorWalk c.ValidatePos_forward (l2 ++ l1)) else s.pos := by
  obtain ⟨hc, hroot, hl, hfresh, hb, hpos⟩ := hr
  have hrot : Links s.mem (a :: (l2 ++ l1)) := links_rotate l1 (a :: l2) hl
  have ha0 : a ≠ 0 := fun h => hrot.2.1 (h ▸ List.mem_cons_self _ _)
  have hal1 : a ∉ l1 := by
    have := hl.1
    rw [List.nodup_append] at this
    exact fun h => this.2.2 h (List.mem_cons_self _ _)
  have hal2 : a ∉ l2 := by
    have := hl.1
    rw [List.nodup_append] at this
    exact (List.nodup_cons.1 this.2.1).1
  have hrootiff : a = s.root ↔ l1 = [] := by
    rw [hroot]
    cases l1 with
    | nil => simp
    | cons x t =>
      simp only [List.cons_append, List.headD_cons, reduceCtorEq, iff_false]
      intro h; exact hal1 (h ▸ List.mem_cons_self _ _)
  have hcount : s.count - 1 = ((l1 ++ l2).length : Int) := by
    rw [hc]; simp only [List.length_append, List.length_cons]; push_cast; ring
  have hfresh2 : ∀ x ∈ l1 ++ l2, x < s.brk := by
    intro x hx
    apply hfresh
    rcases List.mem_append.1 hx with h | h
    · exact List.mem_append_left _ h
    · exact List.mem_append_right _ (List.mem_cons_of_mem _ h)
  have hpos2 : s.pos ≠ a → (s.pos = 0 ∨ s.pos ∈ l1 ++ l2) := by
    intro hne
    rcases hpos with h | h
    · exact Or.inl h
    · right
      rcases List.mem_append.1 h with h | h
      · exact List.mem_append_left _ h
      · rcases List.mem_cons.1 h with h | h
        · exact absurd h hne
        · exact List.mem_append_right _ h
  cases hw : l2 ++ l1 with
  | nil =>
    obtain ⟨rfl, rfl⟩ : l2 = [] ∧ l1 = [] := List.append_eq_nil.1 hw
    have hnext : (s.mem a).next = a := hl.2.2.2.1
    have hra : s.root = a := by simpa using hroot
    refine ⟨{ s with count := s.count - 1, pos := if s.pos = a then 0 else s.pos, root := 0 },
      ?_, ⟨hcount, rfl, ⟨by simp, by simp, trivial⟩, by simp, hb, ?_⟩, fun _ => rfl, rfl, ?_⟩
    · unfold Inventory.RemoveNode
      simp only [ha0, if_false, hra, hnext, ne_eq, not_true_eq_false, and_false, decide_False,
        if_true]
      by_cases hp : s.pos = a
      · simp [hp, hnext, hra]
      · simp [hp, hnext, hra]
    · by_cases hp : s.pos = a
      · simp [hp]
      · simpa [hp] using hpos2 hp
    · simp [cursorWalk, firstSelectable]
  | cons b w =>
    rw [hw] at hrot
    have hnext : (s.mem a).next = b := hrot.2.2.2.1
    have hba : b ≠ a := by
      have := (List.nodup_cons.1 hrot.1).1
      exact fun h => this (h ▸ List.mem_cons_self _ _)
    have h3 : ∃ s3 : Inventory,
        s.RemoveNode c fuel a =
          (if s.pos = a then s3.ValidatePos c fuel c.ValidatePos_forward else some s3) ∧
        s3.count = s.count - 1 ∧ s3.root = (if a = s.root then b else s.root) ∧
        s3.brk = s.brk ∧ s3.pos = (if s.pos = a then b else s.pos) ∧
        (∀ x, (s3.mem x).next = if x = (s.mem a).prev then (s.mem a).next else (s.mem x).next) ∧
        (∀ x, (s3.mem x).prev = if x = (s.mem a).next then (s.mem a).prev else (s.mem x).prev) ∧
        (∀ x, (s3.mem x).toItemData = (s.mem x).toItemData) := by
      by_cases hra : a = s.root
      · refine ⟨{ s with
          count := s.count - 1
          pos := if s.pos = a then b else s.pos
          root := b
          mem := setNode (setNode s.mem b { s.mem b with prev := (s.mem a).prev }) (s.mem a).prev
            { setNode s.mem b { s.mem b with prev := (s.mem a).prev } (s.mem a).prev
              with next := b } }, ?_, rfl, by simp [hra], rfl, rfl, ?_, ?_, ?_⟩
        · unfold Inventory.RemoveNode
          by_cases hp : s.pos = a
          · simp [ha0, ← hra, hp, hnext, hba]
          · simp [ha0, ← hra, hp, hnext, hba]
        · intro x; rw [hnext]; exact (unlink_head_mem s.mem b _ x).1
        · intro x; rw [hnext]; exact (unlink_head_mem s.mem b _ x).2.1
        · intro x; exact (unlink_head_mem s.mem b _ x).2.2
      · refine ⟨{ s with
          count := s.count - 1
          pos := if s.pos = a then b else s.pos
          mem := setNode (setNode s.mem (s.mem a).prev { s.mem (s.mem a).prev with next := b }) b
            { setNode s.mem (s.mem a).prev { s.mem (s.mem a).prev with next := b } b
              with prev := (s.mem a).prev } }, ?_, rfl, by simp [hra], rfl, rfl, ?_, ?_, ?_⟩
        · unfold Inventory.RemoveNode
          by_cases hp : s.pos = a
          · simp [ha0, hra, hp, hnext, hba]
          · simp [ha0, hra, hp, hnext, hba]
        · intro x; rw [hnext]; exact (unlink_inner_mem s.mem b _ x).1
        · intro x; rw [hnext]; exact (unlink_inner_mem s.mem b _ x).2.1
        · intro x; exact (unlink_inner_mem s.mem b _ x).2.2
    obtain ⟨s3, e0, e1, e2, e3, e4, e5, e6, e7⟩ := h3
    have hl3 : Links s3.mem (b :: w) := links_unlink hrot e5 e6
    have hl3b : Links s3.mem (l1 ++ l2) := by
      have := links_rotate l2 l1 (hw ▸ hl3)
      exact this
    have hroot3 : s3.root = (l1 ++ l2).headD 0 := by
      rw [e2]
      by_cases hra : a = s.root
      · rw [if_pos hra]
        have h1 : l1 = [] := hrootiff.1 hra
        subst h1
        simp only [List.append_nil] at hw
        rw [hw]; rfl
      · rw [if_neg hra, hroot]
        have h1 : l1 ≠ [] := fun h => hra (hrootiff.2 h)
        rw [headD_append_ne_nil _ _ h1, headD_append_ne_nil _ _ h1]
    have hbmem : b ∈ l1 ++ l2 := by
      have : b ∈ l2 ++ l1 := hw ▸ List.mem_cons_self _ _
      simpa [or_comm] using this
    by_cases hp : s.pos = a
    · rw [if_pos hp] at e0 e4
      have hwf : w.length < fuel := by
        have : (l2 ++ l1).length = (b :: w).length := by rw [hw]
        simp only [List.length_append, List.length_cons] at this hf
        omega
      have hv := ValidatePos_links c fuel s3 c.ValidatePos_forward b w hl3 e4 hwf
      refine ⟨_, e0.trans hv, ⟨?_, hroot3, hl3b, ?_, ?_, ?_⟩, e7, e3, ?_⟩
      · exact e1.trans hcount
      · rw [e3]; exact hfresh2
      · rw [e3]; exact hb
      · rcases firstSelectable_mem_or c s3.mem (cursorWalk c.ValidatePos_forward (b :: w)) with h | h
        · exact Or.inl h
        · have hsub : ∀ x ∈ b :: w, x ∈ l1 ++ l2 := by
            rw [← hw]; intro x hx; simpa [or_comm] using hx
          exact Or.inr (hsub _ (cursorWalk_subset _ _ _ h.1))
      · rw [if_pos hp]
        exact firstSelectable_congr c _ e7
    · rw [if_neg hp] at e0 e4
      refine ⟨s3, e0, ⟨e1.trans hcount, hroot3, hl3b, by rw [e3]; exact hfresh2,
        by rw [e3]; exact hb, by rw [e4]; exact hpos2 hp⟩, e7, e3, ?_⟩
      rw [if_neg hp, e4]

/-! ### Claims C1 and C4 -/

/-- C1: when `Size` equals `MAX_UNIQUE_INVEN_ITEMS`, `Add`, `AddCounterMeasure`, `AddObject`
(and the inner `AddObjectItem`) return false and hand back the inventory state they were
given (entry count, ring store, head and cursor) and the engine state, whatever key or
object handle is added. -/
theorem capacity_add_fails (c : Config) (s : Inventory) (eng : Engine) (type id : Int)
    (parent : Option object) (aux_type aux_id : Int) (flags : Nat) (description : Option CStr)
    (object_handle : Int) (hfull : s.Size = c.MAX_UNIQUE_INVEN_ITEMS) :
    s.Add c type id parent aux_type aux_id flags description = some (false, s) ∧
      s.AddCounterMeasure c id aux_type aux_id flags description = some (false, s) ∧
      s.AddObjectItem c type id aux_type aux_id flags description = some (false, s) ∧
      s.AddObject c eng object_handle flags description = (false, s, eng) := by
  have h : s.count ≥ c.MAX_UNIQUE_INVEN_ITEMS := by
    simp only [Inventory.Size] at hfull; omega
  refine ⟨?_, ?_, ?_, ?_⟩
  · simp [Inventory.Add, h]
  · simp [Inventory.AddCounterMeasure, h]
  · simp [Inventory.AddObjectItem, h]
  · simp [Inventory.AddObject, h]

/-- The hypothesis of `capacity_add_fails` holds for a full two-entry inventory. -/
theorem capacity_add_fails_witness :
    WF exConfigTwo exTwo [1, 2] ∧ exTwo.Size = exConfigTwo.MAX_UNIQUE_INVEN_ITEMS ∧
      (exTwo.Add exConfigTwo 2 7 none (-1) (-1) 0 none = some (false, exTwo) ∧
        exTwo.AddCounterMeasure exConfigTwo 7 (-1) (-1) 0 none = some (false, exTwo) ∧
        exTwo.AddObjectItem exConfigTwo 2 7 (-1) (-1) 0 none = some (false, exTwo) ∧
        exTwo.AddObject exConfigTwo exEngine 700 0 none = (false, exTwo, exEngine)) :=
  ⟨by decide, by decide,
    capacity_add_fails exConfigTwo exTwo exEngine 2 7 none (-1) (-1) 0 none 700 (by decide)⟩

/-- C4: on an inventory below capacity, `AddObject` of a handle that resolves returns true
and never merges: `Size` grows by one, the ring is the old ring followed by the new node at
the tail, the old entries keep their fields, and the new entry is object-backed
(`INVF_OBJECT` set, stack count 1, key `(handle, -1)`). Nothing is assumed about the entries
already held, so an entry with the same type/id or the same handle changes nothing. -/
theorem addObject_appends (c : Config) (s : Inventory) (eng : Engine) (object_handle : Int)
    (flags : Nat) (description : Option CStr) (l : List Nat) (obj : object)
    (hr : InvRing s l) (hcap : s.Size < c.MAX_UNIQUE_INVEN_ITEMS)
    (hobj : ObjGet eng object_handle = some obj) (hO : c.INVF_OBJECT ≠ 0) :
    ∃ s2 eng2, s.AddObject c eng object_handle flags description = (true, s2, eng2) ∧
      s2.Size = s.Size + 1 ∧ InvRing s2 (l ++ [s.brk]) ∧ s2.entries l = s.entries l ∧
      (s2.mem s.brk).iflags &&& c.INVF_OBJECT ≠ 0 ∧ (s2.mem s.brk).count = 1 ∧
      (s2.mem s.brk).type = object_handle ∧ (s2.mem s.brk).id = -1 :=
  AddObject_spec c s eng object_handle flags description l obj hr hcap hobj hO

/-- The hypotheses of `addObject_appends` hold when the object at handle 700 is added to an
inventory that already holds an entry for the same handle. -/
theorem addObject_appends_witness :
    InvRing exObjOne [1] ∧ exObjOne.Size < exConfig.MAX_UNIQUE_INVEN_ITEMS ∧
      ObjGet exEngine 700 = some exObject ∧ exConfig.INVF_OBJECT ≠ 0 ∧
      ∃ s2 eng2, exObjOne.AddObject exConfig exEngine 700 0 none = (true, s2, eng2) ∧
        s2.Size = exObjOne.Size + 1 ∧ InvRing s2 ([1] ++ [exObjOne.brk]) ∧
        s2.entries [1] = exObjOne.entries [1] ∧
        (s2.mem exObjOne.brk).iflags &&& exConfig.INVF_OBJECT ≠ 0 ∧
        (s2.mem exObjOne.brk).count = 1 ∧
        (s2.mem exObjOne.brk).type = 700 ∧ (s2.mem exObjOne.brk).id = -1 :=
  ⟨by decide, by decide, by decide, by decide,
    addObject_appends exConfig exObjOne exEngine 700 0 none [1] exObject
      (by decide) (by decide) (by decide) (by decide)⟩

/-! ### `Remove` -/

theorem firstMatch_append_cons (mem : Nat → inven_item) (type id : Int) (l1 l2 : List Nat)
    (e : Nat) (hkey : (mem e).type = type ∧ (mem e).id = id)
    (hfirst : ∀ x ∈ l1, ¬ ((mem x).type = type ∧ (mem x).id = id)) :
    firstMatch mem type id (l1 ++ e :: l2) = e := by
  unfold firstMatch
  induction l1 with
  | nil => simp [List.find?_cons, hkey]
  | cons x t ih =>
    have hx := hfirst x (List.mem_cons_self _ _)
    simp only [List.cons_append, List.find?_cons, hx, decide_False]
    exact ih (fun y hy => hfirst y (List.mem_cons_of_mem _ hy))

/-- With pairwise distinct keys, the entry holding a key is the first match. -/
theorem firstMatch_unique (mem : Nat → inven_item) (type id : Int) (l1 l2 : List Nat) (e : Nat)
    (hkey : (mem e).type = type ∧ (mem e).id = id)
    (hu : ((l1 ++ e :: l2).map fun a => ((mem a).type, (mem a).id)).Nodup) :
    firstMatch mem type id (l1 ++ e :: l2) = e := by
  apply firstMatch_append_cons _ _ _ _ _ _ hkey
  intro x hx hk
  rw [List.map_append, List.nodup_append] at hu
  have h1 : ((mem x).type, (mem x).id) ∈ l1.map fun a => ((mem a).type, (mem a).id) :=
    List.mem_map.2 ⟨x, hx, rfl⟩
  have h2 : ((mem x).type, (mem x).id) ∈ (e :: l2).map fun a => ((mem a).type, (mem a).id) := by
    rw [hk.1, hk.2, ← hkey.1, ← hkey.2]
    exact List.mem_map.2 ⟨e, List.mem_cons_self _ _, rfl⟩
  exact hu.2.2 h1 h2

theorem invRing_congr {s s2 : Inventory} {l : List Nat} (hr : InvRing s l)
    (hmem : ∀ x, (s2.mem x).next = (s.mem x).next ∧ (s2.mem x).prev = (s.mem x).prev)
    (hroot : s2.root = s.root) (hcount : s2.count = s.count) (hbrk : s2.brk = s.brk)
    (hpos : s2.pos = s.pos ∨ s2.pos ∈ l) : InvRing s2 l := by
  obtain ⟨h1, h2, h3, h4, h5, h6⟩ := hr
  refine ⟨hcount.trans h1, hroot.trans h2, links_congr (fun x _ => hmem x) h3,
    by rw [hbrk]; exact h4, by rw [hbrk]; exact h5, ?_⟩
  rcases hpos with h | h
  · rw [h]; exact h6
  · exact Or.inr h

/-- Clearing a bit of a 32-bit flag word: `flags &= ~bit`. -/
theorem clear_bit_and (x f : Nat) (hf : f < 4294967296) : (x &&& (4294967295 - f)) &&& f = 0 := by
  apply Nat.eq_of_testBit_eq
  intro i
  have h := Nat.testBit_two_pow_sub_succ (x := f) (n := 32) (by norm_num; exact hf) i
  have e : (2 : Nat) ^ 32 - (f + 1) = 4294967295 - f := by norm_num; omega
  rw [e] at h
  simp only [Nat.testBit_and, h, Nat.zero_testBit]
  cases f.testBit i <;> simp

theorem mem_middle_ne {l1 l2 : List Nat} {e x : Nat} (hnd : (l1 ++ e :: l2).Nodup)
    (hx : x ∈ l1 ++ l2) : x ≠ e := by
  rw [List.nodup_append] at hnd
  intro h
  subst h
  rcases List.mem_append.1 hx with h | h
  · exact hnd.2.2 h (List.mem_cons_self _ _)
  · exact (List.nodup_cons.1 hnd.2.1).1 h

theorem firstSelectable_congr_on (c : Config) {mem mem2 : Nat → inven_item} (w : List Nat)
    (h : ∀ x ∈ w, (mem2 x).toItemData = (mem x).toItemData) :
    firstSelectable c mem2 w = firstSelectable c mem w := by
  induction w with
  | nil => rfl
  | cons x t ih =>
    rw [firstSelectable_cons, firstSelectable_cons,
      ih (fun y hy => h y (List.mem_cons_of_mem _ hy)),
      show (mem2 x).iflags = (mem x).iflags from
        congrArg ItemData.iflags (h x (List.mem_cons_self _ _))]

/-- After `unmarkObject` the object at the handle, if there is one, has its
held-in-inventory bit cleared and is otherwise unchanged; all other objects stay. -/
theorem unmarkObject_spec (c : Config) (eng : Engine) (handle : Int)
    (hf : c.OF_INPLAYERINVENTORY < 4294967296) :
    (∀ obj, ObjGet eng handle = some obj →
      ∃ obj2, ObjGet (unmarkObject c eng handle) handle = some obj2 ∧
        obj2.flags &&& c.OF_INPLAYERINVENTORY = 0 ∧ obj2.type = obj.type ∧ obj2.id = obj.id) ∧
    (ObjGet eng handle = none → unmarkObject c eng handle = eng) ∧
    (∀ h, h ≠ handle → ObjGet (unmarkObject c eng handle) h = ObjGet eng h) := by
  refine ⟨?_, ?_, ?_⟩
  · intro obj ho
    refine ⟨{ obj with flags := obj.flags &&& (4294967295 - c.OF_INPLAYERINVENTORY) }, ?_,
      clear_bit_and _ _ hf, rfl, rfl⟩
    simp only [unmarkObject, ho]
    simp [ObjGet, setObject]
  · intro ho
    simp only [unmarkObject, ho]
  · intro h hne
    unfold unmarkObject
    cases ho : ObjGet eng handle with
    | none => rfl
    | some obj => simp [ObjGet, setObject, hne]

/-- `Remove` of an object-backed entry. -/
theorem Remove_object (c : Config) (fuel : Nat) (s : Inventory) (eng : Engine) (type id : Int)
    (l1 l2 : List Nat) (e : Nat) (hr : InvRing s (l1 ++ e :: l2))
    (hfm : firstMatch s.mem type id (l1 ++ e :: l2) = e)
    (hobj : (s.mem e).iflags &&& c.INVF_OBJECT ≠ 0) (hf : (l1 ++ l2).length ≤ fuel) :
    ∃ s2, s.Remove c fuel eng type id = some (true, s2, unmarkObject c eng type) ∧
      InvRing s2 (l1 ++ l2) ∧ (∀ x, (s2.mem x).toItemData = (s.mem x).toItemData) ∧
      s2.brk = s.brk ∧
      s2.pos = if s.pos = e
        then firstSelectable c s.mem (cursorWalk c.ValidatePos_forward (l2 ++ l1)) else s.pos := by
  obtain ⟨s2, h1, h2, h3, h4, h5⟩ := RemoveNode_spec c fuel s e l1 l2 hr hf
  have he0 : e ≠ 0 := fun h => hr.2.2.1.2.1 (h ▸ List.mem_append_right _ (List.mem_cons_self _ _))
  refine ⟨s2, ?_, h2, h3, h4, h5⟩
  unfold Inventory.Remove
  rw [FindItem_spec s _ type id hr, hfm]
  simp only [he0, if_false, hobj, if_true, ne_eq, not_false_eq_true, h1]

/-- `Remove` of the last item of an abstract stack. -/
theorem Remove_last (c : Config) (fuel : Nat) (s : Inventory) (eng : Engine) (type id : Int)
    (l1 l2 : List Nat) (e : Nat) (hr : InvRing s (l1 ++ e :: l2))
    (hfm : firstMatch s.mem type id (l1 ++ e :: l2) = e)
    (hobj : (s.mem e).iflags &&& c.INVF_OBJECT = 0) (hcount : (s.mem e).count ≤ 1)
    (hf : (l1 ++ l2).length ≤ fuel) :
    ∃ s2, s.Remove c fuel eng type id = some (true, s2, eng) ∧
      InvRing s2 (l1 ++ l2) ∧ (∀ x, x ≠ e → (s2.mem x).toItemData = (s.mem x).toItemData) ∧
      s2.brk = s.brk ∧
      s2.pos = if s.pos = e
        then firstSelectable c s.mem (cursorWalk c.ValidatePos_forward (l2 ++ l1)) else s.pos := by
  have he0 : e ≠ 0 := fun h => hr.2.2.1.2.1 (h ▸ List.mem_append_right _ (List.mem_cons_self _ _))
  have hr1 : InvRing (s.modify e fun it => { it with count := it.count - 1 }) (l1 ++ e :: l2) := by
    refine invRing_congr hr ?_ rfl rfl rfl (Or.inl rfl)
    intro x
    by_cases hx : x = e
    · subst hx; simp
    · simp [modify_mem_other _ _ _ _ hx]
  obtain ⟨s2, h1, h2, h3, h4, h5⟩ := RemoveNode_spec c fuel _ e l1 l2 hr1 hf
  refine ⟨s2, ?_, h2, ?_, h4, ?_⟩
  · unfold Inventory.Remove
    rw [FindItem_spec s _ type id hr, hfm]
    have hobj2 : ¬ (s.mem e).iflags &&& c.INVF_OBJECT ≠ 0 := by simp [hobj]
    simp only [he0, if_false, hobj2]
    have hle : (setNode s.mem e { s.mem e with count := (s.mem e).count - 1 } e).count ≤ 0 := by
      simp; omega
    simp only [hle, if_true]
    have : s.modify e (fun it => { it with count := it.count - 1 }) =
        { s with mem := setNode s.mem e { s.mem e with count := (s.mem e).count - 1 } } := rfl
    rw [← this, h1]
  · intro x hx
    rw [h3 x, modify_mem_other _ _ _ _ hx]
  · rw [h5]
    simp only [modify_pos]
    split_ifs
    · apply firstSelectable_congr_on
      intro x hx
      have hx2 : x ∈ l1 ++ l2 := by
        have := cursorWalk_subset _ _ _ hx
        simpa [or_comm] using this
      rw [modify_mem_other _ _ _ _ (mem_middle_ne hr.2.2.1.1 hx2)]
    · rfl

/-- `Remove` of one item of an abstract stack that holds more than one. -/
theorem Remove_dec (c : Config) (fuel : Nat) (s : Inventory) (eng : Engine) (type id : Int)
    (l1 l2 : List Nat) (e : Nat) (hr : InvRing s (l1 ++ e :: l2))
    (hfm : firstMatch s.mem type id (l1 ++ e :: l2) = e)
    (hobj : (s.mem e).iflags &&& c.INVF_OBJECT = 0) (hcount : 1 < (s.mem e).count) :
    s.Remove c fuel eng type id =
        some (true, s.modify e fun it => { it with count := it.count - 1 }, eng) ∧
      InvRing (s.modify e fun it => { it with count := it.count - 1 }) (l1 ++ e :: l2) := by
  have he0 : e ≠ 0 := fun h => hr.2.2.1.2.1 (h ▸ List.mem_append_right _ (List.mem_cons_self _ _))
  have hr1 : InvRing (s.modify e fun it => { it with count := it.count - 1 }) (l1 ++ e :: l2) := by
    refine invRing_congr hr ?_ rfl rfl rfl (Or.inl rfl)
    intro x
    by_cases hx : x = e
    · subst hx; simp
    · simp [modify_mem_other _ _ _ _ hx]
  refine ⟨?_, hr1⟩
  unfold Inventory.Remove
  rw [FindItem_spec s _ type id hr, hfm]
  have hobj2 : ¬ (s.mem e).iflags &&& c.INVF_OBJECT ≠ 0 := by simp [hobj]
  simp only [he0, if_false, hobj2]
  have hle : ¬ (setNode s.mem e { s.mem e with count := (s.mem e).count - 1 } e).count ≤ 0 := by
    simp; omega
  simp only [hle, if_false]
  rfl

/-! ### Claims C3 and C5 -/

theorem entries_append (s : Inventory) (l1 l2 : List Nat) :
    s.entries (l1 ++ l2) = s.entries l1 ++ s.entries l2 := by
  simp [Inventory.entries]

theorem wf_firstMatch {c : Config} {s : Inventory} {l1 l2 : List Nat} {e : Nat} {type id : Int}
    (hwf : WF c s (l1 ++ e :: l2)) (hkey : (s.mem e).type = type ∧ (s.mem e).id = id) :
    firstMatch s.mem type id (l1 ++ e :: l2) = e :=
  firstMatch_unique s.mem type id l1 l2 e hkey hwf.2.2

/-- C3: on a well-formed inventory holding the entry `e` (ring `l1 ++ e :: l2`) with key
`(kind, id)`, `Remove kind id` returns true, and
* if `e` is object-backed, `e` is unlinked (ring `l1 ++ l2`, `Size` one less) and the object
  the handle resolves to has its held-in-inventory bit cleared;
* if `e` is abstract with stack count above 1, the ring and `Size` are unchanged and `e`
  stays in place with its count lowered by one and its other fields unchanged;
* if `e` is abstract with stack count 1, `e` is unlinked (ring `l1 ++ l2`, `Size` one less).
In every case the other entries keep their fields and their order. -/
theorem remove_entry (c : Config) (fuel : Nat) (s : Inventory) (eng : Engine) (kind id : Int)
    (l1 l2 : List Nat) (e : Nat) (hwf : WF c s (l1 ++ e :: l2))
    (hkey : (s.mem e).type = kind ∧ (s.mem e).id = id) (hfuel : (l1 ++ l2).length ≤ fuel)
    (hbit : c.OF_INPLAYERINVENTORY < 4294967296) :
    ∃ s2 eng2, s.Remove c fuel eng kind id = some (true, s2, eng2) ∧
      ((s.mem e).iflags &&& c.INVF_OBJECT ≠ 0 →
        InvRing s2 (l1 ++ l2) ∧ s2.Size = s.Size - 1 ∧
        s2.entries (l1 ++ l2) = s.entries (l1 ++ l2) ∧
        ∀ obj, ObjGet eng kind = some obj →
          ∃ obj2, ObjGet eng2 kind = some obj2 ∧ obj2.flags &&& c.OF_INPLAYERINVENTORY = 0) ∧
      ((s.mem e).iflags &&& c.INVF_OBJECT = 0 → 1 < (s.mem e).count →
        InvRing s2 (l1 ++ e :: l2) ∧ s2.Size = s.Size ∧
        (s2.mem e).toItemData =
          { (s.mem e).toItemData with count := (s.mem e).count - 1 } ∧
        s2.entries l1 = s.entries l1 ∧ s2.entries l2 = s.entries l2) ∧
      ((s.mem e).iflags &&& c.INVF_OBJECT = 0 → (s.mem e).count = 1 →
        InvRing s2 (l1 ++ l2) ∧ s2.Size = s.Size - 1 ∧
        s2.entries (l1 ++ l2) = s.entries (l1 ++ l2)) := by
  have hr := hwf.1
  have hfm := wf_firstMatch hwf hkey
  have hsize : ∀ s2 : Inventory, InvRing s2 (l1 ++ l2) → s2.Size = s.Size - 1 := by
    intro s2 h2
    simp only [Inventory.Size, h2.1, hr.1, List.length_append, List.length_cons]
    push_cast; ring
  by_cases hobj : (s.mem e).iflags &&& c.INVF_OBJECT ≠ 0
  · obtain ⟨s2, h1, h2, h3, -, -⟩ := Remove_object c fuel s eng kind id l1 l2 e hr hfm hobj hfuel
    refine ⟨s2, _, h1, fun _ => ⟨h2, hsize s2 h2, entries_congr (fun x _ => h3 x), ?_⟩,
      fun h => absurd h hobj, fun h => absurd h hobj⟩
    intro obj ho
    obtain ⟨obj2, g1, g2, -⟩ := (unmarkObject_spec c eng kind hbit).1 obj ho
    exact ⟨obj2, g1, g2⟩
  · have hobj0 : (s.mem e).iflags &&& c.INVF_OBJECT = 0 := by simpa using hobj
    by_cases hcount : 1 < (s.mem e).count
    · obtain ⟨h1, h2⟩ := Remove_dec c fuel s eng kind id l1 l2 e hr hfm hobj0 hcount
      refine ⟨_, _, h1, fun h => absurd h hobj, fun _ _ => ⟨h2, rfl, ?_, ?_, ?_⟩,
        fun _ h => by omega⟩
      · simp
      · apply entries_congr
        intro x hx
        rw [modify_mem_other]
        exact mem_middle_ne hr.2.2.1.1 (List.mem_append_left _ hx)
      · apply entries_congr
        intro x hx
        rw [modify_mem_other]
        exact mem_middle_ne hr.2.2.1.1 (List.mem_append_right _ hx)
    · obtain ⟨s2, h1, h2, h3, -, -⟩ :=
        Remove_last c fuel s eng kind id l1 l2 e hr hfm hobj0 (by omega) hfuel
      refine ⟨s2, _, h1, fun h => absurd h hobj, fun _ h => absurd h hcount,
        fun _ _ => ⟨h2, hsize s2 h2, ?_⟩⟩
      apply entries_congr
      intro x hx
      exact h3 x (mem_middle_ne hr.2.2.1.1 hx)

/-- The hypotheses of `remove_entry` hold for the second entry of `exTwo`. -/
theorem remove_entry_witness :
    WF exConfig exTwo ([1] ++ 2 :: []) ∧
      ((exTwo.mem 2).type = 2 ∧ (exTwo.mem 2).id = 6) ∧ ([1] ++ ([] : List Nat)).length ≤ 5 ∧
      exConfig.OF_INPLAYERINVENTORY < 4294967296 ∧
      ∃ s2 eng2, exTwo.Remove exConfig 5 exEngine 2 6 = some (true, s2, eng2) ∧
        ((exTwo.mem 2).iflags &&& exConfig.INVF_OBJECT ≠ 0 →
          InvRing s2 ([1] ++ []) ∧ s2.Size = exTwo.Size - 1 ∧
          s2.entries ([1] ++ []) = exTwo.entries ([1] ++ []) ∧
          ∀ obj, ObjGet exEngine 2 = some obj →
            ∃ obj2, ObjGet eng2 2 = some obj2 ∧
              obj2.flags &&& exConfig.OF_INPLAYERINVENTORY = 0) ∧
        ((exTwo.mem 2).iflags &&& exConfig.INVF_OBJECT = 0 → 1 < (exTwo.mem 2).count →
          InvRing s2 ([1] ++ 2 :: []) ∧ s2.Size = exTwo.Size ∧
          (s2.mem 2).toItemData =
            { (exTwo.mem 2).toItemData with count := (exTwo.mem 2).count - 1 } ∧
          s2.entries [1] = exTwo.entries [1] ∧ s2.entries [] = exTwo.entries []) ∧
        ((exTwo.mem 2).iflags &&& exConfig.INVF_OBJECT = 0 → (exTwo.mem 2).count = 1 →
          InvRing s2 ([1] ++ []) ∧ s2.Size = exTwo.Size - 1 ∧
          s2.entries ([1] ++ []) = exTwo.entries ([1] ++ [])) :=
  ⟨by decide, by decide, by decide, by decide,
    remove_entry exConfig 5 exTwo exEngine 2 6 [1] [] 2 (by decide) (by decide) (by decide)
      (by decide)⟩

/-- C5, as stated, fails: in the ring `[1, 2]` the cursor is on entry 1, whose ring successor
is entry 2; `Remove` evicts entry 1, one entry remains, and the cursor ends up null, not on
entry 2, because entry 2 is not selectable. -/
theorem remove_cursor_counterexample :
    WF exConfig exTwo [1, 2] ∧ exTwo.pos = 1 ∧ (exTwo.mem 1).next = 2 ∧
      (exTwo.Remove exConfig 5 exEngine 2 5).map (fun r => (r.1, r.2.1.count, r.2.1.pos)) =
        some (true, 1, 0) := by
  decide

/-- C5, amended: when `Remove` evicts the entry `e` under the cursor (`e` object-backed or
an abstract stack of one), then: if `e` was the sole entry the container is empty (`Size` 0,
no head) and the cursor is null; otherwise the cursor is on the first selectable entry met
when walking the ring from `e`'s successor (the successor first, then on in the default
direction of `ValidatePos`), so it is on the successor whenever that is selectable, and it
is null when no remaining entry is selectable. -/
theorem remove_cursor (c : Config) (fuel : Nat) (s : Inventory) (eng : Engine) (kind id : Int)
    (l1 l2 : List Nat) (e : Nat) (hwf : WF c s (l1 ++ e :: l2))
    (hkey : (s.mem e).type = kind ∧ (s.mem e).id = id) (hpos : s.pos = e)
    (hev : (s.mem e).iflags &&& c.INVF_OBJECT ≠ 0 ∨ (s.mem e).count = 1)
    (hfuel : (l1 ++ l2).length ≤ fuel) :
    ∃ s2 eng2, s.Remove c fuel eng kind id = some (true, s2, eng2) ∧ InvRing s2 (l1 ++ l2) ∧
      (l1 ++ l2 = [] → s2.Size = 0 ∧ s2.root = 0 ∧ s2.pos = 0) ∧
      s2.pos = firstSelectable c s.mem (cursorWalk c.ValidatePos_forward (l2 ++ l1)) ∧
      (∀ b w, l2 ++ l1 = b :: w → (s.mem e).next = b ∧
        ((s.mem b).iflags &&& c.INVF_SELECTABLE ≠ 0 → s2.pos = b) ∧
        ((∀ x ∈ b :: w, (s.mem x).iflags &&& c.INVF_SELECTABLE = 0) → s2.pos = 0)) := by
  have hr := hwf.1
  have hfm := wf_firstMatch hwf hkey
  have key : ∃ s2 eng2, s.Remove c fuel eng kind id = some (true, s2, eng2) ∧
      InvRing s2 (l1 ++ l2) ∧
      s2.pos = firstSelectable c s.mem (cursorWalk c.ValidatePos_forward (l2 ++ l1)) := by
    by_cases hobj : (s.mem e).iflags &&& c.INVF_OBJECT ≠ 0
    · obtain ⟨s2, h1, h2, -, -, h5⟩ := Remove_object c fuel s eng kind id l1 l2 e hr hfm hobj hfuel
      exact ⟨s2, _, h1, h2, by rw [h5, if_pos hpos]⟩
    · have hobj0 : (s.mem e).iflags &&& c.INVF_OBJECT = 0 := by simpa using hobj
      have hc : (s.mem e).count = 1 := hev.resolve_left hobj
      obtain ⟨s2, h1, h2, -, -, h5⟩ :=
        Remove_last c fuel s eng kind id l1 l2 e hr hfm hobj0 (by omega) hfuel
      exact ⟨s2, _, h1, h2, by rw [h5, if_pos hpos]⟩
  obtain ⟨s2, eng2, h1, h2, h3⟩ := key
  refine ⟨s2, eng2, h1, h2, ?_, h3, ?_⟩
  · intro hnil
    obtain ⟨rfl, rfl⟩ := List.append_eq_nil.1 hnil
    refine ⟨by simpa [Inventory.Size] using h2.1, by simpa using h2.2.1, ?_⟩
    rw [h3]
    cases c.ValidatePos_forward <;> rfl
  · intro b w hw
    have hrot : Links s.mem (e :: (l2 ++ l1)) := links_rotate l1 (e :: l2) hr.2.2.1
    rw [hw] at hrot
    refine ⟨hrot.2.2.2.1, ?_, ?_⟩
    · intro hsel
      rw [h3, hw, cursorWalk_cons, firstSelectable_cons, if_pos hsel]
    · intro hnone
      rw [h3, hw]
      unfold firstSelectable
      rw [List.find?_eq_none.2]
      · rfl
      · intro x hx
        have := hnone x (cursorWalk_subset _ _ _ hx)
        simp [this]

/-- The hypotheses of `remove_cursor` hold for the first entry of `exTwo`. -/
theorem remove_cursor_witness :
    WF exConfig exTwo ([] ++ 1 :: [2]) ∧ ((exTwo.mem 1).type = 2 ∧ (exTwo.mem 1).id = 5) ∧
      exTwo.pos = 1 ∧
      ((exTwo.mem 1).iflags &&& exConfig.INVF_OBJECT ≠ 0 ∨ (exTwo.mem 1).count = 1) ∧
      (([] : List Nat) ++ [2]).length ≤ 5 ∧
      ∃ s2 eng2, exTwo.Remove exConfig 5 exEngine 2 5 = some (true, s2, eng2) ∧
        InvRing s2 ([] ++ [2]) ∧
        (([] : List Nat) ++ [2] = [] → s2.Size = 0 ∧ s2.root = 0 ∧ s2.pos = 0) ∧
        s2.pos = firstSelectable exConfig exTwo.mem
          (cursorWalk exConfig.ValidatePos_forward ([2] ++ [])) ∧
        (∀ b w, [2] ++ [] = b :: w → (exTwo.mem 1).next = b ∧
          ((exTwo.mem b).iflags &&& exConfig.INVF_SELECTABLE ≠ 0 → s2.pos = b) ∧
          ((∀ x ∈ b :: w, (exTwo.mem x).iflags &&& exConfig.INVF_SELECTABLE = 0) → s2.pos = 0)) :=
  ⟨by decide, by decide, by decide, by decide, by decide,
    remove_cursor exConfig 5 exTwo exEngine 2 5 [] [2] 1 (by decide) (by decide) (by decide)
      (by decide) (by decide)⟩

/-! ### Claim C2 -/

theorem firstMatch_congr {mem mem2 : Nat → inven_item} (type id : Int) (l : List Nat)
    (h : ∀ x ∈ l, (mem2 x).type = (mem x).type ∧ (mem2 x).id = (mem x).id) :
    firstMatch mem2 type id l = firstMatch mem type id l := by
  unfold firstMatch
  induction l with
  | nil => rfl
  | cons x t ih =>
    have hx := h x (List.mem_cons_self _ _)
    have ih2 := ih (fun y hy => h y (List.mem_cons_of_mem _ hy))
    simp only [List.find?_cons, hx.1, hx.2]
    cases decide ((mem x).type = type ∧ (mem x).id = id)
    · exact ih2
    · rfl

/-- An `int` step whose mathematical result fits 32 bits yields that result. -/
theorem wrapInt_eq_self (v : Int) (h1 : -2147483648 ≤ v) (h2 : v < 2147483648) :
    wrapInt v = v := by
  unfold wrapInt
  omega

/-- The values of `wrapInt` fit 32 bits. -/
theorem wrapInt_range (v : Int) : -2147483648 ≤ wrapInt v ∧ wrapInt v < 2147483648 := by
  unfold wrapInt
  omega

/-- The merge path of `AddObjectItem` in general: the first entry with the key gets its stack
count stepped as an `int`; the entry is not filled in again unless that count comes out
as 1. -/
theorem AddObjectItem_merge_wrap (c : Config) (s : Inventory) (otype oid oauxt oauxi : Int)
    (flags : Nat) (description : Option CStr) (l1 l2 : List Nat) (e : Nat)
    (hr : InvRing s (l1 ++ e :: l2)) (hcap : s.count < c.MAX_UNIQUE_INVEN_ITEMS)
    (hfm : firstMatch s.mem otype oid (l1 ++ e :: l2) = e)
    (hne : wrapInt ((s.mem e).count + 1) ≠ 1) :
    ∃ s2, s.AddObjectItem c otype oid oauxt oauxi flags description = some (true, s2) ∧
      s2.mem = (s.modify e fun it => { it with count := wrapInt (it.count + 1) }).mem ∧
      s2.root = s.root ∧ s2.count = s.count ∧ s2.brk = s.brk ∧
      s2.pos = (if (s.mem e).iflags &&& c.INVF_SELECTABLE ≠ 0 then e else s.pos) := by
  have he0 : e ≠ 0 := fun h => hr.2.2.1.2.1 (h ▸ List.mem_append_right _ (List.mem_cons_self _ _))
  have hcap2 : ¬ s.count ≥ c.MAX_UNIQUE_INVEN_ITEMS := by omega
  have hc0 : s.count ≠ 0 := by
    rw [hr.1]; simp only [List.length_append, List.length_cons]; omega
  unfold Inventory.AddObjectItem
  rw [FindItem_spec s _ otype oid hr, hfm]
  simp only [hcap2, hc0, he0, if_false, modify_mem_same, hne]
  by_cases hsel : (s.mem e).iflags &&& c.INVF_SELECTABLE ≠ 0
  · rw [if_pos hsel, if_pos hsel]
    exact ⟨_, rfl, rfl, rfl, rfl, rfl, rfl⟩
  · rw [if_neg hsel, if_neg hsel]
    exact ⟨_, rfl, rfl, rfl, rfl, rfl, rfl⟩

/-- Stepping the stack count of `e` as an `int` is adding one when the count is at least 1
and below the largest `int`. -/
theorem modify_wrap_eq (s : Inventory) (e : Nat) (hlo : 1 ≤ (s.mem e).count)
    (hhi : (s.mem e).count < 2147483647) :
    (s.modify e fun it => { it with count := wrapInt (it.count + 1) }).mem =
      (s.modify e fun it => { it with count := it.count + 1 }).mem := by
  funext x
  rw [modify_mem, modify_mem]
  by_cases hx : x = e
  · rw [if_pos hx, if_pos hx]
    show { s.mem e with count := wrapInt ((s.mem e).count + 1) } = _
    rw [wrapInt_eq_self _ (by omega) (by omega)]
  · rw [if_neg hx, if_neg hx]

/-- The merge path of `AddObjectItem`: the first entry with the key gets one more item, if
its stack count is at least 1 and below the largest `int`. -/
theorem AddObjectItem_merge (c : Config) (s : Inventory) (otype oid oauxt oauxi : Int)
    (flags : Nat) (description : Option CStr) (l1 l2 : List Nat) (e : Nat)
    (hr : InvRing s (l1 ++ e :: l2)) (hcap : s.count < c.MAX_UNIQUE_INVEN_ITEMS)
    (hfm : firstMatch s.mem otype oid (l1 ++ e :: l2) = e) (hlo : 1 ≤ (s.mem e).count)
    (hhi : (s.mem e).count < 2147483647) :
    ∃ s2, s.AddObjectItem c otype oid oauxt oauxi flags description = some (true, s2) ∧
      s2.mem = (s.modify e fun it => { it with count := it.count + 1 }).mem ∧
      s2.root = s.root ∧ s2.count = s.count ∧ s2.brk = s.brk ∧
      s2.pos = (if (s.mem e).iflags &&& c.INVF_SELECTABLE ≠ 0 then e else s.pos) := by
  obtain ⟨s2, h1, h2, h3⟩ := AddObjectItem_merge_wrap c s otype oid oauxt oauxi flags
    description l1 l2 e hr hcap hfm
    (by rw [wrapInt_eq_self _ (by omega) (by omega)]; omega)
  exact ⟨s2, h1, h2.trans (modify_wrap_eq s e hlo hhi), h3⟩

/-- C2, the divergence: `exMax` is well formed and below capacity, and its first entry, the
abstract entry with key (2, 5), has the stack count 2147483647; `Add(2, 5)` returns true and
leaves the stack count -2147483648, not one more. -/
theorem add_merges_counterexample :
    WF exConfig exMax ([] ++ 1 :: [2]) ∧ exMax.Size < exConfig.MAX_UNIQUE_INVEN_ITEMS ∧
      ((exMax.mem 1).type = 2 ∧ (exMax.mem 1).id = 5) ∧
      (exMax.mem 1).iflags &&& exConfig.INVF_OBJECT = 0 ∧ (2 : Int) ≠ exConfig.OBJ_WEAPON ∧
      (exMax.mem 1).count = 2147483647 ∧
      (exMax.Add exConfig 2 5 none (-1) (-1) 0 none).map
          (fun r => (r.1, (r.2.mem 1).count, r.2.Size)) = some (true, -2147483648, 2) := by
  decide

/-- C2, where the stack count does not overflow: on a well-formed inventory below capacity
that holds the abstract entry `e` (ring `l1 ++ e :: l2`) with key `(kind, id)`, `kind` not the
weapon kind, and whose stack count is below the largest `int`, 2147483647, `Add kind id`
returns true, raises the stack count of `e` by exactly one and leaves its other fields, creates no entry (`Size` and the ring
are the same, the entries before and after `e` keep their fields), and `FindItem kind id`
yields `e` before and after the call. -/
theorem add_merges (c : Config) (s : Inventory) (kind id : Int) (parent : Option object)
    (aux_type aux_id : Int) (flags : Nat) (description : Option CStr) (l1 l2 : List Nat)
    (e : Nat) (hwf : WF c s (l1 ++ e :: l2)) (hcap : s.Size < c.MAX_UNIQUE_INVEN_ITEMS)
    (hkey : (s.mem e).type = kind ∧ (s.mem e).id = id)
    (habs : (s.mem e).iflags &&& c.INVF_OBJECT = 0) (hkind : kind ≠ c.OBJ_WEAPON)
    (hmax : (s.mem e).count < 2147483647) :
    ∃ s2, s.Add c kind id parent aux_type aux_id flags description = some (true, s2) ∧
      (s2.mem e).toItemData = { (s.mem e).toItemData with count := (s.mem e).count + 1 } ∧
      s2.Size = s.Size ∧ InvRing s2 (l1 ++ e :: l2) ∧
      s2.entries l1 = s.entries l1 ∧ s2.entries l2 = s.entries l2 ∧
      s.FindItem kind id = some e ∧ s2.FindItem kind id = some e := by
  have hr := hwf.1
  have hfm := wf_firstMatch hwf hkey
  have hok := hwf.2.1 e (List.mem_append_right _ (List.mem_cons_self _ _))
  have habs2 : ¬ (s.mem e).iflags &&& c.INVF_OBJECT ≠ 0 := by simp [habs]
  obtain ⟨-, -, hk0, hk1, hc1⟩ : (s.mem e).iflags &&& c.INVF_OBJECT = 0 ∧ (s.mem e).id ≠ -1 ∧
      0 ≤ (s.mem e).type ∧ (s.mem e).type ≠ c.OBJ_NONE ∧ 1 ≤ (s.mem e).count := by
    rcases hok with h | h
    · exact absurd h.1 habs2
    · exact h
  rw [hkey.1] at hk0 hk1
  obtain ⟨s2, h1, h2, h3, h4, h5, h6⟩ := AddObjectItem_merge c s kind id
    (if aux_type ≠ -1 then aux_type else kind) (if aux_id ≠ -1 then aux_id else id) flags
    description l1 l2 e hr hcap hfm hc1 hmax
  have hmem : ∀ x, x ≠ e → s2.mem x = s.mem x := by
    intro x hx; rw [h2, modify_mem_other _ _ _ _ hx]
  have hme : s2.mem e = { s.mem e with count := (s.mem e).count + 1 } := by
    rw [h2, modify_mem_same]
  have hr2 : InvRing s2 (l1 ++ e :: l2) := by
    refine invRing_congr hr ?_ h3 h4 h5 ?_
    · intro x
      by_cases hx : x = e
      · subst hx; rw [hme]; exact ⟨rfl, rfl⟩
      · rw [hmem x hx]; exact ⟨rfl, rfl⟩
    · rw [h6]
      split_ifs
      · exact Or.inr (List.mem_append_right _ (List.mem_cons_self _ _))
      · exact Or.inl rfl
  refine ⟨s2, ?_, by rw [hme], h4, hr2, ?_, ?_, ?_, ?_⟩
  · unfold Inventory.Add
    have hcap2 : ¬ s.count ≥ c.MAX_UNIQUE_INVEN_ITEMS := by
      simp only [Inventory.Size] at hcap; omega
    have hk : ¬ (kind < 0 ∨ kind = c.OBJ_NONE) := by
      intro h; rcases h with h | h
      · omega
      · exact hk1 h
    simp only [hcap2, hk, if_false, hkind, ne_eq, not_false_eq_true, if_true]
    exact h1
  · apply entries_congr
    intro x hx
    rw [hmem x (mem_middle_ne hr.2.2.1.1 (List.mem_append_left _ hx))]
  · apply entries_congr
    intro x hx
    rw [hmem x (mem_middle_ne hr.2.2.1.1 (List.mem_append_right _ hx))]
  · rw [FindItem_spec s _ kind id hr, hfm]
  · rw [FindItem_spec s2 _ kind id hr2, firstMatch_congr kind id _ ?_, hfm]
    intro x _
    by_cases hx : x = e
    · subst hx; rw [hme]; exact ⟨rfl, rfl⟩
    · rw [hmem x hx]; exact ⟨rfl, rfl⟩

/-- The hypotheses of `add_merges` hold for the second entry of `exTwo`. -/
theorem add_merges_witness :
    WF exConfig exTwo ([1] ++ 2 :: []) ∧ exTwo.Size < exConfig.MAX_UNIQUE_INVEN_ITEMS ∧
      ((exTwo.mem 2).type = 2 ∧ (exTwo.mem 2).id = 6) ∧
      (exTwo.mem 2).iflags &&& exConfig.INVF_OBJECT = 0 ∧ (2 : Int) ≠ exConfig.OBJ_WEAPON ∧
      (exTwo.mem 2).count < 2147483647 ∧
      ∃ s2, exTwo.Add exConfig 2 6 none (-1) (-1) 0 none = some (true, s2) ∧
        (s2.mem 2).toItemData =
          { (exTwo.mem 2).toItemData with count := (exTwo.mem 2).count + 1 } ∧
        s2.Size = exTwo.Size ∧ InvRing s2 ([1] ++ 2 :: []) ∧
        s2.entries [1] = exTwo.entries [1] ∧ s2.entries [] = exTwo.entries [] ∧
        exTwo.FindItem 2 6 = some 2 ∧ s2.FindItem 2 6 = some 2 :=
  ⟨by decide, by decide, by decide, by decide, by decide, by decide,
    add_merges exConfig exTwo 2 6 none (-1) (-1) 0 none [1] [] 2 (by decide) (by decide)
      (by decide) (by decide) (by decide) (by decide)⟩

/-! ### `Reset` -/

/-- `ValidatePos` terminates on a well-formed ring and leaves everything but the cursor;
the cursor ends up null or on a linked selectable node. -/
theorem ValidatePos_invRing (c : Config) (fuel : Nat) (s : Inventory) (forward : Bool)
    (l : List Nat) (hr : InvRing s l) (hf : l.length ≤ fuel) :
    ∃ p, s.ValidatePos c fuel forward = some { s with pos := p } ∧
      (p = 0 ∨ (p ∈ l ∧ (s.mem p).iflags &&& c.INVF_SELECTABLE ≠ 0)) := by
  rcases hr.2.2.2.2.2 with h0 | hmem
  · refine ⟨0, ?_, Or.inl rfl⟩
    unfold Inventory.ValidatePos
    rw [if_pos h0]
    cases s; simp_all
  · obtain ⟨l1, l2, rfl⟩ := List.append_of_mem hmem
    have hrot : Links s.mem (s.pos :: (l2 ++ l1)) := links_rotate l1 (s.pos :: l2) hr.2.2.1
    have hlen : (l2 ++ l1).length < fuel := by
      simp only [List.length_append, List.length_cons] at hf ⊢; omega
    refine ⟨_, ValidatePos_links c fuel s forward s.pos (l2 ++ l1) hrot rfl hlen, ?_⟩
    rcases firstSelectable_mem_or c s.mem (cursorWalk forward (s.pos :: (l2 ++ l1))) with h | h
    · exact Or.inl h
    · refine Or.inr ⟨?_, h.2⟩
      have := cursorWalk_subset _ _ _ h.1
      simp only [List.mem_cons, List.mem_append] at this ⊢
      rcases this with h | h | h
      · exact Or.inr (Or.inl h)
      · exact Or.inr (Or.inr h)
      · exact Or.inl h

theorem invRing_pos {s : Inventory} {l : List Nat} (p : Nat) (hr : InvRing s l)
    (hp : p = 0 ∨ p ∈ l) : InvRing { s with pos := p } l :=
  ⟨hr.1, hr.2.1, hr.2.2.1, hr.2.2.2.1, hr.2.2.2.2.1, hp⟩

theorem links_next_cons {mem : Nat → inven_item} {k t : List Nat} {a b : Nat}
    (hl : Links mem (k ++ a :: b :: t)) : (mem a).next = b := by
  have := hl.2.2
  rw [seg_append] at this
  exact this.2.2.1

theorem filter_congr_payload (c : Config) (rn rl : Bool) {mem mem2 : Nat → inven_item}
    (l : List Nat) (h : ∀ x, (mem2 x).toItemData = (mem x).toItemData) :
    l.filter (fun a => keptByReset c rn rl (mem2 a).toItemData) =
      l.filter (fun a => keptByReset c rn rl (mem a).toItemData) := by
  have : (fun a => keptByReset c rn rl (mem2 a).toItemData) =
      fun a => keptByReset c rn rl (mem a).toItemData := by
    funext a; rw [h a]
  rw [this]

/-- The loop of `Reset` over the not yet visited part `rem` of the ring `k ++ rem`. -/
theorem Reset_loop_spec (c : Config) (fuel : Nat) (in_game rn rl : Bool) :
    ∀ (rem k : List Nat) (s : Inventory) (eng : Engine) (current : Nat),
      InvRing s (k ++ rem) → (∀ a t, rem = a :: t → current = a) → (k ++ rem).length ≤ fuel →
      ∃ s2 eng2, Reset_loop c fuel in_game rn rl rem.length current s eng = some (s2, eng2) ∧
        InvRing s2 (k ++ rem.filter fun a => keptByReset c rn rl (s.mem a).toItemData) ∧
        ∀ x, (s2.mem x).toItemData = (s.mem x).toItemData
  | [], k, s, eng, _, hr, _, _ => ⟨s, eng, rfl, by simpa using hr, fun _ => rfl⟩
  | a :: t, k, s, eng, current, hr, hcur, hf => by
    have hca : current = a := hcur a t rfl
    subst hca
    have hnext : ∀ b t2, t = b :: t2 → (s.mem current).next = b := by
      intro b t2 ht
      subst ht
      exact links_next_cons hr.2.2.1
    simp only [List.length_cons, Reset_loop]
    by_cases hk : keptByReset c rn rl (s.mem current).toItemData = true
    · have hk2 := hk
      simp only [keptByReset, decide_eq_true_eq] at hk2
      have hr2 : InvRing s ((k ++ [current]) ++ t) := by simpa using hr
      obtain ⟨s2, eng2, h1, h2, h3⟩ := Reset_loop_spec c fuel in_game rn rl t (k ++ [current]) s
        eng (s.mem current).next hr2 hnext (by simpa using hf)
      refine ⟨s2, eng2, ?_, ?_, h3⟩
      · rw [← h1]
        rcases hk2 with h | h
        · simp [h.1, h.2.1, h.2.2]
        · simp [h.1, h.2]
      · rw [List.filter_cons, if_pos hk]
        simpa using h2
    · have hk2 := hk
      simp only [keptByReset, decide_eq_true_eq, not_or, not_and] at hk2
      obtain ⟨s1, g1, g2, g3, -, -⟩ := RemoveNode_spec c fuel s current k t hr
        (by simp only [List.length_append, List.length_cons] at hf ⊢; omega)
      obtain ⟨s2, eng2, h1, h2, h3⟩ := Reset_loop_spec c fuel in_game rn rl t k s1
        (if in_game = true ∧ (s.mem current).iflags &&& c.INVF_OBJECT ≠ 0
          then unmarkObject c eng (s.mem current).type else eng)
        (s.mem current).next g2 hnext
        (by simp only [List.length_append, List.length_cons] at hf ⊢; omega)
      refine ⟨s2, eng2, ?_, ?_, fun x => (h3 x).trans (g3 x)⟩
      · rw [← h1]
        have hspew : (if ((s.mem current).iflags &&& c.INVF_NOTSPEWABLE ≠ 0) ∧ ¬ rn = true
            then false
            else if ((s.mem current).iflags &&& c.INVF_MISSIONITEM ≠ 0) ∧ ¬ rl = true ∧
              ¬ (s.mem current).iflags &&& c.INVF_OBJECT ≠ 0 then false else true) = true := by
          have e1 : ¬ (((s.mem current).iflags &&& c.INVF_NOTSPEWABLE ≠ 0) ∧ ¬ rn = true) := by
            intro h; exact hk2.2 h.1 (by simpa using h.2)
          have e2 : ¬ (((s.mem current).iflags &&& c.INVF_MISSIONITEM ≠ 0) ∧ ¬ rl = true ∧
              ¬ (s.mem current).iflags &&& c.INVF_OBJECT ≠ 0) := by
            intro h; exact hk2.1 h.1 (by simpa using h.2.1) (by simpa using h.2.2)
          rw [if_neg e1, if_neg e2]
        simp only [decide_eq_true_eq, hspew, if_true, and_true, g1]
      · rw [List.filter_cons, if_neg hk, ← filter_congr_payload c rn rl t g3]
        exact h2

/-! ### Claim C6 -/

/-- `Reset` with the two removal switches that belong to its stage. -/
theorem Reset_spec (c : Config) (fuel : Nat) (s : Inventory) (eng : Engine) (in_game : Bool)
    (stage : Int) (rn rl : Bool) (l : List Nat) (hr : InvRing s l) (hfuel : l.length ≤ fuel)
    (hflags : (if (if stage < 0 ∨ stage > 2 then 2 else stage) = c.INVRESET_ALL then (true, true)
      else if (if stage < 0 ∨ stage > 2 then 2 else stage) = c.INVRESET_LEVELCHANGE
        then (true, false)
      else if (if stage < 0 ∨ stage > 2 then 2 else stage) = c.INVRESET_DEATHSPEW
        then (false, true)
      else (false, false)) = (rn, rl)) :
    ∃ s2 eng2, s.Reset c fuel eng in_game stage = some (s2, eng2) ∧
      InvRing s2 (l.filter fun a => keptByReset c rn rl (s.mem a).toItemData) ∧
      (∀ x, (s2.mem x).toItemData = (s.mem x).toItemData) ∧
      (s2.pos = 0 ∨ (s2.mem s2.pos).iflags &&& c.INVF_SELECTABLE ≠ 0) := by
  have hc0 : ¬ s.count < 0 := by rw [hr.1]; omega
  have hcur : ∀ a t, l = a :: t → s.root = a := by
    intro a t h; rw [hr.2.1, h]; rfl
  obtain ⟨s1, eng1, h1, h2, h3⟩ := Reset_loop_spec c fuel in_game rn rl l [] s eng s.root
    (by simpa using hr) hcur (by simpa using hfuel)
  simp only [List.nil_append] at h2
  have hlen : (l.filter fun a => keptByReset c rn rl (s.mem a).toItemData).length ≤ fuel :=
    le_trans (List.length_filter_le _ _) hfuel
  obtain ⟨p, g1, g2⟩ := ValidatePos_invRing c fuel s1 true _ h2 hlen
  refine ⟨{ s1 with pos := p }, eng1, ?_, invRing_pos p h2 (g2.imp id And.left), h3, ?_⟩
  · unfold Inventory.Reset
    simp only [hflags, hc0, if_false]
    have hn : s.count.toNat = l.length := by rw [hr.1]; simp
    rw [hn, h1]
    simp only [g1]
  · rcases g2 with h | h
    · exact Or.inl h
    · exact Or.inr h.2

/-- C6: for each stage of `Reset` with its pair of removal switches (ALL: both,
LEVEL_CHANGE: non-spewable only, DEATH_SPEW: level-persistent only), the ring after `Reset`
is the old ring filtered by the keep condition (level-persistent, not removing
level-persistent and not object-backed; or non-spewable and not removing non-spewable), in
the old order and with unchanged fields, and `Size` is the number of survivors. The three
stage constants are assumed to be distinct values in the range 0..2 that `Reset` accepts. -/
theorem reset_survivors (c : Config) (fuel : Nat) (s : Inventory) (eng : Engine) (in_game : Bool)
    (stage : Int) (rn rl : Bool) (l : List Nat) (hr : InvRing s l) (hfuel : l.length ≤ fuel)
    (hrange : 0 ≤ stage ∧ stage ≤ 2)
    (hdist : c.INVRESET_ALL ≠ c.INVRESET_LEVELCHANGE ∧ c.INVRESET_ALL ≠ c.INVRESET_DEATHSPEW ∧
      c.INVRESET_LEVELCHANGE ≠ c.INVRESET_DEATHSPEW)
    (hstage : (stage = c.INVRESET_ALL ∧ rn = true ∧ rl = true) ∨
      (stage = c.INVRESET_LEVELCHANGE ∧ rn = true ∧ rl = false) ∨
      (stage = c.INVRESET_DEATHSPEW ∧ rn = false ∧ rl = true)) :
    ∃ s2 eng2, s.Reset c fuel eng in_game stage = some (s2, eng2) ∧
      InvRing s2 (l.filter fun a => keptByReset c rn rl (s.mem a).toItemData) ∧
      s2.entries (l.filter fun a => keptByReset c rn rl (s.mem a).toItemData) =
        s.entries (l.filter fun a => keptByReset c rn rl (s.mem a).toItemData) ∧
      s2.Size = ((l.filter fun a => keptByReset c rn rl (s.mem a).toItemData).length : Int) := by
  have hclamp : (if stage < 0 ∨ stage > 2 then 2 else stage) = stage := by
    rw [if_neg]; omega
  obtain ⟨s2, eng2, h1, h2, h3, -⟩ := Reset_spec c fuel s eng in_game stage rn rl l hr hfuel (by
    rw [hclamp]
    rcases hstage with ⟨h, rfl, rfl⟩ | ⟨h, rfl, rfl⟩ | ⟨h, rfl, rfl⟩
    · rw [if_pos h]
    · rw [if_neg (by rw [h]; exact Ne.symm hdist.1), if_pos h]
    · rw [if_neg (by rw [h]; exact Ne.symm hdist.2.1),
        if_neg (by rw [h]; exact Ne.symm hdist.2.2), if_pos h])
  exact ⟨s2, eng2, h1, h2, entries_congr (fun x _ => h3 x), h2.1⟩

/-- The hypotheses of `reset_survivors` hold for `exThree` at the level-change stage, where
the first entry alone survives. -/
theorem reset_survivors_witness :
    InvRing exThree [1, 2, 3] ∧ [1, 2, 3].length ≤ 5 ∧ ((0 : Int) ≤ 1 ∧ (1 : Int) ≤ 2) ∧
      (exConfig.INVRESET_ALL ≠ exConfig.INVRESET_LEVELCHANGE ∧
        exConfig.INVRESET_ALL ≠ exConfig.INVRESET_DEATHSPEW ∧
        exConfig.INVRESET_LEVELCHANGE ≠ exConfig.INVRESET_DEATHSPEW) ∧
      [1, 2, 3].filter (fun a => keptByReset exConfig true false (exThree.mem a).toItemData) = [1] ∧
      ∃ s2 eng2, exThree.Reset exConfig 5 exEngine true 1 = some (s2, eng2) ∧
        InvRing s2 ([1, 2, 3].filter fun a =>
          keptByReset exConfig true false (exThree.mem a).toItemData) ∧
        s2.entries ([1, 2, 3].filter fun a =>
            keptByReset exConfig true false (exThree.mem a).toItemData) =
          exThree.entries ([1, 2, 3].filter fun a =>
            keptByReset exConfig true false (exThree.mem a).toItemData) ∧
        s2.Size = (([1, 2, 3].filter fun a =>
          keptByReset exConfig true false (exThree.mem a).toItemData).length : Int) :=
  ⟨by decide, by decide, by decide, by decide, by decide,
    reset_survivors exConfig 5 exThree exEngine true 1 true false [1, 2, 3] (by decide)
      (by decide) (by decide) (by decide) (by decide)⟩

/-! ### Reading and writing bytes -/

theorem int32Bytes_length (v : Int) : (int32Bytes v).length = 4 := rfl

theorem int32_roundtrip (v : Int) (h : isInt32 v) :
    ∀ b0 b1 b2 b3, int32Bytes v = [b0, b1, b2, b3] → int32OfBytes b0 b1 b2 b3 = v := by
  intro b0 b1 b2 b3 hb
  simp only [int32Bytes, List.cons.injEq, and_true] at hb
  obtain ⟨rfl, rfl, rfl, rfl⟩ := hb
  obtain ⟨h1, h2⟩ := h
  unfold int32OfBytes
  have hu : ((v % 4294967296).toNat : Int) = v % 4294967296 :=
    Int.toNat_of_nonneg (Int.emod_nonneg _ (by norm_num))
  generalize hU : (v % 4294967296).toNat = u at hu
  have hlt : u < 4294967296 := by
    have := Int.emod_lt_of_pos v (show (0 : Int) < 4294967296 by norm_num)
    omega
  simp only [Nat.mod_mod]
  have e : u % 256 + 256 * (u / 256 % 256) + 65536 * (u / 65536 % 256) +
      16777216 * (u / 16777216 % 256) = u := by omega
  rw [e]
  split_ifs with hc
  · omega
  · omega

/-- The reader stands behind the bytes `pre` with the bytes `rest` still to come. -/
theorem cf_ReadInt_at (file : CFILE) (pre rest : List Nat) (v : Int) (hv : isInt32 v)
    (hd : file.data = pre ++ (int32Bytes v ++ rest)) (hp : file.position = pre.length) :
    ∃ file2, cf_ReadInt file = some (v, file2) ∧ file2.data = (pre ++ int32Bytes v) ++ rest ∧
      file2.position = (pre ++ int32Bytes v).length := by
  have hr := int32_roundtrip v hv
  unfold cf_ReadInt
  rw [hd, hp, List.drop_left]
  generalize hb : int32Bytes v = bs at hr ⊢
  have hl : bs.length = 4 := by rw [← hb]; rfl
  match bs, hl with
  | [b0, b1, b2, b3], _ =>
    simp only [List.cons_append, List.nil_append]
    refine ⟨_, by rw [hr b0 b1 b2 b3 rfl], ?_, ?_⟩
    · simp [hd]
    · simp [hp]

theorem scanString_at (str rest : List Nat) (h0 : 0 ∉ str) :
    scanString (str ++ 0 :: rest) = some (str, str.length + 1) := by
  induction str with
  | nil => simp [scanString]
  | cons b t ih =>
    have hb : b ≠ 0 := fun h => h0 (h ▸ List.mem_cons_self _ _)
    have ht : 0 ∉ t := fun h => h0 (List.mem_cons_of_mem _ h)
    simp [scanString, hb, ih ht]

theorem cf_ReadString_at (n : Nat) (file : CFILE) (pre rest : List Nat) (str : CStr)
    (h0 : 0 ∉ str) (hd : file.data = pre ++ ((str ++ [0]) ++ rest))
    (hp : file.position = pre.length) :
    ∃ file2, cf_ReadString n file = some (str.take (n - 1), file2) ∧
      file2.data = (pre ++ (str ++ [0])) ++ rest ∧
      file2.position = (pre ++ (str ++ [0])).length := by
  unfold cf_ReadString
  rw [hd, hp, List.drop_left]
  have : str ++ [0] ++ rest = str ++ 0 :: rest := by simp
  rw [this, scanString_at str rest h0]
  refine ⟨_, rfl, ?_, ?_⟩
  · simp [hd]
  · simp [hp]

theorem write_at_end (file : CFILE) (bytes : List Nat) (h : file.position = file.data.length) :
    (file.write bytes).data = file.data ++ bytes ∧
      (file.write bytes).position = (file.write bytes).data.length := by
  unfold CFILE.write
  simp [h]

/-! ### `SaveInventory` -/

/-- The file is positioned at its end (it is being appended to). -/
theorem write_data (file : CFILE) (bytes : List Nat) (h : file.position = file.data.length) :
    (file.write bytes).data = file.data ++ bytes :=
  (write_at_end file bytes h).1

theorem write_end (file : CFILE) (bytes : List Nat) (h : file.position = file.data.length) :
    (file.write bytes).position = (file.write bytes).data.length :=
  (write_at_end file bytes h).2

theorem write_eq (file : CFILE) (a : List Nat) (h : file.position = file.data.length) :
    file.write a = ⟨file.data ++ a, file.data.length + a.length⟩ := by
  unfold CFILE.write
  simp [h]

theorem write_write (file : CFILE) (a b : List Nat) (h : file.position = file.data.length) :
    (file.write a).write b = file.write (a ++ b) := by
  rw [write_eq file a h, write_eq _ b (by simp), write_eq file (a ++ b) h]
  simp [Nat.add_assoc]

theorem SaveInventory_record_eq (file : CFILE) (it : inven_item)
    (h : file.position = file.data.length) :
    SaveInventory_record file it = file.write it.toItemData.record.bytes := by
  obtain ⟨⟨t, ot, i, oi, fl, cn, d, ic, nm, ifl⟩, nx, pv⟩ := it
  cases d <;> cases ic <;> cases nm <;>
    simp only [SaveInventory_record, cf_WriteInt, cf_WriteString, cf_WriteByte, write_write _ _ _ h,
      Record.bytes, ItemData.record, Option.getD_some, Option.getD_none] <;>
    simp

theorem SaveInventory_record_spec (file : CFILE) (it : inven_item)
    (h : file.position = file.data.length) :
    (SaveInventory_record file it).data = file.data ++ it.toItemData.record.bytes ∧
      (SaveInventory_record file it).position = (SaveInventory_record file it).data.length := by
  rw [SaveInventory_record_eq file it h]
  exact write_at_end file _ h

/-- The bytes of the records `SaveInventory` emits for the nodes `l`: the dead ones are left
out. -/
theorem SaveInventory_loop_spec (mem : Nat → inven_item) (eng : Engine) (pos : Nat) :
    ∀ (l : List Nat) (p q : Nat) (file : CFILE) (pos_pos pos_count : Int), Seg mem p l q →
      file.position = file.data.length →
      (SaveInventory_loop mem eng pos l.length (l.headD q) file pos_pos pos_count).1.data =
          file.data ++ ((l.filter fun a => !(mem a).toItemData.record.dead eng).map
            fun a => (mem a).toItemData.record.bytes).flatten ∧
        (SaveInventory_loop mem eng pos l.length (l.headD q) file pos_pos pos_count).1.position =
          (SaveInventory_loop mem eng pos l.length (l.headD q) file pos_pos
            pos_count).1.data.length ∧
        (SaveInventory_loop mem eng pos l.length (l.headD q) file pos_pos pos_count).2 =
          savedPos pos l pos_pos pos_count
  | [], _, _, file, _, _, _, h => by simp [SaveInventory_loop, savedPos, h]
  | a :: l, p, q, file, pos_pos, pos_count, hs, h => by
    simp only [List.length_cons, List.headD_cons, SaveInventory_loop, savedPos]
    rw [hs.2.1]
    by_cases hd : (mem a).id = -1 ∧ ObjGet eng (mem a).type = none
    · have hdead : (mem a).toItemData.record.dead eng = true := by
        simpa [Record.dead, ItemData.record] using hd
      rw [if_pos hd]
      have ih := SaveInventory_loop_spec mem eng pos l a q file
        (if pos = a then pos_count else pos_pos) (pos_count + 1) hs.2.2 h
      rw [List.filter_cons, hdead]
      simpa using ih
    · have hdead : (mem a).toItemData.record.dead eng = false := by
        simpa [Record.dead, ItemData.record] using hd
      rw [if_neg hd]
      have hrec := SaveInventory_record_spec file (mem a) h
      have ih := SaveInventory_loop_spec mem eng pos l a q (SaveInventory_record file (mem a))
        (if pos = a then pos_count else pos_pos) (pos_count + 1) hs.2.2 hrec.2
      rw [List.filter_cons, hdead]
      rw [hrec.1] at ih
      simpa using ih

theorem savedPos_not_mem (pos : Nat) (l : List Nat) (pos_pos pos_count : Int) (h : pos ∉ l) :
    savedPos pos l pos_pos pos_count = pos_pos := by
  induction l generalizing pos_pos pos_count with
  | nil => rfl
  | cons a t ih =>
    have ha : pos ≠ a := fun e => h (e ▸ List.mem_cons_self _ _)
    simp only [savedPos, ha, if_false]
    exact ih _ _ (fun e => h (List.mem_cons_of_mem _ e))

/-- On a ring without repetition `pos_pos` is the ring index of the node under the cursor. -/
theorem savedPos_index (pos : Nat) (l1 l2 : List Nat) (pos_pos pos_count : Int)
    (hnd : (l1 ++ pos :: l2).Nodup) :
    savedPos pos (l1 ++ pos :: l2) pos_pos pos_count = pos_count + l1.length := by
  induction l1 generalizing pos_pos pos_count with
  | nil =>
    simp only [List.nil_append, savedPos, if_true, List.length_nil]
    rw [savedPos_not_mem _ _ _ _ (List.nodup_cons.1 hnd).1]
    simp
  | cons a t ih =>
    simp only [List.cons_append] at hnd
    rw [List.cons_append, savedPos, ih _ _ (List.nodup_cons.1 hnd).2, List.length_cons]
    push_cast; ring

/-- `SaveInventory` appends to a file positioned at its end the count of ring entries, the
records of the entries that are not dead, and the ring index of the cursor. -/
theorem SaveInventory_spec (s : Inventory) (eng : Engine) (file : CFILE) (l : List Nat)
    (hr : InvRing s l) (h : file.position = file.data.length) :
    (s.SaveInventory eng file).2.data =
        file.data ++ layoutBytes s.count (savedRecords s.mem eng l) (savedPos s.pos l 0 0) ∧
      (s.SaveInventory eng file).1 =
        ((layoutBytes s.count (savedRecords s.mem eng l) (savedPos s.pos l 0 0)).length : Int) ∧
      (s.SaveInventory eng file).2.position = (s.SaveInventory eng file).2.data.length := by
  have key : ∃ f2 : CFILE, f2.position = f2.data.length ∧
      f2.data = file.data ++ int32Bytes s.count ++
        ((savedRecords s.mem eng l).map Record.bytes).flatten ∧
      s.SaveInventory eng file =
        (cftell (cf_WriteInt f2 (savedPos s.pos l 0 0)) - cftell file,
          cf_WriteInt f2 (savedPos s.pos l 0 0)) := by
    have hw := write_at_end file (int32Bytes s.count) h
    cases l with
    | nil =>
      have h0 : s.count = 0 := by simpa using hr.1
      refine ⟨cf_WriteInt file s.count, hw.2, ?_, ?_⟩
      · simp only [cf_WriteInt, hw.1, savedRecords]
        simp
      · simp [Inventory.SaveInventory, Inventory.Size, h0, savedPos]
    | cons a t =>
      have hpos : s.count > 0 := by rw [hr.1]; simp only [List.length_cons]; omega
      have hn : s.count.toNat = (a :: t).length := by rw [hr.1]; simp
      have hroot : s.root = a := hr.2.1
      have hl := SaveInventory_loop_spec s.mem eng s.pos (a :: t) _ _
        (cf_WriteInt file s.count) 0 0 hr.2.2.1.2.2 hw.2
      simp only [List.headD_cons] at hl
      refine ⟨_, hl.2.1, ?_, ?_⟩
      · rw [hl.1]
        simp only [cf_WriteInt, hw.1, savedRecords, List.map_map]
        rfl
      · simp only [Inventory.SaveInventory, Inventory.Size, hpos, if_true, hn, hroot]
        rw [hl.2.2]
  obtain ⟨f2, g1, g2, g3⟩ := key
  have hw := write_at_end f2 (int32Bytes (savedPos s.pos l 0 0)) g1
  rw [g3]
  simp only [cf_WriteInt, cftell]
  refine ⟨?_, ?_, hw.2⟩
  · rw [hw.1, g2]
    simp [layoutBytes]
  · rw [hw.2, hw.1, g2, h]
    simp [layoutBytes]

theorem readAt_int (file : CFILE) (pre rest : List Nat) (v : Int) (hv : isInt32 v)
    (h : ReadAt file pre (int32Bytes v ++ rest)) :
    ∃ file2, cf_ReadInt file = some (v, file2) ∧ ReadAt file2 (pre ++ int32Bytes v) rest :=
  cf_ReadInt_at file pre rest v hv h.1 h.2

theorem readAt_string (file : CFILE) (pre rest : List Nat) (str : CStr) (h0 : 0 ∉ str)
    (h : ReadAt file pre ((str ++ [0]) ++ rest)) :
    ∃ file2, cf_ReadString 512 file = some (str.take 511, file2) ∧
      ReadAt file2 (pre ++ (str ++ [0])) rest :=
  cf_ReadString_at 512 file pre rest str h0 h.1 h.2

/-! ### `ReadInventory` -/

theorem readAt_string_cons (file : CFILE) (pre rest : List Nat) (str : CStr) (h0 : 0 ∉ str)
    (h : ReadAt file pre (str ++ 0 :: rest)) :
    ∃ file2, cf_ReadString 512 file = some (str.take 511, file2) ∧
      ReadAt file2 (pre ++ (str ++ [0])) rest :=
  readAt_string file pre rest str h0 (by simpa [ReadAt] using h)

/-- Reading one record of the layout: the three leading integers, and then either the skip
of the remaining payload or the filling of a node; both end right behind the record. -/
theorem ReadInventory_record_at (file : CFILE) (pre rest : List Nat) (r : Record)
    (hv : r.valid) (h : ReadAt file pre (r.bytes ++ rest)) :
    ∃ f1 f2 f3, cf_ReadInt file = some (r.kind, f1) ∧ cf_ReadInt f1 = some (r.auxKind, f2) ∧
      cf_ReadInt f2 = some (r.id, f3) ∧
      (∃ f4, ReadInventory_skip f3 = some f4 ∧ ReadAt f4 (pre ++ r.bytes) rest) ∧
      (∀ item : inven_item, ∃ f4,
        ReadInventory_fill f3 r.kind r.auxKind r.id item =
          some ({ item with toItemData := r.item }, f4) ∧
        ReadAt f4 (pre ++ r.bytes) rest) := by
  obtain ⟨v1, v2, v3, v4, v5, v6, v7, v8, v9, v10⟩ := hv
  have h' : ReadAt file pre (int32Bytes r.kind ++ (int32Bytes r.auxKind ++ (int32Bytes r.id ++
      (int32Bytes r.auxId ++ (int32Bytes r.userFlags ++ (int32Bytes r.count ++
        (r.description ++ 0 :: (r.iconName ++ 0 :: (r.displayName ++
          0 :: (int32Bytes r.entryFlags ++ rest)))))))))) := by
    have e : r.bytes ++ rest = int32Bytes r.kind ++ (int32Bytes r.auxKind ++ (int32Bytes r.id ++
        (int32Bytes r.auxId ++ (int32Bytes r.userFlags ++ (int32Bytes r.count ++
          (r.description ++ 0 :: (r.iconName ++ 0 :: (r.displayName ++
            0 :: (int32Bytes r.entryFlags ++ rest))))))))) := by
      simp [Record.bytes]
    rw [← e]; exact h
  obtain ⟨f1, e1, h1⟩ := readAt_int _ _ _ _ v1 h'
  obtain ⟨f2, e2, h2⟩ := readAt_int _ _ _ _ v2 h1
  obtain ⟨f3, e3, h3⟩ := readAt_int _ _ _ _ v3 h2
  obtain ⟨f4, e4, h4⟩ := readAt_int _ _ _ _ v4 h3
  obtain ⟨f5, e5, h5⟩ := readAt_int _ _ _ _ v5 h4
  obtain ⟨f6, e6, h6⟩ := readAt_int _ _ _ _ v6 h5
  obtain ⟨f7, e7, h7⟩ := readAt_string_cons _ _ _ _ v7 h6
  obtain ⟨f8, e8, h8⟩ := readAt_string_cons _ _ _ _ v8 h7
  obtain ⟨f9, e9, h9⟩ := readAt_string_cons _ _ _ _ v9 h8
  obtain ⟨f10, e10, h10⟩ := readAt_int _ _ _ _ v10 h9
  have hfin : ReadAt f10 (pre ++ r.bytes) rest := by
    have : pre ++ r.bytes = pre ++ int32Bytes r.kind ++ int32Bytes r.auxKind ++ int32Bytes r.id ++
        int32Bytes r.auxId ++ int32Bytes r.userFlags ++ int32Bytes r.count ++
        (r.description ++ [0]) ++ (r.iconName ++ [0]) ++ (r.displayName ++ [0]) ++
        int32Bytes r.entryFlags := by
      simp [Record.bytes]
    rw [this]; exact h10
  refine ⟨f1, f2, f3, e1, e2, e3, ⟨f10, ?_, hfin⟩, fun item => ⟨f10, ?_, hfin⟩⟩
  · simp only [ReadInventory_skip, e4, e5, e6, e7, e8, e9, e10]
  · simp only [ReadInventory_fill, e4, e5, e6, e7, e8, e9, e10]
    rfl

/-- The link phase of `ReadInventory`, which tests `root == NULL`. -/
theorem link_root_spec (s : Inventory) (l : List Nat) (hl : Links s.mem l)
    (hroot : s.root = l.headD 0) (hfresh : ∀ a ∈ l, a < s.brk) (hb : 0 < s.brk) :
    (if s.root = 0 then s.newRoot else s.newTail).2 = s.brk ∧
      Links (if s.root = 0 then s.newRoot else s.newTail).1.mem (l ++ [s.brk]) ∧
      (if s.root = 0 then s.newRoot else s.newTail).1.root = (l ++ [s.brk]).headD 0 ∧
      (if s.root = 0 then s.newRoot else s.newTail).1.brk = s.brk + 1 ∧
      (if s.root = 0 then s.newRoot else s.newTail).1.count = s.count ∧
      (if s.root = 0 then s.newRoot else s.newTail).1.pos = s.pos ∧
      ∀ x, ((if s.root = 0 then s.newRoot else s.newTail).1.mem x).toItemData =
        (s.mem x).toItemData := by
  cases l with
  | nil =>
    have h0 : s.root = 0 := by simpa using hroot
    rw [if_pos h0]
    obtain ⟨e1, e2, e3, e4, e5, e6, e7⟩ := newRoot_spec s hb
    exact ⟨e1, by simpa using e2, by simpa using e3, e4, e5, e6, e7⟩
  | cons a t =>
    have h0 : s.root ≠ 0 := by
      rw [hroot]; exact fun h => hl.2.1 (by simp at h; simp [h])
    rw [if_neg h0]
    obtain ⟨e1, e2, e3, e4, e5, e6, e7⟩ := newTail_spec s a t (by simpa using hroot) hl hfresh
    exact ⟨e1, e2, by rw [e3, hroot]; rfl, e4, e5, e6, e7⟩

theorem dead_iff (eng : Engine) (r : Record) :
    r.dead eng = true ↔ (r.id = -1 ∧ ObjGet eng r.kind = none) := by
  simp [Record.dead]

/-- The loop of `ReadInventory` over a stream that holds the records `rs`: every record is
consumed in full, the records that are not dead become new nodes at the tail of the ring `l0`
in stream order, and `count` drops by one for each dead record. -/
theorem ReadInventory_loop_spec (eng : Engine) (rest : List Nat) :
    ∀ (rs : List Record) (s : Inventory) (file : CFILE) (pre : List Nat) (l0 : List Nat),
      (∀ r ∈ rs, r.valid) → ReadAt file pre ((rs.map Record.bytes).flatten ++ rest) →
      Links s.mem l0 → s.root = l0.headD 0 → (∀ a ∈ l0, a < s.brk) → 0 < s.brk →
      ∃ s2 file2, ReadInventory_loop eng rs.length s file = some (s2, file2) ∧
        ReadAt file2 (pre ++ (rs.map Record.bytes).flatten) rest ∧
        Links s2.mem (l0 ++ List.range' s.brk (rs.filter fun r => !r.dead eng).length) ∧
        s2.root = (l0 ++ List.range' s.brk (rs.filter fun r => !r.dead eng).length).headD 0 ∧
        s2.brk = s.brk + (rs.filter fun r => !r.dead eng).length ∧
        s2.count = s.count - ((rs.length : Int) - (rs.filter fun r => !r.dead eng).length) ∧
        s2.pos = s.pos ∧
        s2.entries (List.range' s.brk (rs.filter fun r => !r.dead eng).length) =
          (rs.filter fun r => !r.dead eng).map Record.item ∧
        ∀ x ∈ l0, (s2.mem x).toItemData = (s.mem x).toItemData
  | [], s, file, pre, l0, _, h, hl, hroot, _, _ => by
    refine ⟨s, file, rfl, by simpa using h, by simpa using hl, by simpa using hroot, rfl,
      by simp, rfl, rfl, fun _ _ => rfl⟩
  | r :: rs, s, file, pre, l0, hv, h, hl, hroot, hfresh, hb => by
    have hvr := hv r (List.mem_cons_self _ _)
    have hvs : ∀ x ∈ rs, x.valid := fun x hx => hv x (List.mem_cons_of_mem _ hx)
    have h' : ReadAt file pre (r.bytes ++ ((rs.map Record.bytes).flatten ++ rest)) := by
      simpa using h
    obtain ⟨f1, f2, f3, e1, e2, e3, ⟨f4, e4, h4⟩, hfill⟩ :=
      ReadInventory_record_at file pre _ r hvr h'
    have hpre : pre ++ ((r :: rs).map Record.bytes).flatten =
        (pre ++ r.bytes) ++ (rs.map Record.bytes).flatten := by simp
    simp only [List.length_cons, ReadInventory_loop, e1, e2, e3]
    by_cases hd : r.id = -1 ∧ ObjGet eng r.kind = none
    · have hdead : r.dead eng = true := (dead_iff eng r).2 hd
      obtain ⟨s2, file2, g1, g2, g3, g4, g5, g6, g7, g8, g9⟩ :=
        ReadInventory_loop_spec eng rest rs { s with count := s.count - 1 } f4 (pre ++ r.bytes) l0
          hvs h4 hl hroot hfresh hb
      refine ⟨s2, file2, ?_, by rw [hpre]; exact g2, ?_, ?_, ?_, ?_, g7, ?_, g9⟩
      · rw [if_pos hd]
        simp only [e4, g1]
      · simpa [List.filter_cons, hdead] using g3
      · simpa [List.filter_cons, hdead] using g4
      · simpa [List.filter_cons, hdead] using g5
      · simp only [List.filter_cons, hdead, Bool.not_true, Bool.false_eq_true, if_false]
        rw [g6]; push_cast; ring
      · simpa [List.filter_cons, hdead] using g8
    · have hdead : r.dead eng = false := by
        rw [← Bool.not_eq_true, dead_iff]; exact hd
      obtain ⟨k1, k2, k3, k4, k5, k6, k7⟩ := link_root_spec s l0 hl hroot hfresh hb
      generalize (if s.root = 0 then s.newRoot else s.newTail) = ln at k1 k2 k3 k4 k5 k6 k7 ⊢
      obtain ⟨t, n⟩ := ln
      simp only at k1 k2 k3 k4 k5 k6 k7 ⊢
      subst k1
      obtain ⟨f5, e5, h5⟩ := hfill (t.mem s.brk)
      have hl1 : Links (setNode t.mem s.brk { t.mem s.brk with toItemData := r.item })
          (l0 ++ [s.brk]) := by
        refine links_congr ?_ k2
        intro x _
        by_cases hx : x = s.brk
        · subst hx; simp
        · simp [setNode_other _ _ _ _ hx]
      have hfresh1 : ∀ a ∈ l0 ++ [s.brk], a < s.brk + 1 := by
        intro a ha
        rcases List.mem_append.1 ha with h | h
        · have := hfresh a h; omega
        · simp only [List.mem_singleton] at h; omega
      obtain ⟨s2, file2, g1, g2, g3, g4, g5, g6, g7, g8, g9⟩ :=
        ReadInventory_loop_spec eng rest rs
          { t with mem := setNode t.mem s.brk { t.mem s.brk with toItemData := r.item } }
          f5 (pre ++ r.bytes) (l0 ++ [s.brk]) hvs h5 hl1 k3 (by simpa [k4] using hfresh1)
          (by simp [k4])
      simp only [k4, k5, k6] at g3 g4 g5 g6 g7 g8
      have hrange : ∀ m, l0 ++ [s.brk] ++ List.range' (s.brk + 1) m =
          l0 ++ List.range' s.brk (m + 1) := by
        intro m; simp [List.range'_succ]
      refine ⟨s2, file2, ?_, by rw [hpre]; exact g2, ?_, ?_, ?_, ?_, g7, ?_, ?_⟩
      · rw [if_neg hd]
        simp only [e5, g1]
      · simp only [List.filter_cons, hdead, Bool.not_false, if_true, List.length_cons]
        rw [← hrange]; exact g3
      · simp only [List.filter_cons, hdead, Bool.not_false, if_true, List.length_cons]
        rw [← hrange]; exact g4
      · simp only [List.filter_cons, hdead, Bool.not_false, if_true, List.length_cons]
        rw [g5]; omega
      · simp only [List.filter_cons, hdead, Bool.not_false, if_true, List.length_cons]
        rw [g6]; push_cast; ring
      · simp only [List.filter_cons, hdead, Bool.not_false, if_true, List.length_cons,
          List.range'_succ, List.map_cons]
        have hb1 := g9 s.brk (by simp)
        simp only [setNode_same] at hb1
        simp only [Inventory.entries, List.map_cons] at g8 ⊢
        rw [g8, hb1]
      · intro x hx
        have hxb : x ≠ s.brk := fun h => Nat.lt_irrefl _ (h ▸ hfresh x hx)
        rw [g9 x (List.mem_append_left _ hx)]
        simp only [setNode_other _ _ _ _ hxb]
        exact k7 x

theorem links_next_mem {mem : Nat → inven_item} {l : List Nat} {p : Nat} (hl : Links mem l)
    (hp : p ∈ l) : (mem p).next ∈ l := by
  obtain ⟨l1, l2, rfl⟩ := List.append_of_mem hp
  have hrot : Links mem (p :: (l2 ++ l1)) := links_rotate l1 (p :: l2) hl
  have hn : (mem p).next = (l2 ++ l1).headD p := hrot.2.2.2.1
  rw [hn]
  cases h : l2 ++ l1 with
  | nil => simp
  | cons b w =>
    have : b ∈ l2 ++ l1 := h ▸ List.mem_cons_self _ _
    simp only [List.headD_cons, List.mem_append, List.mem_cons] at this ⊢
    rcases this with h | h
    · exact Or.inr (Or.inr h)
    · exact Or.inl h

/-- `GotoPos` never leaves the ring. -/
theorem GotoPos_loop_mem {mem : Nat → inven_item} {l : List Nat} (hl : Links mem l) :
    ∀ (n p : Nat), p = 0 ∨ p ∈ l → GotoPos_loop mem n p = 0 ∨ GotoPos_loop mem n p ∈ l
  | 0, _, hp => hp
  | n + 1, p, hp => by
    simp only [GotoPos_loop]
    apply GotoPos_loop_mem hl n
    split_ifs with h
    · rcases hp with h0 | hm
      · exact absurd h0 h.1
      · exact Or.inr (links_next_mem hl hm)
    · exact hp

/-- `GotoPos n` on a ring with more than `n` nodes reaches the node at index `n`. -/
theorem GotoPos_loop_index (mem : Nat → inven_item) :
    ∀ (n : Nat) (l : List Nat) (p q : Nat), Seg mem p l q → 0 ∉ l → n < l.length →
      GotoPos_loop mem n (l.headD q) = l.getD n 0
  | 0, a :: t, _, _, _, _, _ => rfl
  | n + 1, a :: t, p, q, hs, h0, hn => by
    cases t with
    | nil => simp at hn
    | cons b t2 =>
      have ha : a ≠ 0 := fun h => h0 (h ▸ List.mem_cons_self _ _)
      have hb : b ≠ 0 := fun h => h0 (h ▸ List.mem_cons_of_mem _ (List.mem_cons_self _ _))
      have hnext : (mem a).next = b := hs.2.1
      simp only [GotoPos_loop, List.headD_cons, hnext, ha, hb, ne_eq, not_false_eq_true,
        and_self, if_true]
      have ih := GotoPos_loop_index mem n (b :: t2) a q hs.2.2
        (fun h => h0 (List.mem_cons_of_mem _ h)) (by simp at hn ⊢; omega)
      simpa using ih

theorem ValidatePos_selectable (c : Config) (fuel : Nat) (s : Inventory) (forward : Bool)
    (h : (s.mem s.pos).iflags &&& c.INVF_SELECTABLE ≠ 0) :
    s.ValidatePos c fuel forward = some s := by
  unfold Inventory.ValidatePos
  split_ifs <;> rfl

theorem range'_getD (a n k : Nat) (h : k < n) : (List.range' a n).getD k 0 = a + k := by
  rw [List.getD_eq_getElem?_getD, List.getElem?_range' a 1 h]
  simp

/-- `ReadInventory` on a stream in the persisted layout with `rs.length` records: the stream
is consumed in full, the ring is built from the records that are not dead, in stream order,
at fresh addresses, and the cursor is set from the slot index and validated. -/
theorem ReadInventory_spec (c : Config) (fuel : Nat) (s : Inventory) (eng : Engine) (file : CFILE)
    (pre rest : List Nat) (rs : List Record) (idx : Int) (hv : ∀ r ∈ rs, r.valid)
    (hn : rs.length < 2147483648) (hidx : isInt32 idx) (hb : 0 < s.brk)
    (h : ReadAt file pre (layoutBytes rs.length rs idx ++ rest)) (hfuel : rs.length ≤ fuel) :
    ∃ s2 file2, s.ReadInventory c fuel eng file =
        some (((layoutBytes rs.length rs idx).length : Int), s2, file2) ∧
      ReadAt file2 (pre ++ layoutBytes rs.length rs idx) rest ∧
      InvRing s2 (List.range' s.brk (rs.filter fun r => !r.dead eng).length) ∧
      s2.entries (List.range' s.brk (rs.filter fun r => !r.dead eng).length) =
        (rs.filter fun r => !r.dead eng).map Record.item ∧
      (s2.pos = 0 ∨ (s2.mem s2.pos).iflags &&& c.INVF_SELECTABLE ≠ 0) ∧
      (∀ k : Nat, idx = k → k < (rs.filter fun r => !r.dead eng).length →
        (s2.mem (s.brk + k)).iflags &&& c.INVF_SELECTABLE ≠ 0 → s2.pos = s.brk + k) := by
  have h' : ReadAt file pre (int32Bytes rs.length ++ ((rs.map Record.bytes).flatten ++
      (int32Bytes idx ++ rest))) := by
    simpa [layoutBytes] using h
  have hnn : isInt32 (rs.length : Int) := ⟨by omega, by omega⟩
  obtain ⟨f1, e1, h1⟩ := readAt_int _ _ _ _ hnn h'
  obtain ⟨s1, f2, e2, h2, g3, g4, g5, g6, -, g8, -⟩ :=
    ReadInventory_loop_spec eng (int32Bytes idx ++ rest) rs
      { s with count := rs.length, root := 0 } f1 (pre ++ int32Bytes rs.length) [] hv h1
      ⟨List.nodup_nil, by simp, trivial⟩ rfl (by simp) hb
  simp only [List.nil_append] at g3 g4 g5 g6 g8
  obtain ⟨f3, e3, h3⟩ := readAt_int _ _ _ _ hidx h2
  have hloop : (if (rs.length : Int) > 0
      then ReadInventory_loop eng (rs.length : Int).toNat { s with count := rs.length, root := 0 } f1
      else some ({ s with count := rs.length, root := 0 }, f1)) = some (s1, f2) := by
    cases rs with
    | nil => simpa [ReadInventory_loop] using e2
    | cons r t =>
      have : ((r :: t).length : Int) > 0 := by simp only [List.length_cons]; omega
      rw [if_pos this]
      simpa using e2
  set addrs := List.range' s.brk (rs.filter fun r => !r.dead eng).length with haddrs
  have hfresh : ∀ a ∈ addrs, a < s1.brk := by
    intro a ha
    rw [g5]
    obtain ⟨i, hi, rfl⟩ := List.mem_range'.1 ha
    omega
  have hcount : s1.count = (addrs.length : Int) := by
    rw [g6, haddrs, List.length_range']
    ring
  have hposG : GotoPos_loop s1.mem idx.toNat s1.root = 0 ∨
      GotoPos_loop s1.mem idx.toNat s1.root ∈ addrs := by
    apply GotoPos_loop_mem g3
    rw [g4]
    cases addrs with
    | nil => exact Or.inl rfl
    | cons a t => exact Or.inr (List.mem_cons_self _ _)
  have hrG : InvRing (s1.GotoPos idx) addrs :=
    ⟨hcount, g4, g3, hfresh, by show 0 < s1.brk; rw [g5]; omega, hposG⟩
  have hlen : addrs.length ≤ fuel := by
    rw [haddrs, List.length_range']
    exact le_trans (List.length_filter_le _ _) hfuel
  obtain ⟨p, v1, v2⟩ := ValidatePos_invRing c fuel (s1.GotoPos idx) c.ValidatePos_forward addrs
    hrG hlen
  have hpre : (pre ++ int32Bytes rs.length ++ (rs.map Record.bytes).flatten ++ int32Bytes idx) =
      pre ++ layoutBytes rs.length rs idx := by
    simp [layoutBytes]
  rw [hpre] at h3
  refine ⟨{ s1.GotoPos idx with pos := p }, f3, ?_, h3, invRing_pos p hrG (v2.imp id And.left),
    g8, v2.imp id And.right, ?_⟩
  · unfold Inventory.ReadInventory
    simp only [e1, hloop, e3, v1, cftell, h3.2, h.2]
    simp
  · intro k hk hklt hsel
    have hk2 : idx.toNat = k := by rw [hk]; simp
    have hne : addrs ≠ [] := by
      intro h0
      rw [h0] at hcount
      have : addrs.length = (rs.filter fun r => !r.dead eng).length := by
        rw [haddrs, List.length_range']
      rw [h0] at this
      simp only [List.length_nil] at this
      omega
    have hgoto : (s1.GotoPos idx).pos = s.brk + k := by
      simp only [Inventory.GotoPos, Inventory.ResetPos, hk2]
      rw [g4]
      have hseg := g3.2.2
      have hh : addrs.headD 0 = addrs.headD (addrs.headD 0) := by
        cases haddrs2 : addrs with
        | nil => exact absurd haddrs2 hne
        | cons a t => rfl
      rw [hh, GotoPos_loop_index s1.mem k addrs _ _ hseg g3.2.1
        (by rw [haddrs, List.length_range']; exact hklt)]
      exact range'_getD _ _ _ hklt
    have hsel2 : ((s1.GotoPos idx).mem (s1.GotoPos idx).pos).iflags &&& c.INVF_SELECTABLE ≠ 0 := by
      rw [hgoto]; exact hsel
    have v3 := ValidatePos_selectable c fuel (s1.GotoPos idx) c.ValidatePos_forward hsel2
    rw [v3] at v1
    have := congrArg Inventory.pos (Option.some.inj v1)
    simp only at this
    show p = s.brk + k
    rw [← this, hgoto]

/-! ### Claim C9 -/

theorem length_filter_not_dead (eng : Engine) (rs : List Record) :
    ((rs.filter fun r => !r.dead eng).length : Int) =
      (rs.length : Int) - (rs.filter fun r => r.dead eng).length := by
  induction rs with
  | nil => rfl
  | cons r t ih =>
    cases h : r.dead eng
    · simp [List.filter_cons, h, ih]; ring
    · simp [List.filter_cons, h, ih]

/-- C9: for a stream that holds, from the reader's position on, an entry count `n`, `n`
records of the persisted layout and a cursor slot index, `ReadInventory` returns, has
consumed exactly these bytes (so each dead record, object-backed with a handle that does not
resolve, was skipped with its whole payload and the records behind it were decoded at their
offsets), has built the ring of the other records in stream order, and leaves `Size` at `n`
minus the number of dead records. -/
theorem read_skips_dead (c : Config) (fuel : Nat) (s : Inventory) (eng : Engine) (file : CFILE)
    (pre rest : List Nat) (rs : List Record) (idx : Int) (hv : ∀ r ∈ rs, r.valid)
    (hn : rs.length < 2147483648) (hidx : isInt32 idx) (hb : 0 < s.brk)
    (h : ReadAt file pre (layoutBytes rs.length rs idx ++ rest)) (hfuel : rs.length ≤ fuel) :
    ∃ s2 file2, s.ReadInventory c fuel eng file =
        some (((layoutBytes rs.length rs idx).length : Int), s2, file2) ∧
      ReadAt file2 (pre ++ layoutBytes rs.length rs idx) rest ∧
      InvRing s2 (List.range' s.brk (rs.filter fun r => !r.dead eng).length) ∧
      s2.entries (List.range' s.brk (rs.filter fun r => !r.dead eng).length) =
        (rs.filter fun r => !r.dead eng).map Record.item ∧
      s2.Size = (rs.length : Int) - (rs.filter fun r => r.dead eng).length := by
  obtain ⟨s2, file2, h1, h2, h3, h4, -, -⟩ :=
    ReadInventory_spec c fuel s eng file pre rest rs idx hv hn hidx hb h hfuel
  refine ⟨s2, file2, h1, h2, h3, h4, ?_⟩
  rw [← length_filter_not_dead]
  simpa [Inventory.Size] using h3.1

/-- The hypotheses of `read_skips_dead` hold for the stream `exFile`, one of whose three
records is dead. -/
theorem read_skips_dead_witness :
    (∀ r ∈ exRecords, r.valid) ∧ exRecords.length < 2147483648 ∧ isInt32 0 ∧
      0 < (Inventory.init (fun _ => default) 1).brk ∧
      ReadAt exFile [] (layoutBytes exRecords.length exRecords 0 ++ []) ∧ exRecords.length ≤ 5 ∧
      (exRecords.filter fun r => r.dead exEngine).length = 1 ∧
      ∃ s2 file2, (Inventory.init (fun _ => default) 1).ReadInventory exConfig 5 exEngine exFile =
          some (((layoutBytes exRecords.length exRecords 0).length : Int), s2, file2) ∧
        ReadAt file2 ([] ++ layoutBytes exRecords.length exRecords 0) [] ∧
        InvRing s2 (List.range' (Inventory.init (fun _ => default) 1).brk
          (exRecords.filter fun r => !r.dead exEngine).length) ∧
        s2.entries (List.range' (Inventory.init (fun _ => default) 1).brk
            (exRecords.filter fun r => !r.dead exEngine).length) =
          (exRecords.filter fun r => !r.dead exEngine).map Record.item ∧
        s2.Size = (exRecords.length : Int) - (exRecords.filter fun r => r.dead exEngine).length :=
  ⟨by decide, by decide, by decide, by decide, by decide, by decide, by decide,
    read_skips_dead exConfig 5 (Inventory.init (fun _ => default) 1) exEngine exFile [] []
      exRecords 0 (by decide) (by decide) (by decide) (by decide) (by decide) (by decide)⟩

/-! ### Save followed by load -/

theorem record_valid (it : ItemData) (h : it.storable) : it.record.valid := by
  obtain ⟨h1, h2, h3, h4, h5, h6, h7, h8, h9, h10⟩ := h
  exact ⟨h1, h2, h3, h4, h5, h6, h7, h8, h9, ⟨by simp [ItemData.record]; omega,
    by simp [ItemData.record]; omega⟩⟩

theorem record_item_iflags (it : ItemData) (h : it.storable) :
    it.record.item.iflags = it.iflags := by
  have := h.2.2.2.2.2.2.2.2.2
  simp only [Record.item, ItemData.record]
  omega

theorem record_item_loaded (it : ItemData) (h : it.storable) (hf : it.fits512) :
    it.record.item = it.loaded := by
  have hi := record_item_iflags it h
  obtain ⟨f1, f2, f3⟩ := hf
  simp only [Record.item, ItemData.record] at hi
  simp only [Record.item, ItemData.record, ItemData.loaded, hi]
  rw [List.take_of_length_le (by omega), List.take_of_length_le (by omega),
    List.take_of_length_le (by omega)]

theorem savedPos_range (s : Inventory) (l : List Nat) (hr : InvRing s l) :
    0 ≤ savedPos s.pos l 0 0 ∧ savedPos s.pos l 0 0 ≤ l.length := by
  rcases hr.2.2.2.2.2 with h | h
  · rw [savedPos_not_mem _ _ _ _ (h ▸ hr.2.2.1.2.1)]
    exact ⟨le_refl _, by omega⟩
  · obtain ⟨l1, l2, rfl⟩ := List.append_of_mem h
    rw [savedPos_index _ _ _ _ _ hr.2.2.1.1]
    simp only [List.length_append, List.length_cons]
    omega

/-- In a well-formed inventory whose object-backed entries resolve no entry is dead. -/
theorem wf_not_dead {c : Config} {s : Inventory} {l : List Nat} (eng : Engine) (hwf : WF c s l)
    (hres : ∀ a ∈ l, (s.mem a).iflags &&& c.INVF_OBJECT ≠ 0 → ObjGet eng (s.mem a).type ≠ none) :
    ∀ a ∈ l, (s.mem a).toItemData.record.dead eng = false := by
  intro a ha
  rw [← Bool.not_eq_true, dead_iff]
  intro hd
  rcases hwf.2.1 a ha with h | h
  · exact hres a ha h.1 hd.2
  · exact h.2.1 hd.1

theorem filter_eq_self_of_all {α : Type} (p : α → Bool) (l : List α) (h : ∀ a ∈ l, p a = true) :
    l.filter p = l :=
  List.filter_eq_self.2 h

/-- Save followed by load, for an inventory none of whose entries is dead at save time
(`engS`) or at load time (`engL`). -/
theorem save_read_spec (c : Config) (fuel : Nat) (s s0 : Inventory) (engS engL : Engine)
    (file : CFILE) (l : List Nat) (hr : InvRing s l)
    (hst : ∀ a ∈ l, (s.mem a).toItemData.storable)
    (hS : ∀ a ∈ l, (s.mem a).toItemData.record.dead engS = false)
    (hL : ∀ a ∈ l, (s.mem a).toItemData.record.dead engL = false)
    (hend : file.position = file.data.length) (hb : 0 < s0.brk) (hfuel : l.length ≤ fuel)
    (hlen : l.length < 2147483648) :
    ∃ s2 file2,
      s0.ReadInventory c fuel engL ⟨(s.SaveInventory engS file).2.data, file.position⟩ =
        some ((s.SaveInventory engS file).1, s2, file2) ∧
      InvRing s2 (List.range' s0.brk l.length) ∧
      s2.entries (List.range' s0.brk l.length) =
        l.map (fun a => (s.mem a).toItemData.record.item) ∧
      (s2.pos = 0 ∨ (s2.mem s2.pos).iflags &&& c.INVF_SELECTABLE ≠ 0) ∧
      (∀ l1 l2, l = l1 ++ s.pos :: l2 → (s.mem s.pos).iflags &&& c.INVF_SELECTABLE ≠ 0 →
        s2.pos = s0.brk + l1.length) := by
  obtain ⟨w1, w2, -⟩ := SaveInventory_spec s engS file l hr hend
  have hrecs : savedRecords s.mem engS l = l.map fun a => (s.mem a).toItemData.record := by
    unfold savedRecords
    rw [filter_eq_self_of_all _ _ (fun a ha => by simp [hS a ha])]
  set rs := l.map fun a => (s.mem a).toItemData.record with hrs
  have hrl : rs.length = l.length := by simp [hrs]
  have hv : ∀ r ∈ rs, r.valid := by
    intro r hr2
    obtain ⟨a, ha, rfl⟩ := List.mem_map.1 hr2
    exact record_valid _ (hst a ha)
  have hkeep : rs.filter (fun r => !r.dead engL) = rs := by
    apply filter_eq_self_of_all
    intro r hr2
    obtain ⟨a, ha, rfl⟩ := List.mem_map.1 hr2
    simp [hL a ha]
  have hidx := savedPos_range s l hr
  have hcount : s.count = (rs.length : Int) := by rw [hrl]; exact hr.1
  rw [hrecs, hcount] at w1 w2
  obtain ⟨s2, file2, r1, -, r3, r4, r5, r6⟩ :=
    ReadInventory_spec c fuel s0 engL ⟨(s.SaveInventory engS file).2.data, file.position⟩
      file.data [] rs (savedPos s.pos l 0 0) hv (by omega) ⟨by omega, by omega⟩ hb
      ⟨by simpa using w1, hend⟩ (by omega)
  rw [hkeep, hrl] at r3 r4 r6
  refine ⟨s2, file2, by rw [r1, w2], r3, ?_, r5, ?_⟩
  · rw [r4, hrs, List.map_map]; rfl
  · intro l1 l2 hl hsel
    have hk : l1.length < l.length := by
      rw [hl]; simp only [List.length_append, List.length_cons]; omega
    refine r6 l1.length ?_ hk ?_
    · have hnd := hr.2.2.1.1
      rw [hl] at hnd ⊢
      rw [savedPos_index _ _ _ _ _ hnd]
      simp
    · have he := congrArg (fun e => e.getD l1.length default) r4
      simp only [Inventory.entries] at he
      rw [List.getD_eq_getElem?_getD, List.getD_eq_getElem?_getD, List.getElem?_map,
        List.getElem?_map, List.getElem?_range' _ _ hk, List.getElem?_map] at he
      have hget : l[l1.length]? = some s.pos := by
        rw [hl, List.getElem?_append_right (le_refl _)]
        simp
      rw [hget] at he
      simp only [Option.map_some', Option.getD_some, Nat.one_mul] at he
      rw [show (s2.mem (s0.brk + l1.length)).iflags =
        (s2.mem (s0.brk + l1.length)).toItemData.iflags from rfl, he,
        record_item_iflags _ (hst s.pos (by rw [hl]; simp))]
      exact hsel

/-! ### Claims C7, C8 and C10 -/

/-- C7, as stated, fails: the ring of `exCounter` is one countermeasure entry whose
`icon_name` is null. The inventory is well-formed, nothing is object-backed and the texts
fit the buffer, the save and the load succeed with equal byte counts, but the loaded entry
differs from the saved one: its `icon_name` is the empty string. -/
theorem save_load_counterexample :
    WF exConfig exCounter [1] ∧ (exCounter.mem 1).toItemData.storable ∧
      (exCounter.mem 1).toItemData.fits512 ∧ (exCounter.mem 1).icon_name = none ∧
      ((Inventory.init (fun _ => default) 1).ReadInventory exConfig 5 exEngine
          ⟨(exCounter.SaveInventory exEngine ⟨[], 0⟩).2.data, 0⟩).map
        (fun r => (decide (r.1 = (exCounter.SaveInventory exEngine ⟨[], 0⟩).1),
          decide (r.2.1.entries [1] = exCounter.entries [1]), (r.2.1.mem 1).icon_name)) =
        some (true, false, some []) := by
  decide

/-- C7, amended: for a well-formed inventory whose object-backed entries resolve at save
time and at load time, whose members hold values of their C types and whose texts fit the
512-byte buffer, `ReadInventory` applied to the bytes written by `SaveInventory` returns the
byte count `SaveInventory` returned and yields a ring with as many entries, in the same
order, each with the same kind, auxKind, id, auxId, userFlags, count, texts and entryFlags,
except that a text that was absent (a null pointer) is the empty string after the load. -/
theorem save_load_roundtrip (c : Config) (fuel : Nat) (s s0 : Inventory) (engS engL : Engine)
    (file : CFILE) (l : List Nat) (hwf : WF c s l)
    (hresS : ∀ a ∈ l, (s.mem a).iflags &&& c.INVF_OBJECT ≠ 0 → ObjGet engS (s.mem a).type ≠ none)
    (hresL : ∀ a ∈ l, (s.mem a).iflags &&& c.INVF_OBJECT ≠ 0 → ObjGet engL (s.mem a).type ≠ none)
    (hst : ∀ a ∈ l, (s.mem a).toItemData.storable) (hfit : ∀ a ∈ l, (s.mem a).toItemData.fits512)
    (hend : file.position = file.data.length) (hb : 0 < s0.brk) (hfuel : l.length ≤ fuel)
    (hlen : l.length < 2147483648) :
    ∃ s2 file2,
      s0.ReadInventory c fuel engL ⟨(s.SaveInventory engS file).2.data, file.position⟩ =
        some ((s.SaveInventory engS file).1, s2, file2) ∧
      InvRing s2 (List.range' s0.brk l.length) ∧
      s2.entries (List.range' s0.brk l.length) = (s.entries l).map ItemData.loaded := by
  obtain ⟨s2, file2, h1, h2, h3, -, -⟩ := save_read_spec c fuel s s0 engS engL file l hwf.1 hst
    (wf_not_dead engS hwf hresS) (wf_not_dead engL hwf hresL) hend hb hfuel hlen
  refine ⟨s2, file2, h1, h2, ?_⟩
  rw [h3, Inventory.entries, List.map_map]
  apply List.map_congr_left
  intro a ha
  exact record_item_loaded _ (hst a ha) (hfit a ha)

/-- The hypotheses of `save_load_roundtrip` hold for `exThree`. -/
theorem save_load_roundtrip_witness :
    WF exConfig exThree [1, 2, 3] ∧
      (∀ a ∈ [1, 2, 3], (exThree.mem a).iflags &&& exConfig.INVF_OBJECT ≠ 0 →
        ObjGet exEngine (exThree.mem a).type ≠ none) ∧
      (∀ a ∈ [1, 2, 3], (exThree.mem a).toItemData.storable) ∧
      (∀ a ∈ [1, 2, 3], (exThree.mem a).toItemData.fits512) ∧
      (⟨[], 0⟩ : CFILE).position = (⟨[], 0⟩ : CFILE).data.length ∧
      0 < (Inventory.init (fun _ => default) 1).brk ∧ [1, 2, 3].length ≤ 5 ∧
      [1, 2, 3].length < 2147483648 ∧
      ∃ s2 file2,
        (Inventory.init (fun _ => default) 1).ReadInventory exConfig 5 exEngine
            ⟨(exThree.SaveInventory exEngine ⟨[], 0⟩).2.data, (⟨[], 0⟩ : CFILE).position⟩ =
          some ((exThree.SaveInventory exEngine ⟨[], 0⟩).1, s2, file2) ∧
        InvRing s2 (List.range' (Inventory.init (fun _ => default) 1).brk [1, 2, 3].length) ∧
        s2.entries (List.range' (Inventory.init (fun _ => default) 1).brk [1, 2, 3].length) =
          (exThree.entries [1, 2, 3]).map ItemData.loaded :=
  ⟨by decide, by decide, by decide, by decide, by decide, by decide, by decide, by decide,
    save_load_roundtrip exConfig 5 exThree (Inventory.init (fun _ => default) 1) exEngine
      exEngine ⟨[], 0⟩ [1, 2, 3] (by decide) (by decide) (by decide) (by decide) (by decide)
      (by decide) (by decide) (by decide) (by decide)⟩

/-- C8: for a well-formed inventory whose object-backed entries resolve (at save time and at
load time), whose members hold values of their C types, and whose cursor is on a selectable
entry at ring position `k` (the ring is `l1 ++ pos :: l2` with `k = l1.length`), after
`SaveInventory` and `ReadInventory` the cursor is on the node at position `k` of the loaded
ring, and that node carries the flag word of the entry selected before the save. -/
theorem save_load_cursor (c : Config) (fuel : Nat) (s s0 : Inventory) (engS engL : Engine)
    (file : CFILE) (l1 l2 : List Nat) (hwf : WF c s (l1 ++ s.pos :: l2))
    (hresS : ∀ a ∈ l1 ++ s.pos :: l2, (s.mem a).iflags &&& c.INVF_OBJECT ≠ 0 →
      ObjGet engS (s.mem a).type ≠ none)
    (hresL : ∀ a ∈ l1 ++ s.pos :: l2, (s.mem a).iflags &&& c.INVF_OBJECT ≠ 0 →
      ObjGet engL (s.mem a).type ≠ none)
    (hst : ∀ a ∈ l1 ++ s.pos :: l2, (s.mem a).toItemData.storable)
    (hsel : (s.mem s.pos).iflags &&& c.INVF_SELECTABLE ≠ 0)
    (hend : file.position = file.data.length) (hb : 0 < s0.brk)
    (hfuel : (l1 ++ s.pos :: l2).length ≤ fuel) (hlen : (l1 ++ s.pos :: l2).length < 2147483648) :
    ∃ s2 file2,
      s0.ReadInventory c fuel engL ⟨(s.SaveInventory engS file).2.data, file.position⟩ =
        some ((s.SaveInventory engS file).1, s2, file2) ∧
      InvRing s2 (List.range' s0.brk (l1 ++ s.pos :: l2).length) ∧
      (List.range' s0.brk (l1 ++ s.pos :: l2).length)[l1.length]? = some s2.pos ∧
      (s2.mem s2.pos).toItemData = (s.mem s.pos).toItemData.record.item := by
  obtain ⟨s2, file2, h1, h2, h3, -, h5⟩ := save_read_spec c fuel s s0 engS engL file _ hwf.1 hst
    (wf_not_dead engS hwf hresS) (wf_not_dead engL hwf hresL) hend hb hfuel hlen
  have hp := h5 l1 l2 rfl hsel
  have hk : l1.length < (l1 ++ s.pos :: l2).length := by
    simp only [List.length_append, List.length_cons]; omega
  have hget : (List.range' s0.brk (l1 ++ s.pos :: l2).length)[l1.length]? = some s2.pos := by
    rw [List.getElem?_range' _ _ hk, hp]; simp
  refine ⟨s2, file2, h1, h2, hget, ?_⟩
  have he := congrArg (fun e => e[l1.length]?) h3
  simp only [Inventory.entries, List.getElem?_map, hget, Option.map_some',
    List.getElem?_append_right (le_refl l1.length), Nat.sub_self, List.getElem?_cons_zero] at he
  exact Option.some.inj he

/-- The hypotheses of `save_load_cursor` hold for `exObjTwo`, whose cursor is at ring
position 1. -/
theorem save_load_cursor_witness :
    WF exConfig exObjTwo ([1] ++ exObjTwo.pos :: []) ∧
      (∀ a ∈ [1] ++ exObjTwo.pos :: [], (exObjTwo.mem a).iflags &&& exConfig.INVF_OBJECT ≠ 0 →
        ObjGet exEngine (exObjTwo.mem a).type ≠ none) ∧
      (∀ a ∈ [1] ++ exObjTwo.pos :: [], (exObjTwo.mem a).toItemData.storable) ∧
      (exObjTwo.mem exObjTwo.pos).iflags &&& exConfig.INVF_SELECTABLE ≠ 0 ∧
      (⟨[], 0⟩ : CFILE).position = (⟨[], 0⟩ : CFILE).data.length ∧
      0 < (Inventory.init (fun _ => default) 1).brk ∧
      ([1] ++ exObjTwo.pos :: []).length ≤ 5 ∧
      ([1] ++ exObjTwo.pos :: []).length < 2147483648 ∧
      ∃ s2 file2,
        (Inventory.init (fun _ => default) 1).ReadInventory exConfig 5 exEngine
            ⟨(exObjTwo.SaveInventory exEngine ⟨[], 0⟩).2.data, (⟨[], 0⟩ : CFILE).position⟩ =
          some ((exObjTwo.SaveInventory exEngine ⟨[], 0⟩).1, s2, file2) ∧
        InvRing s2 (List.range' (Inventory.init (fun _ => default) 1).brk
          ([1] ++ exObjTwo.pos :: []).length) ∧
        (List.range' (Inventory.init (fun _ => default) 1).brk
          ([1] ++ exObjTwo.pos :: []).length)[[1].length]? = some s2.pos ∧
        (s2.mem s2.pos).toItemData = (exObjTwo.mem exObjTwo.pos).toItemData.record.item :=
  ⟨by decide, by decide, by decide, by decide, by decide, by decide, by decide, by decide,
    save_load_cursor exConfig 5 exObjTwo (Inventory.init (fun _ => default) 1) exEngine exEngine
      ⟨[], 0⟩ [1] [] (by decide) (by decide) (by decide) (by decide) (by decide) (by decide)
      (by decide) (by decide) (by decide)⟩

/-- C10, the code at the failing inputs. In `exObjOne` the only entry is object-backed and
its handle does not resolve in `exEngineNone`: `SaveInventory` writes the entry count 1 and
the cursor index 0 and no record in between. In `exObjTwo` the first entry is dead and the
cursor is on the second: `SaveInventory` writes the entry count 2, one record, and the cursor
index 1, although the cursor's record is the first one emitted; `ReadInventory` gets no result
from these bytes. -/
theorem save_dead_entry_bytes :
    WF exConfig exObjOne [1] ∧ ObjGet exEngineNone 700 = none ∧
      (exObjOne.SaveInventory exEngineNone ⟨[], 0⟩).2.data = layoutBytes 1 [] 0 ∧
      WF exConfig exObjTwo [1, 2] ∧ exObjTwo.pos = 2 ∧
      (exObjTwo.SaveInventory exEngineNone ⟨[], 0⟩).2.data =
        layoutBytes 2 [(exObjTwo.mem 2).toItemData.record] 1 ∧
      ((Inventory.init (fun _ => default) 1).ReadInventory exConfig 5 exEngineNone
        ⟨(exObjTwo.SaveInventory exEngineNone ⟨[], 0⟩).2.data, 0⟩).isNone = true := by
  decide

/-! ### Walking the ring step by step -/

theorem seg_iter_next (mem : Nat → inven_item) :
    ∀ (w : List Nat) (p q j : Nat), Seg mem p w q → j < w.length →
      (cursorStep mem true)^[j] (w.headD q) = w.getD j 0
  | a :: t, _, _, 0, _, _ => rfl
  | a :: t, p, q, j + 1, hs, hj => by
    have hn : cursorStep mem true a = t.headD q := hs.2.1
    rw [Function.iterate_succ_apply, List.headD_cons, hn,
      seg_iter_next mem t a q j hs.2.2 (by simpa using hj)]
    simp

theorem seg_iter_prev (mem : Nat → inven_item) (pos : Nat) :
    ∀ (wr : List Nat) (q j : Nat), Seg mem pos wr.reverse q → j < wr.length →
      (cursorStep mem false)^[j] (wr.headD pos) = wr.getD j 0
  | x :: t, _, 0, _, _ => rfl
  | x :: t, q, j + 1, hs, hj => by
    rw [List.reverse_cons, seg_append] at hs
    have hp : cursorStep mem false x = t.headD pos := by
      show (mem x).prev = _
      rw [hs.2.1, List.getLastD_eq_getLast?, List.getLast?_reverse, List.headD_eq_head?_getD]
    rw [Function.iterate_succ_apply, List.headD_cons, hp,
      seg_iter_prev mem pos t _ j hs.1 (by simpa using hj)]
    simp

/-- The first selectable node of `w` sits at the least index that holds a selectable node. -/
theorem firstSelectable_index (c : Config) (mem : Nat → inven_item) :
    ∀ (w : List Nat), 0 ∉ w →
      (firstSelectable c mem w = 0 ↔ ∀ a ∈ w, (mem a).iflags &&& c.INVF_SELECTABLE = 0) ∧
      (firstSelectable c mem w ≠ 0 → ∃ k, k < w.length ∧ w.getD k 0 = firstSelectable c mem w ∧
        (∀ j, j < k → (mem (w.getD j 0)).iflags &&& c.INVF_SELECTABLE = 0))
  | [], _ => by simp [firstSelectable]
  | x :: t, h0 => by
    have hx0 : x ≠ 0 := fun h => h0 (h ▸ List.mem_cons_self _ _)
    have ih := firstSelectable_index c mem t (fun h => h0 (List.mem_cons_of_mem _ h))
    rw [firstSelectable_cons]
    by_cases hx : (mem x).iflags &&& c.INVF_SELECTABLE ≠ 0
    · rw [if_pos hx]
      refine ⟨⟨fun h => absurd h hx0, fun h => absurd (h x (List.mem_cons_self _ _)) hx⟩,
        fun _ => ⟨0, by simp, rfl, fun j hj => absurd hj (Nat.not_lt_zero j)⟩⟩
    · rw [if_neg hx]
      have hx2 : (mem x).iflags &&& c.INVF_SELECTABLE = 0 := not_not.1 hx
      refine ⟨?_, ?_⟩
      · rw [ih.1]
        simp [hx2]
      · intro hne
        obtain ⟨k, hk, hget, hbefore⟩ := ih.2 hne
        refine ⟨k + 1, by simpa using hk, by simpa using hget, ?_⟩
        intro j hj
        cases j with
        | zero => simpa using hx2
        | succ i => simpa using hbefore i (by omega)

/-! ### ValidatePos -/

/-- A walk from a non-selectable cursor `b` over the rest `w` of the ring: the first selectable
node in walking order is reached by stepping, and is null exactly when no node is selectable. -/
theorem walk_first (c : Config) (mem : Nat → inven_item) (forward : Bool) (b : Nat)
    (w : List Nat) (hl : Links mem (b :: w))
    (hb : (mem b).iflags &&& c.INVF_SELECTABLE = 0) :
    (firstSelectable c mem (cursorWalk forward (b :: w)) = 0 ↔
      ∀ a ∈ b :: w, (mem a).iflags &&& c.INVF_SELECTABLE = 0) ∧
    (firstSelectable c mem (cursorWalk forward (b :: w)) ≠ 0 →
      ∃ k, 0 < k ∧ k < (b :: w).length ∧
        firstSelectable c mem (cursorWalk forward (b :: w)) = (cursorStep mem forward)^[k] b ∧
        ∀ j, 0 < j → j < k →
          (mem ((cursorStep mem forward)^[j] b)).iflags &&& c.INVF_SELECTABLE = 0) := by
  obtain ⟨hnd, h0, hs⟩ := hl
  have hw0 : 0 ∉ w := fun h => h0 (List.mem_cons_of_mem _ h)
  have hseg : Seg mem b w b := hs.2.2
  rw [cursorWalk_cons, firstSelectable_cons, if_neg (not_not.2 hb)]
  cases forward with
  | true =>
    simp only [if_true]
    obtain ⟨h1, h2⟩ := firstSelectable_index c mem w hw0
    refine ⟨by rw [h1]; simp [hb], fun hne => ?_⟩
    obtain ⟨k, hk, hget, hbefore⟩ := h2 hne
    have hstep : cursorStep mem true b = w.headD b := hs.2.1
    refine ⟨k + 1, by omega, by simpa using hk, ?_, ?_⟩
    · rw [Function.iterate_succ_apply, hstep, seg_iter_next mem w b b k hseg hk, hget]
    · intro j hj hjk
      obtain ⟨i, rfl⟩ : ∃ i, j = i + 1 := ⟨j - 1, by omega⟩
      rw [Function.iterate_succ_apply, hstep, seg_iter_next mem w b b i hseg (by omega)]
      exact hbefore i (by omega)
  | false =>
    simp only [Bool.false_eq_true, if_false]
    have hr0 : 0 ∉ w.reverse := fun h => hw0 (List.mem_reverse.1 h)
    obtain ⟨h1, h2⟩ := firstSelectable_index c mem w.reverse hr0
    have hseg2 : Seg mem b w.reverse.reverse b := by rw [List.reverse_reverse]; exact hseg
    refine ⟨by rw [h1]; simp [hb], fun hne => ?_⟩
    obtain ⟨k, hk, hget, hbefore⟩ := h2 hne
    have hstep : cursorStep mem false b = w.reverse.headD b := by
      show (mem b).prev = _
      rw [hs.1, List.headD_eq_head?_getD, List.head?_reverse]
      cases w with
      | nil => rfl
      | cons x t =>
        rw [List.getLastD_eq_getLast?, List.getLast?_cons_cons]
        cases h : (x :: t).getLast? with
        | none => simp at h
        | some y => rfl
    refine ⟨k + 1, by omega, by simpa using hk, ?_, ?_⟩
    · rw [Function.iterate_succ_apply, hstep, seg_iter_prev mem b w.reverse b k hseg2 hk, hget]
    · intro j hj hjk
      obtain ⟨i, rfl⟩ : ∃ i, j = i + 1 := ⟨j - 1, by omega⟩
      rw [Function.iterate_succ_apply, hstep,
        seg_iter_prev mem b w.reverse b i hseg2 (by omega)]
      exact hbefore i (by omega)

/-- C18: on an inventory holding the ring `l`, `ValidatePos` returns (fuel for one round is
enough) and changes nothing but the cursor. A null cursor stays null; a cursor on a selectable
entry stays; a cursor on a non-selectable entry becomes null exactly when no entry of the ring
is selectable, and otherwise lands on the first selectable entry met when stepping from it in
the given direction (`next` for forward, `prev` for backward), within one round. -/
theorem validatePos_first_selectable (c : Config) (fuel : Nat) (s : Inventory) (forward : Bool)
    (l : List Nat) (hr : InvRing s l) (hf : l.length ≤ fuel) :
    ∃ p, s.ValidatePos c fuel forward = some { s with pos := p } ∧
      (s.pos = 0 → p = 0) ∧
      ((s.mem s.pos).iflags &&& c.INVF_SELECTABLE ≠ 0 → p = s.pos) ∧
      (s.pos ≠ 0 → (s.mem s.pos).iflags &&& c.INVF_SELECTABLE = 0 →
        (p = 0 ↔ ∀ a ∈ l, (s.mem a).iflags &&& c.INVF_SELECTABLE = 0) ∧
        (p ≠ 0 → p ∈ l ∧ (s.mem p).iflags &&& c.INVF_SELECTABLE ≠ 0 ∧
          ∃ k, 0 < k ∧ k < l.length ∧ p = (cursorStep s.mem forward)^[k] s.pos ∧
            ∀ j, 0 < j → j < k →
              (s.mem ((cursorStep s.mem forward)^[j] s.pos)).iflags &&&
                c.INVF_SELECTABLE = 0)) := by
  by_cases h0 : s.pos = 0
  · refine ⟨s.pos, ?_, fun _ => h0, fun _ => rfl, fun h => absurd h0 h⟩
    unfold Inventory.ValidatePos
    rw [if_pos h0]
  by_cases hsel : (s.mem s.pos).iflags &&& c.INVF_SELECTABLE ≠ 0
  · exact ⟨s.pos, ValidatePos_selectable c fuel s forward hsel, fun h => absurd h h0,
      fun _ => rfl, fun _ h => absurd h hsel⟩
  have hsel0 : (s.mem s.pos).iflags &&& c.INVF_SELECTABLE = 0 := not_not.1 hsel
  have hpos : s.pos ∈ l := hr.2.2.2.2.2.resolve_left h0
  obtain ⟨u, v, rfl⟩ := List.append_of_mem hpos
  have hl : Links s.mem (s.pos :: (v ++ u)) := links_rotate u (s.pos :: v) hr.2.2.1
  have hlen : (s.pos :: (v ++ u)).length = (u ++ s.pos :: v).length := by
    simp only [List.length_cons, List.length_append]; omega
  have hmemb : ∀ a, a ∈ s.pos :: (v ++ u) ↔ a ∈ u ++ s.pos :: v := by
    intro a
    simp only [List.mem_cons, List.mem_append]
    tauto
  obtain ⟨h1, h2⟩ := walk_first c s.mem forward s.pos (v ++ u) hl hsel0
  refine ⟨_, ValidatePos_links c fuel s forward s.pos (v ++ u) hl rfl
    (by rw [← hlen] at hf; simpa using hf), fun h => absurd h h0, fun h => absurd h hsel,
    fun _ _ => ⟨?_, ?_⟩⟩
  · rw [h1]
    exact ⟨fun h a ha => h a ((hmemb a).2 ha), fun h a ha => h a ((hmemb a).1 ha)⟩
  · intro hne
    rcases firstSelectable_mem_or c s.mem (cursorWalk forward (s.pos :: (v ++ u))) with hz | hm
    · exact absurd hz hne
    · refine ⟨(hmemb _).1 (cursorWalk_subset forward _ _ hm.1), hm.2, ?_⟩
      rw [← hlen]
      exact h2 hne

/-- Witness for `validatePos_first_selectable`: the ring `[1, 2, 3]` with the cursor on the
non-selectable node 2. -/
theorem validatePos_first_selectable_witness :
    InvRing { exThree with pos := 2 } [1, 2, 3] ∧
      ∃ p, ({ exThree with pos := 2 } : Inventory).ValidatePos exConfig 5 false =
          some { ({ exThree with pos := 2 } : Inventory) with pos := p } ∧
        (({ exThree with pos := 2 } : Inventory).pos = 0 → p = 0) ∧
        ((exThree.mem 2).iflags &&& exConfig.INVF_SELECTABLE ≠ 0 → p = 2) ∧
        (({ exThree with pos := 2 } : Inventory).pos ≠ 0 →
          (exThree.mem 2).iflags &&& exConfig.INVF_SELECTABLE = 0 →
          (p = 0 ↔ ∀ a ∈ [1, 2, 3], (exThree.mem a).iflags &&& exConfig.INVF_SELECTABLE = 0) ∧
          (p ≠ 0 → p ∈ [1, 2, 3] ∧ (exThree.mem p).iflags &&& exConfig.INVF_SELECTABLE ≠ 0 ∧
            ∃ k, 0 < k ∧ k < [1, 2, 3].length ∧ p = (cursorStep exThree.mem false)^[k] 2 ∧
              ∀ j, 0 < j → j < k →
                (exThree.mem ((cursorStep exThree.mem false)^[j] 2)).iflags &&&
                  exConfig.INVF_SELECTABLE = 0)) :=
  ⟨by decide,
    validatePos_first_selectable exConfig 5 { exThree with pos := 2 } false [1, 2, 3]
      (by decide) (by decide)⟩

/-! ### NextPos and PrevPos -/

theorem links_prev_mem {mem : Nat → inven_item} {l : List Nat} {p : Nat} (hl : Links mem l)
    (hp : p ∈ l) : (mem p).prev ∈ l := by
  obtain ⟨u, v, rfl⟩ := List.append_of_mem hp
  have hrot : Links mem (p :: (v ++ u)) := links_rotate u (p :: v) hl
  have h := getLastD_mem_cons p (v ++ u) 0
  rw [← links_prev_head hrot] at h
  simp only [List.mem_cons, List.mem_append] at h ⊢
  tauto

theorem invRing_root_mem {s : Inventory} {l : List Nat} (hr : InvRing s l) :
    s.root = 0 ∨ s.root ∈ l := by
  rw [hr.2.1]
  cases l with
  | nil => exact Or.inl rfl
  | cons a t => exact Or.inr (List.mem_cons_self _ _)

/-- `NextPos` and `PrevPos` on a ring: the cursor is set to a node of the ring (or null for the
empty ring) and, unless `skip`, validated. -/
theorem NextPos_spec (c : Config) (fuel : Nat) (s : Inventory) (skip : Bool) (l : List Nat)
    (hr : InvRing s l) (hf : l.length ≤ fuel) :
    ∃ p, s.NextPos c fuel skip = some { s with pos := p } ∧ (p = 0 ∨ p ∈ l) ∧
      (skip = false → p = 0 ∨ (s.mem p).iflags &&& c.INVF_SELECTABLE ≠ 0) := by
  have key : ∀ q, (q = 0 ∨ q ∈ l) →
      ∃ p, (if !skip then ({ s with pos := q } : Inventory).ValidatePos c fuel
          c.ValidatePos_forward else some { s with pos := q }) = some { s with pos := p } ∧
        (p = 0 ∨ p ∈ l) ∧ (skip = false → p = 0 ∨ (s.mem p).iflags &&& c.INVF_SELECTABLE ≠ 0) := by
    intro q hq
    cases skip with
    | true => exact ⟨q, rfl, hq, fun h => Bool.noConfusion h⟩
    | false =>
      obtain ⟨p, h1, h2⟩ := ValidatePos_invRing c fuel { s with pos := q }
        c.ValidatePos_forward l (invRing_pos q hr hq) hf
      exact ⟨p, h1, h2.imp id And.left, fun _ => h2.imp id And.right⟩
  unfold Inventory.NextPos
  by_cases h0 : s.pos = 0
  · rw [if_neg (fun h => h.1 h0), if_pos h0]
    exact key s.root (invRing_root_mem hr)
  · have hpos : s.pos ∈ l := hr.2.2.2.2.2.resolve_left h0
    have hn : (s.mem s.pos).next ∈ l := links_next_mem hr.2.2.1 hpos
    have hn0 : (s.mem s.pos).next ≠ 0 := fun h => hr.2.2.1.2.1 (h ▸ hn)
    rw [if_pos ⟨h0, hn0⟩]
    exact key _ (Or.inr hn)

theorem PrevPos_spec (c : Config) (fuel : Nat) (s : Inventory) (skip : Bool) (l : List Nat)
    (hr : InvRing s l) (hf : l.length ≤ fuel) :
    ∃ p, s.PrevPos c fuel skip = some { s with pos := p } ∧ (p = 0 ∨ p ∈ l) ∧
      (skip = false → p = 0 ∨ (s.mem p).iflags &&& c.INVF_SELECTABLE ≠ 0) := by
  have key : ∀ q, (q = 0 ∨ q ∈ l) →
      ∃ p, (if !skip then ({ s with pos := q } : Inventory).ValidatePos c fuel false
          else some { s with pos := q }) = some { s with pos := p } ∧
        (p = 0 ∨ p ∈ l) ∧ (skip = false → p = 0 ∨ (s.mem p).iflags &&& c.INVF_SELECTABLE ≠ 0) := by
    intro q hq
    cases skip with
    | true => exact ⟨q, rfl, hq, fun h => Bool.noConfusion h⟩
    | false =>
      obtain ⟨p, h1, h2⟩ := ValidatePos_invRing c fuel { s with pos := q } false l
        (invRing_pos q hr hq) hf
      exact ⟨p, h1, h2.imp id And.left, fun _ => h2.imp id And.right⟩
  unfold Inventory.PrevPos
  by_cases h0 : s.pos = 0
  · rw [if_neg (fun h => h.1 h0), if_pos h0]
    exact key s.root (invRing_root_mem hr)
  · have hpos : s.pos ∈ l := hr.2.2.2.2.2.resolve_left h0
    have hn : (s.mem s.pos).prev ∈ l := links_prev_mem hr.2.2.1 hpos
    have hn0 : (s.mem s.pos).prev ≠ 0 := fun h => hr.2.2.1.2.1 (h ▸ hn)
    rw [if_pos ⟨h0, hn0⟩]
    exact key _ (Or.inr hn)

/-- C17: on an inventory holding the ring `l`, `NextPos` and `PrevPos` with `skip = false`
return, change nothing but the cursor, and leave the cursor null or on a node of the ring that
has the `INVF_SELECTABLE` flag. -/
theorem nextPos_prevPos_selectable (c : Config) (fuel : Nat) (s : Inventory) (l : List Nat)
    (hr : InvRing s l) (hf : l.length ≤ fuel) :
    (∃ p, s.NextPos c fuel false = some { s with pos := p } ∧
      (p = 0 ∨ (p ∈ l ∧ (s.mem p).iflags &&& c.INVF_SELECTABLE ≠ 0))) ∧
    (∃ p, s.PrevPos c fuel false = some { s with pos := p } ∧
      (p = 0 ∨ (p ∈ l ∧ (s.mem p).iflags &&& c.INVF_SELECTABLE ≠ 0))) := by
  obtain ⟨p, h1, h2, h3⟩ := NextPos_spec c fuel s false l hr hf
  obtain ⟨q, k1, k2, k3⟩ := PrevPos_spec c fuel s false l hr hf
  refine ⟨⟨p, h1, ?_⟩, ⟨q, k1, ?_⟩⟩
  · rcases h2 with h | h
    · exact Or.inl h
    · exact (h3 rfl).imp id fun hs => ⟨h, hs⟩
  · rcases k2 with h | h
    · exact Or.inl h
    · exact (k3 rfl).imp id fun hs => ⟨h, hs⟩

/-- Witness for `nextPos_prevPos_selectable`: the ring `[1, 2, 3]` with the cursor on node 1. -/
theorem nextPos_prevPos_selectable_witness :
    InvRing exThree [1, 2, 3] ∧
      (∃ p, exThree.NextPos exConfig 5 false = some { exThree with pos := p } ∧
        (p = 0 ∨ (p ∈ [1, 2, 3] ∧ (exThree.mem p).iflags &&& exConfig.INVF_SELECTABLE ≠ 0))) ∧
      (∃ p, exThree.PrevPos exConfig 5 false = some { exThree with pos := p } ∧
        (p = 0 ∨ (p ∈ [1, 2, 3] ∧ (exThree.mem p).iflags &&& exConfig.INVF_SELECTABLE ≠ 0))) :=
  ⟨by decide, nextPos_prevPos_selectable exConfig 5 exThree [1, 2, 3] (by decide) (by decide)⟩

/-! ### Reset and the cursor -/

/-- C19: `Reset` on an inventory holding the ring `l` returns, for every stage and both values
of `in_game`, an inventory holding a sub-ring `l2` of survivors whose cursor is null or on a
survivor that has the `INVF_SELECTABLE` flag; with the stage `INVRESET_ALL` the result is
empty (`Size` 0, no head) and its cursor is null. -/
theorem reset_cursor (c : Config) (fuel : Nat) (s : Inventory) (eng : Engine) (in_game : Bool)
    (stage : Int) (l : List Nat) (hr : InvRing s l) (hf : l.length ≤ fuel)
    (hall : 0 ≤ c.INVRESET_ALL ∧ c.INVRESET_ALL ≤ 2) :
    (∃ s2 eng2 l2, s.Reset c fuel eng in_game stage = some (s2, eng2) ∧ l2.Sublist l ∧
      InvRing s2 l2 ∧
      (s2.pos = 0 ∨ (s2.pos ∈ l2 ∧ (s2.mem s2.pos).iflags &&& c.INVF_SELECTABLE ≠ 0))) ∧
    (∃ s2 eng2, s.Reset c fuel eng in_game c.INVRESET_ALL = some (s2, eng2) ∧ s2.Size = 0 ∧
      s2.root = 0 ∧ s2.pos = 0 ∧ InvRing s2 []) := by
  constructor
  · obtain ⟨s2, eng2, h1, h2, _, h4⟩ := Reset_spec c fuel s eng in_game stage _ _ l hr hf rfl
    refine ⟨s2, eng2, _, h1, List.filter_sublist l, h2, ?_⟩
    rcases h4 with h | h
    · exact Or.inl h
    · by_cases h0 : s2.pos = 0
      · exact Or.inl h0
      · exact Or.inr ⟨h2.2.2.2.2.2.resolve_left h0, h⟩
  · have hflags : (if (if c.INVRESET_ALL < 0 ∨ c.INVRESET_ALL > 2 then 2 else c.INVRESET_ALL) =
          c.INVRESET_ALL then (true, true)
        else if (if c.INVRESET_ALL < 0 ∨ c.INVRESET_ALL > 2 then 2 else c.INVRESET_ALL) =
          c.INVRESET_LEVELCHANGE then (true, false)
        else if (if c.INVRESET_ALL < 0 ∨ c.INVRESET_ALL > 2 then 2 else c.INVRESET_ALL) =
          c.INVRESET_DEATHSPEW then (false, true)
        else (false, false)) = (true, true) := by
      have hc : ¬ (c.INVRESET_ALL < 0 ∨ c.INVRESET_ALL > 2) := by omega
      rw [if_neg hc, if_pos rfl]
    obtain ⟨s2, eng2, h1, h2, _, _⟩ :=
      Reset_spec c fuel s eng in_game c.INVRESET_ALL true true l hr hf hflags
    have hnil : (l.filter fun a => keptByReset c true true (s.mem a).toItemData) = [] := by
      rw [List.filter_eq_nil_iff]
      intro a _
      simp [keptByReset]
    rw [hnil] at h2
    refine ⟨s2, eng2, h1, ?_, h2.2.1, ?_, h2⟩
    · show s2.count = 0
      simpa using h2.1
    · simpa using h2.2.2.2.2.2

/-- Witness for `reset_cursor`: the level-change reset of the ring `[1, 2, 3]`. -/
theorem reset_cursor_witness :
    InvRing exThree [1, 2, 3] ∧ (0 ≤ exConfig.INVRESET_ALL ∧ exConfig.INVRESET_ALL ≤ 2) ∧
      (∃ s2 eng2 l2, exThree.Reset exConfig 5 exEngine true 1 = some (s2, eng2) ∧
        l2.Sublist [1, 2, 3] ∧ InvRing s2 l2 ∧
        (s2.pos = 0 ∨
          (s2.pos ∈ l2 ∧ (s2.mem s2.pos).iflags &&& exConfig.INVF_SELECTABLE ≠ 0))) ∧
      (∃ s2 eng2, exThree.Reset exConfig 5 exEngine true exConfig.INVRESET_ALL =
          some (s2, eng2) ∧ s2.Size = 0 ∧ s2.root = 0 ∧ s2.pos = 0 ∧ InvRing s2 []) :=
  ⟨by decide, by decide,
    reset_cursor exConfig 5 exThree exEngine true 1 [1, 2, 3] (by decide) (by decide)
      (by decide)⟩

/-! ### Remove, whatever the entry -/

/-- The container that `Remove` yields does not depend on the engine state. -/
theorem Remove_engine (c : Config) (fuel : Nat) (s : Inventory) (eng eng2 : Engine)
    (type id : Int) :
    (s.Remove c fuel eng type id).map (fun r => (r.1, r.2.1)) =
      (s.Remove c fuel eng2 type id).map (fun r => (r.1, r.2.1)) := by
  unfold Inventory.Remove
  cases s.FindItem type id with
  | none => rfl
  | some node =>
    simp only
    split_ifs
    · rfl
    · cases Inventory.RemoveNode c fuel s node <;> rfl
    · cases Inventory.RemoveNode c fuel _ node <;> rfl
    · rfl

theorem Remove_engine_some (c : Config) (fuel : Nat) (s : Inventory) (eng eng2 : Engine)
    (type id : Int) (b : Bool) (s2 : Inventory) (e2 : Engine)
    (h : s.Remove c fuel eng type id = some (b, s2, e2)) :
    ∃ e3, s.Remove c fuel eng2 type id = some (b, s2, e3) := by
  have hm := Remove_engine c fuel s eng eng2 type id
  rw [h] at hm
  cases h2 : s.Remove c fuel eng2 type id with
  | none => rw [h2] at hm; simp at hm
  | some r =>
    rw [h2] at hm
    simp only [Option.map_some', Option.some.injEq, Prod.mk.injEq] at hm
    obtain ⟨b2, s3, e3⟩ := r
    simp only at hm
    exact ⟨e3, by rw [hm.1, hm.2]⟩

/-- `Remove` of a key whose first match is `e`: the entry is evicted (object-backed entry, or
stack count at most 1), or its stack count is decremented. -/
theorem Remove_found (c : Config) (fuel : Nat) (s : Inventory) (eng : Engine) (type id : Int)
    (l1 l2 : List Nat) (e : Nat) (hr : InvRing s (l1 ++ e :: l2))
    (hfm : firstMatch s.mem type id (l1 ++ e :: l2) = e) (hf : (l1 ++ l2).length ≤ fuel) :
    ∃ s2 eng2, s.Remove c fuel eng type id = some (true, s2, eng2) ∧ s2.brk = s.brk ∧
      ((InvRing s2 (l1 ++ l2) ∧ (∀ x, x ≠ e → (s2.mem x).toItemData = (s.mem x).toItemData) ∧
          ((s.mem e).iflags &&& c.INVF_OBJECT ≠ 0 ∨ (s.mem e).count ≤ 1)) ∨
        (InvRing s2 (l1 ++ e :: l2) ∧ (s.mem e).iflags &&& c.INVF_OBJECT = 0 ∧
          1 < (s.mem e).count ∧ s2 = s.modify e fun it => { it with count := it.count - 1 })) := by
  by_cases hobj : (s.mem e).iflags &&& c.INVF_OBJECT ≠ 0
  · obtain ⟨s2, h1, h2, h3, h4, _⟩ := Remove_object c fuel s eng type id l1 l2 e hr hfm hobj hf
    exact ⟨s2, _, h1, h4, Or.inl ⟨h2, fun x _ => h3 x, Or.inl hobj⟩⟩
  · have hobj0 : (s.mem e).iflags &&& c.INVF_OBJECT = 0 := not_not.1 hobj
    by_cases hcount : (s.mem e).count ≤ 1
    · obtain ⟨s2, h1, h2, h3, h4, _⟩ :=
        Remove_last c fuel s eng type id l1 l2 e hr hfm hobj0 hcount hf
      exact ⟨s2, _, h1, h4, Or.inl ⟨h2, h3, Or.inr hcount⟩⟩
    · obtain ⟨h1, h2⟩ := Remove_dec c fuel s eng type id l1 l2 e hr hfm hobj0 (by omega)
      exact ⟨_, _, h1, rfl, Or.inr ⟨h2, hobj0, by omega, rfl⟩⟩

/-- A key that matches no entry: `Remove` reports failure and changes nothing. -/
theorem Remove_absent (c : Config) (fuel : Nat) (s : Inventory) (eng : Engine) (type id : Int)
    (l : List Nat) (hr : InvRing s l) (hfm : firstMatch s.mem type id l = 0) :
    s.Remove c fuel eng type id = some (false, s, eng) := by
  unfold Inventory.Remove
  rw [FindItem_spec s l type id hr, hfm]
  simp

theorem firstMatch_split (mem : Nat → inven_item) (type id : Int) (l : List Nat)
    (h : firstMatch mem type id l ≠ 0) :
    ∃ l1 l2, l = l1 ++ firstMatch mem type id l :: l2 ∧
      (mem (firstMatch mem type id l)).type = type ∧
      (mem (firstMatch mem type id l)).id = id := by
  rcases firstMatch_mem_or mem type id l with h0 | ⟨hm, hk⟩
  · exact absurd h0 h
  · obtain ⟨l1, l2, hl⟩ := List.append_of_mem hm
    exact ⟨l1, l2, hl, hk⟩

/-! ### Use -/

/-- C12: if no entry of the ring matches `(type, id)`, or the first matching entry lacks the
`INVF_USEABLE` flag, `Use` returns false and leaves the container and the engine state (object
directory, session mode, collaborator calls) as they were. -/
theorem use_absent_or_unusable (c : Config) (fuel : Nat) (s : Inventory) (eng : Engine)
    (type id : Int) (parent : Option object) (l : List Nat) (hr : InvRing s l)
    (h : firstMatch s.mem type id l = 0 ∨
      (s.mem (firstMatch s.mem type id l)).iflags &&& c.INVF_USEABLE = 0) :
    s.Use c fuel eng type id parent = some (false, s, eng) := by
  unfold Inventory.Use
  rw [FindItem_spec s l type id hr]
  rcases h with h | h
  · simp [h]
  · by_cases h0 : firstMatch s.mem type id l = 0
    · simp [h0]
    · simp [h0, h]

/-- Witness for `use_absent_or_unusable`: the first entry with key (2, 5) of the ring `[1, 2]`
is not usable. -/
theorem use_absent_or_unusable_witness :
    InvRing exTwo [1, 2] ∧
      (firstMatch exTwo.mem 2 5 [1, 2] = 0 ∨
        (exTwo.mem (firstMatch exTwo.mem 2 5 [1, 2])).iflags &&& exConfig.INVF_USEABLE = 0) ∧
      exTwo.Use exConfig 5 exEngine 2 5 (some exObject) = some (false, exTwo, exEngine) :=
  ⟨by decide, by decide,
    use_absent_or_unusable exConfig 5 exTwo exEngine 2 5 (some exObject) [1, 2] (by decide)
      (by decide)⟩

/-- C13: on a client of a network game (multiplayer mode, no server role) `Use` of a key whose
first match `e` has the `INVF_USEABLE` flag returns false and sends one use request carrying
the type and id of that entry, which are the key asked for; the container, the object
directory and the session mode stay as they were, and nothing else is called (no object is
created and no use event is fired). -/
theorem use_client (c : Config) (fuel : Nat) (s : Inventory) (eng : Engine) (type id : Int)
    (parent : Option object) (l : List Nat) (e : Nat) (hr : InvRing s l)
    (hfm : firstMatch s.mem type id l = e) (he : e ≠ 0)
    (husable : (s.mem e).iflags &&& c.INVF_USEABLE ≠ 0)
    (hmulti : eng.Game_mode &&& c.GM_MULTI ≠ 0) (hclient : eng.local_role &&& c.LR_SERVER = 0) :
    s.Use c fuel eng type id parent =
        some (false, s, { eng with calls := eng.calls ++
          [Call.MultiSendClientInventoryUseItem (s.mem e).type (s.mem e).id] }) ∧
      (s.mem e).type = type ∧ (s.mem e).id = id := by
  have hk : (s.mem e).type = type ∧ (s.mem e).id = id := by
    rcases firstMatch_mem_or s.mem type id l with h0 | ⟨_, hk⟩
    · exact absurd (hfm ▸ h0) he
    · rw [hfm] at hk; exact hk
  refine ⟨?_, hk⟩
  have hfi : s.FindItem (s.mem e).type (s.mem e).id = some e := by
    rw [hk.1, hk.2, FindItem_spec s l type id hr, hfm]
  unfold Inventory.Use Inventory.SendRequestToServerToUse
  rw [FindItem_spec s l type id hr, hfm]
  simp [he, husable, hmulti, hclient, hfi]

/-- Witness for `use_client`: a client uses the usable stack (2, 5). -/
theorem use_client_witness :
    InvRing { exTwo with mem := exMem (exItem 2 5 1 3 2 2) (exItem 2 6 3 0 1 1) default }
        [1, 2] ∧
      ({ exTwo with mem := exMem (exItem 2 5 1 3 2 2) (exItem 2 6 3 0 1 1) default } :
          Inventory).Use exConfig 5 { exEngine with Game_mode := 2 } 2 5 (some exObject) =
        some (false, { exTwo with mem := exMem (exItem 2 5 1 3 2 2) (exItem 2 6 3 0 1 1) default },
          { ({ exEngine with Game_mode := 2 } : Engine) with
            calls := ({ exEngine with Game_mode := 2 } : Engine).calls ++
              [Call.MultiSendClientInventoryUseItem
                ((exMem (exItem 2 5 1 3 2 2) (exItem 2 6 3 0 1 1) default) 1).type
                ((exMem (exItem 2 5 1 3 2 2) (exItem 2 6 3 0 1 1) default) 1).id] }) ∧
      ((exMem (exItem 2 5 1 3 2 2) (exItem 2 6 3 0 1 1) default) 1).type = 2 ∧
      ((exMem (exItem 2 5 1 3 2 2) (exItem 2 6 3 0 1 1) default) 1).id = 5 :=
  ⟨by decide,
    use_client exConfig 5 { exTwo with mem := exMem (exItem 2 5 1 3 2 2) (exItem 2 6 3 0 1 1) default }
      { exEngine with Game_mode := 2 } 2 5 (some exObject) [1, 2] 1 (by decide) (by decide)
      (by decide) (by decide) (by decide) (by decide)⟩

theorem or_or_and_self (f m d : Nat) : ((f ||| m) ||| d) &&& m = m := by
  apply Nat.eq_of_testBit_eq
  intro i
  simp only [Nat.testBit_and, Nat.testBit_or]
  cases Nat.testBit f i <;> cases Nat.testBit m i <;> cases Nat.testBit d i <;> rfl

theorem or_and_self (f m : Nat) : (f ||| m) &&& m = m := by
  apply Nat.eq_of_testBit_eq
  intro i
  simp only [Nat.testBit_and, Nat.testBit_or]
  cases Nat.testBit f i <;> cases Nat.testBit m i <;> rfl

theorem modifyObject_same (eng : Engine) (k : Int) (f : object → object) (o : object)
    (h : eng.Objects k = some o) : (modifyObject eng k f).Objects k = some (f o) := by
  unfold modifyObject
  rw [h]
  simp [setObject]

/-- The mark `OF_INPLAYERINVENTORY` set on a live object survives the optional dead-flagging
at the end of `Use`. -/
theorem Use_kill_marked (c : Config) (eng : Engine) (b : Bool) (k : Int) (o : object)
    (h : eng.Objects k = some o) :
    ∃ o2, (Use_kill c (modifyObject eng k fun o =>
        { o with flags := o.flags ||| c.OF_INPLAYERINVENTORY }) b k).Objects k = some o2 ∧
      o2.flags &&& c.OF_INPLAYERINVENTORY = c.OF_INPLAYERINVENTORY := by
  have h1 := modifyObject_same eng k
    (fun o => { o with flags := o.flags ||| c.OF_INPLAYERINVENTORY }) o h
  unfold Use_kill
  cases b with
  | false => exact ⟨_, h1, or_and_self _ _⟩
  | true =>
    rw [if_pos rfl]
    exact ⟨_, modifyObject_same _ k (SetObjectDeadFlag c) _ h1, or_or_and_self _ _ _⟩

/-- C11: on the authoritative instance (single player, or the server of a network game), with
an owner and a well-formed inventory whose entry `e` has the key `(type, id)` and the
`INVF_USEABLE` flag, and, for a kind other than `OBJ_WEAPON`, given that the object lookup or
creation succeeds with the object number `objnum`: `Use` returns true exactly when the kind is
`OBJ_WEAPON` or the use event is accepted; then the container is the one `Remove(type, id)`
yields; otherwise the container is unchanged and, for an object-backed entry whose object is
still live after the event, the object carries the mark `OF_INPLAYERINVENTORY` again. -/
theorem use_authoritative (c : Config) (fuel : Nat) (s : Inventory) (eng : Engine)
    (type id : Int) (player : object) (l1 l2 : List Nat) (e : Nat) (objnum : Int)
    (eng1 : Engine) (hwf : WF c s (l1 ++ e :: l2))
    (hkey : (s.mem e).type = type ∧ (s.mem e).id = id)
    (husable : (s.mem e).iflags &&& c.INVF_USEABLE ≠ 0)
    (hauth : eng.Game_mode &&& c.GM_MULTI = 0 ∨ eng.local_role &&& c.LR_SERVER ≠ 0)
    (hf : (l1 ++ l2).length ≤ fuel)
    (hmade : type ≠ c.OBJ_WEAPON →
      (if (s.mem e).iflags &&& c.INVF_OBJECT ≠ 0 then Use_object c eng (s.mem e)
        else Use_create c eng (s.mem e) player
          (decide (eng.Game_mode &&& c.GM_MULTI ≠ 0) &&
            decide (eng.local_role &&& c.LR_SERVER ≠ 0))) = some (objnum, eng1)) :
    ∃ b s2 eng2, s.Use c fuel eng type id (some player) = some (b, s2, eng2) ∧
      (b = true ↔
        (type = c.OBJ_WEAPON ∨ (c.Osiris_CallEvent eng1 objnum player.handle).1 = true)) ∧
      (b = true → ∃ engR eng3, s.Remove c fuel engR type id = some (true, s2, eng3)) ∧
      (b = false → s2 = s ∧
        ((s.mem e).iflags &&& c.INVF_OBJECT ≠ 0 →
          ∀ o, (c.Osiris_CallEvent eng1 objnum player.handle).2 objnum = some o →
            ∃ o2, eng2.Objects objnum = some o2 ∧
              o2.flags &&& c.OF_INPLAYERINVENTORY = c.OF_INPLAYERINVENTORY)) := by
  have hr : InvRing s (l1 ++ e :: l2) := hwf.1
  have hfm : firstMatch s.mem type id (l1 ++ e :: l2) = e := wf_firstMatch hwf hkey
  have he : e ≠ 0 := fun h => hr.2.2.1.2.1 (h ▸ by simp)
  have hcl : (decide (eng.Game_mode &&& c.GM_MULTI ≠ 0) &&
      decide (eng.local_role &&& c.LR_SERVER = 0)) = false := by
    rcases hauth with h | h <;> simp [h]
  unfold Inventory.Use
  rw [FindItem_spec s _ type id hr, hfm]
  simp only [he, if_false, husable, hcl, Bool.false_eq_true, hkey.1, hkey.2]
  by_cases hw : type = c.OBJ_WEAPON
  · rw [if_pos hw]
    obtain ⟨s2, eng3, h1, _⟩ := Remove_found c fuel s
      { eng with Objects := c.CreateCountermeasureFromObject eng player id } type id l1 l2 e
      hr hfm hf
    rw [h1]
    exact ⟨true, s2, eng3, rfl, ⟨fun _ => Or.inl hw, fun _ => rfl⟩, fun _ => ⟨_, _, h1⟩,
      fun h => Bool.noConfusion h⟩
  · rw [if_neg hw]
    unfold Inventory.Use_regular
    simp only [hmade hw, hkey.1, hkey.2]
    cases hev : (c.Osiris_CallEvent eng1 objnum player.handle).1 with
    | true =>
      simp only [if_true]
      obtain ⟨s2, eng3, h1, _⟩ := Remove_found c fuel s
        { eng1 with
          Objects := (c.Osiris_CallEvent eng1 objnum player.handle).2
          calls := eng1.calls ++ [Call.Osiris_CallEvent objnum player.handle] }
        type id l1 l2 e hr hfm hf
      rw [h1]
      exact ⟨true, s2, _, rfl, ⟨fun _ => Or.inr trivial, fun _ => rfl⟩, fun _ => ⟨_, _, h1⟩,
        fun h => Bool.noConfusion h⟩
    | false =>
      simp only [Bool.false_eq_true, if_false]
      refine ⟨false, s, _, rfl, ⟨fun h => Bool.noConfusion h, fun h => ?_⟩,
        fun h => Bool.noConfusion h, fun _ => ⟨rfl, fun hobj o ho => ?_⟩⟩
      · rcases h with h | h
        · exact absurd h hw
        · exact h.elim
      · rw [if_pos hobj]
        exact Use_kill_marked c _ _ objnum o ho

/-- Witness for `use_authoritative`: in a single-player game the object-backed entry for
handle 700 is used. -/
theorem use_authoritative_witness :
    WF exConfig exUse ([1, 2] ++ 3 :: []) ∧
      ∃ b s2 eng2, exUse.Use exConfig 5 exEngine 700 (-1) (some exObject) = some (b, s2, eng2) ∧
        (b = true ↔ (700 = exConfig.OBJ_WEAPON ∨
          (exConfig.Osiris_CallEvent exUnheld 700 exObject.handle).1 = true)) ∧
        (b = true → ∃ engR eng3, exUse.Remove exConfig 5 engR 700 (-1) = some (true, s2, eng3)) ∧
        (b = false → s2 = exUse ∧
          ((exUse.mem 3).iflags &&& exConfig.INVF_OBJECT ≠ 0 →
            ∀ o, (exConfig.Osiris_CallEvent exUnheld 700 exObject.handle).2 700 = some o →
              ∃ o2, eng2.Objects 700 = some o2 ∧
                o2.flags &&& exConfig.OF_INPLAYERINVENTORY = exConfig.OF_INPLAYERINVENTORY)) :=
  ⟨by decide,
    use_authoritative exConfig 5 exUse exEngine 700 (-1) exObject [1, 2] [] 3 700 exUnheld
      (by decide) (by decide) (by decide) (by decide) (by decide) (fun _ => rfl)⟩

/-! ### Operations that report failure -/

theorem AddObjectItem_false (c : Config) (s s2 : Inventory) (otype oid oauxt oauxi : Int)
    (flags : Nat) (description : Option CStr)
    (h : s.AddObjectItem c otype oid oauxt oauxi flags description = some (false, s2)) :
    s2 = s := by
  unfold Inventory.AddObjectItem at h
  by_cases h1 : s.count ≥ c.MAX_UNIQUE_INVEN_ITEMS
  · rw [if_pos h1] at h
    simp only [Option.some.injEq, Prod.mk.injEq, true_and] at h
    exact h.symm
  · rw [if_neg h1] at h
    by_cases hc : s.count = 0
    · rw [if_pos hc] at h
      simp at h
    · rw [if_neg hc] at h
      cases hfi : s.FindItem otype oid with
      | none => rw [hfi] at h; simp at h
      | some found =>
        rw [hfi] at h
        by_cases hz : found = 0
        · simp [hz] at h
        · simp [hz] at h

theorem AddCounterMeasure_false (c : Config) (s s2 : Inventory) (id aux_type aux_id : Int)
    (flags : Nat) (description : Option CStr)
    (h : s.AddCounterMeasure c id aux_type aux_id flags description = some (false, s2)) :
    s2 = s := by
  unfold Inventory.AddCounterMeasure at h
  by_cases h1 : s.count ≥ c.MAX_UNIQUE_INVEN_ITEMS
  · rw [if_pos h1] at h
    simp only [Option.some.injEq, Prod.mk.injEq, true_and] at h
    exact h.symm
  · rw [if_neg h1] at h
    by_cases hc : s.count = 0
    · rw [if_pos hc] at h
      simp at h
    · rw [if_neg hc] at h
      cases hfi : s.FindItem c.OBJ_WEAPON id with
      | none => rw [hfi] at h; simp at h
      | some found =>
        rw [hfi] at h
        by_cases hz : found = 0
        · simp [hz] at h
        · simp [hz] at h

theorem Add_false (c : Config) (s s2 : Inventory) (type id : Int) (parent : Option object)
    (aux_type aux_id : Int) (flags : Nat) (description : Option CStr)
    (h : s.Add c type id parent aux_type aux_id flags description = some (false, s2)) :
    s2 = s := by
  unfold Inventory.Add at h
  by_cases h1 : s.count ≥ c.MAX_UNIQUE_INVEN_ITEMS
  · rw [if_pos h1] at h
    simp only [Option.some.injEq, Prod.mk.injEq, true_and] at h
    exact h.symm
  · rw [if_neg h1] at h
    by_cases h2 : type < 0 ∨ type = c.OBJ_NONE
    · rw [if_pos h2] at h
      simp only [Option.some.injEq, Prod.mk.injEq, true_and] at h
      exact h.symm
    · rw [if_neg h2] at h
      by_cases h3 : type ≠ c.OBJ_WEAPON
      · rw [if_pos h3] at h
        exact AddObjectItem_false c s s2 _ _ _ _ _ _ h
      · rw [if_neg h3] at h
        exact AddCounterMeasure_false c s s2 _ _ _ _ _ h

theorem AddObject_false (c : Config) (s s2 : Inventory) (eng eng2 : Engine)
    (object_handle : Int) (flags : Nat) (description : Option CStr)
    (h : s.AddObject c eng object_handle flags description = (false, s2, eng2)) :
    s2 = s ∧ eng2 = eng := by
  unfold Inventory.AddObject at h
  by_cases h1 : s.count ≥ c.MAX_UNIQUE_INVEN_ITEMS
  · rw [if_pos h1] at h
    simp only [Prod.mk.injEq, true_and] at h
    exact ⟨h.1.symm, h.2.symm⟩
  · rw [if_neg h1] at h
    cases hobj : ObjGet eng object_handle with
    | none =>
      rw [hobj] at h
      simp only [Prod.mk.injEq, true_and] at h
      exact ⟨h.1.symm, h.2.symm⟩
    | some obj0 =>
      rw [hobj] at h
      simp at h

theorem Remove_false (c : Config) (fuel : Nat) (s s2 : Inventory) (eng eng2 : Engine)
    (type id : Int) (h : s.Remove c fuel eng type id = some (false, s2, eng2)) :
    s2 = s ∧ eng2 = eng := by
  unfold Inventory.Remove at h
  cases hfi : s.FindItem type id with
  | none => rw [hfi] at h; simp at h
  | some node =>
    rw [hfi] at h
    simp only at h
    split_ifs at h with h1 h2 h3
    · simp only [Option.some.injEq, Prod.mk.injEq, true_and] at h
      exact ⟨h.1.symm, h.2.symm⟩
    · cases hrn : Inventory.RemoveNode c fuel s node with
      | none => rw [hrn] at h; simp at h
      | some s1 => rw [hrn] at h; simp at h
    · revert h
      cases Inventory.RemoveNode c fuel _ node with
      | none => intro h; simp at h
      | some s1 => intro h; simp at h
    · simp at h

theorem modifyObject_trace (eng : Engine) (k : Int) (f : object → object) :
    (modifyObject eng k f).calls = eng.calls ∧
      (modifyObject eng k f).Game_mode = eng.Game_mode ∧
      (modifyObject eng k f).local_role = eng.local_role := by
  unfold modifyObject
  cases eng.Objects k <;> exact ⟨rfl, rfl, rfl⟩

theorem Use_kill_trace (c : Config) (eng : Engine) (b : Bool) (k : Int) :
    (Use_kill c eng b k).calls = eng.calls ∧ (Use_kill c eng b k).Game_mode = eng.Game_mode ∧
      (Use_kill c eng b k).local_role = eng.local_role := by
  unfold Use_kill
  cases b with
  | false => exact ⟨rfl, rfl, rfl⟩
  | true => exact modifyObject_trace eng k _

theorem Use_object_trace (c : Config) (eng eng1 : Engine) (node : inven_item) (k : Int)
    (h : Use_object c eng node = some (k, eng1)) :
    (∃ new, eng1.calls = eng.calls ++ new) ∧ eng1.Game_mode = eng.Game_mode ∧
      eng1.local_role = eng.local_role := by
  unfold Use_object at h
  cases hobj : ObjGet eng node.type with
  | none => rw [hobj] at h; simp at h
  | some obj =>
    rw [hobj] at h
    simp only at h
    by_cases hv : node.iflags &&& c.INVF_VISWHENUSED ≠ 0
    · rw [if_pos hv] at h
      simp only [Option.some.injEq, Prod.mk.injEq] at h
      obtain ⟨_, rfl⟩ := h
      have ht := modifyObject_trace (setObject eng node.type
        { obj with flags := obj.flags &&& (4294967295 - c.OF_INPLAYERINVENTORY) }) node.type
        c.ObjUnGhostObject
      exact ⟨⟨_, by show _ ++ _ = _; rw [ht.1]; rfl⟩, ht.2.1, ht.2.2⟩
    · rw [if_neg hv] at h
      simp only [Option.some.injEq, Prod.mk.injEq] at h
      obtain ⟨_, rfl⟩ := h
      exact ⟨⟨[], by simp [setObject]⟩, rfl, rfl⟩

theorem Use_create_trace (c : Config) (eng eng1 : Engine) (node : inven_item) (player : object)
    (server : Bool) (k : Int) (h : Use_create c eng node player server = some (k, eng1)) :
    (∃ new, eng1.calls = eng.calls ++ new) ∧ eng1.Game_mode = eng.Game_mode ∧
      eng1.local_role = eng.local_role := by
  unfold Use_create at h
  cases hobj : c.ObjCreate eng node.type node.id player.roomnum player with
  | none => rw [hobj] at h; simp at h
  | some r =>
    obtain ⟨objnum, obj⟩ := r
    rw [hobj] at h
    simp only [Option.some.injEq, Prod.mk.injEq] at h
    obtain ⟨_, rfl⟩ := h
    have key : ∀ e2 : Engine, e2.calls = eng.calls → e2.Game_mode = eng.Game_mode →
        e2.local_role = eng.local_role →
        (∃ new, (if server then
            { e2 with calls := e2.calls ++ [Call.MultiSendObject objnum] } else e2).calls ++
          [Call.InitObjectScripts objnum] = eng.calls ++ new) ∧
        (if server then
            { e2 with calls := e2.calls ++ [Call.MultiSendObject objnum] } else e2).Game_mode =
          eng.Game_mode ∧
        (if server then
            { e2 with calls := e2.calls ++ [Call.MultiSendObject objnum] } else e2).local_role =
          eng.local_role := by
      intro e2 h1 h2 h3
      cases server with
      | false => exact ⟨⟨[Call.InitObjectScripts objnum], by simp [h1]⟩, h2, h3⟩
      | true => exact ⟨⟨[Call.MultiSendObject objnum, Call.InitObjectScripts objnum],
          by simp [h1]⟩, h2, h3⟩
    have hA : ∀ (e2 : Engine) (f : object → object),
        (e2.calls = eng.calls ∧ e2.Game_mode = eng.Game_mode ∧ e2.local_role = eng.local_role) →
        ((modifyObject e2 objnum f).calls = eng.calls ∧
          (modifyObject e2 objnum f).Game_mode = eng.Game_mode ∧
          (modifyObject e2 objnum f).local_role = eng.local_role) := by
      intro e2 f h
      have t := modifyObject_trace e2 objnum f
      exact ⟨t.1.trans h.1, t.2.1.trans h.2.1, t.2.2.trans h.2.2⟩
    have h1 : (setObject eng objnum obj).calls = eng.calls ∧
        (setObject eng objnum obj).Game_mode = eng.Game_mode ∧
        (setObject eng objnum obj).local_role = eng.local_role := ⟨rfl, rfl, rfl⟩
    have h2 : ∀ e2 : Engine,
        e2 = (if node.iflags &&& c.INVF_VISWHENUSED ≠ 0 then setObject eng objnum obj
          else modifyObject
            (if obj.control_type ≠ c.CT_AI then
              modifyObject (setObject eng objnum obj) objnum
                (fun o => c.SetObjectControlType o c.CT_NONE)
            else setObject eng objnum obj) objnum
            (fun o => { o with movement_type := c.MT_NONE, render_type := c.RT_NONE })) →
        (e2.calls = eng.calls ∧ e2.Game_mode = eng.Game_mode ∧
          e2.local_role = eng.local_role) := by
      intro e2 he
      subst he
      by_cases hv : node.iflags &&& c.INVF_VISWHENUSED ≠ 0
      · rw [if_pos hv]; exact h1
      · rw [if_neg hv]
        apply hA
        by_cases hc : obj.control_type ≠ c.CT_AI
        · rw [if_pos hc]; exact hA _ _ h1
        · rw [if_neg hc]; exact h1
    have h3 := hA _ (fun o => { o with flags := (node.flags % 4294967296).toNat }) (h2 _ rfl)
    exact key _ h3.1 h3.2.1 h3.2.2

/-- A `Use` that reports failure leaves the container and the session mode alone; unless it
fired the use event, it leaves the object directory alone as well and has called nothing,
or only sent the use request of a client. -/
theorem Use_false (c : Config) (fuel : Nat) (s s2 : Inventory) (eng eng2 : Engine)
    (type id : Int) (parent : Option object)
    (h : s.Use c fuel eng type id parent = some (false, s2, eng2)) :
    s2 = s ∧ eng2.Game_mode = eng.Game_mode ∧ eng2.local_role = eng.local_role ∧
      ∃ new, eng2.calls = eng.calls ++ new ∧
        ((∀ o k, Call.Osiris_CallEvent o k ∉ new) →
          eng2.Objects = eng.Objects ∧
            (new = [] ∨ ∃ t i, new = [Call.MultiSendClientInventoryUseItem t i])) := by
  have triv : ∀ r : Bool × Inventory × Engine, r = (false, s, eng) →
      some r = some (false, s2, eng2) →
      s2 = s ∧ eng2.Game_mode = eng.Game_mode ∧ eng2.local_role = eng.local_role ∧
      ∃ new, eng2.calls = eng.calls ++ new ∧
        ((∀ o k, Call.Osiris_CallEvent o k ∉ new) →
          eng2.Objects = eng.Objects ∧
            (new = [] ∨ ∃ t i, new = [Call.MultiSendClientInventoryUseItem t i])) := by
    intro r hr h
    subst hr
    simp only [Option.some.injEq, Prod.mk.injEq, true_and] at h
    obtain ⟨rfl, rfl⟩ := h
    exact ⟨rfl, rfl, rfl, [], by simp, fun _ => ⟨rfl, Or.inl rfl⟩⟩
  unfold Inventory.Use at h
  cases hfi : s.FindItem type id with
  | none => rw [hfi] at h; simp at h
  | some node =>
    rw [hfi] at h
    simp only at h
    by_cases hz : node = 0
    · rw [if_pos hz] at h
      exact triv _ rfl h
    rw [if_neg hz] at h
    by_cases hu : (s.mem node).iflags &&& c.INVF_USEABLE = 0
    · rw [if_pos hu] at h
      exact triv _ rfl h
    rw [if_neg hu] at h
    by_cases hcl : (decide (eng.Game_mode &&& c.GM_MULTI ≠ 0) &&
        decide (eng.local_role &&& c.LR_SERVER = 0)) = true
    · rw [if_pos hcl] at h
      unfold Inventory.SendRequestToServerToUse at h
      cases hf2 : s.FindItem (s.mem node).type (s.mem node).id with
      | none => rw [hf2] at h; simp at h
      | some n2 =>
        rw [hf2] at h
        simp only at h
        by_cases hn2 : n2 ≠ 0
        · rw [if_pos hn2] at h
          simp only [Option.some.injEq, Prod.mk.injEq, true_and] at h
          obtain ⟨rfl, rfl⟩ := h
          exact ⟨rfl, rfl, rfl, _, rfl, fun _ => ⟨rfl, Or.inr ⟨_, _, rfl⟩⟩⟩
        · rw [if_neg hn2] at h
          exact triv _ rfl h
    rw [if_neg hcl] at h
    cases parent with
    | none => exact triv _ rfl h
    | some player =>
      simp only at h
      by_cases hw : type = c.OBJ_WEAPON
      · rw [if_pos hw] at h
        revert h
        cases s.Remove c fuel _ (s.mem node).type (s.mem node).id with
        | none => intro h; simp at h
        | some r => intro h; simp at h
      rw [if_neg hw] at h
      unfold Inventory.Use_regular at h
      simp only at h
      cases hmade : (if (s.mem node).iflags &&& c.INVF_OBJECT ≠ 0 then Use_object c eng (s.mem node)
          else Use_create c eng (s.mem node) player
            (decide (eng.Game_mode &&& c.GM_MULTI ≠ 0) &&
              decide (eng.local_role &&& c.LR_SERVER ≠ 0))) with
      | none =>
        rw [hmade] at h
        exact triv _ rfl h
      | some r =>
        obtain ⟨k, eng1⟩ := r
        rw [hmade] at h
        simp only at h
        have ht : (∃ new, eng1.calls = eng.calls ++ new) ∧ eng1.Game_mode = eng.Game_mode ∧
            eng1.local_role = eng.local_role := by
          by_cases ho : (s.mem node).iflags &&& c.INVF_OBJECT ≠ 0
          · rw [if_pos ho] at hmade
            exact Use_object_trace c eng eng1 _ k hmade
          · rw [if_neg ho] at hmade
            exact Use_create_trace c eng eng1 _ player _ k hmade
        obtain ⟨⟨new1, hnew1⟩, hgm, hlr⟩ := ht
        cases hev : (c.Osiris_CallEvent eng1 k player.handle).1 with
        | true =>
          rw [hev] at h
          simp only [if_true] at h
          revert h
          cases s.Remove c fuel _ (s.mem node).type (s.mem node).id with
          | none => intro h; simp at h
          | some r => intro h; simp at h
        | false =>
          rw [hev] at h
          simp only [Bool.false_eq_true, if_false, Option.some.injEq, Prod.mk.injEq,
            true_and] at h
          obtain ⟨rfl, rfl⟩ := h
          have hk := Use_kill_trace c
            (if (s.mem node).iflags &&& c.INVF_OBJECT ≠ 0 then
              modifyObject
                { eng1 with
                  Objects := (c.Osiris_CallEvent eng1 k player.handle).2
                  calls := eng1.calls ++ [Call.Osiris_CallEvent k player.handle] } k
                (fun o => { o with flags := o.flags ||| c.OF_INPLAYERINVENTORY })
            else
              { eng1 with
                Objects := (c.Osiris_CallEvent eng1 k player.handle).2
                calls := eng1.calls ++ [Call.Osiris_CallEvent k player.handle] })
            (decide ((s.mem node).iflags &&& c.INVF_NOREMOVEONUSE = 0)) k
          have hm : ∀ e2 : Engine,
              e2 = (if (s.mem node).iflags &&& c.INVF_OBJECT ≠ 0 then
                modifyObject
                  { eng1 with
                    Objects := (c.Osiris_CallEvent eng1 k player.handle).2
                    calls := eng1.calls ++ [Call.Osiris_CallEvent k player.handle] } k
                  (fun o => { o with flags := o.flags ||| c.OF_INPLAYERINVENTORY })
              else
                { eng1 with
                  Objects := (c.Osiris_CallEvent eng1 k player.handle).2
                  calls := eng1.calls ++ [Call.Osiris_CallEvent k player.handle] }) →
              e2.calls = eng1.calls ++ [Call.Osiris_CallEvent k player.handle] ∧
                e2.Game_mode = eng1.Game_mode ∧ e2.local_role = eng1.local_role := by
            intro e2 he
            subst he
            by_cases ho : (s.mem node).iflags &&& c.INVF_OBJECT ≠ 0
            · rw [if_pos ho]
              exact modifyObject_trace _ _ _
            · rw [if_neg ho]
              exact ⟨rfl, rfl, rfl⟩
          have hm2 := hm _ rfl
          refine ⟨rfl, hk.2.1.trans (hm2.2.1.trans hgm), hk.2.2.trans (hm2.2.2.trans hlr),
            new1 ++ [Call.Osiris_CallEvent k player.handle], ?_, fun hno => ?_⟩
          · rw [hk.1, hm2.1, hnew1, List.append_assoc]
          · exact absurd (List.mem_append_right _ (List.mem_singleton.2 rfl)) (hno _ _)

/-- C14, counterexample: in a single-player game `Use` of the usable stack (2, 6), whose use
event the scripts reject, returns false, yet the engine state is not what it was: the object
900 has been created (and flagged dead), its scripts were bound and the event was fired. -/
theorem use_rejected_counterexample :
    WF exConfig exUse [1, 2, 3] ∧ exEngine.Objects 900 = none ∧ exEngine.calls = [] ∧
      (exUse.Use exConfig 5 exEngine 2 6 (some exObject)).map
          (fun r => (r.1, r.2.2.Objects 900, r.2.2.calls)) =
        some (false,
          some { type := 2, id := 6, flags := 2, handle := 900, roomnum := 1, control_type := 0,
                 movement_type := 0, render_type := 0 },
          [Call.InitObjectScripts 900, Call.Osiris_CallEvent 900 700]) := by
  decide

/-- C14, amended: whenever `Add`, `AddCounterMeasure`, `AddObject`, `Remove` or `Use` returns
false, the container and the session mode are as before the call; for the four operations
other than `Use` the whole engine state is as before; for `Use` the object directory is as
before unless the use event was fired, and the only call made then is the use request of a
network client. -/
theorem failure_noop (c : Config) (fuel : Nat) (s s2 : Inventory) (eng eng2 : Engine) (op : Op)
    (hop : op.reports = true) (h : op.run c fuel s eng = some (false, s2, eng2)) :
    s2 = s ∧ eng2.Game_mode = eng.Game_mode ∧ eng2.local_role = eng.local_role ∧
      ((∀ type id parent, op ≠ Op.Use type id parent) → eng2 = eng) ∧
      ∃ new, eng2.calls = eng.calls ++ new ∧
        ((∀ o k, Call.Osiris_CallEvent o k ∉ new) →
          eng2.Objects = eng.Objects ∧
            (new = [] ∨ ∃ t i, new = [Call.MultiSendClientInventoryUseItem t i])) := by
  have same : s2 = s → eng2 = eng →
      s2 = s ∧ eng2.Game_mode = eng.Game_mode ∧ eng2.local_role = eng.local_role ∧
      ((∀ type id parent, op ≠ Op.Use type id parent) → eng2 = eng) ∧
      ∃ new, eng2.calls = eng.calls ++ new ∧
        ((∀ o k, Call.Osiris_CallEvent o k ∉ new) →
          eng2.Objects = eng.Objects ∧
            (new = [] ∨ ∃ t i, new = [Call.MultiSendClientInventoryUseItem t i])) := by
    intro h1 h2
    subst h1 h2
    exact ⟨rfl, rfl, rfl, fun _ => rfl, [], by simp, fun _ => ⟨rfl, Or.inl rfl⟩⟩
  cases op with
  | Add type id parent aux_type aux_id flags description =>
    simp only [Op.run, Option.map_eq_some', Prod.mk.injEq] at h
    obtain ⟨r, hr, h1, h2, h3⟩ := h
    obtain ⟨b, s3⟩ := r
    simp only at h1 h2
    subst h1 h2
    exact same (Add_false c s _ _ _ _ _ _ _ _ hr) h3.symm
  | AddCounterMeasure id aux_type aux_id flags description =>
    simp only [Op.run, Option.map_eq_some', Prod.mk.injEq] at h
    obtain ⟨r, hr, h1, h2, h3⟩ := h
    obtain ⟨b, s3⟩ := r
    simp only at h1 h2
    subst h1 h2
    exact same (AddCounterMeasure_false c s _ _ _ _ _ _ hr) h3.symm
  | AddObject object_handle flags description =>
    simp only [Op.run, Option.some.injEq] at h
    obtain ⟨h1, h2⟩ := AddObject_false c s s2 eng eng2 _ _ _ h
    exact same h1 h2
  | Remove type id =>
    obtain ⟨h1, h2⟩ := Remove_false c fuel s s2 eng eng2 type id h
    exact same h1 h2
  | Use type id parent =>
    obtain ⟨h1, h2, h3, h4⟩ := Use_false c fuel s s2 eng eng2 type id parent h
    exact ⟨h1, h2, h3, fun hne => absurd rfl (hne type id parent), h4⟩
  | Reset in_game reset_stage => simp [Op.reports] at hop
  | NextPos skip => simp [Op.reports] at hop
  | PrevPos skip => simp [Op.reports] at hop
  | ResetPos => simp [Op.reports] at hop
  | GotoPos newpos => simp [Op.reports] at hop
  | GotoPos_type_id type id => simp [Op.reports] at hop
  | ValidatePos forward => simp [Op.reports] at hop

/-- Witness for `failure_noop`: a network client uses the stack (2, 6); the call returns false
after sending the use request. -/
theorem failure_noop_witness :
    (Op.Use 2 6 (some exObject)).reports = true ∧
      (Op.Use 2 6 (some exObject)).run exConfig 5 exUse exClient =
        some (false, exUse, exRequested) ∧
      exUse = exUse ∧ exRequested.Game_mode = exClient.Game_mode ∧
      exRequested.local_role = exClient.local_role ∧
      ((∀ type id parent, Op.Use 2 6 (some exObject) ≠ Op.Use type id parent) →
        exRequested = exClient) ∧
      ∃ new, exRequested.calls = exClient.calls ++ new ∧
        ((∀ o k, Call.Osiris_CallEvent o k ∉ new) →
          exRequested.Objects = exClient.Objects ∧
            (new = [] ∨ ∃ t i, new = [Call.MultiSendClientInventoryUseItem t i])) :=
  ⟨rfl, rfl,
    failure_noop exConfig 5 exUse exUse exClient exRequested (Op.Use 2 6 (some exObject)) rfl
      rfl⟩

/-! ### More fuel gives the same result -/

theorem ValidatePos_loop_mono (c : Config) (mem : Nat → inven_item) (forward : Bool)
    (pos : Nat) (k : Nat) :
    ∀ (fuel node p : Nat), ValidatePos_loop c mem forward pos fuel node = some p →
      ValidatePos_loop c mem forward pos (fuel + k) node = some p
  | 0, _, _, h => by simp [ValidatePos_loop] at h
  | fuel + 1, node, p, h => by
    rw [show fuel + 1 + k = (fuel + k) + 1 by omega]
    simp only [ValidatePos_loop] at h ⊢
    by_cases h1 : node = pos
    · rw [if_pos h1] at h ⊢; exact h
    · rw [if_neg h1] at h ⊢
      by_cases h2 : (mem node).iflags &&& c.INVF_SELECTABLE ≠ 0
      · rw [if_pos h2] at h ⊢; exact h
      · rw [if_neg h2] at h ⊢
        exact ValidatePos_loop_mono c mem forward pos k fuel _ p h

theorem ValidatePos_mono (c : Config) (fuel k : Nat) (s s2 : Inventory) (forward : Bool)
    (h : s.ValidatePos c fuel forward = some s2) :
    s.ValidatePos c (fuel + k) forward = some s2 := by
  unfold Inventory.ValidatePos at h ⊢
  by_cases h1 : s.pos = 0
  · rw [if_pos h1] at h ⊢; exact h
  · rw [if_neg h1] at h ⊢
    by_cases h2 : (s.mem s.pos).iflags &&& c.INVF_SELECTABLE ≠ 0
    · rw [if_pos h2] at h ⊢; exact h
    · rw [if_neg h2] at h ⊢
      simp only at h ⊢
      cases hl : ValidatePos_loop c s.mem forward s.pos fuel
          (if forward then (s.mem s.pos).next else (s.mem s.pos).prev) with
      | none => rw [hl] at h; simp at h
      | some p =>
        rw [hl] at h
        rw [ValidatePos_loop_mono c s.mem forward s.pos k fuel _ p hl]
        exact h

theorem RemoveNode_mono (c : Config) (fuel k : Nat) (s s2 : Inventory) (node : Nat)
    (h : s.RemoveNode c fuel node = some s2) : s.RemoveNode c (fuel + k) node = some s2 := by
  unfold Inventory.RemoveNode at h ⊢
  by_cases h1 : node = 0
  · rw [if_pos h1] at h ⊢; exact h
  · rw [if_neg h1] at h ⊢
    simp only at h ⊢
    split_ifs at h ⊢ <;> first | exact h | exact ValidatePos_mono c fuel k _ s2 _ h

theorem Remove_mono (c : Config) (fuel k : Nat) (s : Inventory) (eng : Engine) (type id : Int)
    (r : Bool × Inventory × Engine) (h : s.Remove c fuel eng type id = some r) :
    s.Remove c (fuel + k) eng type id = some r := by
  unfold Inventory.Remove at h ⊢
  cases hfi : s.FindItem type id with
  | none => rw [hfi] at h; simp at h
  | some node =>
    rw [hfi] at h
    simp only at h ⊢
    by_cases h1 : node = 0
    · rw [if_pos h1] at h ⊢; exact h
    · rw [if_neg h1] at h ⊢
      by_cases h2 : (s.mem node).iflags &&& c.INVF_OBJECT ≠ 0
      · rw [if_pos h2] at h ⊢
        cases hrn : s.RemoveNode c fuel node with
        | none => rw [hrn] at h; simp at h
        | some s1 =>
          rw [hrn] at h
          rw [RemoveNode_mono c fuel k s s1 node hrn]
          exact h
      · rw [if_neg h2] at h ⊢
        split_ifs at h ⊢ with h3
        · revert h
          cases hrn : Inventory.RemoveNode c fuel _ node with
          | none => intro h; simp at h
          | some s1 =>
            intro h
            rw [RemoveNode_mono c fuel k _ s1 node hrn]
            exact h
        · exact h

theorem Reset_loop_mono (c : Config) (fuel k : Nat) (in_game rn rl : Bool) :
    ∀ (item_count current : Nat) (s : Inventory) (eng : Engine) (r : Inventory × Engine),
      Reset_loop c fuel in_game rn rl item_count current s eng = some r →
      Reset_loop c (fuel + k) in_game rn rl item_count current s eng = some r
  | 0, _, _, _, _, h => by simpa [Reset_loop] using h
  | n + 1, current, s, eng, r, h => by
    have key : ∀ (o o2 : Option Inventory) (nxt : Nat) (e1 : Engine),
        (∀ s1, o = some s1 → o2 = some s1) →
        (match o with
          | none => none
          | some s1 => Reset_loop c fuel in_game rn rl n nxt s1 e1) = some r →
        (match o2 with
          | none => none
          | some s1 => Reset_loop c (fuel + k) in_game rn rl n nxt s1 e1) = some r := by
      intro o o2 nxt e1 ho h
      cases o with
      | none => simp at h
      | some s1 =>
        rw [ho s1 rfl]
        exact Reset_loop_mono c fuel k in_game rn rl n nxt s1 e1 r h
    simp only [Reset_loop] at h ⊢
    refine key _ _ _ _ ?_ h
    intro s1 hs1
    split_ifs at hs1 ⊢
    all_goals first
      | exact RemoveNode_mono c fuel k s s1 current hs1
      | exact hs1

theorem Reset_mono (c : Config) (fuel k : Nat) (s : Inventory) (eng : Engine) (in_game : Bool)
    (reset_stage : Int) (r : Inventory × Engine)
    (h : s.Reset c fuel eng in_game reset_stage = some r) :
    s.Reset c (fuel + k) eng in_game reset_stage = some r := by
  unfold Inventory.Reset at h ⊢
  simp only at h ⊢
  by_cases h1 : s.count < 0
  · rw [if_pos h1] at h; simp at h
  · rw [if_neg h1] at h ⊢
    revert h
    cases hl : Reset_loop c fuel in_game _ _ s.count.toNat s.root s eng with
    | none => intro h; simp at h
    | some r1 =>
      obtain ⟨s1, eng1⟩ := r1
      rw [Reset_loop_mono c fuel k in_game _ _ _ _ s eng _ hl]
      simp only
      cases hv : s1.ValidatePos c fuel true with
      | none => intro h; simp at h
      | some s3 =>
        rw [ValidatePos_mono c fuel k s1 s3 true hv]
        exact id

theorem Use_regular_mono (c : Config) (fuel k : Nat) (s : Inventory) (eng : Engine) (node : Nat)
    (player : object) (server : Bool) (r : Bool × Inventory × Engine)
    (h : s.Use_regular c fuel eng node player server = some r) :
    s.Use_regular c (fuel + k) eng node player server = some r := by
  unfold Inventory.Use_regular at h ⊢
  simp only at h ⊢
  revert h
  cases (if (s.mem node).iflags &&& c.INVF_OBJECT ≠ 0 then Use_object c eng (s.mem node)
      else Use_create c eng (s.mem node) player server) with
  | none => exact fun h => h
  | some m =>
    obtain ⟨objnum, eng1⟩ := m
    simp only
    cases (c.Osiris_CallEvent eng1 objnum player.handle).1 with
    | false => exact fun h => h
    | true =>
      simp only [if_true]
      cases hrm : s.Remove c fuel _ (s.mem node).type (s.mem node).id with
      | none => intro h; simp at h
      | some r1 =>
        rw [Remove_mono c fuel k s _ _ _ r1 hrm]
        exact fun h => h

theorem Use_mono (c : Config) (fuel k : Nat) (s : Inventory) (eng : Engine) (type id : Int)
    (parent : Option object) (r : Bool × Inventory × Engine)
    (h : s.Use c fuel eng type id parent = some r) :
    s.Use c (fuel + k) eng type id parent = some r := by
  unfold Inventory.Use at h ⊢
  revert h
  cases s.FindItem type id with
  | none => exact fun h => h
  | some node =>
    simp only
    by_cases hz : node = 0
    · rw [if_pos hz, if_pos hz]; exact fun h => h
    rw [if_neg hz, if_neg hz]
    by_cases hu : (s.mem node).iflags &&& c.INVF_USEABLE = 0
    · rw [if_pos hu, if_pos hu]; exact fun h => h
    rw [if_neg hu, if_neg hu]
    by_cases hcl : (decide (eng.Game_mode &&& c.GM_MULTI ≠ 0) &&
        decide (eng.local_role &&& c.LR_SERVER = 0)) = true
    · rw [if_pos hcl, if_pos hcl]; exact fun h => h
    rw [if_neg hcl, if_neg hcl]
    cases parent with
    | none => exact fun h => h
    | some player =>
      simp only
      by_cases hw : type = c.OBJ_WEAPON
      · rw [if_pos hw, if_pos hw]
        cases hrm : s.Remove c fuel _ (s.mem node).type (s.mem node).id with
        | none => intro h; simp at h
        | some r1 =>
          rw [Remove_mono c fuel k s _ _ _ r1 hrm]
          exact fun h => h
      · rw [if_neg hw, if_neg hw]
        exact Use_regular_mono c fuel k s eng node player _ r

theorem NextPos_mono (c : Config) (fuel k : Nat) (s s2 : Inventory) (skip : Bool)
    (h : s.NextPos c fuel skip = some s2) : s.NextPos c (fuel + k) skip = some s2 := by
  unfold Inventory.NextPos at h ⊢
  simp only at h ⊢
  split_ifs at h ⊢
  all_goals first
    | exact h
    | exact ValidatePos_mono c fuel k _ s2 _ h

theorem PrevPos_mono (c : Config) (fuel k : Nat) (s s2 : Inventory) (skip : Bool)
    (h : s.PrevPos c fuel skip = some s2) : s.PrevPos c (fuel + k) skip = some s2 := by
  unfold Inventory.PrevPos at h ⊢
  simp only at h ⊢
  split_ifs at h ⊢
  all_goals first
    | exact h
    | exact ValidatePos_mono c fuel k _ s2 _ h

/-- A call that returns with some fuel returns the same with more. -/
theorem run_mono (c : Config) (fuel k : Nat) (s : Inventory) (eng : Engine) (op : Op)
    (r : Bool × Inventory × Engine) (h : op.run c fuel s eng = some r) :
    op.run c (fuel + k) s eng = some r := by
  cases op with
  | Add type id parent aux_type aux_id flags description => exact h
  | AddCounterMeasure id aux_type aux_id flags description => exact h
  | AddObject object_handle flags description => exact h
  | Remove type id => exact Remove_mono c fuel k s eng type id r h
  | Use type id parent => exact Use_mono c fuel k s eng type id parent r h
  | Reset in_game reset_stage =>
    simp only [Op.run, Option.map_eq_some'] at h ⊢
    obtain ⟨a, ha, hr⟩ := h
    exact ⟨a, Reset_mono c fuel k s eng in_game reset_stage a ha, hr⟩
  | NextPos skip =>
    simp only [Op.run, Option.map_eq_some'] at h ⊢
    obtain ⟨a, ha, hr⟩ := h
    exact ⟨a, NextPos_mono c fuel k s a skip ha, hr⟩
  | PrevPos skip =>
    simp only [Op.run, Option.map_eq_some'] at h ⊢
    obtain ⟨a, ha, hr⟩ := h
    exact ⟨a, PrevPos_mono c fuel k s a skip ha, hr⟩
  | ResetPos => exact h
  | GotoPos newpos => exact h
  | GotoPos_type_id type id => exact h
  | ValidatePos forward =>
    simp only [Op.run, Option.map_eq_some'] at h ⊢
    obtain ⟨a, ha, hr⟩ := h
    exact ⟨a, ValidatePos_mono c fuel k s a forward ha, hr⟩

/-! ### The adders, whatever the ring -/

/-- Appending a node: after the link phase, `count = 1`, a fill `F` that keeps the links and
the stack count, and `count++` of the inventory, a state `s3` that has this store holds the
ring `l ++ [s.brk]`. -/
theorem append_spec (s s3 : Inventory) (l : List Nat) (hr : InvRing s l)
    (F : inven_item → inven_item)
    (hF : ∀ it, (F it).next = it.next ∧ (F it).prev = it.prev ∧ (F it).count = it.count)
    (hmem : s3.mem = (((if s.count = 0 then s.newRoot else s.newTail).1.modify s.brk
      fun it => { it with count := 1 }).modify s.brk F).mem)
    (hroot : s3.root = (if s.count = 0 then s.newRoot else s.newTail).1.root)
    (hbrk : s3.brk = (if s.count = 0 then s.newRoot else s.newTail).1.brk)
    (hcount : s3.count = (if s.count = 0 then s.newRoot else s.newTail).1.count + 1)
    (hpos : s3.pos = (if s.count = 0 then s.newRoot else s.newTail).1.pos ∨ s3.pos = s.brk) :
    InvRing s3 (l ++ [s.brk]) ∧ (∀ x ∈ l, (s3.mem x).toItemData = (s.mem x).toItemData) ∧
      (s3.mem s.brk).count = 1 ∧ ∃ it, s3.mem s.brk = F it := by
  obtain ⟨e1, e2, e3, e4, e5, e6, e7⟩ := link_spec s l hr
  have hbl : s.brk ∉ l := fun h => Nat.lt_irrefl _ (hr.2.2.2.1 _ h)
  generalize (if s.count = 0 then s.newRoot else s.newTail) = ln at *
  obtain ⟨t, n⟩ := ln
  simp only at e1 e2 e3 e4 e5 e6 e7 hmem hroot hbrk hcount hpos
  have hother : ∀ x, x ≠ s.brk → s3.mem x = t.mem x := by
    intro x hx
    rw [hmem, modify_mem_other _ _ _ _ hx, modify_mem_other _ _ _ _ hx]
  have hsame : s3.mem s.brk = F { t.mem s.brk with count := 1 } := by
    rw [hmem]; simp
  refine ⟨invRing_append hr rfl e2 ?_ (hroot.trans e3) (hbrk.trans e4) (by rw [hcount, e5])
    (hpos.imp (fun h => h.trans e6) id), ?_, ?_, ?_⟩
  · intro x
    by_cases hx : x = s.brk
    · subst hx
      rw [hsame]
      exact ⟨(hF _).1, (hF _).2.1⟩
    · rw [hother x hx]
      exact ⟨rfl, rfl⟩
  · intro x hx
    rw [hother x (fun h => hbl (h ▸ hx))]
    exact e7 x
  · rw [hsame, (hF _).2.2]
  · exact ⟨_, hsame⟩

theorem firstMatch_eq_zero (mem : Nat → inven_item) (type id : Int) (l : List Nat)
    (h0 : 0 ∉ l) (h : firstMatch mem type id l = 0) :
    ∀ x ∈ l, ¬ ((mem x).type = type ∧ (mem x).id = id) := by
  induction l with
  | nil => intro x hx; cases hx
  | cons a t ih =>
    intro x hx
    unfold firstMatch at h ih
    rw [List.find?_cons] at h
    by_cases ha : (mem a).type = type ∧ (mem a).id = id
    · simp only [ha, and_self, decide_True] at h
      exact absurd h (fun h2 => h0 (by simp at h2; exact h2 ▸ List.mem_cons_self _ _))
    · simp only [ha, decide_False] at h
      rcases List.mem_cons.1 hx with rfl | hm
      · exact ha
      · exact ih (fun h2 => h0 (List.mem_cons_of_mem _ h2)) h x hm

theorem AddObjectItem_fill_fields (c : Config) (otype oid oauxt oauxi : Int) (flags : Nat)
    (description : Option CStr) (it : inven_item) :
    (AddObjectItem_fill c otype oid oauxt oauxi flags description it).next = it.next ∧
      (AddObjectItem_fill c otype oid oauxt oauxi flags description it).prev = it.prev ∧
      (AddObjectItem_fill c otype oid oauxt oauxi flags description it).count = it.count ∧
      (AddObjectItem_fill c otype oid oauxt oauxi flags description it).type = otype ∧
      (AddObjectItem_fill c otype oid oauxt oauxi flags description it).id = oid :=
  ⟨rfl, rfl, rfl, rfl, rfl⟩

theorem AddCounterMeasure_fill_fields (c : Config) (id aux_type aux_id : Int)
    (description : Option CStr) (it : inven_item) :
    (AddCounterMeasure_fill c id aux_type aux_id description it).next = it.next ∧
      (AddCounterMeasure_fill c id aux_type aux_id description it).prev = it.prev ∧
      (AddCounterMeasure_fill c id aux_type aux_id description it).count = it.count ∧
      (AddCounterMeasure_fill c id aux_type aux_id description it).type = c.OBJ_WEAPON ∧
      (AddCounterMeasure_fill c id aux_type aux_id description it).id = id :=
  ⟨rfl, rfl, rfl, rfl, rfl⟩

/-- The tail of the adders for a fresh node: the fill runs, the inventory counts one more. -/
theorem adder_fresh (X : Inventory) (n : Nat) (F : inven_item → inven_item) :
    (if ((X.modify n fun it => { it with count := 1 }).mem n).count = 1 then
        { (X.modify n fun it => { it with count := 1 }).modify n F with
          count := ((X.modify n fun it => { it with count := 1 }).modify n F).count + 1 }
      else X.modify n fun it => { it with count := 1 }) =
      { root := X.root, count := X.count + 1, pos := X.pos,
        mem := ((X.modify n fun it => { it with count := 1 }).modify n F).mem, brk := X.brk } := by
  rw [if_pos (by simp)]
  rfl

/-- The adders on a fresh node, up to the cursor: `S` is the state after the fill and the
`count++`, and the cursor goes to the new node if it has the flag `m`. -/
theorem adder_fresh_spec (s s3 : Inventory) (l : List Nat) (hr : InvRing s l)
    (F : inven_item → inven_item)
    (hF : ∀ it, (F it).next = it.next ∧ (F it).prev = it.prev ∧ (F it).count = it.count)
    (m : Nat) (R : Nat) (C : Int) (P : Nat) (M : Nat → inven_item) (B : Nat)
    (hmem : M = (((if s.count = 0 then s.newRoot else s.newTail).1.modify s.brk
      fun it => { it with count := 1 }).modify s.brk F).mem)
    (hroot : R = (if s.count = 0 then s.newRoot else s.newTail).1.root)
    (hbrk : B = (if s.count = 0 then s.newRoot else s.newTail).1.brk)
    (hcount : C = (if s.count = 0 then s.newRoot else s.newTail).1.count + 1)
    (hpos : P = (if s.count = 0 then s.newRoot else s.newTail).1.pos)
    (hs3 : s3 = if (M s.brk).iflags &&& m ≠ 0
      then { root := R, count := C, pos := s.brk, mem := M, brk := B }
      else { root := R, count := C, pos := P, mem := M, brk := B }) :
    InvRing s3 (l ++ [s.brk]) ∧ (∀ x ∈ l, (s3.mem x).toItemData = (s.mem x).toItemData) ∧
      (s3.mem s.brk).count = 1 ∧ (∃ it, s3.mem s.brk = F it) ∧
      s3.pos = if (s3.mem s.brk).iflags &&& m ≠ 0 then s.brk else s.pos := by
  have hposX := (link_spec s l hr).2.2.2.2.2.1
  have hm : s3.mem = M := by rw [hs3]; split_ifs <;> rfl
  obtain ⟨h1, h2, h3, h4⟩ := append_spec s s3 l hr F hF (hm.trans hmem)
    (by rw [hs3, ← hroot]; split_ifs <;> rfl) (by rw [hs3, ← hbrk]; split_ifs <;> rfl)
    (by rw [hs3, ← hcount]; split_ifs <;> rfl)
    (by rw [hs3, ← hpos]; split_ifs
        · exact Or.inr rfl
        · exact Or.inl rfl)
  refine ⟨h1, h2, h3, h4, ?_⟩
  rw [hm, hs3]
  by_cases hsel : (M s.brk).iflags &&& m ≠ 0
  · rw [if_pos hsel, if_pos hsel]
  · rw [if_neg hsel, if_neg hsel, hpos, hposX]

/-- What `AddObjectItem` does on a ring: nothing at capacity; a fresh tail entry with the key
asked for when no entry matches; one more item on the first matching entry otherwise, whose
stack count is taken to be at least 1 and below the largest `int`. -/
theorem AddObjectItem_cases (c : Config) (s s2 : Inventory) (otype oid oauxt oauxi : Int)
    (flags : Nat) (description : Option CStr) (l : List Nat) (b : Bool) (hr : InvRing s l)
    (hc : firstMatch s.mem otype oid l ≠ 0 →
      1 ≤ (s.mem (firstMatch s.mem otype oid l)).count ∧
        (s.mem (firstMatch s.mem otype oid l)).count < 2147483647)
    (h : s.AddObjectItem c otype oid oauxt oauxi flags description = some (b, s2)) :
    (b = false ∧ s2 = s ∧ s.count ≥ c.MAX_UNIQUE_INVEN_ITEMS) ∨
    (b = true ∧ s.count < c.MAX_UNIQUE_INVEN_ITEMS ∧ firstMatch s.mem otype oid l = 0 ∧
      InvRing s2 (l ++ [s.brk]) ∧ (∀ x ∈ l, (s2.mem x).toItemData = (s.mem x).toItemData) ∧
      (s2.mem s.brk).count = 1 ∧
      (∃ it, s2.mem s.brk = AddObjectItem_fill c otype oid oauxt oauxi flags description it) ∧
      s2.pos = if (s2.mem s.brk).iflags &&& c.INVF_SELECTABLE ≠ 0 then s.brk else s.pos) ∨
    (b = true ∧ s.count < c.MAX_UNIQUE_INVEN_ITEMS ∧ firstMatch s.mem otype oid l ≠ 0 ∧
      s2.mem = (s.modify (firstMatch s.mem otype oid l)
        fun it => { it with count := it.count + 1 }).mem ∧
      s2.root = s.root ∧ s2.count = s.count ∧ s2.brk = s.brk ∧
      s2.pos = (if (s.mem (firstMatch s.mem otype oid l)).iflags &&& c.INVF_SELECTABLE ≠ 0
        then firstMatch s.mem otype oid l else s.pos)) := by
  by_cases hcap : s.count ≥ c.MAX_UNIQUE_INVEN_ITEMS
  · unfold Inventory.AddObjectItem at h
    rw [if_pos hcap] at h
    simp only [Option.some.injEq, Prod.mk.injEq] at h
    exact Or.inl ⟨h.1.symm, h.2.symm, hcap⟩
  have hcap2 : s.count < c.MAX_UNIQUE_INVEN_ITEMS := by omega
  have hF := AddObjectItem_fill_fields c otype oid oauxt oauxi flags description
  unfold Inventory.AddObjectItem at h
  rw [if_neg hcap] at h
  by_cases h0 : s.count = 0
  · have hl : l = [] := by
      have := hr.1; rw [h0] at this
      exact List.length_eq_zero.1 (by exact_mod_cast this.symm)
    rw [if_pos h0] at h
    simp only [adder_fresh] at h
    simp only [Option.some.injEq, Prod.mk.injEq] at h
    refine Or.inr (Or.inl ⟨h.1.symm, hcap2, by rw [hl]; rfl, ?_⟩)
    refine adder_fresh_spec s s2 l hr _ (fun it => ⟨(hF it).1, (hF it).2.1, (hF it).2.2.1⟩)
      c.INVF_SELECTABLE _ _ _ _ _ ?_ ?_ ?_ ?_ ?_ h.2.symm
    all_goals (rw [if_pos h0]; try rfl)
  · rw [if_neg h0, FindItem_spec s l otype oid hr] at h
    by_cases hz : firstMatch s.mem otype oid l = 0
    · simp only [hz, if_true, adder_fresh] at h
      simp only [Option.some.injEq, Prod.mk.injEq] at h
      refine Or.inr (Or.inl ⟨h.1.symm, hcap2, hz, ?_⟩)
      refine adder_fresh_spec s s2 l hr _ (fun it => ⟨(hF it).1, (hF it).2.1, (hF it).2.2.1⟩)
        c.INVF_SELECTABLE _ _ _ _ _ ?_ ?_ ?_ ?_ ?_ h.2.symm
      all_goals (rw [if_neg h0]; try rfl)
    · obtain ⟨l1, l2, hl, _⟩ := firstMatch_split s.mem otype oid l hz
      have hb := hc hz
      generalize hfm : firstMatch s.mem otype oid l = e at *
      subst hl
      obtain ⟨s3, hs3, k1, k2, k3, k4, k5⟩ := AddObjectItem_merge c s otype oid oauxt oauxi
        flags description l1 l2 e hr hcap2 hfm hb.1 hb.2
      unfold Inventory.AddObjectItem at hs3
      rw [if_neg hcap, if_neg h0, FindItem_spec s _ otype oid hr, hfm] at hs3
      rw [hs3] at h
      simp only [Option.some.injEq, Prod.mk.injEq] at h
      obtain ⟨rfl, rfl⟩ := h
      exact Or.inr (Or.inr ⟨rfl, hcap2, hz, k1, k2, k3, k4, k5⟩)

/-- What `AddCounterMeasure` does on a ring: nothing at capacity; a fresh tail entry with the
key `(OBJ_WEAPON, id)` when no entry matches; one more item on the first matching entry
otherwise, whose stack count is taken to be at least 1 and below the largest `int`. The
cursor goes to the entry in both cases. -/
theorem AddCounterMeasure_cases (c : Config) (s s2 : Inventory) (id aux_type aux_id : Int)
    (flags : Nat) (description : Option CStr) (l : List Nat) (b : Bool) (hr : InvRing s l)
    (hc : firstMatch s.mem c.OBJ_WEAPON id l ≠ 0 →
      1 ≤ (s.mem (firstMatch s.mem c.OBJ_WEAPON id l)).count ∧
        (s.mem (firstMatch s.mem c.OBJ_WEAPON id l)).count < 2147483647)
    (h : s.AddCounterMeasure c id aux_type aux_id flags description = some (b, s2)) :
    (b = false ∧ s2 = s ∧ s.count ≥ c.MAX_UNIQUE_INVEN_ITEMS) ∨
    (b = true ∧ s.count < c.MAX_UNIQUE_INVEN_ITEMS ∧ firstMatch s.mem c.OBJ_WEAPON id l = 0 ∧
      InvRing s2 (l ++ [s.brk]) ∧ (∀ x ∈ l, (s2.mem x).toItemData = (s.mem x).toItemData) ∧
      (s2.mem s.brk).count = 1 ∧
      (∃ it, s2.mem s.brk = AddCounterMeasure_fill c id aux_type aux_id description it) ∧
      s2.pos = s.brk) ∨
    (b = true ∧ s.count < c.MAX_UNIQUE_INVEN_ITEMS ∧ firstMatch s.mem c.OBJ_WEAPON id l ≠ 0 ∧
      s2.mem = (s.modify (firstMatch s.mem c.OBJ_WEAPON id l)
        fun it => { it with count := it.count + 1 }).mem ∧
      s2.root = s.root ∧ s2.count = s.count ∧ s2.brk = s.brk ∧
      s2.pos = firstMatch s.mem c.OBJ_WEAPON id l) := by
  by_cases hcap : s.count ≥ c.MAX_UNIQUE_INVEN_ITEMS
  · unfold Inventory.AddCounterMeasure at h
    rw [if_pos hcap] at h
    simp only [Option.some.injEq, Prod.mk.injEq] at h
    exact Or.inl ⟨h.1.symm, h.2.symm, hcap⟩
  have hcap2 : s.count < c.MAX_UNIQUE_INVEN_ITEMS := by omega
  have hF := AddCounterMeasure_fill_fields c id aux_type aux_id description
  have fresh : ∀ (X : Inventory),
      X = (if s.count = 0 then s.newRoot else s.newTail).1 →
      s2 = { root := X.root, count := X.count + 1, pos := s.brk,
             mem := ((X.modify s.brk fun it => { it with count := 1 }).modify s.brk
               (AddCounterMeasure_fill c id aux_type aux_id description)).mem,
             brk := X.brk } →
      InvRing s2 (l ++ [s.brk]) ∧ (∀ x ∈ l, (s2.mem x).toItemData = (s.mem x).toItemData) ∧
      (s2.mem s.brk).count = 1 ∧
      (∃ it, s2.mem s.brk = AddCounterMeasure_fill c id aux_type aux_id description it) ∧
      s2.pos = s.brk := by
    intro X hX hs2
    obtain ⟨h1, h2, h3, h4⟩ := append_spec s s2 l hr _
      (fun it => ⟨(hF it).1, (hF it).2.1, (hF it).2.2.1⟩)
      (by rw [hs2, hX]) (by rw [hs2, hX]) (by rw [hs2, hX]) (by rw [hs2, hX])
      (Or.inr (by rw [hs2]))
    exact ⟨h1, h2, h3, h4, by rw [hs2]⟩
  unfold Inventory.AddCounterMeasure at h
  rw [if_neg hcap] at h
  by_cases h0 : s.count = 0
  · have hl : l = [] := by
      have := hr.1; rw [h0] at this
      exact List.length_eq_zero.1 (by exact_mod_cast this.symm)
    rw [if_pos h0] at h
    simp only [adder_fresh] at h
    simp only [Option.some.injEq, Prod.mk.injEq] at h
    refine Or.inr (Or.inl ⟨h.1.symm, hcap2, by rw [hl]; rfl, ?_⟩)
    exact fresh s.newRoot.1 (by rw [if_pos h0]) h.2.symm
  · rw [if_neg h0, FindItem_spec s l c.OBJ_WEAPON id hr] at h
    by_cases hz : firstMatch s.mem c.OBJ_WEAPON id l = 0
    · simp only [hz, if_true, adder_fresh] at h
      simp only [Option.some.injEq, Prod.mk.injEq] at h
      refine Or.inr (Or.inl ⟨h.1.symm, hcap2, hz, ?_⟩)
      exact fresh s.newTail.1 (by rw [if_neg h0]) h.2.symm
    · have hmem : firstMatch s.mem c.OBJ_WEAPON id l ∈ l :=
        ((firstMatch_mem_or s.mem c.OBJ_WEAPON id l).resolve_left hz).1
      have hb := hc hz
      have hw : wrapInt ((s.mem (firstMatch s.mem c.OBJ_WEAPON id l)).count + 1) =
          (s.mem (firstMatch s.mem c.OBJ_WEAPON id l)).count + 1 :=
        wrapInt_eq_self _ (by omega) (by omega)
      have hne : ¬ (s.mem (firstMatch s.mem c.OBJ_WEAPON id l)).count + 1 = 1 := by omega
      simp only [hz, if_false, modify_mem_same, hw, hne, Option.some.injEq, Prod.mk.injEq] at h
      obtain ⟨rfl, rfl⟩ := h
      exact Or.inr (Or.inr
        ⟨rfl, hcap2, hz, modify_wrap_eq s _ hb.1 hb.2, rfl, rfl, rfl, rfl⟩)

/-! ### One call keeps the ring -/

theorem keys_congr {s s2 : Inventory} {l : List Nat}
    (h : ∀ x ∈ l, (s2.mem x).toItemData = (s.mem x).toItemData) : s2.keys l = s.keys l := by
  unfold Inventory.keys
  apply List.map_congr_left
  intro x hx
  rw [show (s2.mem x).type = (s.mem x).type from congrArg ItemData.type (h x hx),
    show (s2.mem x).id = (s.mem x).id from congrArg ItemData.id (h x hx)]

/-- Stack counts between 1 and `n` are between 1 and `n + 1`. -/
theorem bound_succ {s : Inventory} {l : List Nat} {n : Int}
    (hc : ∀ a ∈ l, 1 ≤ (s.mem a).count ∧ (s.mem a).count ≤ n) :
    ∀ a ∈ l, 1 ≤ (s.mem a).count ∧ (s.mem a).count ≤ n + 1 :=
  fun a ha => ⟨(hc a ha).1, by have := (hc a ha).2; omega⟩

/-- A fresh tail entry with a key that no entry has keeps stacks non-empty and bounded and
keys distinct. -/
theorem fresh_inv (s s2 : Inventory) (l : List Nat) (type id : Int) (n : Int) (hn0 : 0 ≤ n)
    (hc : ∀ a ∈ l, 1 ≤ (s.mem a).count ∧ (s.mem a).count ≤ n)
    (hsame : ∀ x ∈ l, (s2.mem x).toItemData = (s.mem x).toItemData)
    (hcount : (s2.mem s.brk).count = 1) :
    (∀ a ∈ l ++ [s.brk], 1 ≤ (s2.mem a).count ∧ (s2.mem a).count ≤ n + 1) ∧
      (0 ∉ l → firstMatch s.mem type id l = 0 →
        (s2.mem s.brk).type = type ∧ (s2.mem s.brk).id = id →
        (s.keys l).Nodup → (s2.keys (l ++ [s.brk])).Nodup) := by
  constructor
  · intro a ha
    rcases List.mem_append.1 ha with h | h
    · rw [show (s2.mem a).count = (s.mem a).count from congrArg ItemData.count (hsame a h)]
      exact bound_succ hc a h
    · rw [List.mem_singleton.1 h, hcount]
      exact ⟨le_refl _, by omega⟩
  · intro h0 hfm hkey hnd
    have hno := firstMatch_eq_zero s.mem type id l h0 hfm
    have hk : s2.keys (l ++ [s.brk]) = s.keys l ++ [(type, id)] := by
      unfold Inventory.keys
      rw [List.map_append, List.map_singleton, hkey.1, hkey.2]
      congr 1
      exact keys_congr hsame
    rw [hk]
    refine List.Nodup.append hnd (List.nodup_singleton _) ?_
    intro k hk1 hk2
    rw [List.mem_singleton] at hk2
    subst hk2
    unfold Inventory.keys at hk1
    obtain ⟨x, hx, hxk⟩ := List.mem_map.1 hk1
    simp only [Prod.mk.injEq] at hxk
    exact hno x hx hxk

/-- One more item on the entry `e` keeps the ring, the non-empty stacks and the keys. -/
theorem merge_inv (s s2 : Inventory) (l : List Nat) (e : Nat) (hr : InvRing s l) (n : Int)
    (hc : ∀ a ∈ l, 1 ≤ (s.mem a).count ∧ (s.mem a).count ≤ n) (he : e ∈ l)
    (hmem : s2.mem = (s.modify e fun it => { it with count := it.count + 1 }).mem)
    (hroot : s2.root = s.root) (hcount : s2.count = s.count) (hbrk : s2.brk = s.brk)
    (hpos : s2.pos = s.pos ∨ s2.pos = e) :
    InvRing s2 l ∧ (∀ a ∈ l, 1 ≤ (s2.mem a).count ∧ (s2.mem a).count ≤ n + 1) ∧
      s2.keys l = s.keys l := by
  have hm : ∀ x, s2.mem x = if x = e then { s.mem e with count := (s.mem e).count + 1 }
      else s.mem x := by
    intro x; rw [hmem]; exact modify_mem s e _ x
  refine ⟨invRing_congr hr ?_ hroot hcount hbrk (hpos.imp id fun h => by rw [h]; exact he), ?_, ?_⟩
  · intro x
    rw [hm x]
    split_ifs with hx
    · subst hx; exact ⟨rfl, rfl⟩
    · exact ⟨rfl, rfl⟩
  · intro a ha
    rw [hm a]
    split_ifs with hx
    · subst hx
      have := hc a ha
      show 1 ≤ (s.mem a).count + 1 ∧ (s.mem a).count + 1 ≤ n + 1
      omega
    · exact bound_succ hc a ha
  · unfold Inventory.keys
    apply List.map_congr_left
    intro x _
    rw [hm x]
    split_ifs with hx
    · subst hx; rfl
    · rfl

theorem AddObjectItem_inv (c : Config) (s s2 : Inventory) (otype oid oauxt oauxi : Int)
    (flags : Nat) (description : Option CStr) (l : List Nat) (b : Bool) (hr : InvRing s l)
    (n : Int) (hn0 : 0 ≤ n) (hn : n < 2147483647)
    (hc : ∀ a ∈ l, 1 ≤ (s.mem a).count ∧ (s.mem a).count ≤ n)
    (h : s.AddObjectItem c otype oid oauxt oauxi flags description = some (b, s2)) :
    ∃ l2, InvRing s2 l2 ∧ (∀ a ∈ l2, 1 ≤ (s2.mem a).count ∧ (s2.mem a).count ≤ n + 1) ∧
      ((s.keys l).Nodup → (s2.keys l2).Nodup) := by
  have hc0 : firstMatch s.mem otype oid l ≠ 0 →
      1 ≤ (s.mem (firstMatch s.mem otype oid l)).count ∧
        (s.mem (firstMatch s.mem otype oid l)).count < 2147483647 := fun hz => by
    have := hc _ ((firstMatch_mem_or s.mem otype oid l).resolve_left hz).1
    omega
  rcases AddObjectItem_cases c s s2 otype oid oauxt oauxi flags description l b hr hc0 h with
    ⟨_, rfl, _⟩ | ⟨_, _, hfm, h1, h2, h3, ⟨it, h4⟩, _⟩ | ⟨_, _, hfm, h1, h2, h3, h4, h5⟩
  · exact ⟨l, hr, bound_succ hc, fun h => h⟩
  · obtain ⟨k1, k2⟩ := fresh_inv s s2 l otype oid n hn0 hc h2 h3
    refine ⟨_, h1, k1, k2 hr.2.2.1.2.1 hfm ?_⟩
    rw [h4]
    exact ⟨rfl, rfl⟩
  · have he := ((firstMatch_mem_or s.mem otype oid l).resolve_left hfm).1
    obtain ⟨k1, k2, k3⟩ := merge_inv s s2 l _ hr n hc he h1 h2 h3 h4
      (by rw [h5]; split_ifs
          · exact Or.inr rfl
          · exact Or.inl rfl)
    exact ⟨l, k1, k2, fun hnd => by rw [k3]; exact hnd⟩

theorem AddCounterMeasure_inv (c : Config) (s s2 : Inventory) (id aux_type aux_id : Int)
    (flags : Nat) (description : Option CStr) (l : List Nat) (b : Bool) (hr : InvRing s l)
    (n : Int) (hn0 : 0 ≤ n) (hn : n < 2147483647)
    (hc : ∀ a ∈ l, 1 ≤ (s.mem a).count ∧ (s.mem a).count ≤ n)
    (h : s.AddCounterMeasure c id aux_type aux_id flags description = some (b, s2)) :
    ∃ l2, InvRing s2 l2 ∧ (∀ a ∈ l2, 1 ≤ (s2.mem a).count ∧ (s2.mem a).count ≤ n + 1) ∧
      ((s.keys l).Nodup → (s2.keys l2).Nodup) := by
  have hc0 : firstMatch s.mem c.OBJ_WEAPON id l ≠ 0 →
      1 ≤ (s.mem (firstMatch s.mem c.OBJ_WEAPON id l)).count ∧
        (s.mem (firstMatch s.mem c.OBJ_WEAPON id l)).count < 2147483647 := fun hz => by
    have := hc _ ((firstMatch_mem_or s.mem c.OBJ_WEAPON id l).resolve_left hz).1
    omega
  rcases AddCounterMeasure_cases c s s2 id aux_type aux_id flags description l b hr hc0 h with
    ⟨_, rfl, _⟩ | ⟨_, _, hfm, h1, h2, h3, ⟨it, h4⟩, _⟩ | ⟨_, _, hfm, h1, h2, h3, h4, h5⟩
  · exact ⟨l, hr, bound_succ hc, fun h => h⟩
  · obtain ⟨k1, k2⟩ := fresh_inv s s2 l c.OBJ_WEAPON id n hn0 hc h2 h3
    refine ⟨_, h1, k1, k2 hr.2.2.1.2.1 hfm ?_⟩
    rw [h4]
    exact ⟨rfl, rfl⟩
  · have he := ((firstMatch_mem_or s.mem c.OBJ_WEAPON id l).resolve_left hfm).1
    obtain ⟨k1, k2, k3⟩ := merge_inv s s2 l _ hr n hc he h1 h2 h3 h4 (Or.inr h5)
    exact ⟨l, k1, k2, fun hnd => by rw [k3]; exact hnd⟩

theorem Add_inv (c : Config) (s s2 : Inventory) (type id : Int) (parent : Option object)
    (aux_type aux_id : Int) (flags : Nat) (description : Option CStr) (l : List Nat) (b : Bool)
    (hr : InvRing s l) (n : Int) (hn0 : 0 ≤ n) (hn : n < 2147483647)
    (hc : ∀ a ∈ l, 1 ≤ (s.mem a).count ∧ (s.mem a).count ≤ n)
    (h : s.Add c type id parent aux_type aux_id flags description = some (b, s2)) :
    ∃ l2, InvRing s2 l2 ∧ (∀ a ∈ l2, 1 ≤ (s2.mem a).count ∧ (s2.mem a).count ≤ n + 1) ∧
      ((s.keys l).Nodup → (s2.keys l2).Nodup) := by
  unfold Inventory.Add at h
  by_cases h1 : s.count ≥ c.MAX_UNIQUE_INVEN_ITEMS
  · rw [if_pos h1] at h
    simp only [Option.some.injEq, Prod.mk.injEq] at h
    obtain ⟨_, rfl⟩ := h
    exact ⟨l, hr, bound_succ hc, fun h => h⟩
  · rw [if_neg h1] at h
    by_cases h2 : type < 0 ∨ type = c.OBJ_NONE
    · rw [if_pos h2] at h
      simp only [Option.some.injEq, Prod.mk.injEq] at h
      obtain ⟨_, rfl⟩ := h
      exact ⟨l, hr, bound_succ hc, fun h => h⟩
    · rw [if_neg h2] at h
      by_cases h3 : type ≠ c.OBJ_WEAPON
      · rw [if_pos h3] at h
        exact AddObjectItem_inv c s s2 _ _ _ _ _ _ l b hr n hn0 hn hc h
      · rw [if_neg h3] at h
        exact AddCounterMeasure_inv c s s2 _ _ _ _ _ l b hr n hn0 hn hc h

theorem AddObject_inv (c : Config) (s s2 : Inventory) (eng eng2 : Engine) (object_handle : Int)
    (flags : Nat) (description : Option CStr) (l : List Nat) (b : Bool) (hr : InvRing s l)
    (n : Int) (hn0 : 0 ≤ n) (hn : n < 2147483647)
    (hc : ∀ a ∈ l, 1 ≤ (s.mem a).count ∧ (s.mem a).count ≤ n)
    (h : s.AddObject c eng object_handle flags description = (b, s2, eng2)) :
    ∃ l2, InvRing s2 l2 ∧ (∀ a ∈ l2, 1 ≤ (s2.mem a).count ∧ (s2.mem a).count ≤ n + 1) := by
  unfold Inventory.AddObject at h
  by_cases h1 : s.count ≥ c.MAX_UNIQUE_INVEN_ITEMS
  · rw [if_pos h1] at h
    simp only [Prod.mk.injEq] at h
    obtain ⟨_, rfl, _⟩ := h
    exact ⟨l, hr, bound_succ hc⟩
  rw [if_neg h1] at h
  cases hobj : ObjGet eng object_handle with
  | none =>
    rw [hobj] at h
    simp only [Prod.mk.injEq] at h
    obtain ⟨_, rfl, _⟩ := h
    exact ⟨l, hr, bound_succ hc⟩
  | some obj0 =>
    rw [hobj] at h
    simp only [Prod.mk.injEq] at h
    obtain ⟨_, hs2, _⟩ := h
    generalize (if obj0.type = c.OBJ_DUMMY then c.ObjUnGhostObject obj0 else obj0) = obj1 at hs2
    have hf := AddObject_fill_fields c object_handle obj1 flags description
    obtain ⟨e1, _⟩ := link_spec s l hr
    rw [e1] at hs2
    obtain ⟨X, hX⟩ : ∃ X, X = (if s.count = 0 then s.newRoot else s.newTail) := ⟨_, rfl⟩
    rw [← hX] at hs2
    have hm : ((X.1.modify s.brk fun it => { it with iflags := c.INVF_OBJECT, count := 1 }).modify
          s.brk (AddObject_fill c object_handle obj1 flags description)).mem =
        ((X.1.modify s.brk fun it => { it with count := 1 }).modify s.brk
          (fun it => AddObject_fill c object_handle obj1 flags description
            { it with iflags := c.INVF_OBJECT })).mem := by
      funext x
      by_cases hx : x = s.brk
      · subst hx
        simp only [modify_mem_same]
      · simp only [modify_mem_other _ _ _ _ hx]
    obtain ⟨k1, k2, k3, _⟩ := append_spec s s2 l hr
      (fun it => AddObject_fill c object_handle obj1 flags description
        { it with iflags := c.INVF_OBJECT })
      (fun it => ⟨(hf _).1, (hf _).2.1, (hf _).2.2.1⟩)
      (by rw [← hX, ← hm, ← hs2]; split_ifs <;> rfl)
      (by rw [← hX, ← hs2]; split_ifs <;> rfl) (by rw [← hX, ← hs2]; split_ifs <;> rfl)
      (by rw [← hX, ← hs2]; split_ifs <;> rfl)
      (by rw [← hX, ← hs2]; split_ifs
          · exact Or.inr rfl
          · exact Or.inl rfl)
    exact ⟨_, k1, (fresh_inv s s2 l 0 0 n hn0 hc k2 k3).1⟩

theorem keys_sublist (s : Inventory) (l1 l2 : List Nat) (e : Nat)
    (h : (s.keys (l1 ++ e :: l2)).Nodup) : (s.keys (l1 ++ l2)).Nodup := by
  unfold Inventory.keys at h ⊢
  refine List.Nodup.sublist (List.Sublist.map _ ?_) h
  exact List.Sublist.append (List.Sublist.refl l1) (List.sublist_cons_self e l2)

theorem Remove_inv (c : Config) (fuel : Nat) (s s2 : Inventory) (eng eng2 : Engine)
    (type id : Int) (l : List Nat) (b : Bool) (hr : InvRing s l)
    (n : Int) (hn0 : 0 ≤ n) (hn : n < 2147483647)
    (hc : ∀ a ∈ l, 1 ≤ (s.mem a).count ∧ (s.mem a).count ≤ n)
    (h : s.Remove c fuel eng type id = some (b, s2, eng2)) :
    ∃ l2, InvRing s2 l2 ∧ (∀ a ∈ l2, 1 ≤ (s2.mem a).count ∧ (s2.mem a).count ≤ n + 1) ∧
      ((s.keys l).Nodup → (s2.keys l2).Nodup) := by
  by_cases hz : firstMatch s.mem type id l = 0
  · rw [Remove_absent c fuel s eng type id l hr hz] at h
    simp only [Option.some.injEq, Prod.mk.injEq] at h
    obtain ⟨_, rfl, _⟩ := h
    exact ⟨l, hr, bound_succ hc, fun h => h⟩
  obtain ⟨l1, l2, hl, _⟩ := firstMatch_split s.mem type id l hz
  generalize hfm : firstMatch s.mem type id l = e at *
  subst hl
  have hmono := Remove_mono c fuel (l1 ++ l2).length s eng type id _ h
  obtain ⟨s3, eng3, h3, _, hcase⟩ := Remove_found c (fuel + (l1 ++ l2).length) s eng type id
    l1 l2 e hr hfm (Nat.le_add_left _ _)
  rw [h3] at hmono
  simp only [Option.some.injEq, Prod.mk.injEq] at hmono
  obtain ⟨_, rfl, _⟩ := hmono
  rcases hcase with ⟨k1, k2, _⟩ | ⟨k1, _, k3, rfl⟩
  · have hne : ∀ x ∈ l1 ++ l2, x ≠ e := fun x hx => mem_middle_ne hr.2.2.1.1 hx
    have hsub : ∀ x ∈ l1 ++ l2, x ∈ l1 ++ e :: l2 := by
      intro x hx
      simp only [List.mem_append, List.mem_cons] at hx ⊢
      tauto
    refine ⟨_, k1, ?_, fun hnd => ?_⟩
    · intro a ha
      rw [show (s3.mem a).count = (s.mem a).count from
        congrArg ItemData.count (k2 a (hne a ha))]
      exact bound_succ hc a (hsub a ha)
    · rw [keys_congr fun x hx => k2 x (hne x hx)]
      exact keys_sublist s l1 l2 e hnd
  · refine ⟨_, k1, ?_, fun hnd => ?_⟩
    · intro a ha
      rw [modify_mem]
      split_ifs with hx
      · have := hc e (List.mem_append_right _ (List.mem_cons_self _ _))
        show 1 ≤ (s.mem e).count - 1 ∧ (s.mem e).count - 1 ≤ n + 1
        omega
      · exact bound_succ hc a ha
    · have : (s.modify e fun it => { it with count := it.count - 1 }).keys (l1 ++ e :: l2) =
          s.keys (l1 ++ e :: l2) := by
        unfold Inventory.keys
        apply List.map_congr_left
        intro x _
        rw [modify_mem]
        split_ifs with hx
        · subst hx; rfl
        · rfl
      rw [this]
      exact hnd

/-- The container after `Use` is the one before, or the one a `Remove` yields. -/
theorem Use_container (c : Config) (fuel : Nat) (s s2 : Inventory) (eng eng2 : Engine)
    (type id : Int) (parent : Option object) (b : Bool)
    (h : s.Use c fuel eng type id parent = some (b, s2, eng2)) :
    s2 = s ∨ ∃ engR t i r, s.Remove c fuel engR t i = some r ∧ r.2.1 = s2 := by
  unfold Inventory.Use at h
  revert h
  cases s.FindItem type id with
  | none => intro h; simp at h
  | some node =>
    simp only
    have same : ∀ e1 : Engine, some (false, s, e1) = some (b, s2, eng2) →
        s2 = s ∨ ∃ engR t i r, s.Remove c fuel engR t i = some r ∧ r.2.1 = s2 := by
      intro e1 h
      simp only [Option.some.injEq, Prod.mk.injEq] at h
      exact Or.inl h.2.1.symm
    have rem : ∀ engR : Engine, ∀ f : Bool × Inventory × Engine → Engine,
        (match s.Remove c fuel engR (s.mem node).type (s.mem node).id with
          | none => none
          | some r => some (true, r.2.1, f r)) = some (b, s2, eng2) →
        s2 = s ∨ ∃ engR t i r, s.Remove c fuel engR t i = some r ∧ r.2.1 = s2 := by
      intro engR f
      cases hrm : s.Remove c fuel engR (s.mem node).type (s.mem node).id with
      | none => intro h; simp at h
      | some r =>
        intro h
        simp only [Option.some.injEq, Prod.mk.injEq] at h
        exact Or.inr ⟨_, _, _, r, hrm, h.2.1⟩
    by_cases hz : node = 0
    · rw [if_pos hz]; exact same eng
    rw [if_neg hz]
    by_cases hu : (s.mem node).iflags &&& c.INVF_USEABLE = 0
    · rw [if_pos hu]; exact same eng
    rw [if_neg hu]
    by_cases hcl : (decide (eng.Game_mode &&& c.GM_MULTI ≠ 0) &&
        decide (eng.local_role &&& c.LR_SERVER = 0)) = true
    · rw [if_pos hcl]
      cases s.SendRequestToServerToUse eng (s.mem node).type (s.mem node).id with
      | none => intro h; simp at h
      | some e1 => exact same e1
    rw [if_neg hcl]
    cases parent with
    | none => exact same eng
    | some player =>
      simp only
      by_cases hw : type = c.OBJ_WEAPON
      · rw [if_pos hw]
        exact rem _ (fun r => r.2.2)
      · rw [if_neg hw]
        unfold Inventory.Use_regular
        simp only
        cases (if (s.mem node).iflags &&& c.INVF_OBJECT ≠ 0 then Use_object c eng (s.mem node)
            else Use_create c eng (s.mem node) player
              (decide (eng.Game_mode &&& c.GM_MULTI ≠ 0) &&
                decide (eng.local_role &&& c.LR_SERVER ≠ 0))) with
        | none => exact same eng
        | some m =>
          obtain ⟨objnum, eng1⟩ := m
          simp only
          cases (c.Osiris_CallEvent eng1 objnum player.handle).1 with
          | false =>
            simp only [Bool.false_eq_true, if_false]
            exact same _
          | true =>
            simp only [if_true]
            exact rem _ (fun r => Use_kill c r.2.2
              (decide ((s.mem node).iflags &&& c.INVF_NOREMOVEONUSE = 0)) objnum)

theorem Reset_inv (c : Config) (fuel : Nat) (s s2 : Inventory) (eng eng2 : Engine)
    (in_game : Bool) (stage : Int) (l : List Nat) (hr : InvRing s l)
    (n : Int) (hn0 : 0 ≤ n) (hn : n < 2147483647)
    (hc : ∀ a ∈ l, 1 ≤ (s.mem a).count ∧ (s.mem a).count ≤ n)
    (h : s.Reset c fuel eng in_game stage = some (s2, eng2)) :
    ∃ l2, InvRing s2 l2 ∧ (∀ a ∈ l2, 1 ≤ (s2.mem a).count ∧ (s2.mem a).count ≤ n + 1) ∧
      ((s.keys l).Nodup → (s2.keys l2).Nodup) := by
  have hmono := Reset_mono c fuel l.length s eng in_game stage _ h
  obtain ⟨s3, eng3, h3, k1, k2, _⟩ := Reset_spec c (fuel + l.length) s eng in_game stage _ _ l
    hr (Nat.le_add_left _ _) rfl
  rw [h3] at hmono
  simp only [Option.some.injEq, Prod.mk.injEq] at hmono
  obtain ⟨rfl, _⟩ := hmono
  refine ⟨_, k1, ?_, fun hnd => ?_⟩
  · intro a ha
    rw [show (s3.mem a).count = (s.mem a).count from congrArg ItemData.count (k2 a)]
    exact bound_succ hc a (List.mem_of_mem_filter ha)
  · rw [keys_congr fun x _ => k2 x]
    unfold Inventory.keys at hnd ⊢
    exact List.Nodup.sublist (List.Sublist.map _ (List.filter_sublist l)) hnd

/-- A call that moves only the cursor, to null or to a node of the ring. -/
theorem cursor_inv (s : Inventory) (l : List Nat) (p : Nat) (hr : InvRing s l)
    (n : Int) (hn0 : 0 ≤ n) (hn : n < 2147483647)
    (hc : ∀ a ∈ l, 1 ≤ (s.mem a).count ∧ (s.mem a).count ≤ n) (hp : p = 0 ∨ p ∈ l) :
    ∃ l2, InvRing { s with pos := p } l2 ∧
      (∀ a ∈ l2, 1 ≤ (({ s with pos := p } : Inventory).mem a).count ∧
        (({ s with pos := p } : Inventory).mem a).count ≤ n + 1) ∧
      ((s.keys l).Nodup → (({ s with pos := p } : Inventory).keys l2).Nodup) :=
  ⟨l, invRing_pos p hr hp, bound_succ hc, fun h => h⟩

/-- Every call keeps the ring with its non-empty stacks, whose counts grow by at most one
and stay below the largest `int`; the calls other than `AddObject` keep the keys distinct. -/
theorem run_inv (c : Config) (fuel : Nat) (s s2 : Inventory) (eng eng2 : Engine) (op : Op)
    (b : Bool) (l : List Nat) (hr : InvRing s l) (n : Int) (hn0 : 0 ≤ n) (hn : n < 2147483647)
    (hc : ∀ a ∈ l, 1 ≤ (s.mem a).count ∧ (s.mem a).count ≤ n)
    (h : op.run c fuel s eng = some (b, s2, eng2)) :
    ∃ l2, InvRing s2 l2 ∧ (∀ a ∈ l2, 1 ≤ (s2.mem a).count ∧ (s2.mem a).count ≤ n + 1) ∧
      ((∀ object_handle flags description, op ≠ Op.AddObject object_handle flags description) →
        (s.keys l).Nodup → (s2.keys l2).Nodup) := by
  have weaken : ∀ {P : Prop}, (∃ l2, InvRing s2 l2 ∧ (∀ a ∈ l2, 1 ≤ (s2.mem a).count ∧ (s2.mem a).count ≤ n + 1) ∧
      ((s.keys l).Nodup → (s2.keys l2).Nodup)) →
      ∃ l2, InvRing s2 l2 ∧ (∀ a ∈ l2, 1 ≤ (s2.mem a).count ∧ (s2.mem a).count ≤ n + 1) ∧
        (P → (s.keys l).Nodup → (s2.keys l2).Nodup) :=
    fun ⟨l2, h1, h2, h3⟩ => ⟨l2, h1, h2, fun _ => h3⟩
  cases op with
  | Add type id parent aux_type aux_id flags description =>
    simp only [Op.run, Option.map_eq_some', Prod.mk.injEq] at h
    obtain ⟨⟨b1, s3⟩, hr1, _, rfl, _⟩ := h
    exact weaken (Add_inv c s s3 _ _ _ _ _ _ _ l b1 hr n hn0 hn hc hr1)
  | AddCounterMeasure id aux_type aux_id flags description =>
    simp only [Op.run, Option.map_eq_some', Prod.mk.injEq] at h
    obtain ⟨⟨b1, s3⟩, hr1, _, rfl, _⟩ := h
    exact weaken (AddCounterMeasure_inv c s s3 _ _ _ _ _ l b1 hr n hn0 hn hc hr1)
  | AddObject object_handle flags description =>
    simp only [Op.run, Option.some.injEq] at h
    obtain ⟨l2, h1, h2⟩ := AddObject_inv c s s2 eng eng2 _ _ _ l b hr n hn0 hn hc h
    exact ⟨l2, h1, h2, fun hne => absurd rfl (hne object_handle flags description)⟩
  | Remove type id => exact weaken (Remove_inv c fuel s s2 eng eng2 type id l b hr n hn0 hn hc h)
  | Use type id parent =>
    rcases Use_container c fuel s s2 eng eng2 type id parent b h with rfl | ⟨engR, t, i, r, h1, rfl⟩
    · exact ⟨l, hr, bound_succ hc, fun _ h => h⟩
    · obtain ⟨b1, s3, e3⟩ := r
      exact weaken (Remove_inv c fuel s s3 engR e3 t i l b1 hr n hn0 hn hc h1)
  | Reset in_game reset_stage =>
    simp only [Op.run, Option.map_eq_some', Prod.mk.injEq] at h
    obtain ⟨⟨s3, e3⟩, hr1, _, rfl, _⟩ := h
    exact weaken (Reset_inv c fuel s s3 eng e3 in_game reset_stage l hr n hn0 hn hc hr1)
  | NextPos skip =>
    simp only [Op.run, Option.map_eq_some', Prod.mk.injEq] at h
    obtain ⟨s3, hr1, _, rfl, _⟩ := h
    have hmono := NextPos_mono c fuel l.length s s3 skip hr1
    obtain ⟨p, h1, h2, _⟩ := NextPos_spec c (fuel + l.length) s skip l hr (Nat.le_add_left _ _)
    rw [h1] at hmono
    simp only [Option.some.injEq] at hmono
    subst hmono
    exact weaken (cursor_inv s l p hr n hn0 hn hc h2)
  | PrevPos skip =>
    simp only [Op.run, Option.map_eq_some', Prod.mk.injEq] at h
    obtain ⟨s3, hr1, _, rfl, _⟩ := h
    have hmono := PrevPos_mono c fuel l.length s s3 skip hr1
    obtain ⟨p, h1, h2, _⟩ := PrevPos_spec c (fuel + l.length) s skip l hr (Nat.le_add_left _ _)
    rw [h1] at hmono
    simp only [Option.some.injEq] at hmono
    subst hmono
    exact weaken (cursor_inv s l p hr n hn0 hn hc h2)
  | ResetPos =>
    simp only [Op.run, Option.some.injEq, Prod.mk.injEq] at h
    obtain ⟨_, rfl, _⟩ := h
    exact weaken (cursor_inv s l s.root hr n hn0 hn hc (invRing_root_mem hr))
  | GotoPos newpos =>
    simp only [Op.run, Option.some.injEq, Prod.mk.injEq] at h
    obtain ⟨_, rfl, _⟩ := h
    exact weaken (cursor_inv s l _ hr n hn0 hn hc
      (GotoPos_loop_mem hr.2.2.1 newpos.toNat s.root (invRing_root_mem hr)))
  | GotoPos_type_id type id =>
    simp only [Op.run, Option.map_eq_some', Prod.mk.injEq] at h
    obtain ⟨s3, hr1, _, rfl, _⟩ := h
    unfold Inventory.GotoPos_type_id at hr1
    rw [FindItem_spec s l type id hr] at hr1
    simp only at hr1
    split_ifs at hr1 with hz
    · simp only [Option.some.injEq] at hr1
      subst hr1
      exact weaken (cursor_inv s l _ hr n hn0 hn hc
        (Or.inr ((firstMatch_mem_or s.mem type id l).resolve_left hz).1))
    · simp only [Option.some.injEq] at hr1
      subst hr1
      exact ⟨l, hr, bound_succ hc, fun _ h => h⟩
  | ValidatePos forward =>
    simp only [Op.run, Option.map_eq_some', Prod.mk.injEq] at h
    obtain ⟨s3, hr1, _, rfl, _⟩ := h
    have hmono := ValidatePos_mono c fuel l.length s s3 forward hr1
    obtain ⟨p, h1, h2⟩ := ValidatePos_invRing c (fuel + l.length) s forward l hr
      (Nat.le_add_left _ _)
    rw [h1] at hmono
    simp only [Option.some.injEq] at hmono
    subst hmono
    exact weaken (cursor_inv s l p hr n hn0 hn hc (h2.imp id And.left))

/-! ### Reachable inventories -/

/-- In a ring `next` and `prev` are mutually inverse. -/
theorem links_inverse {mem : Nat → inven_item} {l : List Nat} {a : Nat} (hl : Links mem l)
    (ha : a ∈ l) : (mem (mem a).next).prev = a ∧ (mem (mem a).prev).next = a := by
  obtain ⟨u, v, rfl⟩ := List.append_of_mem ha
  have hrot : Links mem (a :: (v ++ u)) := links_rotate u (a :: v) hl
  generalize v ++ u = w at hrot
  have hprev := links_prev_head hrot
  constructor
  · cases w with
    | nil =>
      have hn : (mem a).next = a := hrot.2.2.2.1
      rw [hn, hprev]; rfl
    | cons b t =>
      have hn : (mem a).next = b := hrot.2.2.2.1
      rw [hn]
      exact hrot.2.2.2.2.1
  · rcases List.eq_nil_or_concat w with rfl | ⟨k, z, hkz⟩
    · have hn : (mem a).next = a := hrot.2.2.2.1
      rw [hprev]; exact hn
    · rw [List.concat_eq_append] at hkz
      subst hkz
      have hz : (mem a).prev = z := by
        rw [hprev, show a :: (k ++ [z]) = (a :: k) ++ [z] from rfl, getLastD_concat]
      rw [hz]
      have hrot2 : Links mem ([z] ++ (a :: k)) := links_rotate (a :: k) [z] hrot
      exact @links_next_cons mem [] k z a hrot2

/-- A traversal by `next` from the head of the ring `l` meets the nodes of `l` in order and is
back at the head after `l.length` steps. -/
theorem links_traversal {mem : Nat → inven_item} {l : List Nat} (hl : Links mem l) :
    (∀ j, j < l.length → (cursorStep mem true)^[j] (l.headD 0) = l.getD j 0) ∧
      (cursorStep mem true)^[l.length] (l.headD 0) = l.headD 0 := by
  have h1 : ∀ j, j < l.length → (cursorStep mem true)^[j] (l.headD 0) = l.getD j 0 := by
    intro j hj
    have h := seg_iter_next mem l _ (l.headD 0) j hl.2.2 hj
    cases l with
    | nil => simp at hj
    | cons a t => exact h
  refine ⟨h1, ?_⟩
  rcases List.eq_nil_or_concat l with rfl | ⟨k, z, hkz⟩
  · rfl
  · rw [List.concat_eq_append] at hkz
    subst hkz
    have hlen : (k ++ [z]).length = k.length + 1 := by simp
    rw [hlen, Function.iterate_succ_apply', h1 k.length (by omega)]
    have hz : (k ++ [z]).getD k.length 0 = z := by simp
    rw [hz]
    have hrot : Links mem ([z] ++ k) := links_rotate k [z] hl
    have hn : cursorStep mem true z = k.headD z := hrot.2.2.2.1
    rw [hn]
    cases k <;> rfl

/-! ### A stack count driven around the `int` range -/

/-- Two inventories with the same members and the same free store are equal. -/
theorem inventory_ext (s t : Inventory) (h1 : s.root = t.root) (h2 : s.count = t.count)
    (h3 : s.pos = t.pos) (h4 : ∀ x, s.mem x = t.mem x) (h5 : s.brk = t.brk) : s = t := by
  cases s
  cases t
  simp only at h1 h2 h3 h5
  have h6 := funext h4
  simp only at h6
  subst h1 h2 h3 h5 h6
  rfl

/-- Two `int` steps wrap like the sum of the steps. -/
theorem wrapInt_succ (v : Int) : wrapInt (wrapInt v + 1) = wrapInt (v + 1) := by
  unfold wrapInt
  omega

theorem exStack_findItem (size v : Int) (h1 : 1 ≤ size) : (exStack size v).FindItem 2 5 = some 1 := by
  unfold Inventory.FindItem
  have h0 : ¬ (exStack size v).count = 0 := by show ¬ size = 0; omega
  have h2 : ¬ (exStack size v).count < 0 := by show ¬ size < 0; omega
  rw [if_neg h0, if_neg h2]
  obtain ⟨k, hk⟩ : ∃ k, (exStack size v).count.toNat = k + 1 :=
    ⟨size.toNat - 1, by show size.toNat = _; omega⟩
  rw [hk]
  rfl

/-- `Add(2, 5)` on the one-entry ring `exStack size v`: the stack count steps as an `int`, and
the entry is filled in again, with `count` going up, when the stack count comes out as 1. -/
theorem exStack_add (size v : Int) (h1 : 1 ≤ size) (h2 : size < 10) :
    (exStack size v).Add exConfig 2 5 none (-1) (-1) 0 none =
      some (true, if wrapInt (v + 1) = 1 then exStack (size + 1) 1
        else exStack size (wrapInt (v + 1))) := by
  have hcap : ¬ (exStack size v).count ≥ exConfig.MAX_UNIQUE_INVEN_ITEMS := by
    show ¬ size ≥ 10; omega
  have h0 : ¬ (exStack size v).count = 0 := by show ¬ size = 0; omega
  unfold Inventory.Add
  rw [if_neg hcap, if_neg (by decide), if_pos (by decide)]
  unfold Inventory.AddObjectItem
  rw [if_neg hcap, if_neg h0, exStack_findItem size v h1]
  simp only [if_neg (show ¬ (1 : Nat) = 0 by decide), modify_mem_same]
  by_cases hw : wrapInt (v + 1) = 1
  · rw [if_pos hw]
    refine congrArg some (Prod.ext rfl ?_)
    have hc : (wrapInt (((exStack size v).mem 1).count + 1) = 1) = True := eq_true hw
    simp only [hc, if_true]
    refine (if_pos (show (1 : Nat) &&& 1 ≠ 0 by decide)).trans ?_
    refine inventory_ext _ _ rfl rfl rfl (fun x => ?_) rfl
    by_cases hx : x = 1
    · subst hx
      show { exFilled 1 with count := wrapInt (v + 1) } = exFilled 1
      rw [hw]
      rfl
    · show (if x = 1 then _ else if x = 1 then _ else if x = 1 then _ else default) =
        (if x = 1 then _ else default)
      rw [if_neg hx, if_neg hx, if_neg hx, if_neg hx]
  · rw [if_neg hw]
    refine congrArg some (Prod.ext rfl ?_)
    have hc : (wrapInt (((exStack size v).mem 1).count + 1) = 1) = False := eq_false hw
    simp only [hc, if_false]
    refine (if_pos (show (1 : Nat) &&& 1 ≠ 0 by decide)).trans ?_
    refine inventory_ext _ _ rfl rfl rfl (fun x => ?_) rfl
    by_cases hx : x = 1
    · subst hx
      rfl
    · show (if x = 1 then _ else if x = 1 then _ else default) = (if x = 1 then _ else default)
      rw [if_neg hx, if_neg hx, if_neg hx]

/-- The inventory after `Add(2, 5)` on a fresh one is `exStack 1 1`. -/
theorem exAdded_eq : exAdded = exStack 1 1 := by
  refine inventory_ext _ _ rfl rfl rfl (fun x => ?_) rfl
  by_cases hx : x = 1
  · subst hx
    rfl
  · have h1 : exAdded.mem x = default :=
      show (if x = 1 then _ else if x = 1 then _ else if x = 1 then _
        else if x = 1 then _ else default) = default from by
        rw [if_neg hx, if_neg hx, if_neg hx, if_neg hx]
    rw [h1]
    exact (if_neg hx).symm

/-- The inventories that `k + 1` calls of `Add(2, 5)` on a fresh inventory run through, as
long as the stack count has not come round to 1 again: one entry whose stack count is
`k + 1` taken as an `int`. -/
theorem exStack_reachable (allowed : Op → Bool)
    (ha : allowed (Op.Add 2 5 none (-1) (-1) 0 none) = true) :
    ∀ k : Nat, k + 1 ≤ 4294967296 →
      ReachableIn exConfig allowed (k + 1) (exStack 1 (wrapInt ((k : Int) + 1)))
  | 0, _ => by
    have h1 : exStack 1 (wrapInt (((0 : Nat) : Int) + 1)) = exAdded := exAdded_eq.symm
    rw [h1]
    exact ReachableIn.step 0 (Inventory.init (fun _ => default) 1)
      (Op.Add 2 5 none (-1) (-1) 0 none) 0 exEngine true exAdded exEngine
      (ReachableIn.init _ 1 (by decide)) ha rfl
  | k + 1, hk => by
    have ih := exStack_reachable allowed ha k (by omega)
    have hne : ¬ wrapInt (wrapInt ((k : Int) + 1) + 1) = 1 := by
      rw [wrapInt_succ]
      unfold wrapInt
      omega
    have hrun : (Op.Add 2 5 none (-1) (-1) 0 none).run exConfig 0
        (exStack 1 (wrapInt ((k : Int) + 1))) exEngine =
        some (true, exStack 1 (wrapInt (((k + 1 : Nat) : Int) + 1)), exEngine) := by
      simp only [Op.run]
      rw [exStack_add 1 _ (by decide) (by decide), if_neg hne, wrapInt_succ]
      push_cast
      rfl
    exact ReachableIn.step (k + 1) _ _ 0 exEngine true _ exEngine ih ha hrun

/-- After 2147483648 calls of `Add(2, 5)` the stack count is the smallest `int`. -/
theorem exStack_wrapped (allowed : Op → Bool)
    (ha : allowed (Op.Add 2 5 none (-1) (-1) 0 none) = true) :
    ReachableIn exConfig allowed 2147483648 (exStack 1 (-2147483648)) :=
  exStack_reachable allowed ha 2147483647 (by decide)

/-- After 4294967297 calls of `Add(2, 5)` the stack count has come round to 1, the entry has
been filled in a second time and `count` is 2, with one node in the ring. -/
theorem exStack_refilled (allowed : Op → Bool)
    (ha : allowed (Op.Add 2 5 none (-1) (-1) 0 none) = true) :
    ReachableIn exConfig allowed 4294967297 (exStack 2 1) := by
  have h := exStack_reachable allowed ha 4294967295 (by decide)
  have hrun : (Op.Add 2 5 none (-1) (-1) 0 none).run exConfig 0
      (exStack 1 (wrapInt (((4294967295 : Nat) : Int) + 1))) exEngine =
      some (true, exStack 2 1, exEngine) := by
    simp only [Op.run]
    rw [exStack_add 1 _ (by decide) (by decide), if_pos (by decide)]
    rfl
  exact ReachableIn.step 4294967296 _ _ 0 exEngine true _ exEngine h ha hrun

/-- Three calls of `Add` on a fresh inventory lead to `exAdded3`. -/
theorem exAdded3_reachable (allowed : Op → Bool)
    (h5 : allowed (Op.Add 2 5 none (-1) (-1) 0 none) = true)
    (h6 : allowed (Op.Add 2 6 none (-1) (-1) 0 none) = true) :
    ReachableIn exConfig allowed 3 exAdded3 :=
  ReachableIn.step 2 exAdded2 (Op.Add 2 5 none (-1) (-1) 0 none) 0 exEngine true exAdded3
    exEngine
    (ReachableIn.step 1 exAdded (Op.Add 2 6 none (-1) (-1) 0 none) 0 exEngine true exAdded2
      exEngine
      (ReachableIn.step 0 (Inventory.init (fun _ => default) 1)
        (Op.Add 2 5 none (-1) (-1) 0 none) 0 exEngine true exAdded exEngine
        (ReachableIn.init _ 1 (by decide)) h5 rfl)
      h6 rfl)
    h5 rfl

/-- The invariant of the inventories reachable by at most 2147483647 calls: a ring with
stacks of at least one and at most as many items as there were calls, and distinct keys
unless `AddObject` is among the calls. -/
theorem reachableIn_inv (c : Config) (allowed : Op → Bool) (n : Nat) (s : Inventory)
    (h : ReachableIn c allowed n s) (hn : n ≤ 2147483647) :
    ∃ l, InvRing s l ∧ (∀ a ∈ l, 1 ≤ (s.mem a).count ∧ (s.mem a).count ≤ (n : Int)) ∧
      ((∀ op, allowed op = true →
          ∀ object_handle flags description, op ≠ Op.AddObject object_handle flags description) →
        (s.keys l).Nodup) := by
  induction h with
  | init mem brk hb =>
    refine ⟨[], ⟨rfl, rfl, ⟨List.nodup_nil, by simp, trivial⟩, by simp, hb, Or.inl rfl⟩,
      by simp, fun _ => List.nodup_nil⟩
  | step n s op fuel eng b s2 eng2 _ ha hrun ih =>
    obtain ⟨l, hr, hc, hk⟩ := ih (by omega)
    obtain ⟨l2, h1, h2, h3⟩ := run_inv c fuel s s2 eng eng2 op b l hr (n : Int) (by omega)
      (by omega) hc hrun
    refine ⟨l2, h1, ?_, fun hall => h3 (hall op ha) (hk hall)⟩
    intro a ha2
    have := h2 a ha2
    push_cast
    exact this

/-- C15, where no stack count overflows: every inventory reachable from a freshly
constructed one by at most 2147483647 calls of `Add`, `AddCounterMeasure`, `AddObject`, `Remove`, `Use`, `Reset` and the
cursor moves (`NextPos`, `PrevPos`, `ResetPos`, both `GotoPos`, `ValidatePos`) holds a circular
doubly-linked ring `l` of distinct non-null nodes that starts at `root`: `root` is null
exactly when the ring is empty, `next` and `prev` are mutually inverse on the ring, a
traversal by `next` from `root` meets the nodes of `l` in order and is back at `root` after
`l.length` steps, and `count` is `l.length`. -/
theorem reachable_ring (c : Config) (n : Nat) (s : Inventory)
    (h : ReachableIn c (fun _ => true) n s) (hn : n ≤ 2147483647) :
    ∃ l, Links s.mem l ∧ s.root = l.headD 0 ∧ (s.root = 0 ↔ l = []) ∧
      (∀ a ∈ l, (s.mem (s.mem a).next).prev = a ∧ (s.mem (s.mem a).prev).next = a) ∧
      (∀ j, j < l.length → (cursorStep s.mem true)^[j] s.root = l.getD j 0) ∧
      (cursorStep s.mem true)^[l.length] s.root = s.root ∧ s.count = l.length := by
  obtain ⟨l, hr, _, _⟩ := reachableIn_inv c _ n s h hn
  obtain ⟨hcount, hroot, hl, _⟩ := hr
  obtain ⟨t1, t2⟩ := links_traversal hl
  refine ⟨l, hl, hroot, ?_, fun a ha => links_inverse hl ha, ?_, ?_, hcount⟩
  · rw [hroot]
    cases l with
    | nil => simp
    | cons a t =>
      simp only [List.headD_cons, reduceCtorEq, iff_false]
      exact fun h => hl.2.1 (h ▸ List.mem_cons_self _ _)
  · rw [hroot]; exact t1
  · rw [hroot]; exact t2

/-- Witness for `reachable_ring`: the inventory after `Add(2, 5)`, `Add(2, 6)` and `Add(2, 5)`
on a fresh one, a ring of two entries. -/
theorem reachable_ring_witness :
    ReachableIn exConfig (fun _ => true) 3 exAdded3 ∧ 3 ≤ 2147483647 ∧
      ∃ l, Links exAdded3.mem l ∧ exAdded3.root = l.headD 0 ∧ (exAdded3.root = 0 ↔ l = []) ∧
        (∀ a ∈ l, (exAdded3.mem (exAdded3.mem a).next).prev = a ∧
          (exAdded3.mem (exAdded3.mem a).prev).next = a) ∧
        (∀ j, j < l.length → (cursorStep exAdded3.mem true)^[j] exAdded3.root = l.getD j 0) ∧
        (cursorStep exAdded3.mem true)^[l.length] exAdded3.root = exAdded3.root ∧
        exAdded3.count = l.length :=
  ⟨exAdded3_reachable _ rfl rfl, by decide,
    reachable_ring exConfig 3 exAdded3 (exAdded3_reachable _ rfl rfl) (by decide)⟩

/-- C15, the divergence: 4294967297 calls of `Add(2, 5)` on a fresh inventory lead to
`exStack 2 1`, whose ring from the head is the single node 1 (its `next` and `prev` are the
node itself) while `count` is 2: on the way the stack count wraps round the `int` range,
comes out as 1 again, and the entry is filled in and counted a second time. -/
theorem reachable_ring_counterexample :
    ReachableIn exConfig (fun _ => true) 4294967297 (exStack 2 1) ∧
      Links (exStack 2 1).mem [1] ∧ (exStack 2 1).root = 1 ∧
      cursorStep (exStack 2 1).mem true (exStack 2 1).root = (exStack 2 1).root ∧
      (exStack 2 1).count = 2 ∧ ∀ l, ¬ InvRing (exStack 2 1) l := by
  refine ⟨exStack_refilled _ rfl, by decide, rfl, rfl, rfl, ?_⟩
  intro l hl
  obtain ⟨hcount, hroot, hlinks, _⟩ := hl
  have h2 : l.length = 2 := by
    have : ((exStack 2 1).count : Int) = 2 := rfl
    rw [hcount] at this
    exact_mod_cast this
  match l, h2, hroot, hlinks with
  | [a, b], _, hroot, hlinks =>
    have ha : a = 1 := hroot.symm
    subst ha
    have hb : b = 1 := by
      have := hlinks.2.2.2.1
      exact this.symm
    subst hb
    exact absurd hlinks.1 (by decide)

/-- C16, where no stack count overflows: every inventory reachable from a freshly
constructed one by at most 2147483647 calls of `Add`, `AddCounterMeasure`, `Remove`, `Use` and `Reset` holds a ring `l` in
which no two entries share their key `(type, id)` and every entry has a stack count of at
least 1; this holds in particular for its abstract entries. -/
theorem reachable_abstract (c : Config) (n : Nat) (s : Inventory)
    (h : ReachableIn c Op.abstract n s) (hn : n ≤ 2147483647) :
    ∃ l, InvRing s l ∧ (s.keys l).Nodup ∧ ∀ a ∈ l, 1 ≤ (s.mem a).count := by
  obtain ⟨l, hr, hc, hk⟩ := reachableIn_inv c _ n s h hn
  refine ⟨l, hr, hk ?_, fun a ha => (hc a ha).1⟩
  intro op ha object_handle flags description hop
  subst hop
  simp [Op.abstract] at ha

/-- Witness for `reachable_abstract`: the inventory after `Add(2, 5)`, `Add(2, 6)` and
`Add(2, 5)` on a fresh one, a ring of two entries. -/
theorem reachable_abstract_witness :
    ReachableIn exConfig Op.abstract 3 exAdded3 ∧ 3 ≤ 2147483647 ∧
      ∃ l, InvRing exAdded3 l ∧ (exAdded3.keys l).Nodup ∧
        ∀ a ∈ l, 1 ≤ (exAdded3.mem a).count :=
  ⟨exAdded3_reachable _ rfl rfl, by decide,
    reachable_abstract exConfig 3 exAdded3 (exAdded3_reachable _ rfl rfl) (by decide)⟩

/-- C16, the divergence: 2147483648 calls of `Add(2, 5)` on a fresh inventory lead to
`exStack 1 (-2147483648)`, a ring whose single entry is abstract, with key (2, 5), and has the
stack count -2147483648. -/
theorem reachable_abstract_counterexample :
    ReachableIn exConfig Op.abstract 2147483648 (exStack 1 (-2147483648)) ∧
      InvRing (exStack 1 (-2147483648)) [1] ∧
      ((exStack 1 (-2147483648)).mem 1).iflags &&& exConfig.INVF_OBJECT = 0 ∧
      ((exStack 1 (-2147483648)).mem 1).count = -2147483648 ∧
      ¬ 1 ≤ ((exStack 1 (-2147483648)).mem 1).count :=
  ⟨exStack_wrapped _ rfl, by decide, by decide, rfl, by decide⟩

/-! ### The scenario add, add, remove, remove -/

theorem or_and_eq_zero (x y m : Nat) (hx : x &&& m = 0) (hy : y &&& m = 0) :
    (x ||| y) &&& m = 0 := by
  apply Nat.eq_of_testBit_eq
  intro i
  have h1 := congrArg (fun n => Nat.testBit n i) hx
  have h2 := congrArg (fun n => Nat.testBit n i) hy
  simp only [Nat.testBit_and, Nat.zero_testBit] at h1 h2
  simp only [Nat.testBit_and, Nat.testBit_or, Nat.zero_testBit]
  cases hxb : Nat.testBit x i <;> cases hyb : Nat.testBit y i <;>
    cases hmb : Nat.testBit m i <;> simp_all

/-- With no caller flags the flag word of the entry `AddObjectItem` creates comes from the
definition of the item alone; a flag `m` that shares no bit with these four is not set. -/
theorem AddObjectItem_fill_not (c : Config) (otype oid oauxt oauxi : Int)
    (description : Option CStr) (it : inven_item) (m : Nat)
    (h1 : c.INVF_SELECTABLE &&& m = 0) (h2 : c.INVF_MISSIONITEM &&& m = 0)
    (h3 : c.INVF_NOREMOVEONUSE &&& m = 0) (h4 : c.INVF_VISWHENUSED &&& m = 0) :
    (AddObjectItem_fill c otype oid oauxt oauxi 0 description it).iflags &&& m = 0 := by
  simp only [AddObjectItem_fill, Nat.zero_and, ne_eq, not_true_eq_false, if_false]
  have z : (0 : Nat) &&& m = 0 := Nat.zero_and m
  have s1 : ∀ (p : Prop) [Decidable p] (x f : Nat), x &&& m = 0 → f &&& m = 0 →
      (if p then x ||| f else x) &&& m = 0 := by
    intro p _ x f hx hf
    split_ifs
    · exact or_and_eq_zero x f m hx hf
    · exact hx
  exact s1 _ _ _ (s1 _ _ _ (s1 _ _ _ (s1 _ _ _ z h1) h2) h3) h4

/-- The entry `AddObjectItem` creates for an inventory-selectable definition is selectable. -/
theorem AddObjectItem_fill_selectable (c : Config) (otype oid oauxt oauxi : Int) (flags : Nat)
    (description : Option CStr) (it : inven_item)
    (h : (c.Object_info oid).flags &&& c.OIF_INVEN_SELECTABLE ≠ 0) (h0 : c.INVF_SELECTABLE ≠ 0) :
    (AddObjectItem_fill c otype oid oauxt oauxi flags description it).iflags &&&
      c.INVF_SELECTABLE ≠ 0 := by
  simp only [AddObjectItem_fill]
  rw [if_pos h]
  have base : (0 ||| c.INVF_SELECTABLE) &&& c.INVF_SELECTABLE ≠ 0 := by
    rw [Nat.zero_or, Nat.and_self]; exact h0
  have s1 : ∀ (p : Prop) [Decidable p] (x f : Nat), x &&& c.INVF_SELECTABLE ≠ 0 →
      (if p then x ||| f else x) &&& c.INVF_SELECTABLE ≠ 0 := by
    intro p _ x f hx
    split_ifs
    · exact and_or_ne_zero x f _ hx
    · exact hx
  exact s1 _ _ _ (s1 _ _ _ (s1 _ _ _ (s1 _ _ _ (s1 _ _ _ (s1 _ _ _ base)))))

theorem AddObjectItem_total (c : Config) (s : Inventory) (otype oid oauxt oauxi : Int)
    (flags : Nat) (description : Option CStr) (l : List Nat) (hr : InvRing s l) :
    ∃ b s2, s.AddObjectItem c otype oid oauxt oauxi flags description = some (b, s2) := by
  unfold Inventory.AddObjectItem
  rw [FindItem_spec s l otype oid hr]
  by_cases h1 : s.count ≥ c.MAX_UNIQUE_INVEN_ITEMS
  · rw [if_pos h1]; exact ⟨_, _, rfl⟩
  · rw [if_neg h1]
    by_cases h0 : s.count = 0
    · rw [if_pos h0]; exact ⟨_, _, rfl⟩
    · rw [if_neg h0]
      by_cases hz : firstMatch s.mem otype oid l = 0
      · simp only [hz, if_true]; exact ⟨_, _, rfl⟩
      · simp only [hz, if_false]; exact ⟨_, _, rfl⟩

/-- C20, counterexample: with a definition of powerup 5 that is not inventory-selectable, the
first `Add(POWERUP, 5)` on a fresh inventory returns true and gives `Size` 1, but the cursor
is null, not on the new entry. -/
theorem scenario_cursor_counterexample :
    ((Inventory.init (fun _ => default) 1).Add exConfigPlain exConfigPlain.OBJ_POWERUP 5 none
        (-1) (-1) 0 none).map (fun r => (r.1, r.2.Size, r.2.root, r.2.pos)) =
      some (true, 1, 1, 0) := by
  decide

/-- C20, amended: on a fresh inventory (capacity above 1, `OBJ_POWERUP` a kind that `Add`
takes for an abstract entry, `INVF_OBJECT` sharing no bit with the flags a definition gives):
`Add(POWERUP, 5)` with no caller flags returns true, `Size` is 1, the ring is the new entry
with stack count 1, and the cursor is on the new entry if that entry is selectable, as it is
for an inventory-selectable definition of powerup 5, and null otherwise; a second
`Add(POWERUP, 5)` returns true, `Size` is still 1 and the stack count is 2;
`Remove(POWERUP, 5)` returns true, the stack count is 1 and the entry is still the ring; a
second `Remove(POWERUP, 5)` returns true, the ring is empty, `Size` is 0, and head and cursor
are null. -/
theorem scenario_add_remove (c : Config) (fuel : Nat) (mem : Nat → inven_item) (brk : Nat)
    (parent : Option object) (aux_type aux_id : Int) (description : Option CStr)
    (eng eng2 : Engine) (hb : 0 < brk) (hmax : 1 < c.MAX_UNIQUE_INVEN_ITEMS)
    (hk0 : 0 ≤ c.OBJ_POWERUP) (hk1 : c.OBJ_POWERUP ≠ c.OBJ_NONE)
    (hk2 : c.OBJ_POWERUP ≠ c.OBJ_WEAPON) (h1 : c.INVF_SELECTABLE &&& c.INVF_OBJECT = 0)
    (h2 : c.INVF_MISSIONITEM &&& c.INVF_OBJECT = 0)
    (h3 : c.INVF_NOREMOVEONUSE &&& c.INVF_OBJECT = 0)
    (h4 : c.INVF_VISWHENUSED &&& c.INVF_OBJECT = 0) :
    ∃ s1 s2 s3 s4,
      (Inventory.init mem brk).Add c c.OBJ_POWERUP 5 parent aux_type aux_id 0 description =
        some (true, s1) ∧
      s1.Size = 1 ∧ InvRing s1 [brk] ∧ (s1.mem brk).type = c.OBJ_POWERUP ∧
      (s1.mem brk).id = 5 ∧ (s1.mem brk).count = 1 ∧
      s1.pos = (if (s1.mem brk).iflags &&& c.INVF_SELECTABLE ≠ 0 then brk else 0) ∧
      ((c.Object_info 5).flags &&& c.OIF_INVEN_SELECTABLE ≠ 0 → c.INVF_SELECTABLE ≠ 0 →
        s1.pos = brk) ∧
      s1.Add c c.OBJ_POWERUP 5 parent aux_type aux_id 0 description = some (true, s2) ∧
      s2.Size = 1 ∧ InvRing s2 [brk] ∧ (s2.mem brk).count = 2 ∧
      s2.Remove c fuel eng c.OBJ_POWERUP 5 = some (true, s3, eng) ∧
      s3.Size = 1 ∧ InvRing s3 [brk] ∧ (s3.mem brk).count = 1 ∧
      s3.Remove c fuel eng2 c.OBJ_POWERUP 5 = some (true, s4, eng2) ∧
      s4.Size = 0 ∧ InvRing s4 [] ∧ s4.root = 0 ∧ s4.pos = 0 := by
  have hadd : ∀ s : Inventory, s.count < c.MAX_UNIQUE_INVEN_ITEMS →
      s.Add c c.OBJ_POWERUP 5 parent aux_type aux_id 0 description =
        s.AddObjectItem c c.OBJ_POWERUP 5 (if aux_type ≠ -1 then aux_type else c.OBJ_POWERUP)
          (if aux_id ≠ -1 then aux_id else 5) 0 description := by
    intro s hs
    unfold Inventory.Add
    rw [if_neg (by omega), if_neg (by omega), if_pos hk2]
  have hr0 : InvRing (Inventory.init mem brk) [] :=
    ⟨rfl, rfl, ⟨List.nodup_nil, by simp, trivial⟩, by simp, hb, Or.inl rfl⟩
  have hb0 : brk ≠ 0 := by omega
  obtain ⟨b1, s1, e1⟩ := AddObjectItem_total c (Inventory.init mem brk) c.OBJ_POWERUP 5
    (if aux_type ≠ -1 then aux_type else c.OBJ_POWERUP) (if aux_id ≠ -1 then aux_id else 5) 0
    description [] hr0
  rcases AddObjectItem_cases c _ s1 _ _ _ _ _ _ [] b1 hr0 (fun hz => absurd rfl hz) e1 with
    ⟨_, _, hcap⟩ | ⟨rfl, _, _, k1, _, k3, ⟨it, k4⟩, k5⟩ | ⟨_, _, hfm, _⟩
  · exact absurd hcap (by show ¬ (0 : Int) ≥ _; omega)
  swap
  · exact absurd rfl hfm
  have k1b : InvRing s1 [brk] := k1
  have k3b : (s1.mem brk).count = 1 := k3
  have k4b : s1.mem brk = AddObjectItem_fill c c.OBJ_POWERUP 5
      (if aux_type ≠ -1 then aux_type else c.OBJ_POWERUP) (if aux_id ≠ -1 then aux_id else 5) 0
      description it := k4
  have k5b : s1.pos = if (s1.mem brk).iflags &&& c.INVF_SELECTABLE ≠ 0 then brk else 0 := k5
  have hkey1 : (s1.mem brk).type = c.OBJ_POWERUP ∧ (s1.mem brk).id = 5 := by
    rw [k4b]; exact ⟨rfl, rfl⟩
  have hobj1 : (s1.mem brk).iflags &&& c.INVF_OBJECT = 0 := by
    rw [k4b]; exact AddObjectItem_fill_not c _ _ _ _ _ _ _ h1 h2 h3 h4
  have hc1 : s1.count = 1 := by simpa using k1b.1
  obtain ⟨b2, s2, e2⟩ := AddObjectItem_total c s1 c.OBJ_POWERUP 5
    (if aux_type ≠ -1 then aux_type else c.OBJ_POWERUP) (if aux_id ≠ -1 then aux_id else 5) 0
    description [brk] k1b
  have hfm1 : firstMatch s1.mem c.OBJ_POWERUP 5 [brk] = brk :=
    firstMatch_append_cons s1.mem _ _ [] [] brk hkey1 (by simp)
  rcases AddObjectItem_cases c s1 s2 _ _ _ _ _ _ [brk] b2 k1b
      (by intro _; rw [hfm1, k3b]; decide) e2 with
    ⟨_, _, hcap⟩ | ⟨_, _, hfm, _⟩ | ⟨rfl, _, _, m1, m2, m3, m4, m5⟩
  · exact absurd hcap (by rw [hc1]; omega)
  · exact absurd (hfm1.symm.trans hfm) hb0
  rw [hfm1] at m1 m5
  obtain ⟨j1, _, _⟩ := merge_inv s1 s2 [brk] brk k1b 1
    (by intro a ha; rw [List.mem_singleton.1 ha, k3b]; decide) (List.mem_singleton.2 rfl) m1 m2
    m3 m4
    (by rw [m5]; split_ifs
        · exact Or.inr rfl
        · exact Or.inl rfl)
  have hmem2 : s2.mem brk = { s1.mem brk with count := (s1.mem brk).count + 1 } := by
    rw [m1]; simp
  have hcount2 : (s2.mem brk).count = 2 := by rw [hmem2]; show (s1.mem brk).count + 1 = 2; omega
  have hkey2 : (s2.mem brk).type = c.OBJ_POWERUP ∧ (s2.mem brk).id = 5 := by
    rw [hmem2]; exact hkey1
  have hobj2 : (s2.mem brk).iflags &&& c.INVF_OBJECT = 0 := by rw [hmem2]; exact hobj1
  have hfm2 : firstMatch s2.mem c.OBJ_POWERUP 5 ([] ++ brk :: []) = brk :=
    firstMatch_append_cons s2.mem _ _ [] [] brk hkey2 (by simp)
  obtain ⟨r1, r2⟩ := Remove_dec c fuel s2 eng c.OBJ_POWERUP 5 [] [] brk j1 hfm2 hobj2
    (by rw [hcount2]; decide)
  have hmem3 : (s2.modify brk fun it => { it with count := it.count - 1 }).mem brk =
      { s2.mem brk with count := (s2.mem brk).count - 1 } := by simp
  have hfm3 : firstMatch (s2.modify brk fun it => { it with count := it.count - 1 }).mem
      c.OBJ_POWERUP 5 ([] ++ brk :: []) = brk :=
    firstMatch_append_cons _ _ _ [] [] brk (by rw [hmem3]; exact hkey2) (by simp)
  obtain ⟨s4, q1, q2, _⟩ := Remove_last c fuel
    (s2.modify brk fun it => { it with count := it.count - 1 }) eng2 c.OBJ_POWERUP 5 [] [] brk
    r2 hfm3 (by rw [hmem3]; exact hobj2)
    (by rw [hmem3]; show (s2.mem brk).count - 1 ≤ 1; omega) (by simp)
  have q2b : InvRing s4 [] := q2
  refine ⟨s1, s2, _, s4, (hadd _ (by show (0 : Int) < _; omega)).trans e1, hc1, k1b, hkey1.1,
    hkey1.2, k3b, k5b, ?_, (hadd _ (by rw [hc1]; exact hmax)).trans e2, m3.trans hc1, j1,
    hcount2, r1, (by simpa using r2.1), r2, ?_, q1, (by simpa using q2b.1), q2b, q2b.2.1,
    (by simpa using q2b.2.2.2.2.2)⟩
  · intro hsel hs0
    rw [k5b, if_pos]
    rw [k4b]
    exact AddObjectItem_fill_selectable c _ _ _ _ _ _ _ hsel hs0
  · rw [hmem3]
    show (s2.mem brk).count - 1 = 1
    omega

/-- Witness for `scenario_add_remove`: the sample configuration, whose definition of powerup 5
is inventory-selectable. -/
theorem scenario_add_remove_witness :
    (0 < 1 ∧ 1 < exConfig.MAX_UNIQUE_INVEN_ITEMS ∧ 0 ≤ exConfig.OBJ_POWERUP ∧
        exConfig.OBJ_POWERUP ≠ exConfig.OBJ_NONE ∧ exConfig.OBJ_POWERUP ≠ exConfig.OBJ_WEAPON ∧
        exConfig.INVF_SELECTABLE &&& exConfig.INVF_OBJECT = 0 ∧
        exConfig.INVF_MISSIONITEM &&& exConfig.INVF_OBJECT = 0 ∧
        exConfig.INVF_NOREMOVEONUSE &&& exConfig.INVF_OBJECT = 0 ∧
        exConfig.INVF_VISWHENUSED &&& exConfig.INVF_OBJECT = 0) ∧
      ∃ s1 s2 s3 s4,
        (Inventory.init (fun _ => default) 1).Add exConfig exConfig.OBJ_POWERUP 5 none (-1) (-1)
            0 none = some (true, s1) ∧
        s1.Size = 1 ∧ InvRing s1 [1] ∧ (s1.mem 1).type = exConfig.OBJ_POWERUP ∧
        (s1.mem 1).id = 5 ∧ (s1.mem 1).count = 1 ∧
        s1.pos = (if (s1.mem 1).iflags &&& exConfig.INVF_SELECTABLE ≠ 0 then 1 else 0) ∧
        ((exConfig.Object_info 5).flags &&& exConfig.OIF_INVEN_SELECTABLE ≠ 0 →
          exConfig.INVF_SELECTABLE ≠ 0 → s1.pos = 1) ∧
        s1.Add exConfig exConfig.OBJ_POWERUP 5 none (-1) (-1) 0 none = some (true, s2) ∧
        s2.Size = 1 ∧ InvRing s2 [1] ∧ (s2.mem 1).count = 2 ∧
        s2.Remove exConfig 5 exEngine exConfig.OBJ_POWERUP 5 = some (true, s3, exEngine) ∧
        s3.Size = 1 ∧ InvRing s3 [1] ∧ (s3.mem 1).count = 1 ∧
        s3.Remove exConfig 5 exEngineNone exConfig.OBJ_POWERUP 5 =
          some (true, s4, exEngineNone) ∧
        s4.Size = 0 ∧ InvRing s4 [] ∧ s4.root = 0 ∧ s4.pos = 0 :=
  ⟨by decide,
    scenario_add_remove exConfig 5 (fun _ => default) 1 none (-1) (-1) none exEngine
      exEngineNone (by decide) (by decide) (by decide) (by decide) (by decide) (by decide)
      (by decide) (by decide) (by decide)⟩

/-! ### Merging and the capacity check -/

/-- The merge path of `AddCounterMeasure`: the first entry with the key gets one more item, if
its stack count is at least 1 and below the largest `int`. -/
theorem AddCounterMeasure_merge (c : Config) (s : Inventory) (id aux_type aux_id : Int)
    (flags : Nat) (description : Option CStr) (l1 l2 : List Nat) (e : Nat)
    (hr : InvRing s (l1 ++ e :: l2)) (hcap : s.count < c.MAX_UNIQUE_INVEN_ITEMS)
    (hfm : firstMatch s.mem c.OBJ_WEAPON id (l1 ++ e :: l2) = e) (hlo : 1 ≤ (s.mem e).count)
    (hhi : (s.mem e).count < 2147483647) :
    ∃ s2, s.AddCounterMeasure c id aux_type aux_id flags description = some (true, s2) ∧
      s2.mem = (s.modify e fun it => { it with count := it.count + 1 }).mem ∧
      s2.root = s.root ∧ s2.count = s.count ∧ s2.brk = s.brk ∧ s2.pos = e := by
  have he0 : e ≠ 0 := fun h => hr.2.2.1.2.1 (h ▸ List.mem_append_right _ (List.mem_cons_self _ _))
  have hcap2 : ¬ s.count ≥ c.MAX_UNIQUE_INVEN_ITEMS := by omega
  have hc0 : s.count ≠ 0 := by
    rw [hr.1]; simp only [List.length_append, List.length_cons]; omega
  have hw : wrapInt ((s.mem e).count + 1) = (s.mem e).count + 1 :=
    wrapInt_eq_self _ (by omega) (by omega)
  have hne : ¬ (s.mem e).count + 1 = 1 := by omega
  unfold Inventory.AddCounterMeasure
  rw [FindItem_spec s _ c.OBJ_WEAPON id hr, hfm]
  simp only [hcap2, hc0, he0, if_false, modify_mem_same, hw, hne]
  exact ⟨_, rfl, modify_wrap_eq s e hlo hhi, rfl, rfl, rfl, rfl⟩

/-- C26, the divergence: the ring `[1, 2]` of `exMax` at a capacity of two entries refuses
`Add(2, 5)`; with room for ten the same call on the same ring returns true, and the stack
count of the entry, 2147483647 before, is -2147483648 after: it is not raised. -/
theorem merge_refused_at_capacity_counterexample :
    WF exConfigTwo exMax ([] ++ 1 :: [2]) ∧ exMax.Size = exConfigTwo.MAX_UNIQUE_INVEN_ITEMS ∧
      ((exMax.mem 1).type = 2 ∧ (exMax.mem 1).id = 5) ∧
      (exMax.mem 1).iflags &&& exConfigTwo.INVF_OBJECT = 0 ∧ exMax.Size < 10 ∧
      (exMax.mem 1).count = 2147483647 ∧
      (exMax.Add exConfigTwo 2 5 none (-1) (-1) 0 none).map
          (fun r => (r.1, (r.2.mem 1).count, r.2.Size)) = some (false, 2147483647, 2) ∧
      (exMax.Add { exConfigTwo with MAX_UNIQUE_INVEN_ITEMS := 10 } 2 5 none (-1) (-1) 0 none).map
          (fun r => (r.1, (r.2.mem 1).count, r.2.Size)) = some (true, -2147483648, 2) := by
  decide

/-- C26, where the stack count does not overflow: on a well-formed inventory whose `Size`
equals `MAX_UNIQUE_INVEN_ITEMS` and that holds the abstract entry `e` with key `(kind, id)`, `Add(kind, id)` returns false and
changes nothing, and so does `AddCounterMeasure(id)`; with a bound `M2` above `Size` in place
of `MAX_UNIQUE_INVEN_ITEMS`, and if the stack count of `e` is below the largest `int`,
2147483647, the same `Add` on the same inventory returns true and raises the stack count of
`e` by one without a new entry, and so does `AddCounterMeasure(id)` when the kind is
`OBJ_WEAPON`. -/
theorem merge_refused_at_capacity (c : Config) (M2 : Int) (s : Inventory) (kind id : Int)
    (parent : Option object) (aux_type aux_id : Int) (flags : Nat) (description : Option CStr)
    (l1 l2 : List Nat) (e : Nat) (hwf : WF c s (l1 ++ e :: l2))
    (hfull : s.Size = c.MAX_UNIQUE_INVEN_ITEMS)
    (hkey : (s.mem e).type = kind ∧ (s.mem e).id = id)
    (habs : (s.mem e).iflags &&& c.INVF_OBJECT = 0) (hM2 : s.Size < M2) :
    s.Add c kind id parent aux_type aux_id flags description = some (false, s) ∧
    s.AddCounterMeasure c id aux_type aux_id flags description = some (false, s) ∧
    ((s.mem e).count < 2147483647 →
      (∃ s2, s.Add { c with MAX_UNIQUE_INVEN_ITEMS := M2 } kind id parent aux_type aux_id flags
          description = some (true, s2) ∧
        (s2.mem e).count = (s.mem e).count + 1 ∧ s2.Size = s.Size) ∧
      (kind = c.OBJ_WEAPON →
        ∃ s2, s.AddCounterMeasure { c with MAX_UNIQUE_INVEN_ITEMS := M2 } id aux_type aux_id
            flags description = some (true, s2) ∧
          (s2.mem e).count = (s.mem e).count + 1 ∧ s2.Size = s.Size)) := by
  have hr := hwf.1
  have hfm := wf_firstMatch hwf hkey
  have hok := hwf.2.1 e (List.mem_append_right _ (List.mem_cons_self _ _))
  have hge : s.count ≥ c.MAX_UNIQUE_INVEN_ITEMS := by
    have : s.count = c.MAX_UNIQUE_INVEN_ITEMS := hfull
    omega
  have hlt : s.count < M2 := hM2
  obtain ⟨hk0, hk1, hcnt⟩ : 0 ≤ kind ∧ kind ≠ c.OBJ_NONE ∧ 1 ≤ (s.mem e).count := by
    rcases hok with ⟨ho, _⟩ | ⟨_, _, h0, h1, h2⟩
    · exact absurd habs ho
    · rw [← hkey.1]
      exact ⟨h0, h1, h2⟩
  have hcm : (s.mem e).count < 2147483647 → kind = c.OBJ_WEAPON →
      ∃ s2, s.AddCounterMeasure { c with MAX_UNIQUE_INVEN_ITEMS := M2 } id aux_type aux_id flags
          description = some (true, s2) ∧
        (s2.mem e).count = (s.mem e).count + 1 ∧ s2.Size = s.Size := by
    intro hmax hw
    subst hw
    obtain ⟨s2, h1, h2, _, h4, _⟩ := AddCounterMeasure_merge
      { c with MAX_UNIQUE_INVEN_ITEMS := M2 } s id aux_type aux_id flags description l1 l2 e hr
      hlt hfm hcnt hmax
    exact ⟨s2, h1, by rw [h2]; simp, h4⟩
  have hn1 : ¬ s.count ≥ M2 := by omega
  have hn2 : ¬ (kind < 0 ∨ kind = c.OBJ_NONE) := by omega
  refine ⟨?_, ?_, fun hmax => ⟨?_, hcm hmax⟩⟩
  · unfold Inventory.Add
    rw [if_pos hge]
  · unfold Inventory.AddCounterMeasure
    rw [if_pos hge]
  · by_cases hw : kind = c.OBJ_WEAPON
    · obtain ⟨s2, h1, h2, h3⟩ := hcm hmax hw
      refine ⟨s2, ?_, h2, h3⟩
      unfold Inventory.Add
      rw [if_neg hn1, if_neg hn2, if_neg (not_not.2 hw)]
      exact h1
    · obtain ⟨s2, h1, h2, _, h4, _⟩ := AddObjectItem_merge
        { c with MAX_UNIQUE_INVEN_ITEMS := M2 } s kind id
        (if aux_type ≠ -1 then aux_type else kind) (if aux_id ≠ -1 then aux_id else id) flags
        description l1 l2 e hr hlt hfm hcnt hmax
      refine ⟨s2, ?_, by rw [h2]; simp, h4⟩
      unfold Inventory.Add
      rw [if_neg hn1, if_neg hn2, if_pos hw]
      exact h1

/-- Witness for `merge_refused_at_capacity`: the ring `[1, 2]` at a capacity of two entries,
and the same ring with room for ten. -/
theorem merge_refused_at_capacity_witness :
    WF exConfigTwo exTwo ([1] ++ 2 :: []) ∧ exTwo.Size = exConfigTwo.MAX_UNIQUE_INVEN_ITEMS ∧
      exTwo.Size < 10 ∧ (exTwo.mem 2).count < 2147483647 ∧
      (exTwo.Add exConfigTwo 2 6 none (-1) (-1) 0 none = some (false, exTwo) ∧
        exTwo.AddCounterMeasure exConfigTwo 6 (-1) (-1) 0 none = some (false, exTwo) ∧
        ((exTwo.mem 2).count < 2147483647 →
          (∃ s2, exTwo.Add { exConfigTwo with MAX_UNIQUE_INVEN_ITEMS := 10 } 2 6 none (-1) (-1)
              0 none = some (true, s2) ∧
            (s2.mem 2).count = (exTwo.mem 2).count + 1 ∧ s2.Size = exTwo.Size) ∧
          (2 = exConfigTwo.OBJ_WEAPON →
            ∃ s2, exTwo.AddCounterMeasure { exConfigTwo with MAX_UNIQUE_INVEN_ITEMS := 10 } 6
                (-1) (-1) 0 none = some (true, s2) ∧
              (s2.mem 2).count = (exTwo.mem 2).count + 1 ∧ s2.Size = exTwo.Size))) :=
  ⟨by decide, by decide, by decide, by decide,
    merge_refused_at_capacity exConfigTwo 10 exTwo 2 6 none (-1) (-1) 0 none [1] [] 2
      (by decide) (by decide) (by decide) (by decide) (by decide)⟩

/-! ### The texts of a new entry -/

/-- C22, counterexample: `Add(2, 5)` on a fresh inventory with the caller-supplied text `X`:
the description of the new entry is the one of the definition (`key`), not the caller's text,
and the caller's text is the display name, where the definition has the name `Key`. -/
theorem add_description_counterexample :
    (exConfig.Object_info 5).description = some [107, 101, 121] ∧
      (exConfig.Object_info 5).name = [75, 101, 121] ∧
      ((Inventory.init (fun _ => default) 1).Add exConfig 2 5 none (-1) (-1) 0 (some [88])).map
          (fun r => (r.1, (r.2.mem 1).description, (r.2.mem 1).name, (r.2.mem 1).icon_name)) =
        some (true, some [107, 101, 121], some [88], some [105]) := by
  decide

/-- C22, amended: when `Add` with a kind other than `OBJ_WEAPON` creates a new entry (below
capacity, no entry with the key), the description of the new entry is the one of the
definition (the empty text if the definition has none) and the icon name is the one of the
definition, whatever the caller supplies; the display name is the caller-supplied text `d` if
there is one, and the name of the definition otherwise. -/
theorem add_new_entry_texts (c : Config) (s : Inventory) (kind id : Int)
    (parent : Option object) (aux_type aux_id : Int) (flags : Nat) (description : Option CStr)
    (l : List Nat) (hwf : WF c s l) (hcap : s.Size < c.MAX_UNIQUE_INVEN_ITEMS)
    (hkind : 0 ≤ kind ∧ kind ≠ c.OBJ_NONE ∧ kind ≠ c.OBJ_WEAPON)
    (hnew : firstMatch s.mem kind id l = 0) :
    ∃ s2, s.Add c kind id parent aux_type aux_id flags description = some (true, s2) ∧
      InvRing s2 (l ++ [s.brk]) ∧
      (s2.mem s.brk).type = kind ∧ (s2.mem s.brk).id = id ∧ (s2.mem s.brk).count = 1 ∧
      (s2.mem s.brk).description =
        (match (c.Object_info id).description with
          | some t => some t
          | none => some []) ∧
      (s2.mem s.brk).icon_name = some (c.Object_info id).icon_name ∧
      (∀ d, description = some d → (s2.mem s.brk).name = some d) ∧
      (description = none → (s2.mem s.brk).name = some (c.Object_info id).name) := by
  have hr := hwf.1
  have hlt : s.count < c.MAX_UNIQUE_INVEN_ITEMS := hcap
  have hn1 : ¬ s.count ≥ c.MAX_UNIQUE_INVEN_ITEMS := by omega
  have hn2 : ¬ (kind < 0 ∨ kind = c.OBJ_NONE) := by omega
  have hadd : s.Add c kind id parent aux_type aux_id flags description =
      s.AddObjectItem c kind id (if aux_type ≠ -1 then aux_type else kind)
        (if aux_id ≠ -1 then aux_id else id) flags description := by
    unfold Inventory.Add
    rw [if_neg hn1, if_neg hn2, if_pos hkind.2.2]
  obtain ⟨b, s2, e1⟩ := AddObjectItem_total c s kind id
    (if aux_type ≠ -1 then aux_type else kind) (if aux_id ≠ -1 then aux_id else id) flags
    description l hr
  rcases AddObjectItem_cases c s s2 kind id _ _ _ _ l b hr (fun hz => absurd hnew hz) e1 with
    ⟨_, _, hge⟩ | ⟨rfl, _, _, k1, _, k3, ⟨it, k4⟩, _⟩ | ⟨_, _, hfm, _⟩
  · exact absurd hge hn1
  · refine ⟨s2, hadd.trans e1, k1, ?_, ?_, k3, ?_, ?_, ?_, ?_⟩
    · rw [k4]; rfl
    · rw [k4]; rfl
    · rw [k4]; rfl
    · rw [k4]; rfl
    · intro d hd
      subst hd
      rw [k4]; rfl
    · intro hd
      subst hd
      rw [k4]; rfl
  · exact absurd hnew hfm

/-- Witness for `add_new_entry_texts`: `Add(2, 7)` with a caller-supplied text on the ring
`[1, 2]`. -/
theorem add_new_entry_texts_witness :
    WF exConfig exTwo [1, 2] ∧ exTwo.Size < exConfig.MAX_UNIQUE_INVEN_ITEMS ∧
      ((0 : Int) ≤ 2 ∧ (2 : Int) ≠ exConfig.OBJ_NONE ∧ (2 : Int) ≠ exConfig.OBJ_WEAPON) ∧
      firstMatch exTwo.mem 2 7 [1, 2] = 0 ∧
      ∃ s2, exTwo.Add exConfig 2 7 none (-1) (-1) 0 (some [88]) = some (true, s2) ∧
        InvRing s2 ([1, 2] ++ [exTwo.brk]) ∧
        (s2.mem exTwo.brk).type = 2 ∧ (s2.mem exTwo.brk).id = 7 ∧
        (s2.mem exTwo.brk).count = 1 ∧
        (s2.mem exTwo.brk).description =
          (match (exConfig.Object_info 7).description with
            | some t => some t
            | none => some []) ∧
        (s2.mem exTwo.brk).icon_name = some (exConfig.Object_info 7).icon_name ∧
        (∀ d, some [88] = some d → (s2.mem exTwo.brk).name = some d) ∧
        (some [88] = none → (s2.mem exTwo.brk).name = some (exConfig.Object_info 7).name) :=
  ⟨by decide, by decide, by decide, by decide,
    add_new_entry_texts exConfig exTwo 2 7 none (-1) (-1) 0 (some [88]) [1, 2] (by decide)
      (by decide) (by decide) (by decide)⟩

/-! ### FindPos -/

theorem GotoPos_type_id_spec (s : Inventory) (l : List Nat) (type id : Int) (hr : InvRing s l) :
    s.GotoPos_type_id type id =
      some (if firstMatch s.mem type id l ≠ 0 then { s with pos := firstMatch s.mem type id l }
        else s) := by
  unfold Inventory.GotoPos_type_id
  rw [FindItem_spec s l type id hr]
  simp only
  split_ifs <;> rfl

/-- The first match is the first entry of the ring with the key. -/
theorem firstMatch_first (mem : Nat → inven_item) (type id : Int) (l : List Nat)
    (h : firstMatch mem type id l ≠ 0) :
    ∃ l1 l2, l = l1 ++ firstMatch mem type id l :: l2 ∧
      ∀ x ∈ l1, ¬ ((mem x).type = type ∧ (mem x).id = id) := by
  unfold firstMatch at h ⊢
  cases hf : l.find? fun a => decide ((mem a).type = type ∧ (mem a).id = id) with
  | none => rw [hf] at h; exact absurd rfl h
  | some b =>
    obtain ⟨_, l1, l2, hl, hfirst⟩ := List.find?_eq_some.1 hf
    refine ⟨l1, l2, hl, ?_⟩
    intro x hx hk
    have := hfirst x hx
    simp [hk] at this

/-- C24, the divergence: on a fresh inventory `FindPos(0, 0)` returns true although there is
no entry; and on a ring whose only entry has the key (0, 0), with a null cursor,
`FindPos(2, 9)` returns false and leaves the cursor on that entry instead of restoring the
null cursor. -/
theorem findPos_counterexample :
    ((Inventory.init (fun _ => default) 1).FindPos exConfig 0 0).map
        (fun r => (r.1, r.2.count, r.2.pos)) = some (true, 0, 0) ∧
      WF exConfig exZeroKey [1] ∧ exZeroKey.pos = 0 ∧
      (exZeroKey.FindPos exConfig 2 9).map (fun r => (r.1, r.2.pos)) = some (false, 1) := by
  decide

/-- Setting the cursor to what it is changes nothing. -/
theorem pos_self (s : Inventory) : ({ s with pos := s.pos } : Inventory) = s := by
  cases s
  rfl

/-- C24, as the code behaves: on a well-formed inventory `FindPos(type, id)` returns true if
and only if the ring holds an entry with the key, or the cursor is null and the key is
(0, 0), which is what `GetPosTypeID` reports for a null cursor. When an entry with the key
exists, the cursor ends on the first such entry in ring order. When none exists, the
inventory is as before the call, except that a search from a null cursor for a key other than
(0, 0) leaves the cursor on the first entry with the key (0, 0), if there is one. In
particular, with the cursor on an entry the call returns true exactly when an entry with the
key exists, and a call that returns false changes nothing. -/
theorem findPos_spec (c : Config) (s : Inventory) (type id : Int) (l : List Nat)
    (hwf : WF c s l) :
    ∃ b s2, s.FindPos c type id = some (b, s2) ∧
      (b = true ↔ (∃ a ∈ l, (s.mem a).type = type ∧ (s.mem a).id = id) ∨
        (s.pos = 0 ∧ type = 0 ∧ id = 0)) ∧
      ((∃ a ∈ l, (s.mem a).type = type ∧ (s.mem a).id = id) →
        s2 = { s with pos := firstMatch s.mem type id l } ∧
        ∃ l1 l2, l = l1 ++ s2.pos :: l2 ∧
          ∀ x ∈ l1, ¬ ((s.mem x).type = type ∧ (s.mem x).id = id)) ∧
      ((¬ ∃ a ∈ l, (s.mem a).type = type ∧ (s.mem a).id = id) →
        s2 = { s with pos := (if s.pos = 0 ∧ ¬ (type = 0 ∧ id = 0)
          then firstMatch s.mem 0 0 l else s.pos) }) ∧
      (s.pos ≠ 0 →
        (b = true ↔ ∃ a ∈ l, (s.mem a).type = type ∧ (s.mem a).id = id) ∧
        (b = false → s2 = s)) := by
  have hr := hwf.1
  have h0 : 0 ∉ l := hr.2.2.1.2.1
  unfold Inventory.FindPos
  rw [GotoPos_type_id_spec s l type id hr]
  by_cases hfm : firstMatch s.mem type id l ≠ 0
  · obtain ⟨hm, hk⟩ := (firstMatch_mem_or s.mem type id l).resolve_left hfm
    have ht : (({ s with pos := firstMatch s.mem type id l } : Inventory).GetPosTypeID c).1 = type ∧
        (({ s with pos := firstMatch s.mem type id l } : Inventory).GetPosTypeID c).2.1 = id := by
      unfold Inventory.GetPosTypeID
      rw [if_neg hfm]
      exact hk
    simp only [if_pos hfm, if_pos ht]
    exact ⟨true, _, rfl, ⟨fun _ => Or.inl ⟨_, hm, hk⟩, fun _ => rfl⟩,
      fun _ => ⟨rfl, firstMatch_first s.mem type id l hfm⟩,
      fun hno => absurd ⟨_, hm, hk⟩ hno,
      fun _ => ⟨⟨fun _ => ⟨_, hm, hk⟩, fun _ => rfl⟩, fun h => Bool.noConfusion h⟩⟩
  · have hz : firstMatch s.mem type id l = 0 := not_not.1 hfm
    have hno := firstMatch_eq_zero s.mem type id l h0 hz
    have hnone : ¬ ∃ a ∈ l, (s.mem a).type = type ∧ (s.mem a).id = id :=
      fun ⟨a, ha, hk⟩ => hno a ha hk
    rw [if_neg hfm]
    simp only
    by_cases hp : s.pos = 0
    · have hold : s.GetPosTypeID c = (0, 0, false) := by
        unfold Inventory.GetPosTypeID; rw [if_pos hp]
      rw [hold]
      by_cases hkey : type = 0 ∧ id = 0
      · have ht : (0 : Int) = type ∧ (0 : Int) = id := ⟨hkey.1.symm, hkey.2.symm⟩
        simp only [if_pos ht]
        refine ⟨true, _, rfl, ⟨fun _ => Or.inr ⟨hp, hkey⟩, fun _ => rfl⟩,
          fun h => absurd h hnone, fun _ => ?_, fun h => absurd hp h⟩
        have hc : ¬ (s.pos = 0 ∧ ¬ (type = 0 ∧ id = 0)) := fun h => h.2 hkey
        rw [if_neg hc, pos_self]
      · have ht : ¬ ((0 : Int) = type ∧ (0 : Int) = id) :=
          fun h => hkey ⟨h.1.symm, h.2.symm⟩
        simp only [if_neg ht]
        rw [GotoPos_type_id_spec s l _ _ hr]
        refine ⟨false, _, rfl, ⟨fun h => Bool.noConfusion h, fun h => ?_⟩,
          fun h => absurd h hnone, fun _ => ?_, fun h => absurd hp h⟩
        · rcases h with h | h
          · exact absurd h hnone
          · exact absurd ⟨h.2.1, h.2.2⟩ hkey
        · have hc : s.pos = 0 ∧ ¬ (type = 0 ∧ id = 0) := ⟨hp, hkey⟩
          rw [if_pos hc]
          by_cases hz0 : firstMatch s.mem 0 0 l ≠ 0
          · rw [if_pos hz0]
          · rw [if_neg hz0, not_not.1 hz0, ← hp, pos_self]
    · have hpm : s.pos ∈ l := hr.2.2.2.2.2.resolve_left hp
      have hold : s.GetPosTypeID c = ((s.mem s.pos).type, (s.mem s.pos).id,
          decide ((s.mem s.pos).iflags &&& c.INVF_OBJECT ≠ 0)) := by
        unfold Inventory.GetPosTypeID; rw [if_neg hp]
      rw [hold]
      have ht : ¬ ((s.mem s.pos).type = type ∧ (s.mem s.pos).id = id) := hno _ hpm
      simp only [if_neg ht]
      rw [GotoPos_type_id_spec s l _ _ hr]
      have hown : firstMatch s.mem (s.mem s.pos).type (s.mem s.pos).id l = s.pos := by
        obtain ⟨l1, l2, hl⟩ := List.append_of_mem hpm
        subst hl
        exact wf_firstMatch hwf ⟨rfl, rfl⟩
      rw [hown, if_pos hp, pos_self]
      refine ⟨false, _, rfl, ⟨fun h => Bool.noConfusion h, fun h => ?_⟩,
        fun h => absurd h hnone, fun _ => ?_,
        fun _ => ⟨⟨fun h => Bool.noConfusion h, fun h => absurd h hnone⟩, fun _ => rfl⟩⟩
      · rcases h with h | h
        · exact absurd h hnone
        · exact absurd h.1 hp
      · have hc : ¬ (s.pos = 0 ∧ ¬ (type = 0 ∧ id = 0)) := fun h => hp h.1
        rw [if_neg hc, pos_self]

/-- Witness for `findPos_spec`: the key (2, 6) of the second entry of the ring `[1, 2]`. -/
theorem findPos_spec_witness :
    WF exConfig exTwo [1, 2] ∧
      ∃ b s2, exTwo.FindPos exConfig 2 6 = some (b, s2) ∧
        (b = true ↔ (∃ a ∈ [1, 2], (exTwo.mem a).type = 2 ∧ (exTwo.mem a).id = 6) ∨
          (exTwo.pos = 0 ∧ (2 : Int) = 0 ∧ (6 : Int) = 0)) ∧
        ((∃ a ∈ [1, 2], (exTwo.mem a).type = 2 ∧ (exTwo.mem a).id = 6) →
          s2 = { exTwo with pos := firstMatch exTwo.mem 2 6 [1, 2] } ∧
          ∃ l1 l2, [1, 2] = l1 ++ s2.pos :: l2 ∧
            ∀ x ∈ l1, ¬ ((exTwo.mem x).type = 2 ∧ (exTwo.mem x).id = 6)) ∧
        ((¬ ∃ a ∈ [1, 2], (exTwo.mem a).type = 2 ∧ (exTwo.mem a).id = 6) →
          s2 = { exTwo with pos := (if exTwo.pos = 0 ∧ ¬ ((2 : Int) = 0 ∧ (6 : Int) = 0)
            then firstMatch exTwo.mem 0 0 [1, 2] else exTwo.pos) }) ∧
        (exTwo.pos ≠ 0 →
          (b = true ↔ ∃ a ∈ [1, 2], (exTwo.mem a).type = 2 ∧ (exTwo.mem a).id = 6) ∧
          (b = false → s2 = exTwo)) :=
  ⟨by decide, findPos_spec exConfig exTwo 2 6 [1, 2] (by decide)⟩

/-! ### GetInventoryItemList -/

theorem GetInventoryItemList_loop_spec (c : Config) (mem : Nat → inven_item) (pos : Nat)
    (max_amount : Int) :
    ∀ (w : List Nat) (p q k : Nat) (list : Nat → tInvenList) (cs : Int), Seg mem p w q →
      w.Nodup →
      (∀ i, (GetInventoryItemList_loop c mem pos max_amount w.length (w.headD q) k list cs).1 i =
        if k ≤ i ∧ i < k + w.length ∧ (i : Int) < max_amount
        then slotOf c (mem (w.getD (i - k) 0)) else list i) ∧
      (GetInventoryItemList_loop c mem pos max_amount w.length (w.headD q) k list cs).2 =
        if pos ∈ w ∧ ((k + w.indexOf pos : Nat) : Int) < max_amount
        then ((k + w.indexOf pos : Nat) : Int) else cs
  | [], _, _, k, list, cs, _, _ => by
    refine ⟨fun i => ?_, ?_⟩
    · simp only [List.length_nil, GetInventoryItemList_loop]
      rw [if_neg (by omega)]
    · simp [GetInventoryItemList_loop]
  | a :: t, p, q, k, list, cs, hs, hnd => by
    have hat : a ∉ t := (List.nodup_cons.1 hnd).1
    have hnext : (mem a).next = t.headD q := hs.2.1
    simp only [List.length_cons, List.headD_cons, GetInventoryItemList_loop, hnext]
    by_cases hk : (k : Int) < max_amount
    · rw [if_pos hk]
      obtain ⟨ih1, ih2⟩ := GetInventoryItemList_loop_spec c mem pos max_amount t a q (k + 1)
        (fun i => if i = k then
            { amount := (mem a).count
              hud_name := (mem a).name
              selectable := decide ((mem a).iflags &&& c.INVF_SELECTABLE ≠ 0) }
          else list i)
        (if a = pos then (k : Int) else cs) hs.2.2 (List.nodup_cons.1 hnd).2
      refine ⟨fun i => ?_, ?_⟩
      · rw [ih1 i]
        by_cases hik : i = k
        · subst hik
          have h1 : ¬ (i + 1 ≤ i ∧ i < i + 1 + t.length ∧ (i : Int) < max_amount) := by omega
          have h2 : i ≤ i ∧ i < i + (t.length + 1) ∧ (i : Int) < max_amount :=
            ⟨le_refl _, by omega, hk⟩
          rw [if_neg h1, if_pos rfl, if_pos h2, Nat.sub_self]
          rfl
        · by_cases hc : k + 1 ≤ i ∧ i < k + 1 + t.length ∧ (i : Int) < max_amount
          · rw [if_pos hc, if_pos ⟨by omega, by omega, hc.2.2⟩]
            obtain ⟨j, rfl⟩ : ∃ j, i = k + 1 + j := ⟨i - (k + 1), by omega⟩
            rw [show k + 1 + j - (k + 1) = j by omega, show k + 1 + j - k = j + 1 by omega]
            simp
          · have h3 : ¬ (k ≤ i ∧ i < k + (t.length + 1) ∧ (i : Int) < max_amount) := by omega
            rw [if_neg hc, if_neg hik, if_neg h3]
      · rw [ih2]
        by_cases hap : a = pos
        · subst hap
          rw [if_neg (fun h => hat h.1), if_pos rfl,
            if_pos ⟨List.mem_cons_self _ _, by simpa using hk⟩]
          simp
        · have hidx : (a :: t).indexOf pos = t.indexOf pos + 1 := by
            rw [List.indexOf_cons_ne _ hap]
          have hmem : pos ∈ a :: t ↔ pos ∈ t := by
            simp only [List.mem_cons]
            exact ⟨fun h => h.resolve_left (fun h2 => hap h2.symm), Or.inr⟩
          have hre : k + (t.indexOf pos + 1) = k + 1 + t.indexOf pos := by omega
          simp only [if_neg hap, hidx, hmem, hre]
    · rw [if_neg hk]
      obtain ⟨ih1, ih2⟩ := GetInventoryItemList_loop_spec c mem pos max_amount t a q k list cs
        hs.2.2 (List.nodup_cons.1 hnd).2
      refine ⟨fun i => ?_, ?_⟩
      · rw [ih1 i, if_neg (by omega), if_neg (by omega)]
      · rw [ih2, if_neg (by push_cast; omega), if_neg (by push_cast; omega)]

/-- C23: on an inventory holding the ring `l`, `GetInventoryItemList` fills the slots below
`min(Size, max_amount)` with the stack count, display name and selectable bit of the entries
at these ring positions, leaves the other slots alone and reports the slot of the cursor; but
the value it returns is `Size` whenever `max_amount` is positive, which is the number of slots
filled in only if `max_amount` is not below `Size`. -/
theorem getInventoryItemList_returns_size (c : Config) (s : Inventory)
    (list : Nat → tInvenList) (max_amount : Int) (l : List Nat) (hr : InvRing s l) :
    ∃ list2 cur_sel,
      s.GetInventoryItemList c list max_amount =
        some (if max_amount ≤ 0 then 0 else s.Size, list2, cur_sel) ∧
      (∀ i, list2 i = if i < l.length ∧ (i : Int) < max_amount
        then slotOf c (s.mem (l.getD i 0)) else list i) ∧
      cur_sel = (if s.pos ∈ l ∧ ((l.indexOf s.pos : Nat) : Int) < max_amount
        then ((l.indexOf s.pos : Nat) : Int) else -1) := by
  obtain ⟨hcount, hroot, hl, _⟩ := hr
  unfold Inventory.GetInventoryItemList
  by_cases hm : max_amount ≤ 0
  · rw [if_pos hm, if_pos hm]
    refine ⟨list, -1, rfl, fun i => ?_, ?_⟩
    · rw [if_neg (by omega)]
    · rw [if_neg (by omega)]
  rw [if_neg hm, if_neg hm]
  by_cases h0 : s.count = 0
  · have hnil : l = [] := by
      rw [h0] at hcount
      exact List.length_eq_zero.1 (by exact_mod_cast hcount.symm)
    subst hnil
    rw [if_pos h0]
    refine ⟨list, -1, by rw [Inventory.Size, h0], fun i => ?_, ?_⟩
    · rw [if_neg (by simp)]
    · rw [if_neg (by simp)]
  rw [if_neg h0, if_neg (by omega)]
  have hlen : s.count.toNat = l.length := by omega
  obtain ⟨h1, h2⟩ := GetInventoryItemList_loop_spec c s.mem s.pos max_amount l _ (l.headD 0) 0
    list (-1) hl.2.2 hl.1
  have hhead : l.headD (l.headD 0) = s.root := by
    rw [hroot]
    cases l <;> rfl
  rw [hhead, ← hlen] at h1 h2
  refine ⟨_, _, rfl, fun i => ?_, ?_⟩
  · rw [h1 i]
    by_cases hc : i < l.length ∧ (i : Int) < max_amount
    · rw [if_pos ⟨Nat.zero_le _, by omega, hc.2⟩, if_pos hc, Nat.sub_zero]
    · rw [if_neg (by omega), if_neg hc]
  · rw [h2]
    simp only [Nat.zero_add]

/-- Witness for `getInventoryItemList_returns_size`: the ring `[1, 2]` and a list of one slot:
one slot is filled, the value returned is 2. -/
theorem getInventoryItemList_returns_size_witness :
    InvRing exTwo [1, 2] ∧ exTwo.Size = 2 ∧ min exTwo.Size 1 = 1 ∧
      ∃ list2 cur_sel,
        exTwo.GetInventoryItemList exConfig exList 1 =
          some (if (1 : Int) ≤ 0 then 0 else exTwo.Size, list2, cur_sel) ∧
        (∀ i, list2 i = if i < [1, 2].length ∧ (i : Int) < 1
          then slotOf exConfig (exTwo.mem ([1, 2].getD i 0)) else exList i) ∧
        cur_sel = (if exTwo.pos ∈ [1, 2] ∧ (([1, 2].indexOf exTwo.pos : Nat) : Int) < 1
          then (([1, 2].indexOf exTwo.pos : Nat) : Int) else -1) :=
  ⟨by decide, by decide, by decide,
    getInventoryItemList_returns_size exConfig exTwo exList 1 [1, 2] (by decide)⟩

/-! ### Entries that cannot be used -/

theorem ite_or_and_eq_zero (p : Prop) [Decidable p] (x f m : Nat) (hx : x &&& m = 0)
    (hf : f &&& m = 0) : (if p then x ||| f else x) &&& m = 0 := by
  split_ifs
  · exact or_and_eq_zero x f m hx hf
  · exact hx

/-- A flag `m` that shares no bit with the flags `AddObject` sets is set on the new entry only
if it was set before the fill. -/
theorem AddObject_fill_not (c : Config) (object_handle : Int) (obj : object) (flags : Nat)
    (description : Option CStr) (it : inven_item) (m : Nat) (h0 : it.iflags &&& m = 0)
    (h1 : c.INVF_SELECTABLE &&& m = 0) (h2 : c.INVF_MISSIONITEM &&& m = 0)
    (h3 : c.INVF_NOREMOVEONUSE &&& m = 0) (h4 : c.INVF_VISWHENUSED &&& m = 0)
    (h5 : c.INVF_NOTSPEWABLE &&& m = 0) (h6 : c.INVF_TIMEOUTONSPEW &&& m = 0) :
    (AddObject_fill c object_handle obj flags description it).iflags &&& m = 0 := by
  simp only [AddObject_fill]
  exact ite_or_and_eq_zero _ _ _ _ (ite_or_and_eq_zero _ _ _ _ (ite_or_and_eq_zero _ _ _ _
    (ite_or_and_eq_zero _ _ _ _ (ite_or_and_eq_zero _ _ _ _ (ite_or_and_eq_zero _ _ _ _
      (ite_or_and_eq_zero _ _ _ _ h0 h1) h2) h3) h4) h5) h6) h2

/-- A flag `m` that shares no bit with the flags `AddObjectItem` sets, the value of
`INVAF_LEVELLAST` among them, is not set on the new entry. -/
theorem AddObjectItem_fill_not_flag (c : Config) (otype oid oauxt oauxi : Int) (flags : Nat)
    (description : Option CStr) (it : inven_item) (m : Nat)
    (h1 : c.INVF_SELECTABLE &&& m = 0) (h2 : c.INVF_MISSIONITEM &&& m = 0)
    (h3 : c.INVF_NOREMOVEONUSE &&& m = 0) (h4 : c.INVF_VISWHENUSED &&& m = 0)
    (h5 : c.INVF_NOTSPEWABLE &&& m = 0) (h6 : c.INVF_TIMEOUTONSPEW &&& m = 0)
    (h7 : c.INVAF_LEVELLAST &&& m = 0) :
    (AddObjectItem_fill c otype oid oauxt oauxi flags description it).iflags &&& m = 0 := by
  simp only [AddObjectItem_fill]
  exact ite_or_and_eq_zero _ _ _ _ (ite_or_and_eq_zero _ _ _ _ (ite_or_and_eq_zero _ _ _ _
    (ite_or_and_eq_zero _ _ _ _ (ite_or_and_eq_zero _ _ _ _ (ite_or_and_eq_zero _ _ _ _
      (ite_or_and_eq_zero _ _ _ _ (Nat.zero_and m) h1) h2) h3) h4) h5) h6) h7

/-- No entry usable: `Use` returns false and changes nothing. -/
theorem Use_unusable (c : Config) (fuel : Nat) (s : Inventory) (eng : Engine) (type id : Int)
    (parent : Option object) (l : List Nat) (hr : InvRing s l)
    (hu : ∀ a ∈ l, (s.mem a).iflags &&& c.INVF_USEABLE = 0) :
    s.Use c fuel eng type id parent = some (false, s, eng) := by
  unfold Inventory.Use
  rw [FindItem_spec s l type id hr]
  rcases firstMatch_mem_or s.mem type id l with h | h
  · simp [h]
  · by_cases h0 : firstMatch s.mem type id l = 0
    · simp [h0]
    · simp [h0, hu _ h.1]

/-- What `AddObject` does on a ring: nothing, or a fresh tail entry that `AddObject_fill`
filled in from a node with the flag word `INVF_OBJECT`. -/
theorem AddObject_cases (c : Config) (s s2 : Inventory) (eng eng2 : Engine)
    (object_handle : Int) (flags : Nat) (description : Option CStr) (l : List Nat) (b : Bool)
    (hr : InvRing s l)
    (h : s.AddObject c eng object_handle flags description = (b, s2, eng2)) :
    s2 = s ∨
    (InvRing s2 (l ++ [s.brk]) ∧ (∀ x ∈ l, (s2.mem x).toItemData = (s.mem x).toItemData) ∧
      (s2.mem s.brk).count = 1 ∧
      ∃ (obj : object) (it : inven_item),
        s2.mem s.brk = AddObject_fill c object_handle obj flags description
          { it with iflags := c.INVF_OBJECT }) := by
  unfold Inventory.AddObject at h
  by_cases h1 : s.count ≥ c.MAX_UNIQUE_INVEN_ITEMS
  · rw [if_pos h1] at h
    simp only [Prod.mk.injEq] at h
    exact Or.inl h.2.1.symm
  rw [if_neg h1] at h
  cases hobj : ObjGet eng object_handle with
  | none =>
    rw [hobj] at h
    simp only [Prod.mk.injEq] at h
    exact Or.inl h.2.1.symm
  | some obj0 =>
    rw [hobj] at h
    simp only [Prod.mk.injEq] at h
    obtain ⟨_, hs2, _⟩ := h
    generalize (if obj0.type = c.OBJ_DUMMY then c.ObjUnGhostObject obj0 else obj0) = obj1 at hs2
    have hf := AddObject_fill_fields c object_handle obj1 flags description
    obtain ⟨e1, _⟩ := link_spec s l hr
    rw [e1] at hs2
    obtain ⟨X, hX⟩ : ∃ X, X = (if s.count = 0 then s.newRoot else s.newTail) := ⟨_, rfl⟩
    rw [← hX] at hs2
    have hm : ((X.1.modify s.brk fun it => { it with iflags := c.INVF_OBJECT, count := 1 }).modify
          s.brk (AddObject_fill c object_handle obj1 flags description)).mem =
        ((X.1.modify s.brk fun it => { it with count := 1 }).modify s.brk
          (fun it => AddObject_fill c object_handle obj1 flags description
            { it with iflags := c.INVF_OBJECT })).mem := by
      funext x
      by_cases hx : x = s.brk
      · subst hx
        simp only [modify_mem_same]
      · simp only [modify_mem_other _ _ _ _ hx]
    obtain ⟨k1, k2, k3, it, k4⟩ := append_spec s s2 l hr
      (fun it => AddObject_fill c object_handle obj1 flags description
        { it with iflags := c.INVF_OBJECT })
      (fun it => ⟨(hf _).1, (hf _).2.1, (hf _).2.2.1⟩)
      (by rw [← hX, ← hm, ← hs2]; split_ifs <;> rfl)
      (by rw [← hX, ← hs2]; split_ifs <;> rfl) (by rw [← hX, ← hs2]; split_ifs <;> rfl)
      (by rw [← hX, ← hs2]; split_ifs <;> rfl)
      (by rw [← hX, ← hs2]; split_ifs
          · exact Or.inr rfl
          · exact Or.inl rfl)
    exact Or.inr ⟨k1, k2, k3, obj1, it, k4⟩

/-- A call of `AddObject`, `Add` with a kind other than `OBJ_WEAPON`, `Remove` or `Reset` keeps
the ring, with its non-empty stacks below the largest `int`, free of a flag `m` that shares no
bit with the flags the two adders set. -/
theorem run_plain_inv (c : Config) (fuel : Nat) (s s2 : Inventory) (eng eng2 : Engine) (op : Op)
    (b : Bool) (l : List Nat) (m : Nat) (hr : InvRing s l) (n : Int) (hn0 : 0 ≤ n)
    (hn : n < 2147483647) (hc : ∀ a ∈ l, 1 ≤ (s.mem a).count ∧ (s.mem a).count ≤ n)
    (hu : ∀ a ∈ l, (s.mem a).iflags &&& m = 0)
    (hop : Op.plain c op = true) (h : op.run c fuel s eng = some (b, s2, eng2))
    (h0 : c.INVF_OBJECT &&& m = 0)
    (h1 : c.INVF_SELECTABLE &&& m = 0) (h2 : c.INVF_MISSIONITEM &&& m = 0)
    (h3 : c.INVF_NOREMOVEONUSE &&& m = 0) (h4 : c.INVF_VISWHENUSED &&& m = 0)
    (h5 : c.INVF_NOTSPEWABLE &&& m = 0) (h6 : c.INVF_TIMEOUTONSPEW &&& m = 0)
    (h7 : c.INVAF_LEVELLAST &&& m = 0) :
    ∃ l2, InvRing s2 l2 ∧ (∀ a ∈ l2, 1 ≤ (s2.mem a).count ∧ (s2.mem a).count ≤ n + 1) ∧
      ∀ a ∈ l2, (s2.mem a).iflags &&& m = 0 := by
  have fresh : ∀ s3 : Inventory, InvRing s3 (l ++ [s.brk]) →
      (∀ x ∈ l, (s3.mem x).toItemData = (s.mem x).toItemData) → (s3.mem s.brk).count = 1 →
      (s3.mem s.brk).iflags &&& m = 0 →
      ∃ l2, InvRing s3 l2 ∧ (∀ a ∈ l2, 1 ≤ (s3.mem a).count ∧ (s3.mem a).count ≤ n + 1) ∧
        ∀ a ∈ l2, (s3.mem a).iflags &&& m = 0 := by
    intro s3 k1 k2 k3 k4
    refine ⟨_, k1, (fresh_inv s s3 l 0 0 n hn0 hc k2 k3).1, ?_⟩
    intro a ha
    rcases List.mem_append.1 ha with h | h
    · rw [show (s3.mem a).iflags = (s.mem a).iflags from congrArg ItemData.iflags (k2 a h)]
      exact hu a h
    · rw [List.mem_singleton.1 h]; exact k4
  have sub : ∀ (s3 : Inventory) (l2 : List Nat), InvRing s3 l2 → (∀ a ∈ l2, a ∈ l) →
      (∀ x ∈ l2, (s3.mem x).toItemData = (s.mem x).toItemData) →
      ∃ l2, InvRing s3 l2 ∧ (∀ a ∈ l2, 1 ≤ (s3.mem a).count ∧ (s3.mem a).count ≤ n + 1) ∧
        ∀ a ∈ l2, (s3.mem a).iflags &&& m = 0 := by
    intro s3 l2 k1 k2 k3
    refine ⟨l2, k1, fun a ha => ?_, fun a ha => ?_⟩
    · rw [show (s3.mem a).count = (s.mem a).count from congrArg ItemData.count (k3 a ha)]
      exact bound_succ hc a (k2 a ha)
    · rw [show (s3.mem a).iflags = (s.mem a).iflags from congrArg ItemData.iflags (k3 a ha)]
      exact hu a (k2 a ha)
  have same : ∃ l2, InvRing s l2 ∧ (∀ a ∈ l2, 1 ≤ (s.mem a).count ∧ (s.mem a).count ≤ n + 1) ∧
      ∀ a ∈ l2, (s.mem a).iflags &&& m = 0 := ⟨l, hr, bound_succ hc, hu⟩
  cases op with
  | Add type id parent aux_type aux_id flags description =>
    have hw : type ≠ c.OBJ_WEAPON := by simpa [Op.plain] using hop
    simp only [Op.run, Option.map_eq_some', Prod.mk.injEq] at h
    obtain ⟨⟨b1, s3⟩, hr1, _, rfl, _⟩ := h
    unfold Inventory.Add at hr1
    by_cases g1 : s.count ≥ c.MAX_UNIQUE_INVEN_ITEMS
    · rw [if_pos g1] at hr1
      simp only [Option.some.injEq, Prod.mk.injEq] at hr1
      obtain ⟨_, rfl⟩ := hr1
      exact same
    rw [if_neg g1] at hr1
    by_cases g2 : type < 0 ∨ type = c.OBJ_NONE
    · rw [if_pos g2] at hr1
      simp only [Option.some.injEq, Prod.mk.injEq] at hr1
      obtain ⟨_, rfl⟩ := hr1
      exact same
    rw [if_neg g2, if_pos hw] at hr1
    have hc0 : firstMatch s.mem type id l ≠ 0 →
        1 ≤ (s.mem (firstMatch s.mem type id l)).count ∧
          (s.mem (firstMatch s.mem type id l)).count < 2147483647 := fun hz => by
      have := hc _ ((firstMatch_mem_or s.mem type id l).resolve_left hz).1
      omega
    rcases AddObjectItem_cases c s s3 type id _ _ _ _ l b1 hr hc0 hr1 with
      ⟨_, rfl, _⟩ | ⟨_, _, _, k1, k2, k3, ⟨it, k4⟩, _⟩ | ⟨_, _, hfm, k1, k2, k3, k4, k5⟩
    · exact same
    · refine fresh s3 k1 k2 k3 ?_
      rw [k4]
      exact AddObjectItem_fill_not_flag c _ _ _ _ _ _ _ m h1 h2 h3 h4 h5 h6 h7
    · have he := ((firstMatch_mem_or s.mem type id l).resolve_left hfm).1
      obtain ⟨j1, j2, _⟩ := merge_inv s s3 l _ hr n hc he k1 k2 k3 k4
        (by rw [k5]; split_ifs
            · exact Or.inr rfl
            · exact Or.inl rfl)
      refine ⟨l, j1, j2, fun a ha => ?_⟩
      rw [k1, modify_mem]
      split_ifs with hx
      · subst hx; exact hu _ ha
      · exact hu a ha
  | AddObject object_handle flags description =>
    simp only [Op.run, Option.some.injEq] at h
    rcases AddObject_cases c s s2 eng eng2 _ _ _ l b hr h with rfl | ⟨k1, k2, k3, obj, it, k4⟩
    · exact same
    · refine fresh s2 k1 k2 k3 ?_
      rw [k4]
      exact AddObject_fill_not c _ _ _ _ _ m h0 h1 h2 h3 h4 h5 h6
  | Remove type id =>
    have hrun : s.Remove c fuel eng type id = some (b, s2, eng2) := h
    by_cases hz : firstMatch s.mem type id l = 0
    · rw [Remove_absent c fuel s eng type id l hr hz] at hrun
      simp only [Option.some.injEq, Prod.mk.injEq] at hrun
      obtain ⟨_, rfl, _⟩ := hrun
      exact same
    obtain ⟨l1, l2, hl, _⟩ := firstMatch_split s.mem type id l hz
    generalize hfm : firstMatch s.mem type id l = e at *
    subst hl
    have hmono := Remove_mono c fuel (l1 ++ l2).length s eng type id _ hrun
    obtain ⟨s3, eng3, h3', _, hcase⟩ := Remove_found c (fuel + (l1 ++ l2).length) s eng type id
      l1 l2 e hr hfm (Nat.le_add_left _ _)
    rw [h3'] at hmono
    simp only [Option.some.injEq, Prod.mk.injEq] at hmono
    obtain ⟨_, rfl, _⟩ := hmono
    rcases hcase with ⟨k1, k2, _⟩ | ⟨k1, _, k3, rfl⟩
    · refine sub s3 _ k1 ?_ (fun x hx => k2 x (mem_middle_ne hr.2.2.1.1 hx))
      intro x hx
      simp only [List.mem_append, List.mem_cons] at hx ⊢
      tauto
    · refine ⟨_, k1, fun a ha => ?_, fun a ha => ?_⟩
      · rw [modify_mem]
        split_ifs with hx
        · have := hc e (List.mem_append_right _ (List.mem_cons_self _ _))
          show 1 ≤ (s.mem e).count - 1 ∧ (s.mem e).count - 1 ≤ n + 1
          omega
        · exact bound_succ hc a ha
      · rw [modify_mem]
        split_ifs with hx
        · subst hx; exact hu _ ha
        · exact hu a ha
  | Reset in_game reset_stage =>
    simp only [Op.run, Option.map_eq_some', Prod.mk.injEq] at h
    obtain ⟨⟨s3, e3⟩, hr1, _, rfl, _⟩ := h
    have hmono := Reset_mono c fuel l.length s eng in_game reset_stage _ hr1
    obtain ⟨s4, eng4, h4', k1, k2, _⟩ := Reset_spec c (fuel + l.length) s eng in_game
      reset_stage _ _ l hr (Nat.le_add_left _ _) rfl
    rw [h4'] at hmono
    simp only [Option.some.injEq, Prod.mk.injEq] at hmono
    obtain ⟨rfl, _⟩ := hmono
    exact sub s4 _ k1 (fun a ha => List.mem_of_mem_filter ha) (fun x _ => k2 x)
  | AddCounterMeasure id aux_type aux_id flags description => simp [Op.plain] at hop
  | Use type id parent => simp [Op.plain] at hop
  | NextPos skip => simp [Op.plain] at hop
  | PrevPos skip => simp [Op.plain] at hop
  | ResetPos => simp [Op.plain] at hop
  | GotoPos newpos => simp [Op.plain] at hop
  | GotoPos_type_id type id => simp [Op.plain] at hop
  | ValidatePos forward => simp [Op.plain] at hop

/-- The inventory `exNullRoot` is what 4294967297 calls of `Add(2, 5)` on a fresh inventory
and one call of `Remove(2, 5)` lead to. -/
theorem exNullRoot_reachable (allowed : Op → Bool)
    (ha : allowed (Op.Add 2 5 none (-1) (-1) 0 none) = true)
    (hrem : allowed (Op.Remove 2 5) = true) :
    ReachableIn exConfig allowed 4294967298 exNullRoot :=
  ReachableIn.step 4294967297 (exStack 2 1) (Op.Remove 2 5) 0 exEngine true exNullRoot exEngine
    (exStack_refilled allowed ha) hrem rfl

/-- C25, the divergence: 4294967297 calls of `Add(2, 5)` on a fresh inventory, on which the
stack count wraps round the `int` range and `count` ends as 2 with one node, and one call of
`Remove(2, 5)` lead to `exNullRoot`: the head is null and `count` is 1, no ring has that many
nodes, and `Use`, whose `FindItem` starts at the null head, has no result. -/
theorem reachable_not_usable_counterexample :
    ReachableIn exConfig (Op.plain exConfig) 4294967298 exNullRoot ∧
      (exConfig.INVF_OBJECT &&& exConfig.INVF_USEABLE = 0 ∧
        exConfig.INVF_SELECTABLE &&& exConfig.INVF_USEABLE = 0 ∧
        exConfig.INVF_MISSIONITEM &&& exConfig.INVF_USEABLE = 0 ∧
        exConfig.INVF_NOREMOVEONUSE &&& exConfig.INVF_USEABLE = 0 ∧
        exConfig.INVF_VISWHENUSED &&& exConfig.INVF_USEABLE = 0 ∧
        exConfig.INVF_NOTSPEWABLE &&& exConfig.INVF_USEABLE = 0 ∧
        exConfig.INVF_TIMEOUTONSPEW &&& exConfig.INVF_USEABLE = 0 ∧
        exConfig.INVAF_LEVELLAST &&& exConfig.INVF_USEABLE = 0) ∧
      exNullRoot.root = 0 ∧ exNullRoot.Size = 1 ∧ (∀ l, ¬ InvRing exNullRoot l) ∧
      ∀ fuel eng type id parent, exNullRoot.Use exConfig fuel eng type id parent = none := by
  refine ⟨exNullRoot_reachable _ rfl rfl, by decide, rfl, rfl, ?_, ?_⟩
  · intro l hl
    obtain ⟨hcount, hroot, hlinks, _⟩ := hl
    have h1 : l.length = 1 := by
      have : (exNullRoot.count : Int) = 1 := rfl
      rw [hcount] at this
      exact_mod_cast this
    match l, h1, hroot, hlinks with
    | [a], _, hroot, hlinks =>
      have ha : a = 0 := hroot.symm
      subst ha
      exact hlinks.2.1 (List.mem_singleton.2 rfl)
  · intro fuel eng type id parent
    have hf : exNullRoot.FindItem type id = none := rfl
    unfold Inventory.Use
    rw [hf]

/-- C25, where no stack count overflows: if `INVF_USEABLE` shares no bit with the flags the
two adders set (the other seven `INVF` flags and the value of `INVAF_LEVELLAST`, which `AddObjectItem` puts into the
flag word), then every inventory reachable from a freshly constructed one by at most
2147483647 calls of `AddObject`, `Add` with a kind other than `OBJ_WEAPON`, `Remove` and
`Reset` holds a ring without a usable entry, and `Use` on it returns false and changes
neither the inventory nor the engine state, for every key, owner and engine state (so for
every network role). -/
theorem reachable_not_usable (c : Config) (n : Nat) (s : Inventory)
    (h : ReachableIn c (Op.plain c) n s) (hn : n ≤ 2147483647)
    (h0 : c.INVF_OBJECT &&& c.INVF_USEABLE = 0) (h1 : c.INVF_SELECTABLE &&& c.INVF_USEABLE = 0)
    (h2 : c.INVF_MISSIONITEM &&& c.INVF_USEABLE = 0)
    (h3 : c.INVF_NOREMOVEONUSE &&& c.INVF_USEABLE = 0)
    (h4 : c.INVF_VISWHENUSED &&& c.INVF_USEABLE = 0)
    (h5 : c.INVF_NOTSPEWABLE &&& c.INVF_USEABLE = 0)
    (h6 : c.INVF_TIMEOUTONSPEW &&& c.INVF_USEABLE = 0)
    (h7 : c.INVAF_LEVELLAST &&& c.INVF_USEABLE = 0) :
    (∃ l, InvRing s l ∧ ∀ a ∈ l, (s.mem a).iflags &&& c.INVF_USEABLE = 0) ∧
      ∀ fuel eng type id parent, s.Use c fuel eng type id parent = some (false, s, eng) := by
  have key : ∃ l, InvRing s l ∧ (∀ a ∈ l, 1 ≤ (s.mem a).count ∧ (s.mem a).count ≤ (n : Int)) ∧
      ∀ a ∈ l, (s.mem a).iflags &&& c.INVF_USEABLE = 0 := by
    induction h with
    | init mem brk hb =>
      exact ⟨[], ⟨rfl, rfl, ⟨List.nodup_nil, by simp, trivial⟩, by simp, hb, Or.inl rfl⟩,
        by simp, by simp⟩
    | step n s op fuel eng b s2 eng2 _ ha hrun ih =>
      obtain ⟨l, hr, hc, hu⟩ := ih (by omega)
      obtain ⟨l2, k1, k2, k3⟩ := run_plain_inv c fuel s s2 eng eng2 op b l _ hr (n : Int)
        (by omega) (by omega) hc hu ha hrun h0 h1 h2 h3 h4 h5 h6 h7
      refine ⟨l2, k1, fun a ha2 => ?_, k3⟩
      have := k2 a ha2
      push_cast
      exact this
  obtain ⟨l, hr, _, hu⟩ := key
  exact ⟨⟨l, hr, hu⟩, fun fuel eng type id parent =>
    Use_unusable c fuel s eng type id parent l hr hu⟩

/-- Witness for `reachable_not_usable`: the inventory after `Add(2, 5)`, `Add(2, 6)` and
`Add(2, 5)` on a fresh one, with the sample flag values. -/
theorem reachable_not_usable_witness :
    ReachableIn exConfig (Op.plain exConfig) 3 exAdded3 ∧ 3 ≤ 2147483647 ∧
      (exConfig.INVF_OBJECT &&& exConfig.INVF_USEABLE = 0 ∧
        exConfig.INVF_SELECTABLE &&& exConfig.INVF_USEABLE = 0 ∧
        exConfig.INVF_MISSIONITEM &&& exConfig.INVF_USEABLE = 0 ∧
        exConfig.INVF_NOREMOVEONUSE &&& exConfig.INVF_USEABLE = 0 ∧
        exConfig.INVF_VISWHENUSED &&& exConfig.INVF_USEABLE = 0 ∧
        exConfig.INVF_NOTSPEWABLE &&& exConfig.INVF_USEABLE = 0 ∧
        exConfig.INVF_TIMEOUTONSPEW &&& exConfig.INVF_USEABLE = 0 ∧
        exConfig.INVAF_LEVELLAST &&& exConfig.INVF_USEABLE = 0) ∧
      (∃ l, InvRing exAdded3 l ∧
        ∀ a ∈ l, (exAdded3.mem a).iflags &&& exConfig.INVF_USEABLE = 0) ∧
      ∀ fuel eng type id parent,
        exAdded3.Use exConfig fuel eng type id parent = some (false, exAdded3, eng) :=
  ⟨exAdded3_reachable _ rfl rfl, by decide, by decide,
    reachable_not_usable exConfig 3 exAdded3 (exAdded3_reachable _ rfl rfl) (by decide)
      (by decide) (by decide) (by decide) (by decide) (by decide) (by decide) (by decide)
      (by decide)⟩

/-! ### GetPos -/

theorem second_ne_head {u t : List Nat} {a b : Nat} (h : (u ++ a :: b :: t).Nodup) :
    b ≠ (u ++ a :: b :: t).headD 0 := by
  cases u with
  | nil =>
    simp only [List.nil_append, List.headD_cons]
    intro hb
    simp only [List.nil_append, List.nodup_cons, List.mem_cons] at h
    exact h.1 (Or.inl hb.symm)
  | cons x u2 =>
    simp only [List.cons_append, List.headD_cons]
    intro hb
    simp only [List.cons_append, List.nodup_cons, List.mem_append, List.mem_cons] at h
    exact h.1 (Or.inr (Or.inr (Or.inl hb.symm)))

/-- The loop of `GetPos` on a ring whose nodes from the cursor of the loop up to the node `e`
asked for are selectable: with `u` behind it and `w` still before `e`, the loop counts up to
the ring position of `e` and stops with the cursor on `e`. -/
theorem GetPos_loop_selectable (c : Config) (fuel : Nat) (s : Inventory) (type id : Int)
    (is_object : Bool) (e : Nat) (v : List Nat) :
    ∀ (w u : List Nat) (rounds : Nat),
      Links s.mem (u ++ (w ++ e :: v)) → s.root = (u ++ (w ++ e :: v)).headD 0 →
      (∀ a ∈ w, ¬ ((s.mem a).type = type ∧ (s.mem a).id = id)) →
      ((s.mem e).type = type ∧ (s.mem e).id = id ∧
        decide ((s.mem e).iflags &&& c.INVF_OBJECT ≠ 0) = is_object) →
      (∀ a ∈ w ++ [e], (s.mem a).iflags &&& c.INVF_SELECTABLE ≠ 0) →
      w.length < rounds →
      GetPos_loop c fuel type id is_object rounds false (u.length : Int)
          { s with pos := (w ++ [e]).headD 0 } =
        some (((u ++ w).length : Int), { s with pos := e })
  | [], u, rounds, hl, _, _, hkey, _, hro => by
    obtain ⟨n, rfl⟩ : ∃ n, rounds = n + 1 := ⟨rounds - 1, by simp at hro; omega⟩
    have he0 : e ≠ 0 := fun h => hl.2.1 (h ▸ by simp)
    simp only [GetPos_loop, Bool.false_eq_true, if_false, Inventory.GetPosTypeID,
      List.nil_append, List.headD_cons, he0, hkey, and_self, if_true, List.append_nil]
  | a :: w, u, rounds, hl, hroot, hno, hkey, hsel, hro => by
    obtain ⟨n, rfl⟩ : ∃ n, rounds = n + 1 := ⟨rounds - 1, by simp at hro; omega⟩
    have ha0 : a ≠ 0 := fun h => hl.2.1 (h ▸ by simp)
    obtain ⟨b, t, hbt⟩ : ∃ b t, w ++ e :: v = b :: t := by
      cases w with
      | nil => exact ⟨e, v, rfl⟩
      | cons x w2 => exact ⟨x, w2 ++ e :: v, rfl⟩
    have hb : (w ++ [e]).headD 0 = b := by
      cases w with
      | nil => simp only [List.nil_append, List.cons.injEq] at hbt; simp [hbt.1]
      | cons x w2 => simp only [List.cons_append, List.cons.injEq] at hbt; simp [hbt.1]
    have hl2 : Links s.mem (u ++ a :: b :: t) := by
      rw [← hbt]; simpa using hl
    have hnext : (s.mem a).next = b := links_next_cons hl2
    have hb0 : b ≠ 0 := fun h => hl2.2.1 (h ▸ by simp)
    have hbroot : b ≠ s.root := by
      rw [hroot, show u ++ (a :: w ++ e :: v) = u ++ a :: b :: t by rw [← hbt]; simp]
      exact second_ne_head hl2.1
    have hnoa := hno a (List.mem_cons_self _ _)
    have hbsel : (s.mem b).iflags &&& c.INVF_SELECTABLE ≠ 0 := by
      apply hsel
      rw [← hb]
      cases w <;> simp
    have hnp : ({ s with pos := a } : Inventory).NextPos c fuel false =
        some { s with pos := b } := by
      unfold Inventory.NextPos
      simp only [ne_eq, ha0, not_false_eq_true, hnext, hb0, and_self, if_true, Bool.not_false]
      exact ValidatePos_selectable c fuel { s with pos := b } _ hbsel
    have hend : ({ s with pos := a } : Inventory).AtEnd = false := by
      unfold Inventory.AtEnd
      simp only [ha0, if_false, hnext, hbroot, decide_False]
    have hcur : ¬ ((({ s with pos := a } : Inventory).GetPosTypeID c).1 = type ∧
        (({ s with pos := a } : Inventory).GetPosTypeID c).2.1 = id ∧
        (({ s with pos := a } : Inventory).GetPosTypeID c).2.2 = is_object) := by
      unfold Inventory.GetPosTypeID
      simp only [ha0, if_false]
      exact fun h => hnoa ⟨h.1, h.2.1⟩
    have ih := GetPos_loop_selectable c fuel s type id is_object e v w (u ++ [a]) n
      (by simpa using hl) (by rw [hroot]; simp)
      (fun x hx => hno x (List.mem_cons_of_mem _ hx)) hkey
      (fun x hx => hsel x (by simp at hx ⊢; tauto)) (by simp at hro; omega)
    simp only [List.cons_append, List.headD_cons, GetPos_loop, Bool.false_eq_true, if_false,
      hcur, hend, hnp]
    rw [hb] at ih
    have hlen : ((u ++ [a]).length : Int) = (u.length : Int) + 1 := by simp
    rw [hlen] at ih
    rw [ih]
    simp

/-- On a well-formed ring whose entries are all selectable and whose cursor stands on an
entry, `GetPos` returns the ring position of the cursor and leaves the inventory as it was. -/
theorem GetPos_selectable (c : Config) (fuel : Nat) (s : Inventory) (l : List Nat)
    (hwf : WF c s l) (hsel : ∀ a ∈ l, (s.mem a).iflags &&& c.INVF_SELECTABLE ≠ 0)
    (hpos : s.pos ∈ l) (hfuel : l.length ≤ fuel) :
    s.GetPos c fuel = some ((l.indexOf s.pos : Int), s) := by
  obtain ⟨hr, _, hkeys⟩ := hwf
  obtain ⟨hcount, hroot, hl, _, _, _⟩ := hr
  obtain ⟨u, v, hlv⟩ := List.append_of_mem hpos
  generalize hp : s.pos = e at hlv hpos
  subst hlv
  have hnd := hl.1
  have heu : e ∉ u := by
    intro h
    have := List.nodup_append.1 hnd
    exact this.2.2 h (List.mem_cons_self _ _)
  have hidx : (u ++ e :: v).indexOf e = u.length := by
    rw [List.indexOf_append_of_not_mem heu]
    simp
  have he0 : e ≠ 0 := fun h => hl.2.1 (h ▸ by simp)
  have hinj := List.inj_on_of_nodup_map hkeys
  have hno : ∀ a ∈ u, ¬ ((s.mem a).type = (s.mem e).type ∧ (s.mem a).id = (s.mem e).id) := by
    intro a ha hk
    have := hinj (List.mem_append_left _ ha) hpos (Prod.ext hk.1 hk.2)
    exact heu (this ▸ ha)
  have hs : ({ s with pos := e } : Inventory) = s := by
    cases s
    simp only at hp
    subst hp
    rfl
  have hlen : u.length < fuel := by
    simp only [List.length_append, List.length_cons] at hfuel
    omega
  have hloop := GetPos_loop_selectable c fuel s (s.mem e).type (s.mem e).id
    (decide ((s.mem e).iflags &&& c.INVF_OBJECT ≠ 0)) e v u [] fuel (by simpa using hl)
    (by simpa using hroot) hno ⟨rfl, rfl, rfl⟩
    (fun a ha => hsel a (by simp at ha ⊢; tauto)) hlen
  simp only [List.length_nil, Nat.cast_zero, List.nil_append] at hloop
  have hr1 : s.root = (u ++ [e]).headD 0 := by
    rw [hroot]
    cases u <;> rfl
  rw [← hr1] at hloop
  unfold Inventory.GetPos
  have hsz : s.Size ≠ 0 := by
    unfold Inventory.Size
    rw [hcount]
    simp only [List.length_append, List.length_cons]
    push_cast
    omega
  rw [if_neg hsz]
  have hcur : s.GetPosTypeID c = ((s.mem e).type, (s.mem e).id,
      decide ((s.mem e).iflags &&& c.INVF_OBJECT ≠ 0)) := by
    unfold Inventory.GetPosTypeID
    rw [hp, if_neg he0]
  simp only [hcur, Inventory.ResetPos, hidx]
  cases hd : ({ s with pos := s.root } : Inventory).AtEnd with
  | false => rw [hloop, hs]
  | true =>
    cases u with
    | nil =>
      obtain ⟨n, rfl⟩ : ∃ n, fuel = n + 1 := ⟨fuel - 1, by omega⟩
      have hre : s.root = e := by simpa using hr1
      have hs2 : ({ s with pos := s.root } : Inventory) = s := by
        rw [← hp] at hre
        cases s
        simp only at hre
        subst hre
        rfl
      simp only [GetPos_loop, if_true, hs2, List.length_nil, Nat.cast_zero]
    | cons x u2 =>
      exfalso
      obtain ⟨b, t, hbt⟩ : ∃ b t, u2 ++ e :: v = b :: t := by
        cases u2 with
        | nil => exact ⟨e, v, rfl⟩
        | cons y w2 => exact ⟨y, w2 ++ e :: v, rfl⟩
      have hl2 : Links s.mem ([] ++ x :: b :: t) := by
        rw [← hbt]; simpa using hl
      have hnext : (s.mem x).next = b := links_next_cons hl2
      have hx0 : x ≠ 0 := fun h => hl2.2.1 (h ▸ by simp)
      have hbx : b ≠ x := second_ne_head hl2.1
      unfold Inventory.AtEnd at hd
      have hrx : s.root = x := by simpa using hr1
      simp only [hrx, hx0, if_false, hnext, decide_eq_true_eq] at hd
      exact hbx hd


/-- The loop of `GetPos` on the ring of `exTwo` never finds a key other than the one of the
first entry: the walk skips the second entry, which is not selectable, and the first entry is
never the last one of the ring. -/
theorem GetPos_loop_exTwo (fuel : Nat) (type id : Int) (is_object : Bool)
    (hk : ¬ ((2 : Int) = type ∧ (5 : Int) = id ∧ false = is_object)) :
    ∀ (rounds : Nat) (count : Int),
      GetPos_loop exConfig fuel type id is_object rounds false count exTwo = none
  | 0, _ => rfl
  | rounds + 1, count => by
    have hcur : exTwo.GetPosTypeID exConfig = (2, 5, false) := by decide
    have hend : exTwo.AtEnd = false := by decide
    cases fuel with
    | zero =>
      have hnp : exTwo.NextPos exConfig 0 false = none := rfl
      simp only [GetPos_loop, Bool.false_eq_true, if_false, hcur, hk, hend, hnp]
    | succ n =>
      have hnp : exTwo.NextPos exConfig (n + 1) false = some exTwo := rfl
      simp only [GetPos_loop, Bool.false_eq_true, if_false, hcur, hk, hend, hnp]
      exact GetPos_loop_exTwo (n + 1) type id is_object hk rounds (count + 1)

/-- With a null cursor on a ring that has no entry with the key (0, 0), `GetPos` finds no
entry to stop at. -/
theorem GetPos_null_cursor (fuel : Nat) : exTwoNull.GetPos exConfig fuel = none := by
  have h := GetPos_loop_exTwo fuel 0 0 false (by decide) fuel 0
  exact h

/-- C21, as the code behaves (the ring position is returned only when no entry before the
cursor is skipped): on a well-formed inventory whose entries are all selectable, `GetPos`
returns the ring position of the entry under the cursor and leaves the inventory as it was;
on an inventory of size zero it returns -1. -/
theorem getPos_selectable_ring (c : Config) (fuel : Nat) (s : Inventory) (l : List Nat)
    (hwf : WF c s l) (hsel : ∀ a ∈ l, (s.mem a).iflags &&& c.INVF_SELECTABLE ≠ 0)
    (hfuel : l.length ≤ fuel) :
    (s.pos ∈ l → s.GetPos c fuel = some ((l.indexOf s.pos : Int), s)) ∧
      (s.Size = 0 → s.GetPos c fuel = some (-1, s)) := by
  refine ⟨fun hpos => GetPos_selectable c fuel s l hwf hsel hpos hfuel, fun h0 => ?_⟩
  unfold Inventory.GetPos
  rw [if_pos h0]

theorem getPos_selectable_ring_witness :
    WF exConfig exAllSel [1, 2, 3] ∧ exAllSel.pos = 3 ∧
      ((exAllSel.GetPos exConfig 8).map fun r => (r.1, r.2.pos)) = some (2, 3) ∧
      (((Inventory.init (fun _ => default) 1).GetPos exConfig 8).map fun r => r.1) =
        some (-1) := by
  have h := getPos_selectable_ring exConfig 8 exAllSel [1, 2, 3] (by decide) (by decide)
    (by decide)
  have h2 := getPos_selectable_ring exConfig 8 (Inventory.init (fun _ => default) 1) []
    (by decide) (by decide) (by decide)
  refine ⟨by decide, rfl, ?_, ?_⟩
  · rw [h.1 (by decide)]
    rfl
  · rw [h2.2 rfl]
    rfl

/-- C21, the divergence: the ring `[1, 2, 3]` of `exThird` has the cursor on its third entry,
ring position 2, behind an entry that is not selectable, and `GetPos` returns 1; on the ring
`[1, 2]` of `exTwoSecond`, whose cursor is on the entry at ring position 1, not selectable,
`GetPos` returns nothing whatever the fuel. -/
theorem getPos_skips_unselectable :
    (WF exConfig exThird [1, 2, 3] ∧ [1, 2, 3].indexOf exThird.pos = 2 ∧
      ((exThird.GetPos exConfig 8).map fun r => (r.1, r.2.pos)) = some (1, 3)) ∧
    (WF exConfig exTwoSecond [1, 2] ∧ [1, 2].indexOf exTwoSecond.pos = 1 ∧
      ∀ fuel, exTwoSecond.GetPos exConfig fuel = none) := by
  refine ⟨⟨by decide, by decide, by decide⟩, by decide, by decide, fun fuel => ?_⟩
  exact GetPos_loop_exTwo fuel 2 6 false (by decide) fuel 0

end Descent3
